import Mathlib

/-!
# tgtg-go: request/response pipeline

A shallow embedding of the Go package `tgtg` (files `tgtg.go`, `errors.go`, `auth.go`,
`items.go`, `orders.go` and the `*_types.go` files) together with the parts of the Go standard
library that the package calls (`encoding/json`, `net/url`, `net/http`), and theorems about
the package's pipeline.

Conventions of the embedding:

* a Go `string` / `[]byte` is a `GoString`: the sequence of items Go sees when it
  walks the bytes with `utf8.DecodeRune`, each either a well-encoded code point or a
  stray byte;
* a Go pointer that can be nil is an `Option`; a Go `error` result is an `Option`
  (`none` is `nil`);
* a Go slice is an `Option (List _)` (`none` is the nil slice, `some []` the empty
  non-nil slice); capacity beyond the length is not tracked;
* mutation through a pointer is explicit state passing: a function that can write
  through a pointer returns the new contents of the pointee.
-/

namespace Tgtg

/-! ## Go strings -/

/-- One item of a Go string as `utf8.DecodeRune` sees it: a well-encoded Unicode scalar value,
or a byte that is not part of any well-formed UTF-8 sequence. -/
inductive GoRune where
  | rune (c : Char)
  | bad (b : Nat)
  deriving DecidableEq, Repr

/-- A Go `string` (or `[]byte`). -/
abbrev GoString := List GoRune

/-- The Go string holding the UTF-8 encoding of a list of code points. -/
def ofChars (cs : List Char) : GoString := cs.map GoRune.rune

/-- The Go string written as a literal. -/
def gostr (s : String) : GoString := ofChars s.toList

/-- A Go string is valid UTF-8 when it has no stray byte (`utf8.Valid`). -/
def validUTF8 : GoString → Bool
  | [] => true
  | .rune _ :: rest => validUTF8 rest
  | .bad _ :: _ => false

/-- The replacement character U+FFFD (`utf8.RuneError`, `unicode.ReplacementChar`). -/
def replacementChar : Char := Char.ofNat 0xFFFD

/-! ## encoding/json: syntax

The scanner of `encoding/json` (`scanner.go`) and the unquoting of string literals
(`decode.go`, `unquoteBytes`), as a parser from text to a syntax tree. -/

/-- A JSON value as `encoding/json` reads it. A number keeps its literal text (it is converted
only when it is stored into a Go value); a string holds its unquoted contents, which are always
valid UTF-8. Object members keep their order and duplicates. -/
inductive JSON where
  | null
  | bool (b : Bool)
  | num (lit : List Char)
  | str (s : List Char)
  | arr (elems : List JSON)
  | obj (members : List (List Char × JSON))
  deriving Inhabited

/-- The errors `encoding/json` returns while decoding, and the end-of-input errors of its
stream decoder. -/
inductive JSONError where
  /-- `*json.SyntaxError`: the input is not a JSON text. -/
  | syntaxError
  /-- `*json.UnmarshalTypeError`: a JSON value does not fit the Go value it is stored in. -/
  | unmarshalTypeError
  /-- `io.EOF` from `Decoder.Decode`: the stream holds no value. -/
  | eof
  /-- `io.ErrUnexpectedEOF` from `Decoder.Decode`: the stream ends inside a value. -/
  | unexpectedEOF
  deriving DecidableEq, Repr

/-- `isSpace` of `scanner.go`. -/
def isSpace (c : Char) : Bool := c = ' ' || c = '\t' || c = '\r' || c = '\n'

/-- Skip JSON white space. -/
def skipWS : GoString → GoString
  | .rune c :: rest => if isSpace c then skipWS rest else .rune c :: rest
  | s => s

/-- Value of a hexadecimal digit (`getu4` of `decode.go` accepts both cases). -/
def hexVal (c : Char) : Option Nat :=
  if '0' ≤ c ∧ c ≤ '9' then some (c.toNat - '0'.toNat)
  else if 'a' ≤ c ∧ c ≤ 'f' then some (c.toNat - 'a'.toNat + 10)
  else if 'A' ≤ c ∧ c ≤ 'F' then some (c.toNat - 'A'.toNat + 10)
  else none

/-- `getu4`: the code unit written by four hexadecimal digits. -/
def getu4 (a b c d : Char) : Option Nat :=
  match hexVal a, hexVal b, hexVal c, hexVal d with
  | some x, some y, some z, some w => some (((x * 16 + y) * 16 + z) * 16 + w)
  | _, _, _, _ => none

/-- `utf16.IsSurrogate`. -/
def isSurrogate (r : Nat) : Bool := 0xd800 ≤ r && r < 0xe000

/-- `utf16.DecodeRune`: the code point of a surrogate pair, U+FFFD when the two code units are
not a high surrogate followed by a low one. -/
def utf16DecodeRune (r1 r2 : Nat) : Char :=
  if 0xd800 ≤ r1 ∧ r1 < 0xdc00 ∧ 0xdc00 ≤ r2 ∧ r2 < 0xe000 then
    Char.ofNat ((r1 - 0xd800) * 1024 + (r2 - 0xdc00) + 0x10000)
  else replacementChar

/-- The character a one-letter escape stands for (`unquoteBytes`). -/
def simpleEscape (e : Char) : Option Char :=
  if e = '"' then some '"'
  else if e = '\\' then some '\\'
  else if e = '/' then some '/'
  else if e = 'b' then some (Char.ofNat 8)
  else if e = 'f' then some (Char.ofNat 12)
  else if e = 'n' then some '\n'
  else if e = 'r' then some '\r'
  else if e = 't' then some '\t'
  else none

/-- The outcome of reading an item from the head of a text: the item and the text after it;
or the text is not JSON at some character (`invalid`: the scanner reports a syntax error
there); or the text ends before the item does (`truncated`). -/
inductive Scan (α : Type) where
  | ok (value : α) (rest : GoString)
  | invalid
  | truncated
  deriving Repr

/-- Apply a function to the item read. -/
def Scan.map {α β : Type} (f : α → β) : Scan α → Scan β
  | .ok v rest => .ok (f v) rest
  | .invalid => .invalid
  | .truncated => .truncated

/-- The four hexadecimal digits of a `\u` escape: their code unit and the text after them
(scanner states `stateInStringEscU` to `stateInStringEscU123`). -/
def readHex4 : GoString → Scan Nat
  | .rune h1 :: .rune h2 :: .rune h3 :: .rune h4 :: rest =>
    match getu4 h1 h2 h3 h4 with
    | some r => .ok r rest
    | none => .invalid
  | s => if s.all (fun x => match x with | .rune h => (hexVal h).isSome | .bad _ => false)
      then .truncated else .invalid

/-- The second half of a `\uXXXX\uXXXX` surrogate pair at the head of the text, when one is
written there: its code unit. -/
def secondUnit : GoString → Option Nat
  | .rune b :: .rune u :: .rune h1 :: .rune h2 :: .rune h3 :: .rune h4 :: _ =>
    if b = '\\' ∧ u = 'u' then getu4 h1 h2 h3 h4 else none
  | _ => none

/-- The code point produced by a `\uXXXX` escape with code unit `rr`, and how many items of
the following text it consumes with it (6 when it pairs with a following low surrogate,
otherwise 0). An unpaired surrogate becomes U+FFFD (`unquoteBytes`). -/
def escapedRune (rr : Nat) (after : GoString) : Char × Nat :=
  if isSurrogate rr then
    match secondUnit after with
    | some rr1 =>
      if utf16DecodeRune rr rr1 ≠ replacementChar then (utf16DecodeRune rr rr1, 6)
      else (replacementChar, 0)
    | none => (replacementChar, 0)
  else (Char.ofNat rr, 0)

/-- What the scanner and `unquoteBytes` do at one item of a string literal. -/
inductive StringStep where
  /-- The closing quote. -/
  | close
  /-- A syntax error. -/
  | invalid
  /-- The text ends inside an escape. -/
  | truncated
  /-- The item, with `skip` items after it, stands for a code point of the string. -/
  | emit (c : Char) (skip : Nat)
  deriving DecidableEq, Repr

/-- The step taken at the item `x` of a string literal that is followed by `rest`. A stray byte
is accepted and unquoted to U+FFFD; a backslash starts an escape of two items, or of six
(`\uXXXX`), or of twelve (a surrogate pair); a control character, an unknown escape and a `\u`
without four hexadecimal digits are syntax errors. -/
def stringStep (x : GoRune) (rest : GoString) : StringStep :=
  match x with
  | .bad _ => .emit replacementChar 0
  | .rune c =>
    if c = '"' then .close
    else if c = '\\' then
      match rest with
      | [] => .truncated
      | .bad _ :: _ => .invalid
      | .rune e :: rest1 =>
        if e = 'u' then
          match readHex4 rest1 with
          | .ok rr rest2 => .emit (escapedRune rr rest2).1 (5 + (escapedRune rr rest2).2)
          | .invalid => .invalid
          | .truncated => .truncated
        else
          match simpleEscape e with
          | some ch => .emit ch 1
          | none => .invalid
    else if c.toNat < 0x20 then .invalid
    else .emit c 0

/-- Read a string literal whose opening quote has been consumed: the unquoted contents and
the text after the closing quote. `skip` counts the items of an escape that are already
accounted for. -/
def unquoteFrom : Nat → GoString → Scan (List Char)
  | _, [] => .truncated
  | skip + 1, _ :: rest => unquoteFrom skip rest
  | 0, x :: rest =>
    match stringStep x rest with
    | .close => .ok [] rest
    | .invalid => .invalid
    | .truncated => .truncated
    | .emit c skip => (unquoteFrom skip rest).map fun p => c :: p

/-- Take the decimal digits at the head of the text. -/
def takeDigits : GoString → List Char × GoString
  | .rune c :: rest =>
    if c.isDigit then ((takeDigits rest).1.cons c, (takeDigits rest).2) else ([], .rune c :: rest)
  | s => ([], s)

/-- At least one decimal digit at the head of the text, and all that follow it. -/
def takeDigits1 (s : GoString) : Scan (List Char) :=
  match takeDigits s with
  | ([], []) => .truncated
  | ([], _) => .invalid
  | (ds, r) => .ok ds r

/-- The exponent part of a number, if one starts here (`stateE`, `stateESign`, `stateE0`). -/
def lexExponent (s : GoString) : Scan (List Char) :=
  match s with
  | .rune e :: rest =>
    if e = 'e' ∨ e = 'E' then
      match rest with
      | .rune sg :: rest1 =>
        if sg = '+' ∨ sg = '-' then (takeDigits1 rest1).map fun ds => e :: sg :: ds
        else (takeDigits1 rest).map fun ds => e :: ds
      | _ => (takeDigits1 rest).map fun ds => e :: ds
    else .ok [] s
  | _ => .ok [] s

/-- The fraction part of a number, if one starts here (`stateDot`, `stateDot0`). -/
def lexFraction (s : GoString) : Scan (List Char) :=
  match s with
  | .rune d :: rest =>
    if d = '.' then (takeDigits1 rest).map fun ds => d :: ds
    else .ok [] s
  | _ => .ok [] s

/-- The integer part of a number without its sign: `0`, or a non-zero digit followed by
digits (`state0`, `state1`). -/
def lexIntPart (s : GoString) : Scan (List Char) :=
  match s with
  | [] => .truncated
  | .rune d :: rest =>
    if d = '0' then .ok ['0'] rest
    else if d.isDigit then .ok (d :: (takeDigits rest).1) (takeDigits rest).2
    else .invalid
  | _ => .invalid

/-- Read a number literal: its text and what follows it. -/
def lexNumber (s : GoString) : Scan (List Char) :=
  let signed : List Char × GoString :=
    match s with
    | .rune c :: rest => if c = '-' then (['-'], rest) else ([], s)
    | _ => ([], s)
  match lexIntPart signed.2 with
  | .ok ip r1 =>
    match lexFraction r1 with
    | .ok fp r2 => (lexExponent r2).map fun ep => signed.1 ++ ip ++ fp ++ ep
    | .invalid => .invalid
    | .truncated => .truncated
  | .invalid => .invalid
  | .truncated => .truncated

/-- Consume the given characters from the head of the text. -/
def expectChars : List Char → GoString → Scan Unit
  | [], s => .ok () s
  | _ :: _, [] => .truncated
  | c :: cs, .rune d :: rest => if c = d then expectChars cs rest else .invalid
  | _ :: _, .bad _ :: _ => .invalid

/-- The deepest nesting of arrays and objects the scanner accepts (`maxNestingDepth`). -/
def maxNestingDepth : Nat := 10000

mutual
/-- Read one JSON value, skipping white space before it: the value and the text after it.
`depth` is the number of arrays and objects the value is nested in. The first argument bounds
the recursion; `text.length + 1` is enough for every text. -/
def parseValue : Nat → Nat → GoString → Scan JSON
  | 0, _, _ => .invalid
  | fuel + 1, depth, s =>
    match skipWS s with
    | [] => .truncated
    | .bad _ :: _ => .invalid
    | .rune c :: rest =>
      if c = '{' then
        if maxNestingDepth < depth + 1 then .invalid
        else
          match skipWS rest with
          | [] => .truncated
          | .bad _ :: _ => .invalid
          | .rune c1 :: rest1 =>
            if c1 = '}' then .ok (.obj []) rest1
            else (parseMembers fuel (depth + 1) (.rune c1 :: rest1)).map fun ms => .obj ms
      else if c = '[' then
        if maxNestingDepth < depth + 1 then .invalid
        else
          match skipWS rest with
          | [] => .truncated
          | .bad _ :: _ => .invalid
          | .rune c1 :: rest1 =>
            if c1 = ']' then .ok (.arr []) rest1
            else (parseElems fuel (depth + 1) (.rune c1 :: rest1)).map fun xs => .arr xs
      else if c = '"' then (unquoteFrom 0 rest).map fun str => .str str
      else if c = '-' ∨ c.isDigit then (lexNumber (.rune c :: rest)).map fun lit => .num lit
      else if c = 't' then (expectChars ['r', 'u', 'e'] rest).map fun _ => .bool true
      else if c = 'f' then (expectChars ['a', 'l', 's', 'e'] rest).map fun _ => .bool false
      else if c = 'n' then (expectChars ['u', 'l', 'l'] rest).map fun _ => .null
      else .invalid
/-- Read the elements of an array after its opening bracket, up to and including the closing
bracket. -/
def parseElems : Nat → Nat → GoString → Scan (List JSON)
  | 0, _, _ => .invalid
  | fuel + 1, depth, s =>
    match parseValue fuel depth s with
    | .invalid => .invalid
    | .truncated => .truncated
    | .ok v rest =>
      match skipWS rest with
      | [] => .truncated
      | .bad _ :: _ => .invalid
      | .rune c :: rest1 =>
        if c = ',' then (parseElems fuel depth rest1).map fun xs => v :: xs
        else if c = ']' then .ok [v] rest1
        else .invalid
/-- Read the members of an object after its opening brace, up to and including the closing
brace. -/
def parseMembers : Nat → Nat → GoString → Scan (List (List Char × JSON))
  | 0, _, _ => .invalid
  | fuel + 1, depth, s =>
    match skipWS s with
    | [] => .truncated
    | .bad _ :: _ => .invalid
    | .rune q :: rest =>
      if q = '"' then
        match unquoteFrom 0 rest with
        | .invalid => .invalid
        | .truncated => .truncated
        | .ok key rest1 =>
          match skipWS rest1 with
          | [] => .truncated
          | .bad _ :: _ => .invalid
          | .rune col :: rest2 =>
            if col = ':' then
              match parseValue fuel depth rest2 with
              | .invalid => .invalid
              | .truncated => .truncated
              | .ok v rest3 =>
                match skipWS rest3 with
                | [] => .truncated
                | .bad _ :: _ => .invalid
                | .rune c :: rest4 =>
                  if c = ',' then (parseMembers fuel depth rest4).map fun ms => (key, v) :: ms
                  else if c = '}' then .ok [(key, v)] rest4
                  else .invalid
            else .invalid
      else .invalid
end

/-- The whole text as one JSON value (`checkValid` of `scanner.go` followed by the decoding of
the value): white space may surround the value and nothing else may follow it. `none` is a
syntax error. -/
def parseDocument (text : GoString) : Option JSON :=
  match parseValue (text.length + 1) 0 text with
  | .ok v rest => if skipWS rest = [] then some v else none
  | _ => none

/-! ## encoding/json: Go values

The Go types that the structs of this package are built from, the values of each type,
and the reflection-driven decoder (`decode.go`) and encoder (`encode.go`) over them. -/

/-- The conversions of `strconv` between a `float64` and its decimal text, with the type of
`float64` values itself: floating-point arithmetic is not modelled, it is a parameter. -/
structure FloatCodec where
  /-- The `float64` values. -/
  F : Type
  /-- The value `0`. -/
  zero : F
  /-- The text `encoding/json` writes for a value (`strconv.AppendFloat` in the shortest form
  that reads back); `none` for NaN and the infinities, which it refuses. -/
  format : F → Option (List Char)
  /-- The value `strconv.ParseFloat` reads from a number literal; `none` when it is out of
  range. -/
  parse : List Char → Option F

mutual
/-- A Go type: the kinds the package's request and response structs are built from. -/
inductive GoType where
  | string
  | int
  | bool
  | float64
  | slice (elem : GoType)
  | ptr (elem : GoType)
  | struct (fields : GoFields)
/-- The exported fields of a struct type in declaration order, each with the name
`encoding/json` uses for it (the name in its `json` tag, or the Go name without one). The
names of one struct are distinct. -/
inductive GoFields where
  | nil
  | cons (name : List Char) (type : GoType) (rest : GoFields)
end

mutual
/-- The values of a Go type. -/
@[reducible] def GoType.Val (fc : FloatCodec) : GoType → Type
  | .string => GoString
  | .int => Int
  | .bool => Bool
  | .float64 => fc.F
  | .slice t => Option (List (t.Val fc))
  | .ptr t => Option (t.Val fc)
  | .struct fs => fs.Val fc
/-- The values of the fields of a struct, in order. -/
@[reducible] def GoFields.Val (fc : FloatCodec) : GoFields → Type
  | .nil => Unit
  | .cons _ t rest => t.Val fc × rest.Val fc
end

mutual
/-- The zero value of a type. -/
def GoType.zero (fc : FloatCodec) : (t : GoType) → t.Val fc
  | .string => ([] : GoString)
  | .int => (0 : Int)
  | .bool => false
  | .float64 => fc.zero
  | .slice _ => none
  | .ptr _ => none
  | .struct fs => fs.zero fc
/-- The zero values of the fields of a struct. -/
def GoFields.zero (fc : FloatCodec) : (fs : GoFields) → fs.Val fc
  | .nil => ()
  | .cons _ t rest => (t.zero fc, rest.zero fc)
end

/-- The names of the fields of a struct. -/
def GoFields.names : GoFields → List (List Char)
  | .nil => []
  | .cons n _ rest => n :: rest.names

/-- The least member of the case-folding orbit of a character, for the orbits that hold an
ASCII letter: lower-case ASCII letters, the Kelvin sign U+212A and the long s U+017F fold
to their upper-case ASCII letter (`foldName` of `fold.go`). The field names of this package
are ASCII, so a key can only match a name along these orbits. -/
def foldRune (c : Char) : Char :=
  if 'a' ≤ c ∧ c ≤ 'z' then Char.ofNat (c.toNat - 32)
  else if c = Char.ofNat 0x212A then 'K'
  else if c = Char.ofNat 0x017F then 'S'
  else c

/-- Two names are equal under case folding. -/
def equalFold (a b : List Char) : Bool := a.map foldRune == b.map foldRune

/-- The index of the first name for which the test holds. -/
def indexWhere (test : List Char → Bool) : List (List Char) → Option Nat
  | [] => none
  | n :: rest => if test n then some 0 else (indexWhere test rest).map (· + 1)

/-- The field an object key is stored in: the field with exactly that name, else the first
field whose name equals the key under case folding, else none (the member is skipped). -/
def findField (names : List (List Char)) (key : List Char) : Option Nat :=
  match indexWhere (· == key) names with
  | some i => some i
  | none => indexWhere (equalFold key) names

/-- The digits of a decimal numeral, read as a number. -/
def digitsValue (ds : List Char) : Nat := ds.foldl (fun acc d => acc * 10 + (d.toNat - '0'.toNat)) 0

/-- The number `strconv.ParseInt(lit, 10, 64)` reads from a JSON number literal: the literal
has to be an integer numeral (an optional minus sign and digits only) whose value fits in 64
bits. -/
def parseInt64 (lit : List Char) : Option Int :=
  let neg := lit.head? = some '-'
  let ds := if neg then lit.tail else lit
  if ds ≠ [] ∧ ds.all Char.isDigit then
    let n : Int := if neg then - (digitsValue ds : Int) else (digitsValue ds : Int)
    if - 2 ^ 63 ≤ n ∧ n < 2 ^ 63 then some n else none
  else none

/-- Keep the first error (`decodeState.saveError`). -/
def firstError (e1 e2 : Option JSONError) : Option JSONError :=
  match e1 with
  | some e => some e
  | none => e2

/-- Store the elements of a JSON array into a slice (`decodeState.array`): element `i` is
decoded into the element the slice already has at that index, or into a zero value when the
slice is shorter; the result has exactly the elements of the array. -/
def decodeElems {α : Type} (dec : JSON → α → α × Option JSONError) (zero : α) :
    List JSON → List α → List α × Option JSONError
  | [], _ => ([], none)
  | x :: xs, cur =>
    ((dec x (cur.headD zero)).1 :: (decodeElems dec zero xs cur.tail).1,
      firstError (dec x (cur.headD zero)).2 (decodeElems dec zero xs cur.tail).2)

/-- Store the members of a JSON object into a struct (`decodeState.object`), in the order they
are written: each member whose key names a field is decoded into that field, the others are
skipped. -/
def decodeMembers {σ : Type} (find : List Char → Option Nat)
    (decAt : Nat → JSON → σ → σ × Option JSONError) :
    List (List Char × JSON) → σ → σ × Option JSONError
  | [], cur => (cur, none)
  | m :: ms, cur =>
    match find m.1 with
    | none => decodeMembers find decAt ms cur
    | some i =>
      ((decodeMembers find decAt ms (decAt i m.2 cur).1).1,
        firstError (decAt i m.2 cur).2 (decodeMembers find decAt ms (decAt i m.2 cur).1).2)

mutual
/-- Decode a JSON value into a Go value of type `t` that currently holds `cur`
(`decodeState.value`): the new value and the first type error met. A value that does not
fit leaves the Go value as it is and records an `UnmarshalTypeError`; decoding goes on
after it. `null` clears a slice or pointer and leaves every other kind unchanged. -/
def decodeValue (fc : FloatCodec) : (t : GoType) → JSON → t.Val fc → t.Val fc × Option JSONError
  | .string, j, cur =>
    match j with
    | .str s => (ofChars s, none)
    | .null => (cur, none)
    | _ => (cur, some .unmarshalTypeError)
  | .int, j, cur =>
    match j with
    | .num lit =>
      match parseInt64 lit with
      | some n => (n, none)
      | none => (cur, some .unmarshalTypeError)
    | .null => (cur, none)
    | _ => (cur, some .unmarshalTypeError)
  | .bool, j, cur =>
    match j with
    | .bool b => (b, none)
    | .null => (cur, none)
    | _ => (cur, some .unmarshalTypeError)
  | .float64, j, cur =>
    match j with
    | .num lit =>
      match fc.parse lit with
      | some f => (f, none)
      | none => (cur, some .unmarshalTypeError)
    | .null => (cur, none)
    | _ => (cur, some .unmarshalTypeError)
  | .slice t, j, cur =>
    match j with
    | .arr xs =>
      (some (decodeElems (decodeValue fc t) (t.zero fc) xs (cur.getD [])).1,
        (decodeElems (decodeValue fc t) (t.zero fc) xs (cur.getD [])).2)
    | .null => (none, none)
    | _ => (cur, some .unmarshalTypeError)
  | .ptr t, j, cur =>
    match j with
    | .null => (none, none)
    | j =>
      (some (decodeValue fc t j (cur.getD (t.zero fc))).1,
        (decodeValue fc t j (cur.getD (t.zero fc))).2)
  | .struct fs, j, cur =>
    match j with
    | .obj ms => decodeMembers (findField fs.names) (decodeField fc fs) ms cur
    | .null => (cur, none)
    | _ => (cur, some .unmarshalTypeError)
/-- Decode a JSON value into the field of a struct at the given index. -/
def decodeField (fc : FloatCodec) : (fs : GoFields) → Nat → JSON → fs.Val fc →
    fs.Val fc × Option JSONError
  | .nil, _, _, cur => (cur, none)
  | .cons _ t _, 0, j, cur => (((decodeValue fc t j cur.1).1, cur.2), (decodeValue fc t j cur.1).2)
  | .cons _ _ rest, i + 1, j, cur =>
    ((cur.1, (decodeField fc rest i j cur.2).1), (decodeField fc rest i j cur.2).2)
end

/-! ## net/http and net/url: data -/

/-- `*url.Userinfo`. -/
structure Userinfo where
  username : GoString
  password : GoString
  passwordSet : Bool
  deriving DecidableEq, Repr

/-- `url.URL`. -/
structure URL where
  Scheme : GoString
  Opaque : GoString
  User : Option Userinfo
  Host : GoString
  Path : GoString
  RawPath : GoString
  OmitHost : Bool
  ForceQuery : Bool
  RawQuery : GoString
  Fragment : GoString
  RawFragment : GoString
  deriving DecidableEq, Repr

/-- An error value produced outside this package and outside `encoding/json` (by the
transport, by a reader): the package only passes such values on, so they are kept opaque. -/
structure ExternalError where
  text : String
  deriving DecidableEq, Repr

/-- `http.Header`: the values stored under each canonical name. -/
abbrev Header := List (GoString × List GoString)

/-- `http.Request`, the fields the package sets or reads. `Body` is the payload the request
carries (`none` when it carries no body). -/
structure Request where
  Method : GoString
  URL : Option URL
  Header : Header
  Body : Option GoString
  deriving DecidableEq, Repr

/-- What reading a response body to its end delivers (`ioutil.ReadAll`): the bytes read and
the error that ended the read, if it was not the end of the body. The read position is not
tracked: a function is given the body as it stands when the function is entered. -/
structure Body where
  data : GoString
  readErr : Option ExternalError
  deriving DecidableEq, Repr

/-- `http.Response`, the fields the package reads. -/
structure Response where
  Status : GoString
  StatusCode : Int
  Body : Body
  Request : Option Request
  deriving DecidableEq, Repr

/-- The zero `http.Request`. -/
def Request.zero : Request := { Method := [], URL := none, Header := [], Body := none }

/-- The zero `http.Response`. -/
def Response.zero : Response :=
  { Status := [], StatusCode := 0, Body := { data := [], readErr := none }, Request := none }

/-! ## errors.go -/

/-- `ArgumentError`: an issue with an input to the client; names the parameter and the cause. -/
structure ArgumentError where
  argument : GoString
  reason : GoString
  deriving DecidableEq, Repr

/-- `NewArgumentError`. -/
def NewArgumentError (argument reason : GoString) : ArgumentError :=
  { argument := argument, reason := reason }

/-- `(*ArgumentError).Error`: `"%s argument is invalid (reason: %s)"`. -/
def ArgumentError.Error (e : ArgumentError) : GoString :=
  e.argument ++ gostr " argument is invalid (reason: " ++ e.reason ++ gostr ")"

/-- `Error`: one error of the API's error body. -/
structure Error where
  Code : GoString
  Message : GoString
  deriving DecidableEq, Repr

/-- The value of the field `ErrorResponse.Response`, a `*http.Response`, while
`CheckResponseForErrors` runs on a response `r`: nil, the address of `r` itself, or the address
of a response allocated by the JSON decoder (given with its contents). -/
inductive ResponseRef where
  | nil
  | original
  | fresh (contents : Response)
  deriving DecidableEq, Repr

/-- `ErrorResponse`: the HTTP response that caused the error and the error body. -/
structure ErrorResponse where
  Response : ResponseRef
  Errors : Option (List Error)
  deriving DecidableEq, Repr

/-- A float codec for types without `float64` fields. -/
def noFloat : FloatCodec := { F := Unit, zero := (), format := fun _ => none, parse := fun _ => none }

/-- The Go type `Error` as `encoding/json` sees it: `Code` under `code`, `Message` under
`message`. -/
def errorType : GoType :=
  .struct (.cons "code".toList .string (.cons "message".toList .string .nil))

/-- An `Error` as a value of `errorType`. -/
def Error.toVal (e : Error) : errorType.Val noFloat := (e.Code, e.Message, ())

/-- The `Error` a value of `errorType` stands for. -/
def Error.ofVal (v : errorType.Val noFloat) : Error := { Code := v.1, Message := v.2.1 }

/-- The names under which `encoding/json` knows the fields of `ErrorResponse`: `Response` has
no tag and goes by its Go name, `Errors` is tagged `errors`. -/
def errorResponseFields : List (List Char) := ["Response".toList, "errors".toList]

/-- The fields of `http.Request` that the model decodes: `Method`. -/
def requestFields : List (List Char) := ["Method".toList]

/-- The fields of `http.Response` that the model decodes: `Status`, `StatusCode`, `Request`. -/
def responseFields : List (List Char) := ["Status".toList, "StatusCode".toList, "Request".toList]

/-- Decode a member of a JSON object into a `http.Request`. Of the fields of `http.Request`
only `Method` is decoded; members naming its other fields are outside the model and are
skipped like unknown keys. -/
def decodeRequestField (i : Nat) (j : JSON) (q : Request) : Request × Option JSONError :=
  match i with
  | 0 => ({ q with Method := (decodeValue noFloat .string j q.Method).1 },
      (decodeValue noFloat .string j q.Method).2)
  | _ => (q, none)

/-- Decode a JSON value into a `*http.Request` field: `null` sets the pointer to nil; any other
value is decoded into the request it points to, after allocating a zero one if the pointer is
nil. -/
def decodeRequestPtr (j : JSON) (cur : Option Request) : Option Request × Option JSONError :=
  match j with
  | .null => (none, none)
  | .obj ms =>
    (some (decodeMembers (findField requestFields) decodeRequestField ms (cur.getD Request.zero)).1,
      (decodeMembers (findField requestFields) decodeRequestField ms (cur.getD Request.zero)).2)
  | _ => (some (cur.getD Request.zero), some .unmarshalTypeError)

/-- Decode a member of a JSON object into a `http.Response`. Of the fields of `http.Response`
the model decodes `Status`, `StatusCode` and `Request`; members naming its other fields are
outside the model and are skipped like unknown keys. -/
def decodeResponseField (i : Nat) (j : JSON) (r : Response) : Response × Option JSONError :=
  match i with
  | 0 => ({ r with Status := (decodeValue noFloat .string j r.Status).1 },
      (decodeValue noFloat .string j r.Status).2)
  | 1 => ({ r with StatusCode := (decodeValue noFloat .int j r.StatusCode).1 },
      (decodeValue noFloat .int j r.StatusCode).2)
  | 2 => ({ r with Request := (decodeRequestPtr j r.Request).1 }, (decodeRequestPtr j r.Request).2)
  | _ => (r, none)

/-- Decode a JSON value that is not `null` into a `http.Response` struct. -/
def decodeResponse (j : JSON) (r : Response) : Response × Option JSONError :=
  match j with
  | .obj ms => decodeMembers (findField responseFields) decodeResponseField ms r
  | _ => (r, some .unmarshalTypeError)

/-- The state `json.Unmarshal(data, errorResponse)` works on: the `ErrorResponse` and the
contents of the response `r` that its `Response` field points to at the start. -/
structure UnmarshalState where
  errorResponse : ErrorResponse
  r : Response
  deriving DecidableEq, Repr

/-- Decode a member of a JSON object into an `ErrorResponse`.

Field 0 is `Response`, a pointer: `null` sets it to nil; any other value is decoded into the
response it points to, which is the caller's `r` as long as the pointer has not been reset,
and a newly allocated response once it has.

Field 1 is `Errors`, a slice of `Error`. -/
def decodeErrorResponseField (i : Nat) (j : JSON) (st : UnmarshalState) :
    UnmarshalState × Option JSONError :=
  match i with
  | 0 =>
    match j with
    | .null => ({ st with errorResponse := { st.errorResponse with Response := .nil } }, none)
    | j =>
      match st.errorResponse.Response with
      | .original => ({ st with r := (decodeResponse j st.r).1 }, (decodeResponse j st.r).2)
      | .fresh c =>
        ({ st with errorResponse :=
            { st.errorResponse with Response := .fresh (decodeResponse j c).1 } },
          (decodeResponse j c).2)
      | .nil =>
        ({ st with errorResponse :=
            { st.errorResponse with Response := .fresh (decodeResponse j Response.zero).1 } },
          (decodeResponse j Response.zero).2)
  | 1 =>
    ({ st with errorResponse :=
        { st.errorResponse with
          Errors := ((decodeValue noFloat (.slice errorType) j
            (st.errorResponse.Errors.map (List.map Error.toVal))).1).map (List.map Error.ofVal) } },
      (decodeValue noFloat (.slice errorType) j
        (st.errorResponse.Errors.map (List.map Error.toVal))).2)
  | _ => (st, none)

/-- `json.Unmarshal(data, errorResponse)`: a text that is not JSON changes nothing and is a
syntax error; otherwise the value is decoded into the `ErrorResponse`, `null` changing
nothing and a value that is not an object being a type error. -/
def unmarshalErrorResponse (data : GoString) (st : UnmarshalState) :
    UnmarshalState × Option JSONError :=
  match parseDocument data with
  | none => (st, some .syntaxError)
  | some (.obj ms) => decodeMembers (findField errorResponseFields) decodeErrorResponseField ms st
  | some .null => (st, none)
  | some _ => (st, some .unmarshalTypeError)

/-- An `error` value as the package returns it. -/
inductive GoError where
  /-- An error of the transport or of a reader, passed on as it is. -/
  | external (e : ExternalError)
  /-- An error of `encoding/json`. -/
  | json (e : JSONError)
  /-- A `*ErrorResponse`. -/
  | errorResponse (e : ErrorResponse)
  /-- A `*ArgumentError`. -/
  | argument (e : ArgumentError)
  /-- A `*url.Error` from parsing a URL. -/
  | url (text : GoString)
  /-- An error of `net/http` from building a request. -/
  | http (text : GoString)
  /-- A `*json.UnsupportedValueError` from encoding a value. -/
  | unsupportedValue
  deriving DecidableEq, Repr

/-! ## tgtg.go: classification of responses -/

/-- `append(errors, e)` on a slice that may be nil. -/
def appendError (errors : Option (List Error)) (e : Error) : Option (List Error) :=
  some (errors.getD [] ++ [e])

/-- `CheckResponseForErrors(r)`: the error returned (`none` is nil) and the contents of `r`
after the call.

```go
if r.StatusCode >= 200 && r.StatusCode <= 299 { return nil }
errorResponse := &ErrorResponse{Response: r}
data, err := ioutil.ReadAll(r.Body)
if err == nil && len(data) > 0 {
    err := json.Unmarshal(data, errorResponse)
    if err != nil {
        errorResponse.Errors = append(errorResponse.Errors, Error{Code: string(data)})
    }
}
return errorResponse
``` -/
def CheckResponseForErrors (r : Response) : Option ErrorResponse × Response :=
  if 200 ≤ r.StatusCode ∧ r.StatusCode ≤ 299 then (none, r)
  else
    let errorResponse : ErrorResponse := { Response := .original, Errors := none }
    if r.Body.readErr = none ∧ 0 < r.Body.data.length then
      let u := unmarshalErrorResponse r.Body.data { errorResponse := errorResponse, r := r }
      match u.2 with
      | some _ =>
        (some { u.1.errorResponse with
            Errors := appendError u.1.errorResponse.Errors { Code := r.Body.data, Message := [] } },
          u.1.r)
      | none => (some u.1.errorResponse, u.1.r)
    else (some errorResponse, r)

/-! ## tgtg.go: the client and `Do` -/

/-- A `context.Context`: the package only hands it to the transport. -/
structure Context where
  id : Nat
  deriving DecidableEq, Repr

/-- `Client`: the HTTP client used to reach the API (as the outcome it gives for a request sent
under a context: a response, or an error such as a network failure or the cancellation of the
context), the auth context, the base URL, the user agent and the extra headers. `headers` is a
Go map: its entries have distinct names, and the order of the list is the order in which a
`range` loop happens to visit them. -/
structure Client where
  client : Context → Request → Except ExternalError Response
  AccessToken : GoString
  RefreshToken : GoString
  UserID : GoString
  BaseURL : URL
  UserAgent : GoString
  headers : List (GoString × GoString)

/-- `(*Client).doRequest`: `c.client.Do(req.WithContext(ctx))`. -/
def Client.doRequest (c : Client) (ctx : Context) (req : Request) : Except ExternalError Response :=
  c.client ctx req

/-- The first JSON value of a stream as `(*json.Decoder).Decode` reads it (`readValue` of
`stream.go`): white space is skipped, the value ends where the scanner sees its end, and what
follows it in the stream is not looked at. A stream without a value is `io.EOF`, one that ends
inside a value is `io.ErrUnexpectedEOF`, and a read error ends the read with that error unless
the value was complete before it (a number, string or literal at the very end of the data is
complete only at a clean end of the stream). -/
def readValue (body : Body) : Except GoError JSON :=
  match skipWS body.data with
  | [] =>
    match body.readErr with
    | some e => .error (.external e)
    | none => .error (.json .eof)
  | _ :: _ =>
    match parseValue (body.data.length + 1) 0 body.data with
    | .ok v rest =>
      match v, rest, body.readErr with
      | .arr _, _, _ => .ok v
      | .obj _, _, _ => .ok v
      | _, _ :: _, _ => .ok v
      | _, [], none => .ok v
      | _, [], some e => .error (.external e)
    | .invalid => .error (.json .syntaxError)
    | .truncated =>
      match body.readErr with
      | some e => .error (.external e)
      | none => .error (.json .unexpectedEOF)

/-- `json.NewDecoder(body).Decode(v)` for a non-nil pointer `v` to a variable of type `t` that
holds `cur`: the new contents of the variable and the error returned. -/
def decoderDecode (fc : FloatCodec) (t : GoType) (body : Body) (cur : t.Val fc) :
    t.Val fc × Option GoError :=
  match readValue body with
  | .error e => (cur, some e)
  | .ok j => ((decodeValue fc t j cur).1, (decodeValue fc t j cur).2.map GoError.json)

/-- What a call of `Do` leaves behind: the two results, the contents of the variable `v`
points to (`none` when `v` is nil), and the contents of the response object the transport
returned (`none` when the transport returned an error). A `*ErrorResponse` in `err` whose
`Response` is `ResponseRef.original` points to that response object. -/
structure DoResult (α : Type) where
  response : Option Response
  err : Option GoError
  target : Option α
  received : Option Response

/-- `(*Client).Do(ctx, req, v)`, for `v` nil (`none`) or a pointer to a variable of type `t`
holding the given value.

```go
response, err := c.doRequest(ctx, req)
if err != nil { return nil, err }
err = CheckResponseForErrors(response)
if err != nil { return nil, err }
if v != nil {
    err = json.NewDecoder(response.Body).Decode(v)
    if err != nil { return nil, err }
}
return response, err
``` -/
def Client.Do (c : Client) (fc : FloatCodec) (t : GoType) (ctx : Context) (req : Request)
    (v : Option (t.Val fc)) : DoResult (t.Val fc) :=
  match c.doRequest ctx req with
  | .error e => { response := none, err := some (.external e), target := v, received := none }
  | .ok response =>
    match CheckResponseForErrors response with
    | (some e, r) =>
      { response := none, err := some (.errorResponse e), target := v, received := some r }
    | (none, r) =>
      match v with
      | some cur =>
        match (decoderDecode fc t r.Body cur).2 with
        | some e =>
          { response := none, err := some e, target := some (decoderDecode fc t r.Body cur).1,
            received := some r }
        | none =>
          { response := some r, err := none, target := some (decoderDecode fc t r.Body cur).1,
            received := some r }
      | none => { response := some r, err := none, target := none, received := some r }

/-! ## Shapes of inputs used in the statements -/

/-- One entry of the API's error body as JSON: an object with `code` and, when a message is
given, `message`. -/
def entryJSON (e : List Char × Option (List Char)) : JSON :=
  match e.2 with
  | some m => .obj [("code".toList, .str e.1), ("message".toList, .str m)]
  | none => .obj [("code".toList, .str e.1)]

/-- The `Error` an entry of the error body stands for: an absent message is the empty one. -/
def errorOfEntry (e : List Char × Option (List Char)) : Error :=
  { Code := ofChars e.1, Message := ofChars (e.2.getD []) }

/-- A response with the given status code and body, read without error, to a zero request (as
the test `TestCheckResponse` builds them). -/
def responseOf (status : Int) (body : String) : Response :=
  { Status := [], StatusCode := status, Body := { data := gostr body, readErr := none },
    Request := some Request.zero }

/-- A status code is in the range 200..299. -/
abbrev is2xx (r : Response) : Prop := 200 ≤ r.StatusCode ∧ r.StatusCode ≤ 299

/-- The Go type of the struct `test` of `TestDo`: one field `Test` of type `string`. -/
def testType : GoType := .struct (.cons "Test".toList .string .nil)

/-- A client whose transport answers every request with the given response. -/
def clientAnswering (r : Response) : Client :=
  { client := fun _ _ => .ok r, AccessToken := [], RefreshToken := [], UserID := [],
    BaseURL := { Scheme := gostr "https", Opaque := [], User := none,
                 Host := gostr "apptoogoodtogo.com", Path := gostr "/api/", RawPath := [],
                 OmitHost := false, ForceQuery := false, RawQuery := [], Fragment := [],
                 RawFragment := [] },
    UserAgent := [], headers := [] }

/-- A client whose transport fails every request with the given error. -/
def clientFailing (e : ExternalError) : Client :=
  { clientAnswering Response.zero with client := fun _ _ => .error e }

mutual
/-- The structs of a type have fields with distinct names. -/
def GoType.WellFormed : GoType → Prop
  | .slice t => t.WellFormed
  | .ptr t => t.WellFormed
  | .struct fs => fs.names.Nodup ∧ fs.WellFormed
  | _ => True
/-- The structs among the types of the fields have fields with distinct names. -/
def GoFields.WellFormed : GoFields → Prop
  | .nil => True
  | .cons _ t rest => t.WellFormed ∧ rest.WellFormed
end

mutual
/-- A JSON value matches the structure of a Go type and the Go value `v` is what it says,
field for field: a string for a `string`, a number literal that reads as the number for an
`int` or `float64`, a boolean for a `bool`, `null` or an array of matching elements for a
slice, `null` or a matching value for a pointer, and for a struct an object with one member
per field, in the order of the fields, each matching its field. -/
def GoType.Denotes (fc : FloatCodec) : (t : GoType) → JSON → t.Val fc → Prop
  | .string, j, v => ∃ s, j = .str s ∧ v = ofChars s
  | .int, j, v => ∃ lit, j = .num lit ∧ parseInt64 lit = some v
  | .bool, j, v => j = .bool v
  | .float64, j, v => ∃ lit, j = .num lit ∧ fc.parse lit = some v
  | .slice t, j, v =>
    (j = .null ∧ v = none) ∨ ∃ xs vs, j = .arr xs ∧ v = some vs ∧ List.Forall₂ (t.Denotes fc) xs vs
  | .ptr t, j, v => (j = .null ∧ v = none) ∨ ∃ w, j ≠ .null ∧ v = some w ∧ t.Denotes fc j w
  | .struct fs, j, v =>
    ∃ ms, j = .obj ms ∧ ms.map Prod.fst = fs.names ∧ fs.Denotes fc (ms.map Prod.snd) v
/-- The JSON values match the fields of a struct one by one, in order. -/
def GoFields.Denotes (fc : FloatCodec) : (fs : GoFields) → List JSON → fs.Val fc → Prop
  | .nil, js, _ => js = []
  | .cons _ t rest, js, v => ∃ j js', js = j :: js' ∧ t.Denotes fc j v.1 ∧ rest.Denotes fc js' v.2
end

/-- Decode a list of JSON values into the fields at consecutive indices from `k` on (the
decoding of the members of an object whose keys are the field names in order). -/
def decodeSeq {σ : Type} (decAt : Nat → JSON → σ → σ × Option JSONError) :
    Nat → List JSON → σ → σ × Option JSONError
  | _, [], cur => (cur, none)
  | k, j :: js, cur =>
    ((decodeSeq decAt (k + 1) js (decAt k j cur).1).1,
      firstError (decAt k j cur).2 (decodeSeq decAt (k + 1) js (decAt k j cur).1).2)

/-! ## encoding/json: the encoder

`encode.go`, with HTML escaping on, as `json.NewEncoder` has it by default. -/

/-- A hexadecimal digit in lower case (the table `hex` of `encode.go`). -/
def hexDigit (n : Nat) : Char :=
  if n < 10 then Char.ofNat ('0'.toNat + n) else Char.ofNat ('a'.toNat + (n - 10))

/-- What the encoder writes for one item of a string (`appendString` with `escapeHTML`):
a quote or backslash is escaped with a backslash; line feed, carriage return and tab are
written `\n`, `\r`, `\t`; other control characters and `<`, `>`, `&` are written `\u00XX`;
U+2028 and U+2029 are written as the escapes `\u2028`, `\u2029`; a stray byte is written as the escape
`\ufffd`; everything
else is copied. (Go 1.22 and later write backspace and form feed as `\b` and `\f` where
earlier versions write `\u0008` and `\u000c`; the decoder reads either.) -/
def escapeRune : GoRune → List Char
  | .bad _ => ['\\', 'u', 'f', 'f', 'f', 'd']
  | .rune c =>
    if c = '"' ∨ c = '\\' then ['\\', c]
    else if c = '\n' then ['\\', 'n']
    else if c = '\r' then ['\\', 'r']
    else if c = '\t' then ['\\', 't']
    else if c.toNat < 0x20 ∨ c = '<' ∨ c = '>' ∨ c = '&' then
      ['\\', 'u', '0', '0', hexDigit (c.toNat / 16), hexDigit (c.toNat % 16)]
    else if c = Char.ofNat 0x2028 then ['\\', 'u', '2', '0', '2', '8']
    else if c = Char.ofNat 0x2029 then ['\\', 'u', '2', '0', '2', '9']
    else [c]

/-- The contents of a string literal for a Go string, without the quotes. -/
def escapeString : GoString → List Char
  | [] => []
  | x :: rest => escapeRune x ++ escapeString rest

/-- The string literal the encoder writes for a Go string. -/
def quoteString (s : GoString) : List Char := '"' :: (escapeString s ++ ['"'])

/-- The decimal digits of a natural number, most significant first; the first argument bounds
the number of digits. -/
def natDigits : Nat → Nat → List Char → List Char
  | 0, _, acc => acc
  | fuel + 1, n, acc =>
    if n < 10 then Char.ofNat ('0'.toNat + n) :: acc
    else natDigits fuel (n / 10) (Char.ofNat ('0'.toNat + n % 10) :: acc)

/-- `strconv.AppendInt(n, 10)`. -/
def formatInt (n : Int) : List Char :=
  if n < 0 then '-' :: natDigits (n.natAbs + 1) n.natAbs [] else natDigits (n.natAbs + 1) n.natAbs []

/-- Join the encodings of the elements of an array, or fail with the first failure. -/
def encodeElems {α : Type} (enc : α → Option (List Char)) : List α → Option (List Char)
  | [] => some []
  | [x] => enc x
  | x :: y :: rest =>
    match enc x, encodeElems enc (y :: rest) with
    | some a, some b => some (a ++ ',' :: b)
    | _, _ => none

mutual
/-- The JSON text `encoding/json` writes for a Go value, or `none` when it refuses the value
(a `float64` that is NaN or infinite: `*json.UnsupportedValueError`). A nil slice or pointer is
written `null`; a struct is written as an object with all its fields in order. -/
def encodeValue (fc : FloatCodec) : (t : GoType) → t.Val fc → Option (List Char)
  | .string, v => some (quoteString v)
  | .int, v => some (formatInt v)
  | .bool, v => some (if v then ['t', 'r', 'u', 'e'] else ['f', 'a', 'l', 's', 'e'])
  | .float64, v => fc.format v
  | .slice t, v =>
    match v with
    | none => some ['n', 'u', 'l', 'l']
    | some xs => (encodeElems (encodeValue fc t) xs).map fun body => '[' :: (body ++ [']'])
  | .ptr t, v =>
    match v with
    | none => some ['n', 'u', 'l', 'l']
    | some w => encodeValue fc t w
  | .struct fs, v => (encodeFields fc fs v).map fun body => '{' :: (body ++ ['}'])
/-- The members the encoder writes for the fields of a struct, separated by commas. -/
def encodeFields (fc : FloatCodec) : (fs : GoFields) → fs.Val fc → Option (List Char)
  | .nil, _ => some []
  | .cons n t .nil, v => (encodeValue fc t v.1).map fun a => quoteString (ofChars n) ++ ':' :: a
  | .cons n t (.cons n2 t2 rest), v =>
    match encodeValue fc t v.1, encodeFields fc (.cons n2 t2 rest) v.2 with
    | some a, some b => some (quoteString (ofChars n) ++ ':' :: (a ++ ',' :: b))
    | _, _ => none
end

/-- `json.NewEncoder(buf).Encode(v)`: the bytes written to the buffer, the encoding of the
value followed by a newline, or `none` when the value is refused. -/
def encoderEncode (fc : FloatCodec) (t : GoType) (v : t.Val fc) : Option GoString :=
  (encodeValue fc t v).map fun text => ofChars (text ++ ['\n'])

/-! ## Bytes of a Go string

Percent-encoding in `net/url` works on bytes; the two functions below pass between a Go string
and its bytes. -/

/-- `utf8.EncodeRune`: the bytes of a code point. -/
def utf8Encode (c : Char) : List Nat :=
  if c.toNat < 0x80 then [c.toNat]
  else if c.toNat < 0x800 then [0xC0 + c.toNat / 64, 0x80 + c.toNat % 64]
  else if c.toNat < 0x10000 then
    [0xE0 + c.toNat / 4096, 0x80 + c.toNat / 64 % 64, 0x80 + c.toNat % 64]
  else
    [0xF0 + c.toNat / 262144, 0x80 + c.toNat / 4096 % 64, 0x80 + c.toNat / 64 % 64,
      0x80 + c.toNat % 64]

/-- The bytes of one item of a Go string. -/
def GoRune.bytes : GoRune → List Nat
  | .rune c => utf8Encode c
  | .bad b => [b]

/-- The bytes of a Go string. -/
def toBytes : GoString → List Nat
  | [] => []
  | x :: rest => x.bytes ++ toBytes rest

/-- For a byte that can start a multi-byte sequence: the length of the sequence and the range
the second byte has to lie in (the tables `first` and `acceptRanges` of `unicode/utf8`). -/
def leadInfo (b : Nat) : Option (Nat × Nat × Nat) :=
  if 0xC2 ≤ b ∧ b ≤ 0xDF then some (2, 0x80, 0xBF)
  else if b = 0xE0 then some (3, 0xA0, 0xBF)
  else if b = 0xED then some (3, 0x80, 0x9F)
  else if 0xE1 ≤ b ∧ b ≤ 0xEF then some (3, 0x80, 0xBF)
  else if b = 0xF0 then some (4, 0x90, 0xBF)
  else if 0xF1 ≤ b ∧ b ≤ 0xF3 then some (4, 0x80, 0xBF)
  else if b = 0xF4 then some (4, 0x80, 0x8F)
  else none

/-- A continuation byte. -/
def isCont (b : Nat) : Bool := 0x80 ≤ b && b ≤ 0xBF

/-- `utf8.DecodeRune` at the head of the bytes: the item decoded and the number of bytes it
takes. A byte that does not start a well-formed sequence is a stray byte of length one. -/
def decodeRune : List Nat → GoRune × Nat
  | [] => (.bad 0, 0)
  | b0 :: rest =>
    if b0 < 0x80 then (.rune (Char.ofNat b0), 1)
    else
      match leadInfo b0, rest with
      | some (2, lo, hi), b1 :: _ =>
        if lo ≤ b1 ∧ b1 ≤ hi then (.rune (Char.ofNat (b0 % 32 * 64 + b1 % 64)), 2)
        else (.bad b0, 1)
      | some (3, lo, hi), b1 :: b2 :: _ =>
        if lo ≤ b1 ∧ b1 ≤ hi ∧ isCont b2 then
          (.rune (Char.ofNat (b0 % 16 * 4096 + b1 % 64 * 64 + b2 % 64)), 3)
        else (.bad b0, 1)
      | some (4, lo, hi), b1 :: b2 :: b3 :: _ =>
        if lo ≤ b1 ∧ b1 ≤ hi ∧ isCont b2 ∧ isCont b3 then
          (.rune (Char.ofNat (b0 % 8 * 262144 + b1 % 64 * 4096 + b2 % 64 * 64 + b3 % 64)), 4)
        else (.bad b0, 1)
      | _, _ => (.bad b0, 1)

/-- The Go string with the given bytes; the first argument bounds the recursion by the number
of bytes. -/
def ofBytesAux : Nat → List Nat → GoString
  | 0, _ => []
  | _ + 1, [] => []
  | fuel + 1, b :: rest =>
    (decodeRune (b :: rest)).1 :: ofBytesAux fuel ((b :: rest).drop (decodeRune (b :: rest)).2)

/-- The Go string with the given bytes. -/
def ofBytes (bs : List Nat) : GoString := ofBytesAux bs.length bs

/-! ## net/url

`url.go`: `Parse`, `(*URL).String`, `(*URL).ResolveReference` and what they call. -/

/-- The component a string is escaped or unescaped for (`encoding` of `url.go`). -/
inductive Encoding where
  | path
  | pathSegment
  | host
  | zone
  | userPassword
  | queryComponent
  | fragment
  deriving DecidableEq, Repr

/-- `shouldEscape` on an ASCII character. -/
def shouldEscapeChar (c : Char) (mode : Encoding) : Bool :=
  if c.isAlphanum then false
  else if (mode = .host ∨ mode = .zone) ∧ c ∈ ['!', '$', '&', '\'', '(', ')', '*', '+', ',', ';',
      '=', ':', '[', ']', '<', '>', '"'] then false
  else if c ∈ ['-', '_', '.', '~'] then false
  else if c ∈ ['$', '&', '+', ',', '/', ':', ';', '=', '?', '@'] ∧ mode ≠ .host ∧ mode ≠ .zone then
    match mode with
    | .path => c = '?'
    | .pathSegment => c = '/' ∨ c = ';' ∨ c = ',' ∨ c = '?'
    | .userPassword => c = '@' ∨ c = '/' ∨ c = '?' ∨ c = ':'
    | .queryComponent => true
    | .fragment => false
    | _ => true
  else if mode = .fragment ∧ c ∈ ['!', '(', ')', '*'] then false
  else true

/-- `shouldEscape` on a byte: every byte outside ASCII is escaped. -/
def shouldEscape (b : Nat) (mode : Encoding) : Bool :=
  if b < 0x80 then shouldEscapeChar (Char.ofNat b) mode else true

/-- The table `upperhex`. -/
def upperHex (n : Nat) : Char :=
  if n < 10 then Char.ofNat ('0'.toNat + n) else Char.ofNat ('A'.toNat + (n - 10))

/-- `%XX` for a byte. -/
def percentByte (b : Nat) : GoString := [.rune '%', .rune (upperHex (b / 16)), .rune (upperHex (b % 16))]

/-- What `escape` writes for one item of a string. -/
def escapeItem (mode : Encoding) : GoRune → GoString
  | .rune c =>
    if c.toNat < 0x80 then
      if shouldEscapeChar c mode then
        if c = ' ' ∧ mode = .queryComponent then [.rune '+'] else percentByte c.toNat
      else [.rune c]
    else (utf8Encode c).flatMap percentByte
  | .bad b => percentByte b

/-- `escape(s, mode)`. -/
def escape (s : GoString) (mode : Encoding) : GoString := s.flatMap (escapeItem mode)

/-- `ishex` and `unhex` on an item of a string. -/
def unhex : GoRune → Option Nat
  | .rune c => hexVal c
  | .bad _ => none

/-- The byte written by the two hexadecimal digits at the head of a text, with the digits. -/
def hexPair : GoString → Option (GoRune × GoRune × Nat)
  | h1 :: h2 :: _ =>
    match unhex h1, unhex h2 with
    | some a, some b => some (h1, h2, a * 16 + b)
    | _, _ => none
  | _ => none

/-- The first pass of `unescape`: every `%` is followed by two hexadecimal digits, and in a
host or zone the escapes and the plain characters are ones allowed there. `skip` counts the
digits of an escape already checked. -/
def unescapeValid (mode : Encoding) : Nat → GoString → Bool
  | _, [] => true
  | skip + 1, _ :: rest => unescapeValid mode skip rest
  | 0, .bad _ :: rest => unescapeValid mode 0 rest
  | 0, .rune c :: rest =>
    if c = '%' then
      match hexPair rest with
      | some (h1, h2, v) =>
        if mode = .host ∧ v < 0x80 ∧ ¬ (h1 = .rune '2' ∧ h2 = .rune '5') then false
        else if mode = .zone ∧ ¬ (h1 = .rune '2' ∧ h2 = .rune '5') ∧ v ≠ 0x20
            ∧ shouldEscape v .host then false
        else unescapeValid mode 2 rest
      | none => false
    else if (mode = .host ∨ mode = .zone) ∧ c.toNat < 0x80 ∧ shouldEscapeChar c mode then false
    else unescapeValid mode 0 rest

/-- The second pass of `unescape`: the bytes of the string with every escape replaced by its
byte (and `+` by a space in a query component). -/
def unescapeBytes (mode : Encoding) : Nat → GoString → List Nat
  | _, [] => []
  | skip + 1, _ :: rest => unescapeBytes mode skip rest
  | 0, .bad b :: rest => b :: unescapeBytes mode 0 rest
  | 0, .rune c :: rest =>
    if c = '%' then
      match hexPair rest with
      | some (_, _, v) => v :: unescapeBytes mode 2 rest
      | none => []
    else if c = '+' ∧ mode = .queryComponent then 0x20 :: unescapeBytes mode 0 rest
    else utf8Encode c ++ unescapeBytes mode 0 rest

/-- `unescape(s, mode)`; `none` is an `EscapeError` or `InvalidHostError`. A string without
escapes is returned as it is. -/
def unescape (s : GoString) (mode : Encoding) : Option GoString :=
  if unescapeValid mode 0 s then
    if s.any (· = .rune '%') ∨ (mode = .queryComponent ∧ s.any (· = .rune '+')) then
      some (ofBytes (unescapeBytes mode 0 s))
    else some s
  else none

/-- `validEncoded(s, mode)`: the string is a possible encoding, it has only characters that may
stand unescaped. -/
def validEncoded (s : GoString) (mode : Encoding) : Bool :=
  s.all fun x =>
    match x with
    | .rune c =>
      if c.toNat < 0x80 then
        c ∈ ['!', '$', '&', '\'', '(', ')', '*', '+', ',', ';', '=', ':', '@', '[', ']', '%']
          || !shouldEscapeChar c mode
      else false
    | .bad _ => false

/-- `strings.Cut(s, sep)` for a one-byte separator: the text before the first separator and the
text after it (`none` when there is no separator). -/
def cut (sep : Char) : GoString → GoString × Option GoString
  | [] => ([], none)
  | x :: rest => if x = .rune sep then ([], some rest) else ((cut sep rest).1.cons x, (cut sep rest).2)

/-- The text before the last separator and the text after it (`strings.LastIndex`); `none`
when there is no separator. -/
def cutLast (sep : Char) (s : GoString) : Option (GoString × GoString) :=
  match cut sep s.reverse with
  | (after, some before) => some (before.reverse, after.reverse)
  | (_, none) => none

/-- `(*URL).setPath`. -/
def URL.setPath (u : URL) (p : GoString) : Option URL :=
  match unescape p .path with
  | none => none
  | some path => some { u with Path := path, RawPath := if escape path .path = p then [] else p }

/-- `(*URL).setFragment`. -/
def URL.setFragment (u : URL) (f : GoString) : Option URL :=
  match unescape f .fragment with
  | none => none
  | some frag =>
    some { u with Fragment := frag, RawFragment := if escape frag .fragment = f then [] else f }

/-- `(*URL).EscapedPath`. -/
def URL.EscapedPath (u : URL) : GoString :=
  if u.RawPath ≠ [] ∧ validEncoded u.RawPath .path ∧ unescape u.RawPath .path = some u.Path then
    u.RawPath
  else if u.Path = gostr "*" then gostr "*"
  else escape u.Path .path

/-- `(*URL).EscapedFragment`. -/
def URL.EscapedFragment (u : URL) : GoString :=
  if u.RawFragment ≠ [] ∧ validEncoded u.RawFragment .fragment
      ∧ unescape u.RawFragment .fragment = some u.Fragment then
    u.RawFragment
  else escape u.Fragment .fragment

/-- `(*Userinfo).String`. -/
def Userinfo.String (ui : Userinfo) : GoString :=
  escape ui.username .userPassword
    ++ (if ui.passwordSet then .rune ':' :: escape ui.password .userPassword else [])

/-- The result of `getScheme`. -/
inductive SchemeResult where
  | found (scheme rest : GoString)
  | noScheme
  | missing
  deriving DecidableEq, Repr

/-- The loop of `getScheme`: `seen` is the text already walked over. -/
def getSchemeLoop : GoString → GoString → SchemeResult
  | _, [] => .noScheme
  | seen, .rune c :: rest =>
    if c.isAlpha then getSchemeLoop (seen ++ [.rune c]) rest
    else if c.isDigit ∨ c = '+' ∨ c = '-' ∨ c = '.' then
      if seen = [] then .noScheme else getSchemeLoop (seen ++ [.rune c]) rest
    else if c = ':' then
      if seen = [] then .missing else .found seen rest
    else .noScheme
  | _, .bad _ :: _ => .noScheme

/-- `strings.ToLower` on an item of a scheme (ASCII). -/
def lowerItem : GoRune → GoRune
  | .rune c => .rune c.toLower
  | x => x

/-- `validOptionalPort`: nothing, or a colon followed by digits only. -/
def validOptionalPort : GoString → Bool
  | [] => true
  | x :: rest => x = .rune ':' && rest.all fun y =>
      match y with
      | .rune d => d.isDigit
      | .bad _ => false

/-- Whether a text starts with the given characters (`strings.HasPrefix`). -/
def hasPrefix (p : String) (s : GoString) : Bool := (gostr p).isPrefixOf s

/-- The position of the first `%25` in a text, as the texts before it and from it on. -/
def cutZone : GoString → Option (GoString × GoString)
  | [] => none
  | x :: rest =>
    if hasPrefix "%25" (x :: rest) then some ([], x :: rest)
    else (cutZone rest).map fun p => (x :: p.1, p.2)

/-- `parseHost`; `none` is an error. -/
def parseHost (host : GoString) : Option GoString :=
  if hasPrefix "[" host then
    match cutLast ']' host with
    | none => none
    | some (inside, colonPort) =>
      if validOptionalPort colonPort then
        match cutZone inside with
        | some (h1, zone) =>
          match unescape h1 .host, unescape zone .zone,
            unescape (.rune ']' :: colonPort) .host with
          | some a, some b, some c => some (a ++ b ++ c)
          | _, _, _ => none
        | none => unescape host .host
      else none
  else
    match cutLast ':' host with
    | some (_, port) => if validOptionalPort (.rune ':' :: port) then unescape host .host else none
    | none => unescape host .host

/-- `validUserinfo`. -/
def validUserinfo (s : GoString) : Bool :=
  s.all fun x =>
    match x with
    | .rune c => c.isAlphanum || c ∈ ['-', '.', '_', ':', '~', '!', '$', '&', '\'', '(', ')', '*',
        '+', ',', ';', '=', '%', '@']
    | .bad _ => false

/-- `parseAuthority`: the user information and the host; `none` is an error. -/
def parseAuthority (authority : GoString) : Option (Option Userinfo × GoString) :=
  match cutLast '@' authority with
  | none => (parseHost authority).map fun h => (none, h)
  | some (userinfo, hostPart) =>
    match parseHost hostPart with
    | none => none
    | some h =>
      if validUserinfo userinfo then
        match cut ':' userinfo with
        | (_, none) =>
          (unescape userinfo .userPassword).map fun n =>
            (some { username := n, password := [], passwordSet := false }, h)
        | (name, some pw) =>
          match unescape name .userPassword, unescape pw .userPassword with
          | some n, some p => some (some { username := n, password := p, passwordSet := true }, h)
          | _, _ => none
      else none

/-- The zero `url.URL`. -/
def URL.zero : URL :=
  { Scheme := [], Opaque := [], User := none, Host := [], Path := [], RawPath := [],
    OmitHost := false, ForceQuery := false, RawQuery := [], Fragment := [], RawFragment := [] }

/-- `stringContainsCTLByte`. -/
def containsCTLByte (s : GoString) : Bool :=
  s.any fun x =>
    match x with
    | .rune c => c.toNat < 0x20 || c.toNat = 0x7f
    | .bad b => b < 0x20 || b = 0x7f

/-- `parse(rawURL, false)`: a URL without fragment; `none` is an error. -/
def parseNoFragment (rawURL : GoString) : Option URL :=
  if containsCTLByte rawURL then none
  else if rawURL = gostr "*" then some { URL.zero with Path := gostr "*" }
  else
    match getSchemeLoop [] rawURL with
    | .missing => none
    | sr =>
      let scheme : GoString :=
        match sr with
        | .found s _ => s.map lowerItem
        | _ => []
      let afterScheme : GoString :=
        match sr with
        | .found _ r => r
        | _ => rawURL
      let forceQuery : Bool :=
        afterScheme.getLast? = some (.rune '?') && afterScheme.count (.rune '?') = 1
      let rest : GoString := if forceQuery then afterScheme.dropLast else (cut '?' afterScheme).1
      let rawQuery : GoString := if forceQuery then [] else ((cut '?' afterScheme).2).getD []
      let url : URL := { URL.zero with Scheme := scheme, ForceQuery := forceQuery, RawQuery := rawQuery }
      if ¬ hasPrefix "/" rest ∧ scheme ≠ [] then some { url with Opaque := rest }
      else if ¬ hasPrefix "/" rest ∧ (cut '/' rest).1.any (· = .rune ':') then none
      else if (scheme ≠ [] ∨ ¬ hasPrefix "///" rest) ∧ hasPrefix "//" rest then
        match parseAuthority (cut '/' (rest.drop 2)).1 with
        | none => none
        | some (user, host) =>
          { url with User := user, Host := host }.setPath
            (match (cut '/' (rest.drop 2)).2 with
             | some after => .rune '/' :: after
             | none => [])
      else if scheme ≠ [] ∧ hasPrefix "/" rest then { url with OmitHost := true }.setPath rest
      else url.setPath rest

/-- `url.Parse(rawURL)`; `none` is an error. -/
def Parse (rawURL : GoString) : Option URL :=
  match parseNoFragment (cut '#' rawURL).1 with
  | none => none
  | some url =>
    match (cut '#' rawURL).2 with
    | none => some url
    | some frag => if frag = [] then some url else url.setFragment frag

/-- `(*URL).String`. -/
def URL.String (u : URL) : GoString :=
  let scheme : GoString := if u.Scheme ≠ [] then u.Scheme ++ [.rune ':'] else []
  let authority : GoString :=
    if u.Scheme ≠ [] ∨ u.Host ≠ [] ∨ u.User ≠ none then
      if u.OmitHost ∧ u.Host = [] ∧ u.User = none then []
      else
        (if u.Host ≠ [] ∨ u.Path ≠ [] ∨ u.User ≠ none then gostr "//" else [])
          ++ (match u.User with
              | some ui => ui.String ++ [.rune '@']
              | none => [])
          ++ (if u.Host ≠ [] then escape u.Host .host else [])
    else []
  let path : GoString := u.EscapedPath
  let slash : GoString := if path ≠ [] ∧ path.head? ≠ some (.rune '/') ∧ u.Host ≠ [] then [.rune '/'] else []
  let dot : GoString :=
    if scheme ++ authority ++ slash = [] ∧ (cut '/' path).1.any (· = .rune ':') then gostr "./" else []
  let hier : GoString := if u.Opaque ≠ [] then scheme ++ u.Opaque else scheme ++ authority ++ slash ++ dot ++ path
  hier
    ++ (if u.ForceQuery ∨ u.RawQuery ≠ [] then .rune '?' :: u.RawQuery else [])
    ++ (if u.Fragment ≠ [] then .rune '#' :: u.EscapedFragment else [])

/-- `strings.Split(s, "/")`. -/
def splitSlash : GoString → List GoString
  | [] => [[]]
  | x :: rest =>
    if x = .rune '/' then [] :: splitSlash rest
    else
      match splitSlash rest with
      | seg :: segs => (x :: seg) :: segs
      | [] => [[x]]

/-- One round of the loop of `resolvePath` on a path element: the text written so far and the
flag `first`. -/
def resolveStep (st : GoString × Bool) (elem : GoString) : GoString × Bool :=
  if elem = gostr "." then (st.1, false)
  else if elem = gostr ".." then
    match cutLast '/' (st.1.drop 1) with
    | none => ([.rune '/'], true)
    | some (before, _) => (.rune '/' :: before, st.2)
  else ((if st.2 then st.1 else st.1 ++ [.rune '/']) ++ elem, false)

/-- The first part of `resolvePath(base, ref)`: the reference put after the directory of the
base path, unless it is empty or starts with a slash. -/
def joinReference (base ref : GoString) : GoString :=
  if ref = [] then base
  else if ref.head? ≠ some (.rune '/') then
    (match cutLast '/' base with
     | some (dir, _) => dir ++ [.rune '/']
     | none => []) ++ ref
  else ref

/-- The second part of `resolvePath`: the loop over the elements of the path, which drops `.`
elements and resolves `..` elements, and the fixing of the slashes at both ends after it. -/
def removeDotSegments (full : GoString) : GoString :=
  let elems := splitSlash full
  let dst := (elems.foldl resolveStep ([.rune '/'], true)).1
  let dst2 := if elems.getLast? = some (gostr ".") ∨ elems.getLast? = some (gostr "..")
    then dst ++ [.rune '/'] else dst
  if 1 < dst2.length ∧ (dst2.drop 1).head? = some (.rune '/') then dst2.drop 1 else dst2

/-- `resolvePath(base, ref)`: the path of a reference resolved against a base path, with `.`
and `..` elements removed. -/
def resolvePath (base ref : GoString) : GoString :=
  if joinReference base ref = [] then [] else removeDotSegments (joinReference base ref)

/-- `(*URL).ResolveReference(ref)`. A path that cannot be set leaves the path as the reference
has it (the error of `setPath` is dropped). -/
def URL.ResolveReference (u ref : URL) : URL :=
  let url : URL := if ref.Scheme = [] then { ref with Scheme := u.Scheme } else ref
  if ref.Scheme ≠ [] ∨ ref.Host ≠ [] ∨ ref.User ≠ none then
    (url.setPath (resolvePath ref.EscapedPath [])).getD url
  else if ref.Opaque ≠ [] then { url with User := none, Host := [], Path := [] }
  else
    let url2 : URL :=
      if ref.Path = [] ∧ ¬ ref.ForceQuery ∧ ref.RawQuery = [] then
        if ref.Fragment = [] then
          { url with RawQuery := u.RawQuery, Fragment := u.Fragment, RawFragment := u.RawFragment }
        else { url with RawQuery := u.RawQuery }
      else url
    if ref.Path = [] ∧ u.Opaque ≠ [] then
      { url2 with Opaque := u.Opaque, User := none, Host := [], Path := [] }
    else
      ({ url2 with Host := u.Host, User := u.User }.setPath
        (resolvePath u.EscapedPath ref.EscapedPath)).getD { url2 with Host := u.Host, User := u.User }

/-- `(*URL).Parse(ref)`: parse a reference and resolve it against the URL; `none` is an
error. -/
def URL.Parse (u : URL) (ref : GoString) : Option URL :=
  (Tgtg.Parse ref).map u.ResolveReference

/-! ## net/http: headers and `http.NewRequest` -/

/-- A character of an HTTP token (`isTokenTable` of `httpguts`, `validHeaderFieldByte` of
`net/textproto`). -/
def isTokenChar (c : Char) : Bool :=
  c.isAlphanum || c ∈ ['!', '#', '$', '%', '&', '\'', '*', '+', '-', '.', '^', '_',
    Char.ofNat 96, '|', '~']

/-- An item of a string is a token character. -/
def isTokenItem : GoRune → Bool
  | .rune c => isTokenChar c
  | .bad _ => false

/-- The second loop of `canonicalMIMEHeaderKey`: upper case for the first letter and for a
letter after a dash, lower case for the other letters. -/
def canonicalLoop : Bool → GoString → GoString
  | _, [] => []
  | upper, .rune c :: rest =>
    .rune (if upper ∧ c.isLower then c.toUpper else if ¬ upper ∧ c.isUpper then c.toLower else c)
      :: canonicalLoop
        ((if upper ∧ c.isLower then c.toUpper else if ¬ upper ∧ c.isUpper then c.toLower else c)
          = '-') rest
  | _, .bad b :: rest => .bad b :: canonicalLoop false rest

/-- `textproto.CanonicalMIMEHeaderKey`: a name made of token characters is put in canonical
form, any other name is returned as it is. -/
def CanonicalMIMEHeaderKey (s : GoString) : GoString :=
  if s.all isTokenItem then canonicalLoop true s else s

/-- The values stored under a name that is already canonical (`h[key]`). -/
def Header.lookup (h : Header) (key : GoString) : List GoString :=
  match h with
  | [] => []
  | (k, vs) :: rest => if k = key then vs else Header.lookup rest key

/-- Store values under a name that is already canonical (`h[key] = vs`). -/
def Header.store (h : Header) (key : GoString) (vs : List GoString) : Header :=
  match h with
  | [] => [(key, vs)]
  | (k, old) :: rest => if k = key then (k, vs) :: rest else (k, old) :: Header.store rest key vs

/-- `Header.Set(key, value)`: the value replaces what is stored under the canonical name. -/
def Header.Set (h : Header) (key value : GoString) : Header :=
  Header.store h (CanonicalMIMEHeaderKey key) [value]

/-- `Header.Add(key, value)`: the value is appended to what is stored under the canonical
name. -/
def Header.Add (h : Header) (key value : GoString) : Header :=
  Header.store h (CanonicalMIMEHeaderKey key)
    (Header.lookup h (CanonicalMIMEHeaderKey key) ++ [value])

/-- `Header.Get(key)`: the first value stored under the canonical name, or the empty string. -/
def Header.Get (h : Header) (key : GoString) : GoString :=
  (Header.lookup h (CanonicalMIMEHeaderKey key)).headD []

/-- `validMethod`: a non-empty token. -/
def validMethod (method : GoString) : Bool := method ≠ [] && method.all isTokenItem

/-- `removeEmptyPort`: a host that ends in a colon loses the colon. -/
def removeEmptyPort (host : GoString) : GoString :=
  match cutLast ':' host with
  | some (before, after) => if after = [] then before else host
  | none => host

/-- `http.NewRequest(method, url, body)`: an empty method stands for `GET`; the method has to
be a token and the URL has to parse. `body` is `none` for a nil body and the contents of the
buffer otherwise. -/
def httpNewRequest (method url : GoString) (body : Option GoString) : Except GoError Request :=
  if ¬ validMethod (if method = [] then gostr "GET" else method) then .error (.http method)
  else
    match Parse url with
    | none => .error (.url url)
    | some u =>
      .ok { Method := if method = [] then gostr "GET" else method,
            URL := some { u with Host := removeEmptyPort u.Host },
            Header := [], Body := body }

/-! ## tgtg.go: `NewRequest` -/

/-- The constant `mediaType`. -/
def mediaType : GoString := gostr "application/json"

/-- The constant `defaultBaseURL`. -/
def defaultBaseURL : GoString := gostr "https://apptoogoodtogo.com/api/"

/-- The constant `defaultUserAgent`. -/
def defaultUserAgent : GoString :=
  gostr "TooGoodToGo/21.11.0 (iPhone/iPhone 11 Pro; iOS 14.4.1; Scale/3.00)"

/-- A value passed as `interface{}`: a Go type and a value of it. -/
structure AnyValue (fc : FloatCodec) where
  type : GoType
  value : type.Val fc

/-- The first half of `NewRequest`: the request built by `http.NewRequest` for the method, with
the body encoded and `Content-Type` set when the method is not GET, HEAD or OPTIONS. -/
def Client.buildRequest (fc : FloatCodec) (method : GoString) (u : URL)
    (body : Option (AnyValue fc)) : Except GoError Request :=
  if method = gostr "GET" ∨ method = gostr "HEAD" ∨ method = gostr "OPTIONS" then
    httpNewRequest method u.String none
  else
    match (match body with
        | none => some []
        | some b => encoderEncode fc b.type b.value) with
    | none => .error .unsupportedValue
    | some buf =>
      match httpNewRequest method u.String (some buf) with
      | .error e => .error e
      | .ok request =>
        .ok { request with Header := request.Header.Set (gostr "Content-Type") mediaType }

/-- `(*Client).NewRequest(method, url, body)`.

```go
u, err := c.BaseURL.Parse(url)
if err != nil { return nil, err }
var request *http.Request
switch method {
case http.MethodGet, http.MethodHead, http.MethodOptions:
    request, err = http.NewRequest(method, u.String(), nil)
    if err != nil { return nil, err }
default:
    buf := &bytes.Buffer{}
    if body != nil {
        err = json.NewEncoder(buf).Encode(body)
        if err != nil { return nil, err }
    }
    request, err = http.NewRequest(method, u.String(), buf)
    if err != nil { return nil, err }
    request.Header.Set("Content-Type", mediaType)
}
for k, v := range c.headers { request.Header.Add(k, v) }
request.Header.Set("Accept", mediaType)
request.Header.Set("User-Agent", c.UserAgent)
return request, nil
``` -/
def Client.NewRequest (c : Client) (fc : FloatCodec) (method url : GoString)
    (body : Option (AnyValue fc)) : Except GoError Request :=
  match c.BaseURL.Parse url with
  | none => .error (.url url)
  | some u =>
    match Client.buildRequest fc method u body with
    | .error e => .error e
    | .ok request =>
      .ok { request with
        Header := ((c.headers.foldl (fun h kv => Header.Add h kv.1 kv.2) request.Header).Set
          (gostr "Accept") mediaType).Set (gostr "User-Agent") c.UserAgent }

/-- `NewClient`: the default base URL and user agent, no auth context and no extra headers,
over the given HTTP client. -/
def NewClient (httpClient : Context → Request → Except ExternalError Response) : Client :=
  { client := httpClient, AccessToken := [], RefreshToken := [], UserID := [],
    BaseURL := (Parse defaultBaseURL).getD URL.zero, UserAgent := defaultUserAgent, headers := [] }

/-- The contents of a Go string as the decoder reads them back from the literal the encoder
writes: the code points, with U+FFFD for every stray byte. -/
def unquoted : GoString → List Char
  | [] => []
  | .rune c :: rest => c :: unquoted rest
  | .bad _ :: rest => replacementChar :: unquoted rest

/-- The text after a value written by the encoder starts with a character that ends the value:
a comma, a closing bracket or brace, or the newline `Encode` appends. -/
def Delimited (rest : GoString) : Prop :=
  ∃ c tail, rest = .rune c :: tail ∧ (c = ',' ∨ c = ']' ∨ c = '}' ∨ c = '\n')

mutual
/-- The JSON value that the text written by the encoder for a Go value reads as. -/
def jsonOf (fc : FloatCodec) : (t : GoType) → t.Val fc → JSON
  | .string, v => .str (unquoted v)
  | .int, v => .num (formatInt v)
  | .bool, v => .bool v
  | .float64, v => .num ((fc.format v).getD [])
  | .slice t, v =>
    match v with
    | none => .null
    | some xs => .arr (xs.map (jsonOf fc t))
  | .ptr t, v =>
    match v with
    | none => .null
    | some w => jsonOf fc t w
  | .struct fs, v => .obj (membersOf fc fs v)
/-- The members of the JSON object written for a struct. -/
def membersOf (fc : FloatCodec) : (fs : GoFields) → fs.Val fc → List (List Char × JSON)
  | .nil, _ => []
  | .cons n t rest, v => (n, jsonOf fc t v.1) :: membersOf fc rest v.2
end

mutual
/-- How deep the arrays and objects written for a value of a type can nest. -/
def GoType.depth : GoType → Nat
  | .slice t => t.depth + 1
  | .ptr t => t.depth
  | .struct fs => fs.depth + 1
  | _ => 0
/-- How deep the values of the fields of a struct can nest. -/
def GoFields.depth : GoFields → Nat
  | .nil => 0
  | .cons _ t rest => max t.depth rest.depth
end

/-- A type whose nil value is written `null`: a slice or a pointer. -/
def GoType.nullable : GoType → Bool
  | .slice _ => true
  | .ptr _ => true
  | _ => false

mutual
/-- A Go value that its JSON encoding represents faithfully: its strings are valid UTF-8, its
`float64`s are ones the encoder accepts, and it has no pointer to a nil slice or to a nil
pointer (which is written `null` like a nil pointer). Its `int`s are 64-bit values, as every Go
`int` is on a 64-bit platform. -/
def GoType.Faithful (fc : FloatCodec) : (t : GoType) → t.Val fc → Prop
  | .string, v => validUTF8 v = true
  | .int, v => - 2 ^ 63 ≤ v ∧ v < 2 ^ 63
  | .bool, _ => True
  | .float64, v => (fc.format v).isSome = true
  | .slice t, v => ∀ xs, v = some xs → ∀ x ∈ xs, t.Faithful fc x
  | .ptr t, v => ∀ w, v = some w → t.nullable = false ∧ t.Faithful fc w
  | .struct fs, v => fs.Faithful fc v
/-- The values of the fields of a struct are represented faithfully. -/
def GoFields.Faithful (fc : FloatCodec) : (fs : GoFields) → fs.Val fc → Prop
  | .nil, _ => True
  | .cons _ t rest, v => t.Faithful fc v.1 ∧ rest.Faithful fc v.2
end

/-- What is assumed of `strconv` for `float64`: the text written for a value is a JSON number
literal, and it reads back as the value. -/
structure FloatCodec.Lawful (fc : FloatCodec) : Prop where
  parse_format : ∀ f lit, fc.format f = some lit → fc.parse lit = some f
  head_format : ∀ f lit, fc.format f = some lit →
    ∃ c tl, lit = c :: tl ∧ (c = '-' ∨ c.isDigit = true)
  lex_format : ∀ f lit rest, fc.format f = some lit → Delimited rest →
    lexNumber (ofChars lit ++ rest) = .ok lit rest

/-- A character a JSON value written by the encoder starts with. -/
def ValueStart (c : Char) : Prop :=
  c = '"' ∨ c = '-' ∨ c.isDigit = true ∨ c = 't' ∨ c = 'f' ∨ c = 'n' ∨ c = '{' ∨ c = '['

/-! ## The request structs (`auth_types.go`, `items_types.go`, `orders_types.go`) -/

/-- `Origin`: `Latitude` and `Longitude`, both `float64`. -/
def Origin : GoType :=
  .struct (.cons "latitude".toList .float64 (.cons "longitude".toList .float64 .nil))

/-- `Paging`: `Page` and `Size`, both `int`. -/
def Paging : GoType := .struct (.cons "page".toList .int (.cons "size".toList .int .nil))

/-- `LoginRequest`. -/
def LoginRequest : GoType :=
  .struct (.cons "device_type".toList .string (.cons "email".toList .string .nil))

/-- `PollRequest`. -/
def PollRequest : GoType :=
  .struct (.cons "device_type".toList .string (.cons "email".toList .string
    (.cons "request_polling_id".toList .string .nil)))

/-- `RefreshTokensRequest`. -/
def RefreshTokensRequest : GoType := .struct (.cons "refresh_token".toList .string .nil)

/-- `SignupRequest`. -/
def SignupRequest : GoType :=
  .struct (.cons "country_id".toList .string (.cons "device_type".toList .string
    (.cons "email".toList .string (.cons "name".toList .string
    (.cons "newsletter_opt_in".toList .bool
    (.cons "push_notification_opt_in".toList .bool .nil))))))

/-- `ListItemsRequest`. -/
def ListItemsRequest : GoType :=
  .struct (.cons "page_size".toList .int (.cons "page".toList .int
    (.cons "user_id".toList .string (.cons "radius".toList .int
    (.cons "origin".toList (.ptr Origin)
    (.cons "item_categories".toList (.slice .string)
    (.cons "diet_categories".toList (.slice .string)
    (.cons "pickup_earliest".toList .string (.cons "pickup_latest".toList .string
    (.cons "search_phrase".toList .string
    (.cons "discover".toList .bool (.cons "favorites_only".toList .bool
    (.cons "with_stock_only".toList .bool (.cons "hidden_only".toList .bool
    (.cons "we_care_only".toList .bool .nil)))))))))))))))

/-- `GetItemRequest`. -/
def GetItemRequest : GoType :=
  .struct (.cons "user_id".toList .string (.cons "origin".toList (.ptr Origin) .nil))

/-- `FavoriteItemRequest`. -/
def FavoriteItemRequest : GoType := .struct (.cons "is_favorite".toList .bool .nil)

/-- `ActiveOrdersRequest`. -/
def ActiveOrdersRequest : GoType := .struct (.cons "user_id".toList .string .nil)

/-- `InactiveOrdersRequest`. -/
def InactiveOrdersRequest : GoType :=
  .struct (.cons "user_id".toList .string (.cons "paging".toList Paging .nil))

/-- The request structs of the package. -/
def requestTypes : List GoType :=
  [LoginRequest, PollRequest, RefreshTokensRequest, SignupRequest, ListItemsRequest,
    GetItemRequest, FavoriteItemRequest, ActiveOrdersRequest, InactiveOrdersRequest]

/-- A float codec restricted to whole numbers of 64 bits, written without a fraction as
`strconv` writes them: it satisfies what is assumed of `strconv`, and instantiates statements
that take a codec. -/
def wholeFloats : FloatCodec :=
  { F := Int, zero := 0,
    format := fun n => if - 2 ^ 63 ≤ n ∧ n < 2 ^ 63 then some (formatInt n) else none,
    parse := parseInt64 }

/-- The method is one for which `NewRequest` sends no body: GET, HEAD or OPTIONS. -/
abbrev bodyless (method : GoString) : Prop :=
  method = gostr "GET" ∨ method = gostr "HEAD" ∨ method = gostr "OPTIONS"

/-- A transport that fails every request: for building requests, which does not reach the
transport. -/
def noTransport : Context → Request → Except ExternalError Response :=
  fun _ _ => .error { text := "no transport" }

/-- The `LoginRequest` with `DeviceType` `IOS` and an `Email` that holds the single byte
`0xff`, which is not valid UTF-8. -/
def loginRequestBadEmail : LoginRequest.Val noFloat := (gostr "IOS", [.bad 0xff], ())

/-- A `ListItemsRequest` with every kind of field set: numbers, a user id, an `Origin`, a
non-empty and a nil slice of categories, and flags. -/
def sampleListItemsRequest : ListItemsRequest.Val wholeFloats :=
  ((20 : Int), (1 : Int), gostr "user<1>", (5 : Int), some ((52 : Int), (-13 : Int), ()),
    some [gostr "MEAL", gostr "caf\u00e9 \"x\""], none, gostr "", gostr "", gostr "bread & butter",
    true, false, true, false, false, ())

/-- The request `NewRequest` builds on a default client for `POST item/v7/` without a body. -/
def listRequestWithoutBody : Request :=
  { Method := gostr "POST",
    URL := some { Scheme := gostr "https", Opaque := [], User := none,
                  Host := gostr "apptoogoodtogo.com", Path := gostr "/api/item/v7/",
                  RawPath := [], OmitHost := false, ForceQuery := false, RawQuery := [],
                  Fragment := [], RawFragment := [] },
    Header := [(gostr "Content-Type", [mediaType]), (gostr "Accept", [mediaType]),
               (gostr "User-Agent", [defaultUserAgent])],
    Body := some [] }

/-! ## Plain URLs

The URLs and relative paths for which resolving a reference is the same as appending it. -/

/-- An unreserved character of RFC 3986: a letter, a digit, `-`, `.`, `_` or `~`. -/
def isUnreserved (c : Char) : Bool := c.isAlphanum || c = '-' || c = '.' || c = '_' || c = '~'

/-- An item of a plain path: an unreserved character or a slash. -/
def isPlainItem : GoRune → Bool
  | .rune c => isUnreserved c || c = '/'
  | .bad _ => false

/-- A plain path: segments of unreserved characters separated by slashes, none of them `.` or
`..`. -/
def plainPath (p : GoString) : Bool :=
  p.all isPlainItem && !(splitSlash p).contains (gostr ".") && !(splitSlash p).contains (gostr "..")

/-- A plain relative path: a plain path that does not start with a slash. -/
def plainRelative (p : GoString) : Bool := plainPath p && p.head? != some (.rune '/')

/-- An item of a scheme in lower case. -/
def isSchemeItem : GoRune → Bool
  | .rune c => c.isLower || c.isDigit || c = '+' || c = '-' || c = '.'
  | .bad _ => false

/-- A scheme in lower case: a letter followed by letters, digits, `+`, `-` and `.`. -/
def plainScheme : GoString → Bool
  | .rune c :: rest => c.isLower && rest.all isSchemeItem
  | _ => false

/-- An item of a host name: a letter, a digit, `.` or `-`. -/
def isHostItem : GoRune → Bool
  | .rune c => c.isAlphanum || c = '.' || c = '-'
  | .bad _ => false

/-- A decimal digit. -/
def isDigitItem : GoRune → Bool
  | .rune c => c.isDigit
  | .bad _ => false

/-- A plain host: a non-empty host name, alone or followed by a colon and a non-empty decimal
port. -/
def plainHost (h : GoString) : Bool :=
  match cut ':' h with
  | (name, none) => !name.isEmpty && name.all isHostItem
  | (name, some port) => !name.isEmpty && name.all isHostItem && !port.isEmpty && port.all isDigitItem

/-- A plain base URL: `scheme://host/p1/.../pn/` with a scheme in lower case, a plain host, a
plain path that starts and ends with a slash, and nothing else (no user information, query or
fragment). -/
def plainBase (u : URL) : Bool :=
  plainScheme u.Scheme && plainHost u.Host && plainPath u.Path
    && u.Path.head? == some (.rune '/') && u.Path.getLast? == some (.rune '/')
    && u.Opaque.isEmpty && u.User.isNone && u.RawPath.isEmpty && !u.OmitHost && !u.ForceQuery
    && u.RawQuery.isEmpty && u.Fragment.isEmpty && u.RawFragment.isEmpty

/-- Join path elements with slashes (`strings.Join(elems, "/")`). -/
def joinSlash : List GoString → GoString
  | [] => []
  | [e] => e
  | e :: e2 :: es => e ++ .rune '/' :: joinSlash (e2 :: es)

/-- An item that is no delimiter of a URL other than `:` and `/`: a letter, a digit, or one of
`-`, `.`, `_`, `~`, `+`, `:`, `/`. -/
def isBenign : GoRune → Bool
  | .rune c => c.isAlphanum || c = '-' || c = '.' || c = '_' || c = '~' || c = '+' || c = ':'
      || c = '/'
  | .bad _ => false

/-- The URL `scheme://host/path` with nothing else. -/
def plainURL (scheme host path : GoString) : URL :=
  { Scheme := scheme, Opaque := [], User := none, Host := host, Path := path, RawPath := [],
    OmitHost := false, ForceQuery := false, RawQuery := [], Fragment := [], RawFragment := [] }

/-- A base URL whose path has a `.` segment: `https://apptoogoodtogo.com/api/./`. -/
def dotBaseURL : URL := plainURL (gostr "https") (gostr "apptoogoodtogo.com") (gostr "/api/./")

/-! ## tgtg.go: options and the auth context -/

/-- `m[k] = v` on a Go map kept as a list of entries with distinct names: the value of an
entry with the name is replaced, and a name that is not in the map gets a new entry. -/
def mapStore (m : List (GoString × GoString)) (k v : GoString) : List (GoString × GoString) :=
  match m with
  | [] => [(k, v)]
  | (k', v') :: rest => if k' = k then (k, v) :: rest else (k', v') :: mapStore rest k v

/-- `ClientOption`: a function that configures the client it is given and may return an
error. -/
abbrev ClientOption := Client → Client × Option GoError

/-- `SetUserAgent(userAgent)`. -/
def SetUserAgent (userAgent : GoString) : ClientOption :=
  fun c => ({ c with UserAgent := userAgent }, none)

/-- `SetRequestHeaders(headers)`: every entry of `headers` is stored in the map of the client.

```go
for k, v := range headers { c.headers[k] = v }
return nil
``` -/
def SetRequestHeaders (headers : List (GoString × GoString)) : ClientOption :=
  fun c => ({ c with headers := headers.foldl (fun m kv => mapStore m kv.1 kv.2) c.headers }, none)

/-- The loop of `New`: the options are applied in order, and the first error ends the loop. -/
def applyOptions : List ClientOption → Client → Except GoError Client
  | [], c => .ok c
  | option :: rest, c =>
    match (option c).2 with
    | some err => .error err
    | none => applyOptions rest (option c).1

/-- `New(httpClient, options...)`. -/
def New (httpClient : Context → Request → Except ExternalError Response)
    (options : List ClientOption) : Except GoError Client :=
  applyOptions options (NewClient httpClient)

/-- `(*Client).SetAuthContext(accessToken, refreshToken, userID)`.

```go
c.AccessToken = accessToken
c.RefreshToken = refreshToken
c.UserID = userID
``` -/
def Client.SetAuthContext (c : Client) (accessToken refreshToken userID : GoString) : Client :=
  { c with AccessToken := accessToken, RefreshToken := refreshToken, UserID := userID }

/-! ## The response structs of `auth_types.go` -/

/-- `User`. -/
def User : GoType := .struct (.cons "user_id".toList .string .nil)

/-- `StartupData`. -/
def StartupData : GoType := .struct (.cons "user".toList User .nil)

/-- `LoginResponse`. -/
def LoginResponse : GoType :=
  .struct (.cons "polling_id".toList .string (.cons "state".toList .string .nil))

/-- `PollResponse`. -/
def PollResponse : GoType :=
  .struct (.cons "access_token".toList .string (.cons "refresh_token".toList .string
    (.cons "access_token_ttl_seconds".toList .int (.cons "startup_data".toList StartupData .nil))))

/-- `RefreshTokensResponse`. -/
def RefreshTokensResponse : GoType :=
  .struct (.cons "access_token".toList .string (.cons "refresh_token".toList .string
    (.cons "access_token_ttl_seconds".toList .int .nil)))

/-- `Login`, the struct nested in `SignupResponse`. -/
def Login : GoType :=
  .struct (.cons "access_token".toList .string (.cons "refresh_token".toList .string
    (.cons "access_token_ttl_seconds".toList .int (.cons "startup_data".toList StartupData .nil))))

/-- `SignupResponse`. -/
def SignupResponse : GoType := .struct (.cons "login_response".toList Login .nil)

/-- The field `AccessToken` of a `PollResponse`. -/
def PollResponse.AccessToken {fc : FloatCodec} (v : PollResponse.Val fc) : GoString := v.1

/-- The field `RefreshToken` of a `PollResponse`. -/
def PollResponse.RefreshToken {fc : FloatCodec} (v : PollResponse.Val fc) : GoString := v.2.1

/-- The field `StartupData.User.UserID` of a `PollResponse`. -/
def PollResponse.UserID {fc : FloatCodec} (v : PollResponse.Val fc) : GoString := v.2.2.2.1.1.1

/-- The field `AccessToken` of a `RefreshTokensResponse`. -/
def RefreshTokensResponse.AccessToken {fc : FloatCodec} (v : RefreshTokensResponse.Val fc) :
    GoString := v.1

/-- The field `RefreshToken` of a `RefreshTokensResponse`. -/
def RefreshTokensResponse.RefreshToken {fc : FloatCodec} (v : RefreshTokensResponse.Val fc) :
    GoString := v.2.1

/-- The field `Login.AccessToken` of a `SignupResponse`. -/
def SignupResponse.AccessToken {fc : FloatCodec} (v : SignupResponse.Val fc) : GoString := v.1.1

/-- The field `Login.RefreshToken` of a `SignupResponse`. -/
def SignupResponse.RefreshToken {fc : FloatCodec} (v : SignupResponse.Val fc) : GoString :=
  v.1.2.1

/-- The field `Login.StartupData.User.UserID` of a `SignupResponse`. -/
def SignupResponse.UserID {fc : FloatCodec} (v : SignupResponse.Val fc) : GoString :=
  v.1.2.2.2.1.1.1

/-- The field `RefreshToken` of a `RefreshTokensRequest`. -/
def RefreshTokensRequest.RefreshToken {fc : FloatCodec} (v : RefreshTokensRequest.Val fc) :
    GoString := v.1

/-! ## The services: `auth.go`, `items.go`, `orders.go`

A method of a service works on the client the service points to and on the request struct
the caller hands in by pointer. Its model returns, next to the results of the method, the
client and the request struct as the call leaves them, and the HTTP requests it handed to the
transport. -/

/-- What a call of a service method leaves behind: the first result (`none` for nil; a method
with two results has none), the `*http.Response` and the error; the client after the call; the
struct the request pointer points to after the call (`none` for a nil pointer); and the HTTP
requests handed to the transport, in order. -/
structure CallResult (ρ α : Type) where
  value : Option α
  response : Option Response
  err : Option GoError
  client : Client
  request : Option ρ
  sent : List Request

/-- A return with nil results and an error. -/
def CallResult.failure {ρ α : Type} (c : Client) (request : Option ρ) (e : GoError)
    (sent : List Request) : CallResult ρ α :=
  { value := none, response := none, err := some e, client := c, request := request,
    sent := sent }

/-- The constant `authBasePath`. -/
def authBasePath : GoString := gostr "auth/v3"

/-- The constant `itemsBasePath`. -/
def itemsBasePath : GoString := gostr "item/v7"

/-- The constant `ordersBasePath`. -/
def ordersBasePath : GoString := gostr "order/v6"

/-- The constant `http.MethodPost`. -/
def MethodPost : GoString := gostr "POST"

/-- The contents of the variable a non-nil `v` points to after `Do(ctx, req, v)`. -/
def DoResult.contents {α : Type} (res : DoResult α) (zero : α) : α := res.target.getD zero

/-- `(*AuthServiceOp).Login(ctx, loginRequest)`.

```go
if loginRequest == nil {
    return nil, nil, NewArgumentError("loginRequest", "must not be nil")
}
url := fmt.Sprintf("%s/authByEmail", authBasePath)
req, err := s.client.NewRequest(http.MethodPost, url, loginRequest)
if err != nil { return nil, nil, err }
loginResponse := &LoginResponse{}
response, err := s.client.Do(ctx, req, loginResponse)
if err != nil { return nil, nil, err }
return loginResponse, response, nil
``` -/
def AuthServiceOp.Login (c : Client) (fc : FloatCodec) (ctx : Context)
    (loginRequest : Option (LoginRequest.Val fc)) :
    CallResult (LoginRequest.Val fc) (LoginResponse.Val fc) :=
  match loginRequest with
  | none =>
    .failure c none (.argument (NewArgumentError (gostr "loginRequest") (gostr "must not be nil")))
      []
  | some r =>
    match c.NewRequest fc MethodPost (authBasePath ++ gostr "/authByEmail")
        (some { type := .ptr LoginRequest, value := some r }) with
    | .error e => .failure c (some r) e []
    | .ok req =>
      let res := c.Do fc LoginResponse ctx req (some (LoginResponse.zero fc))
      match res.err with
      | some e => .failure c (some r) e [req]
      | none =>
        { value := some (res.contents (LoginResponse.zero fc)),
          response := res.response,
          err := none, client := c, request := some r, sent := [req] }

/-- `(*AuthServiceOp).Poll(ctx, pollRequest)`.

```go
if pollRequest == nil {
    return nil, nil, NewArgumentError("pollRequest", "must not be nil")
}
url := fmt.Sprintf("%s/authByRequestPollingId", authBasePath)
req, err := s.client.NewRequest(http.MethodPost, url, pollRequest)
if err != nil { return nil, nil, err }
pollResponse := &PollResponse{}
response, err := s.client.Do(ctx, req, pollResponse)
if err != nil { return nil, nil, err }
s.client.SetAuthContext(pollResponse.AccessToken, pollResponse.RefreshToken,
    pollResponse.StartupData.User.UserID)
return pollResponse, response, nil
``` -/
def AuthServiceOp.Poll (c : Client) (fc : FloatCodec) (ctx : Context)
    (pollRequest : Option (PollRequest.Val fc)) :
    CallResult (PollRequest.Val fc) (PollResponse.Val fc) :=
  match pollRequest with
  | none =>
    .failure c none (.argument (NewArgumentError (gostr "pollRequest") (gostr "must not be nil")))
      []
  | some r =>
    match c.NewRequest fc MethodPost (authBasePath ++ gostr "/authByRequestPollingId")
        (some { type := .ptr PollRequest, value := some r }) with
    | .error e => .failure c (some r) e []
    | .ok req =>
      let res := c.Do fc PollResponse ctx req (some (PollResponse.zero fc))
      match res.err with
      | some e => .failure c (some r) e [req]
      | none =>
        { value := some (res.contents (PollResponse.zero fc)),
          response := res.response,
          err := none,
          client := c.SetAuthContext
            (PollResponse.AccessToken
              (res.contents (PollResponse.zero fc)))
            (PollResponse.RefreshToken
              (res.contents (PollResponse.zero fc)))
            (PollResponse.UserID
              (res.contents (PollResponse.zero fc))),
          request := some r, sent := [req] }

/-- `(*AuthServiceOp).Refresh(ctx, refreshRequest)`.

```go
if refreshRequest == nil {
    if s.client.RefreshToken == "" {
        return nil, nil, NewArgumentError("refreshRequest",
            "must not be nil - client has no refresh token")
    }
    refreshRequest = &RefreshTokensRequest{RefreshToken: s.client.RefreshToken}
}
url := fmt.Sprintf("%s/token/refresh", authBasePath)
req, err := s.client.NewRequest(http.MethodPost, url, refreshRequest)
if err != nil { return nil, nil, err }
refreshResponse := &RefreshTokensResponse{}
response, err := s.client.Do(ctx, req, refreshResponse)
if err != nil { return nil, nil, err }
s.client.SetAuthContext(refreshResponse.AccessToken, refreshResponse.RefreshToken,
    s.client.UserID)
return refreshResponse, response, nil
```

The struct built for a nil `refreshRequest` is local to the call: the caller's pointer stays
nil. -/
def AuthServiceOp.Refresh (c : Client) (fc : FloatCodec) (ctx : Context)
    (refreshRequest : Option (RefreshTokensRequest.Val fc)) :
    CallResult (RefreshTokensRequest.Val fc) (RefreshTokensResponse.Val fc) :=
  if refreshRequest.isNone = true ∧ c.RefreshToken = [] then
    .failure c none (.argument (NewArgumentError (gostr "refreshRequest")
      (gostr "must not be nil - client has no refresh token"))) []
  else
    match c.NewRequest fc MethodPost (authBasePath ++ gostr "/token/refresh")
        (some { type := .ptr RefreshTokensRequest,
                value := some (refreshRequest.getD (c.RefreshToken, ())) }) with
    | .error e => .failure c refreshRequest e []
    | .ok req =>
      let res := c.Do fc RefreshTokensResponse ctx req (some (RefreshTokensResponse.zero fc))
      match res.err with
      | some e => .failure c refreshRequest e [req]
      | none =>
        { value := some (res.contents (RefreshTokensResponse.zero fc)),
          response := res.response,
          err := none,
          client := c.SetAuthContext
            (RefreshTokensResponse.AccessToken
              (res.contents (RefreshTokensResponse.zero fc)))
            (RefreshTokensResponse.RefreshToken
              (res.contents (RefreshTokensResponse.zero fc)))
            c.UserID,
          request := refreshRequest, sent := [req] }

/-- `(*AuthServiceOp).Signup(ctx, signupRequest)`.

```go
if signupRequest == nil {
    return nil, nil, NewArgumentError("signupRequest", "must not be nil")
}
url := fmt.Sprintf("%s/signUpByEmail", authBasePath)
req, err := s.client.NewRequest(http.MethodPost, url, signupRequest)
if err != nil { return nil, nil, err }
signupResponse := &SignupResponse{}
response, err := s.client.Do(ctx, req, signupResponse)
if err != nil { return nil, nil, err }
s.client.SetAuthContext(signupResponse.Login.AccessToken, signupResponse.Login.RefreshToken,
    signupResponse.Login.StartupData.User.UserID)
return signupResponse, response, nil
``` -/
def AuthServiceOp.Signup (c : Client) (fc : FloatCodec) (ctx : Context)
    (signupRequest : Option (SignupRequest.Val fc)) :
    CallResult (SignupRequest.Val fc) (SignupResponse.Val fc) :=
  match signupRequest with
  | none =>
    .failure c none
      (.argument (NewArgumentError (gostr "signupRequest") (gostr "must not be nil"))) []
  | some r =>
    match c.NewRequest fc MethodPost (authBasePath ++ gostr "/signUpByEmail")
        (some { type := .ptr SignupRequest, value := some r }) with
    | .error e => .failure c (some r) e []
    | .ok req =>
      let res := c.Do fc SignupResponse ctx req (some (SignupResponse.zero fc))
      match res.err with
      | some e => .failure c (some r) e [req]
      | none =>
        { value := some (res.contents (SignupResponse.zero fc)),
          response := res.response,
          err := none,
          client := c.SetAuthContext
            (SignupResponse.AccessToken
              (res.contents (SignupResponse.zero fc)))
            (SignupResponse.RefreshToken
              (res.contents (SignupResponse.zero fc)))
            (SignupResponse.UserID
              (res.contents (SignupResponse.zero fc))),
          request := some r, sent := [req] }

/-- A response struct whose decoding is not modelled: `ListItemsResponse`, `GetItemResponse`
and `OrdersResponse` hold `time.Time` values, which are decoded by `Time.UnmarshalJSON`. Such
a struct is given by the type of its values, its zero value, and what
`json.NewDecoder(body).Decode(v)` makes of the variable `v` points to: the new contents and the
error returned. -/
structure ResponseType where
  Val : Type
  zero : Val
  decode : Body → Val → Val × Option GoError

/-- `(*Client).Do(ctx, req, v)` with the decoding of the body into `*v` given as a function:
the same steps as `Client.Do`, which is the case of `decoderDecode`. -/
def Client.DoWith {α : Type} (c : Client) (decode : Body → α → α × Option GoError)
    (ctx : Context) (req : Request) (v : Option α) : DoResult α :=
  match c.doRequest ctx req with
  | .error e => { response := none, err := some (.external e), target := v, received := none }
  | .ok response =>
    match CheckResponseForErrors response with
    | (some e, r) =>
      { response := none, err := some (.errorResponse e), target := v, received := some r }
    | (none, r) =>
      match v with
      | some cur =>
        match (decode r.Body cur).2 with
        | some e =>
          { response := none, err := some e, target := some (decode r.Body cur).1,
            received := some r }
        | none =>
          { response := some r, err := none, target := some (decode r.Body cur).1,
            received := some r }
      | none => { response := some r, err := none, target := none, received := some r }

/-- The field `UserID` of a `ListItemsRequest`. -/
def ListItemsRequest.UserID {fc : FloatCodec} (v : ListItemsRequest.Val fc) : GoString :=
  v.2.2.1

/-- A `ListItemsRequest` after `UserID` is assigned. -/
def ListItemsRequest.setUserID {fc : FloatCodec} (v : ListItemsRequest.Val fc)
    (userID : GoString) : ListItemsRequest.Val fc :=
  (v.1, v.2.1, userID, v.2.2.2)

/-- The field `UserID` of a `GetItemRequest`. -/
def GetItemRequest.UserID {fc : FloatCodec} (v : GetItemRequest.Val fc) : GoString := v.1

/-- A `GetItemRequest` after `UserID` is assigned. -/
def GetItemRequest.setUserID {fc : FloatCodec} (v : GetItemRequest.Val fc)
    (userID : GoString) : GetItemRequest.Val fc :=
  (userID, v.2)

/-- The field `UserID` of an `InactiveOrdersRequest`. -/
def InactiveOrdersRequest.UserID {fc : FloatCodec} (v : InactiveOrdersRequest.Val fc) :
    GoString := v.1

/-- An `InactiveOrdersRequest` after `UserID` is assigned. -/
def InactiveOrdersRequest.setUserID {fc : FloatCodec} (v : InactiveOrdersRequest.Val fc)
    (userID : GoString) : InactiveOrdersRequest.Val fc :=
  (userID, v.2)

/-- `req.Header.Set("Authorization", fmt.Sprintf("Bearer %s", s.client.AccessToken))`. -/
def Client.authorize (c : Client) (req : Request) : Request :=
  { req with Header := req.Header.Set (gostr "Authorization") (gostr "Bearer " ++ c.AccessToken) }

/-- `(*ItemsServiceOp).List(ctx, listItemsRequest)`, with `ListItemsResponse` as `rt`.

```go
if listItemsRequest == nil {
    return nil, nil, NewArgumentError("listItemsRequest", "must not be nil")
}
if listItemsRequest.UserID == "" {
    if s.client.UserID == "" {
        return nil, nil, NewArgumentError("listItemsRequest.UserID", "must not be nil - ...")
    }
    listItemsRequest.UserID = s.client.UserID
}
url := fmt.Sprintf("%s/", itemsBasePath)
req, err := s.client.NewRequest(http.MethodPost, url, listItemsRequest)
if err != nil { return nil, nil, err }
req.Header.Set("Authorization", fmt.Sprintf("Bearer %s", s.client.AccessToken))
listItemsResponse := &ListItemsResponse{}
response, err := s.client.Do(ctx, req, listItemsResponse)
if err != nil { return nil, nil, err }
return listItemsResponse, response, nil
``` -/
def ItemsServiceOp.List (c : Client) (fc : FloatCodec) (rt : ResponseType) (ctx : Context)
    (listItemsRequest : Option (ListItemsRequest.Val fc)) :
    CallResult (ListItemsRequest.Val fc) rt.Val :=
  match listItemsRequest with
  | none =>
    .failure c none
      (.argument (NewArgumentError (gostr "listItemsRequest") (gostr "must not be nil"))) []
  | some r0 =>
    if ListItemsRequest.UserID r0 = [] ∧ c.UserID = [] then
      .failure c (some r0) (.argument (NewArgumentError (gostr "listItemsRequest.UserID")
        (gostr ("must not be nil - client has no user id set - please log in using Auth "
          ++ "service first or provide UserID in listItemsRequest")))) []
    else
      let r := if ListItemsRequest.UserID r0 = [] then ListItemsRequest.setUserID r0 c.UserID
        else r0
      match c.NewRequest fc MethodPost (itemsBasePath ++ gostr "/")
          (some { type := .ptr ListItemsRequest, value := some r }) with
      | .error e => .failure c (some r) e []
      | .ok req0 =>
        let req := c.authorize req0
        let res := c.DoWith rt.decode ctx req (some rt.zero)
        match res.err with
        | some e => .failure c (some r) e [req]
        | none =>
          { value := some (res.contents rt.zero), response := res.response, err := none,
            client := c, request := some r, sent := [req] }

/-- `(*ItemsServiceOp).Get(ctx, getItemRequest, itemID)`, with `GetItemResponse` as `rt`.

```go
if itemID == "" { return nil, nil, NewArgumentError("itemID", "must not be nil") }
if getItemRequest == nil {
    return nil, nil, NewArgumentError("getItemRequest", "must not be nil")
}
if getItemRequest.UserID == "" {
    if s.client.UserID == "" {
        return nil, nil, NewArgumentError("getItemRequest.UserID", "must not be nil - ...")
    }
    getItemRequest.UserID = s.client.UserID
}
url := fmt.Sprintf("%s/%s", itemsBasePath, itemID)
req, err := s.client.NewRequest(http.MethodPost, url, getItemRequest)
if err != nil { return nil, nil, err }
req.Header.Set("Authorization", fmt.Sprintf("Bearer %s", s.client.AccessToken))
getItemResp := &GetItemResponse{}
response, err := s.client.Do(ctx, req, getItemResp)
if err != nil { return nil, nil, err }
return getItemResp, response, nil
``` -/
def ItemsServiceOp.Get (c : Client) (fc : FloatCodec) (rt : ResponseType) (ctx : Context)
    (getItemRequest : Option (GetItemRequest.Val fc)) (itemID : GoString) :
    CallResult (GetItemRequest.Val fc) rt.Val :=
  if itemID = [] then
    .failure c getItemRequest
      (.argument (NewArgumentError (gostr "itemID") (gostr "must not be nil"))) []
  else
    match getItemRequest with
    | none =>
      .failure c none
        (.argument (NewArgumentError (gostr "getItemRequest") (gostr "must not be nil"))) []
    | some r0 =>
      if GetItemRequest.UserID r0 = [] ∧ c.UserID = [] then
        .failure c (some r0) (.argument (NewArgumentError (gostr "getItemRequest.UserID")
          (gostr ("must not be nil - client has no user id set - please log in using Auth "
            ++ "service first or provide UserID in getItemRequest")))) []
      else
        let r := if GetItemRequest.UserID r0 = [] then GetItemRequest.setUserID r0 c.UserID
          else r0
        match c.NewRequest fc MethodPost (itemsBasePath ++ gostr "/" ++ itemID)
            (some { type := .ptr GetItemRequest, value := some r }) with
        | .error e => .failure c (some r) e []
        | .ok req0 =>
          let req := c.authorize req0
          let res := c.DoWith rt.decode ctx req (some rt.zero)
          match res.err with
          | some e => .failure c (some r) e [req]
          | none =>
            { value := some (res.contents rt.zero), response := res.response, err := none,
              client := c, request := some r, sent := [req] }

/-- `(*ItemsServiceOp).Favorite(ctx, favoriteItemRequest, itemID)`: the method has two
results, so `value` is always `none`.

```go
if itemID == "" { return nil, NewArgumentError("itemID", "must not be nil") }
if favoriteItemRequest == nil {
    return nil, NewArgumentError("favoriteItemRequest", "must not be nil")
}
url := fmt.Sprintf("%s/%s/setFavorite", itemsBasePath, itemID)
req, err := s.client.NewRequest(http.MethodPost, url, favoriteItemRequest)
if err != nil { return nil, err }
req.Header.Set("Authorization", fmt.Sprintf("Bearer %s", s.client.AccessToken))
response, err := s.client.Do(ctx, req, nil)
if err != nil { return nil, err }
return response, nil
``` -/
def ItemsServiceOp.Favorite (c : Client) (fc : FloatCodec) (ctx : Context)
    (favoriteItemRequest : Option (FavoriteItemRequest.Val fc)) (itemID : GoString) :
    CallResult (FavoriteItemRequest.Val fc) Unit :=
  if itemID = [] then
    .failure c favoriteItemRequest
      (.argument (NewArgumentError (gostr "itemID") (gostr "must not be nil"))) []
  else
    match favoriteItemRequest with
    | none =>
      .failure c none
        (.argument (NewArgumentError (gostr "favoriteItemRequest") (gostr "must not be nil"))) []
    | some r =>
      match c.NewRequest fc MethodPost (itemsBasePath ++ gostr "/" ++ itemID ++ gostr "/setFavorite")
          (some { type := .ptr FavoriteItemRequest, value := some r }) with
      | .error e => .failure c (some r) e []
      | .ok req0 =>
        let req := c.authorize req0
        let res := c.DoWith (fun _ (u : Unit) => (u, none)) ctx req none
        match res.err with
        | some e => .failure c (some r) e [req]
        | none =>
          { value := none, response := res.response, err := none, client := c,
            request := some r, sent := [req] }

/-- `(*OrdersServiceOp).Active(ctx, activeOrdersRequest)`, with `OrdersResponse` as `rt`.

```go
if activeOrdersRequest == nil {
    if s.client.UserID == "" {
        return nil, nil, NewArgumentError("activeOrdersRequest.UserID",
            "must not be nil - client has no UserID")
    }
    activeOrdersRequest = &ActiveOrdersRequest{UserID: s.client.UserID}
}
url := fmt.Sprintf("%s/active", ordersBasePath)
req, err := s.client.NewRequest(http.MethodPost, url, activeOrdersRequest)
if err != nil { return nil, nil, err }
req.Header.Set("Authorization", fmt.Sprintf("Bearer %s", s.client.AccessToken))
activeOrdersResponse := &OrdersResponse{}
response, err := s.client.Do(ctx, req, activeOrdersResponse)
if err != nil { return nil, nil, err }
return activeOrdersResponse, response, nil
```

The struct built for a nil `activeOrdersRequest` is local to the call: the caller's pointer
stays nil. -/
def OrdersServiceOp.Active (c : Client) (fc : FloatCodec) (rt : ResponseType) (ctx : Context)
    (activeOrdersRequest : Option (ActiveOrdersRequest.Val fc)) :
    CallResult (ActiveOrdersRequest.Val fc) rt.Val :=
  if activeOrdersRequest.isNone = true ∧ c.UserID = [] then
    .failure c none (.argument (NewArgumentError (gostr "activeOrdersRequest.UserID")
      (gostr "must not be nil - client has no UserID"))) []
  else
    match c.NewRequest fc MethodPost (ordersBasePath ++ gostr "/active")
        (some { type := .ptr ActiveOrdersRequest,
                value := some (activeOrdersRequest.getD (c.UserID, ())) }) with
    | .error e => .failure c activeOrdersRequest e []
    | .ok req0 =>
      let req := c.authorize req0
      let res := c.DoWith rt.decode ctx req (some rt.zero)
      match res.err with
      | some e => .failure c activeOrdersRequest e [req]
      | none =>
        { value := some (res.contents rt.zero), response := res.response, err := none,
          client := c, request := activeOrdersRequest, sent := [req] }

/-- `(*OrdersServiceOp).Inactive(ctx, inactiveOrdersRequest)`, with `OrdersResponse` as `rt`.

```go
if inactiveOrdersRequest == nil {
    return nil, nil, NewArgumentError("inactiveOrdersRequest", "must not be nil")
}
if inactiveOrdersRequest.UserID == "" {
    if s.client.UserID == "" {
        return nil, nil, NewArgumentError("inactiveOrdersRequest.UserID", "must not be nil - ...")
    }
    inactiveOrdersRequest.UserID = s.client.UserID
}
url := fmt.Sprintf("%s/inactive", ordersBasePath)
req, err := s.client.NewRequest(http.MethodPost, url, inactiveOrdersRequest)
if err != nil { return nil, nil, err }
req.Header.Set("Authorization", fmt.Sprintf("Bearer %s", s.client.AccessToken))
inactiveOrdersResponse := &OrdersResponse{}
response, err := s.client.Do(ctx, req, inactiveOrdersResponse)
if err != nil { return nil, nil, err }
return inactiveOrdersResponse, response, nil
``` -/
def OrdersServiceOp.Inactive (c : Client) (fc : FloatCodec) (rt : ResponseType) (ctx : Context)
    (inactiveOrdersRequest : Option (InactiveOrdersRequest.Val fc)) :
    CallResult (InactiveOrdersRequest.Val fc) rt.Val :=
  match inactiveOrdersRequest with
  | none =>
    .failure c none
      (.argument (NewArgumentError (gostr "inactiveOrdersRequest") (gostr "must not be nil")))
      []
  | some r0 =>
    if InactiveOrdersRequest.UserID r0 = [] ∧ c.UserID = [] then
      .failure c (some r0) (.argument (NewArgumentError (gostr "inactiveOrdersRequest.UserID")
        (gostr ("must not be nil - client has no user id set - please log in using Auth "
          ++ "service first or provide UserID in inactiveOrdersRequest")))) []
    else
      let r := if InactiveOrdersRequest.UserID r0 = [] then
          InactiveOrdersRequest.setUserID r0 c.UserID
        else r0
      match c.NewRequest fc MethodPost (ordersBasePath ++ gostr "/inactive")
          (some { type := .ptr InactiveOrdersRequest, value := some r }) with
      | .error e => .failure c (some r) e []
      | .ok req0 =>
        let req := c.authorize req0
        let res := c.DoWith rt.decode ctx req (some rt.zero)
        match res.err with
        | some e => .failure c (some r) e [req]
        | none =>
          { value := some (res.contents rt.zero), response := res.response, err := none,
            client := c, request := some r, sent := [req] }

/-- The `LoginRequest` of the test `TestNewRequest_valid`. -/
def sampleLoginRequest : LoginRequest.Val noFloat := (gostr "IOS", gostr "some@email.com", ())

/-- A pointer to `sampleLoginRequest`, passed as body. -/
def sampleLoginBody : AnyValue noFloat :=
  { type := .ptr LoginRequest, value := some sampleLoginRequest }

/-- A client configured as `New(nil, SetUserAgent("added user agent"),
SetRequestHeaders(...))` configures it, with extra headers named `Accept`, `user-agent` and
`Accept-Encoding`. -/
def customClient : Client :=
  (SetRequestHeaders [(gostr "Accept", gostr "text/html"), (gostr "user-agent", gostr "curl"),
      (gostr "Accept-Encoding", gostr "chunked")]
    (SetUserAgent (gostr "added user agent") (NewClient noTransport)).1).1

/-! ## Inputs used in the statements about the services -/

/-- The auth context of a client: access token, refresh token and user id. -/
def Client.authContext (c : Client) : GoString × GoString × GoString :=
  (c.AccessToken, c.RefreshToken, c.UserID)

/-- A client with the default base URL that holds an auth context from an earlier login and
whose transport answers every request with the given response. -/
def authedClient (r : Response) : Client :=
  { clientAnswering r with
    AccessToken := gostr "old_access", RefreshToken := gostr "old_refresh", UserID := gostr "42" }

/-- The `PollRequest` of the test `TestAuthService_Poll`. -/
def samplePollRequest : PollRequest.Val noFloat :=
  (gostr "IOS", gostr "some@email.com", gostr "polling_id", ())

/-- A `SignupRequest`. -/
def sampleSignupRequest : SignupRequest.Val noFloat :=
  (gostr "GB", gostr "IOS", gostr "some@email.com", gostr "name", false, true, ())

/-- The answer to a poll in the test `TestAuthService_Poll`. -/
def pollAnswer : Response :=
  responseOf 200 ("\x7b\"access_token\": \"access_token\", \"refresh_token\": \"refresh_token\", "
    ++ "\"access_token_ttl_seconds\": 172800, "
    ++ "\"startup_data\": \x7b\"user\": \x7b\"user_id\": \"1\"\x7d\x7d\x7d")

/-- The answer to a refresh in the test `TestAuthService_Refresh`. -/
def refreshAnswer : Response :=
  responseOf 200 ("\x7b\"access_token\": \"access_token\", \"refresh_token\": \"refresh_token\", "
    ++ "\"access_token_ttl_seconds\": 172800\x7d")

/-- The answer to a signup: the answer to a poll as `login_response`. -/
def signupAnswer : Response :=
  responseOf 200 ("\x7b\"login_response\": \x7b\"access_token\": \"access_token\", "
    ++ "\"refresh_token\": \"refresh_token\", \"access_token_ttl_seconds\": 172800, "
    ++ "\"startup_data\": \x7b\"user\": \x7b\"user_id\": \"1\"\x7d\x7d\x7d\x7d")

/-- The answer to a poll while the login is pending: `202 Accepted` with an empty body. -/
def pendingAnswer : Response := responseOf 202 ""

/-- Each field of the auth context that is non-empty in `before` is non-empty in `after`. -/
def staysSet (before after : Client) : Prop :=
  (before.AccessToken ≠ [] → after.AccessToken ≠ []) ∧
  (before.RefreshToken ≠ [] → after.RefreshToken ≠ []) ∧
  (before.UserID ≠ [] → after.UserID ≠ [])

/-- An answer `200 OK` whose body is the empty JSON object. -/
def emptyObjectAnswer : Response := responseOf 200 "\x7b\x7d"

/-- A call ends with an `ArgumentError` whose message contains `name`, with nil results and
without a request handed to the transport. -/
def CallResult.rejects {ρ α : Type} (res : CallResult ρ α) (name : GoString) : Prop :=
  ∃ e, res.err = some (.argument e) ∧ List.IsInfix name e.Error ∧
    res.value = none ∧ res.response = none ∧ res.sent = []

/-- A response struct that takes nothing from the body: `Decode` leaves it as it is and
returns no error. -/
def ignoredResponse : ResponseType :=
  { Val := Unit, zero := (), decode := fun _ u => (u, none) }

/-- An `ActiveOrdersRequest` with an empty `UserID`: `&ActiveOrdersRequest{}`. -/
def emptyActiveOrdersRequest : ActiveOrdersRequest.Val noFloat := ([], ())

/-- An `InactiveOrdersRequest` with an empty `UserID`: `&InactiveOrdersRequest{}`. -/
def emptyInactiveOrdersRequest : InactiveOrdersRequest.Val noFloat :=
  ([], ((0 : Int), (0 : Int), ()), ())

/-- A `RefreshTokensRequest` with an empty `RefreshToken`: `&RefreshTokensRequest{}`. -/
def emptyRefreshTokensRequest : RefreshTokensRequest.Val noFloat := ([], ())

/-- The client `authedClient` configured with an extra header `authorization`. -/
def authedClientWithAuthorization (r : Response) : Client :=
  { authedClient r with headers := [(gostr "authorization", gostr "Basic dXNlcg==")] }

/-- A client whose extra headers hold two names that differ in letter case only, visited in
the order `x-a`, `X-A`. -/
def caseClient : Client :=
  { NewClient noTransport with
    headers := [(gostr "x-a", gostr "1"), (gostr "X-A", gostr "2")] }

/-- The client `caseClient` with the extra headers visited in the other order. -/
def caseClientSwapped : Client :=
  { NewClient noTransport with
    headers := [(gostr "X-A", gostr "2"), (gostr "x-a", gostr "1")] }

/-- The decoder of a response struct returns no `*ArgumentError` (as `encoding/json` returns
none). -/
def ResponseType.Plain (rt : ResponseType) : Prop :=
  ∀ body v e, (rt.decode body v).2 ≠ some (.argument e)

/-- A `GetItemRequest` with an empty `UserID`: `&GetItemRequest{}`. -/
def emptyGetItemRequest : GetItemRequest.Val noFloat := ([], none, ())

/-- A request is a POST request to a relative path on a client: its method is POST, its URL is
the URL of a request `NewRequest` builds on the client for POST and that path, and when the
base URL of the client is a plain one, the URL is the base URL followed by the path. -/
def postsTo (c : Client) (fc : FloatCodec) (req : Request) (path : GoString) : Prop :=
  req.Method = gostr "POST" ∧
  (∃ body req0, c.NewRequest fc (gostr "POST") path body = .ok req0 ∧ req.URL = req0.URL) ∧
  (plainBase c.BaseURL = true → req.URL.map URL.String = some (c.BaseURL.String ++ path))

/-! # Properties -/

/-! ## Classification of responses -/

/-- An empty text is not a JSON document. -/
theorem parseDocument_nil : parseDocument [] = none := by rfl

theorem decodeValue_entry (e : List Char × Option (List Char)) (cur : errorType.Val noFloat)
    (hc : cur = errorType.zero noFloat) :
    decodeValue noFloat errorType (entryJSON e) cur
      = ((ofChars e.1, ofChars (e.2.getD []), ()), none) := by
  subst hc
  obtain ⟨c, m⟩ := e
  cases m with
  | none =>
    simp [entryJSON, errorType, decodeValue, decodeMembers, GoFields.names, findField,
      indexWhere, decodeField, firstError, GoType.zero, GoFields.zero, ofChars]
  | some m =>
    simp [entryJSON, errorType, decodeValue, decodeMembers, GoFields.names, findField,
      indexWhere, decodeField, firstError, GoType.zero, GoFields.zero, ofChars]

theorem decodeElems_entries (es : List (List Char × Option (List Char))) :
    decodeElems (decodeValue noFloat errorType) (errorType.zero noFloat) (es.map entryJSON) []
      = (es.map fun e => (ofChars e.1, ofChars (e.2.getD []), ()), none) := by
  induction es with
  | nil => rfl
  | cons e es ih =>
    simp only [List.map_cons, decodeElems, List.headD_nil, List.tail_nil, ih,
      decodeValue_entry e _ rfl, firstError]

theorem decodeValue_entries (es : List (List Char × Option (List Char))) :
    decodeValue noFloat (.slice errorType) (.arr (es.map entryJSON)) none
      = (some (es.map fun e => (ofChars e.1, ofChars (e.2.getD []), ())), none) := by
  rw [decodeValue]
  simp only [Option.getD_none, decodeElems_entries]

/-- Outside 200..299 `CheckResponseForErrors` returns an error. -/
theorem CheckResponseForErrors_some (r : Response) (h : ¬ is2xx r) :
    ∃ e, (CheckResponseForErrors r).1 = some e := by
  unfold CheckResponseForErrors
  rw [if_neg h]
  dsimp only
  split
  · split <;> exact ⟨_, rfl⟩
  · exact ⟨_, rfl⟩

/-- C1. `CheckResponseForErrors` returns nil exactly when the status code is in 200..299, and
for every other status code it returns a non-nil `*ErrorResponse`. -/
theorem CheckResponseForErrors_nil_iff_2xx (r : Response) :
    ((CheckResponseForErrors r).1 = none ↔ (200 ≤ r.StatusCode ∧ r.StatusCode ≤ 299)) ∧
    (¬ (200 ≤ r.StatusCode ∧ r.StatusCode ≤ 299) →
      ∃ e, (CheckResponseForErrors r).1 = some e) := by
  refine ⟨⟨fun h => ?_, fun h => ?_⟩, CheckResponseForErrors_some r⟩
  · by_contra hn
    obtain ⟨e, he⟩ := CheckResponseForErrors_some r hn
    rw [he] at h
    exact Option.noConfusion h
  · unfold CheckResponseForErrors
    rw [if_pos h]

/-- C3. For a response outside 200..299 whose body, read without error, is a JSON object
`{"errors":[e1,...,en]}` with each `ei` of the form `{"code":ci,"message":mi}` or
`{"code":ci}`, `CheckResponseForErrors` returns an `ErrorResponse` for that response whose
`Errors` are exactly the `n` entries in the same order, with `Code = ci` and `Message = mi`
(empty when absent), and leaves the response as it was. -/
theorem CheckResponseForErrors_envelope (r : Response)
    (es : List (List Char × Option (List Char)))
    (hs : ¬ is2xx r)
    (hr : r.Body.readErr = none)
    (hbody : parseDocument r.Body.data
      = some (.obj [("errors".toList, .arr (es.map entryJSON))])) :
    CheckResponseForErrors r
      = (some { Response := .original, Errors := some (es.map errorOfEntry) }, r) := by
  have hne : 0 < r.Body.data.length := by
    rcases hd : r.Body.data with _ | ⟨x, xs⟩
    · rw [hd, parseDocument_nil] at hbody
      exact Option.noConfusion hbody
    · simp
  unfold CheckResponseForErrors
  rw [if_neg hs]
  dsimp only
  rw [if_pos ⟨hr, hne⟩]
  have hu : unmarshalErrorResponse r.Body.data
      { errorResponse := { Response := .original, Errors := none }, r := r }
      = ({ errorResponse := { Response := .original, Errors := some (es.map errorOfEntry) },
           r := r }, none) := by
    unfold unmarshalErrorResponse
    rw [hbody]
    simp [decodeMembers, findField, errorResponseFields, indexWhere, decodeErrorResponseField,
      decodeValue_entries, firstError, Error.ofVal, errorOfEntry, Function.comp_def]
  rw [hu]

/-- Witness of C3 on the body of the test `TestErrorResponse`, white space included. -/
theorem CheckResponseForErrors_envelope_witness :
    CheckResponseForErrors (responseOf 500
        "\n\t\x7b\n\t\t\"errors\": [\x7b\"code\": \"INTERNAL_SERVER_ERROR\"\x7d]\n\t\x7d\n\t")
      = (some { Response := .original,
                Errors := some [{ Code := gostr "INTERNAL_SERVER_ERROR", Message := [] }] },
         responseOf 500
        "\n\t\x7b\n\t\t\"errors\": [\x7b\"code\": \"INTERNAL_SERVER_ERROR\"\x7d]\n\t\x7d\n\t") :=
  CheckResponseForErrors_envelope _ [("INTERNAL_SERVER_ERROR".toList, none)] (by decide) rfl rfl

/-- The `Unmarshal` call of `CheckResponseForErrors` on a response: its state and error. -/
theorem CheckResponseForErrors_eq (r : Response) (hs : ¬ is2xx r)
    (hr : r.Body.readErr = none) (hne : r.Body.data ≠ []) :
    CheckResponseForErrors r =
      match (unmarshalErrorResponse r.Body.data
          { errorResponse := { Response := .original, Errors := none }, r := r }).2 with
      | some _ =>
        (some { Response := (unmarshalErrorResponse r.Body.data
                    { errorResponse := { Response := .original, Errors := none },
                      r := r }).1.errorResponse.Response,
                Errors := appendError (unmarshalErrorResponse r.Body.data
                    { errorResponse := { Response := .original, Errors := none },
                      r := r }).1.errorResponse.Errors { Code := r.Body.data, Message := [] } },
          (unmarshalErrorResponse r.Body.data
            { errorResponse := { Response := .original, Errors := none }, r := r }).1.r)
      | none =>
        (some (unmarshalErrorResponse r.Body.data
            { errorResponse := { Response := .original, Errors := none }, r := r }).1.errorResponse,
          (unmarshalErrorResponse r.Body.data
            { errorResponse := { Response := .original, Errors := none }, r := r }).1.r) := by
  have hlen : 0 < r.Body.data.length := List.length_pos.mpr hne
  unfold CheckResponseForErrors
  rw [if_neg hs]
  dsimp only
  rw [if_pos ⟨hr, hlen⟩]

/-- C2, counterexample. The body `{"errors":[{"code":1}]}` at status 400 is not empty and
fails to decode into the error envelope (`code` holds a number), yet the `ErrorResponse`
returned has two entries: the entry the decoder had stored before the failure, and the
synthesized one. -/
theorem CheckResponseForErrors_two_entries :
    (unmarshalErrorResponse (responseOf 400 "\x7b\"errors\":[\x7b\"code\":1\x7d]\x7d").Body.data
        { errorResponse := { Response := .original, Errors := none },
          r := responseOf 400 "\x7b\"errors\":[\x7b\"code\":1\x7d]\x7d" }).2
      = some .unmarshalTypeError ∧
    (CheckResponseForErrors (responseOf 400 "\x7b\"errors\":[\x7b\"code\":1\x7d]\x7d")).1
      = some { Response := .original,
               Errors := some [{ Code := [], Message := [] },
                 { Code := gostr "\x7b\"errors\":[\x7b\"code\":1\x7d]\x7d", Message := [] }] } := by
  constructor <;> decide

/-- Members of an object none of which names the field `Response` leave the `Response` pointer
of the `ErrorResponse`, and the response it points to, as they are. -/
theorem decodeMembers_without_Response (ms : List (List Char × JSON)) :
    ∀ (st : UnmarshalState),
      (∀ m ∈ ms, findField errorResponseFields m.1 ≠ some 0) →
      (decodeMembers (findField errorResponseFields) decodeErrorResponseField ms
          st).1.errorResponse.Response = st.errorResponse.Response ∧
      (decodeMembers (findField errorResponseFields) decodeErrorResponseField ms st).1.r
        = st.r := by
  induction ms with
  | nil => intro st _; exact ⟨rfl, rfl⟩
  | cons m ms ih =>
    intro st hno
    have hm := hno m (List.mem_cons_self _ _)
    have hrest : ∀ m' ∈ ms, findField errorResponseFields m'.1 ≠ some 0 :=
      fun m' h => hno m' (List.mem_cons_of_mem _ h)
    unfold decodeMembers
    rcases hf : findField errorResponseFields m.1 with _ | i
    · exact ih st hrest
    · simp only
      obtain ⟨h1, h2⟩ := ih (decodeErrorResponseField i m.2 st).1 hrest
      rw [h1, h2]
      rcases i with _ | _ | i
      · exact absurd hf hm
      · exact ⟨rfl, rfl⟩
      · exact ⟨rfl, rfl⟩

/-- `Unmarshal` of a body without a member for the field `Response` leaves the `Response`
pointer of the `ErrorResponse`, and the response it points to, as they are. -/
theorem unmarshalErrorResponse_without_Response (data : GoString) (st : UnmarshalState)
    (hno : ∀ ms, parseDocument data = some (.obj ms) →
      ∀ m ∈ ms, findField errorResponseFields m.1 ≠ some 0) :
    (unmarshalErrorResponse data st).1.errorResponse.Response = st.errorResponse.Response ∧
      (unmarshalErrorResponse data st).1.r = st.r := by
  unfold unmarshalErrorResponse
  split
  · exact ⟨rfl, rfl⟩
  · next ms hp => exact decodeMembers_without_Response ms st (hno ms hp)
  · exact ⟨rfl, rfl⟩
  · exact ⟨rfl, rfl⟩

/-- `Unmarshal` of a body that is JSON, but neither an object nor `null`, or that is no JSON at
all, fails and stores nothing. -/
theorem unmarshalErrorResponse_not_object (data : GoString) (st : UnmarshalState)
    (hobj : ∀ ms, parseDocument data ≠ some (.obj ms))
    (hnull : parseDocument data ≠ some .null) :
    (unmarshalErrorResponse data st).1 = st ∧ (unmarshalErrorResponse data st).2 ≠ none := by
  unfold unmarshalErrorResponse
  split
  · exact ⟨rfl, by simp⟩
  · next ms hp => exact absurd hp (hobj ms)
  · next hp => exact absurd hp hnull
  · exact ⟨rfl, by simp⟩

/-- C2, amended. Take a response outside 200..299 whose body, read without error, is not empty
and has no member that is decoded into the field `Response` of the envelope (a top-level key
equal to `Response` under case folding). When the body fails to decode into the error
envelope, `CheckResponseForErrors` returns an `ErrorResponse` for that response whose `Errors`
are the entries the failed decode had stored followed by exactly one synthesized entry, with
`Code` the raw body text and empty `Message`. A body that is not JSON, or is a JSON value
other than an object or `null`, does fail to decode, and the synthesized entry is then the only
one. -/
theorem CheckResponseForErrors_undecodable (r : Response)
    (hs : ¬ is2xx r) (hr : r.Body.readErr = none) (hne : r.Body.data ≠ [])
    (hno : ∀ ms, parseDocument r.Body.data = some (.obj ms) →
      ∀ m ∈ ms, findField errorResponseFields m.1 ≠ some 0) :
    (∀ e, (unmarshalErrorResponse r.Body.data
          { errorResponse := { Response := .original, Errors := none }, r := r }).2 = some e →
      CheckResponseForErrors r
        = (some { Response := .original,
                  Errors := some (((unmarshalErrorResponse r.Body.data
                      { errorResponse := { Response := .original, Errors := none },
                        r := r }).1.errorResponse.Errors.getD [])
                    ++ [{ Code := r.Body.data, Message := [] }]) }, r)) ∧
    ((∀ ms, parseDocument r.Body.data ≠ some (.obj ms)) →
      parseDocument r.Body.data ≠ some .null →
      (unmarshalErrorResponse r.Body.data
          { errorResponse := { Response := .original, Errors := none }, r := r }).2 ≠ none ∧
      CheckResponseForErrors r
        = (some { Response := .original,
                  Errors := some [{ Code := r.Body.data, Message := [] }] }, r)) := by
  obtain ⟨h1, h2⟩ := unmarshalErrorResponse_without_Response r.Body.data
    { errorResponse := { Response := .original, Errors := none }, r := r } hno
  constructor
  · intro e hfail
    rw [CheckResponseForErrors_eq r hs hr hne, hfail]
    simp only [h1, h2]
    rcases (unmarshalErrorResponse r.Body.data
      { errorResponse := { Response := .original, Errors := none },
        r := r }).1.errorResponse.Errors with _ | xs
    · rfl
    · rfl
  · intro hobj hnull
    obtain ⟨hst, hfail⟩ := unmarshalErrorResponse_not_object r.Body.data
      { errorResponse := { Response := .original, Errors := none }, r := r } hobj hnull
    refine ⟨hfail, ?_⟩
    obtain ⟨e, he⟩ := Option.ne_none_iff_exists'.mp hfail
    rw [CheckResponseForErrors_eq r hs hr hne, he]
    simp only [hst]
    rfl

/-- Witness of the amended C2. The body `{"errors":[{"code":"A"},{"code":1}]}` at status 400
fails to decode at the second entry: the `ErrorResponse` holds the two entries stored and the
synthesized one. The plain-text body of the test `TestCheckResponse` is not JSON: the
`ErrorResponse` holds the synthesized entry alone. -/
theorem CheckResponseForErrors_undecodable_witness :
    CheckResponseForErrors
        (responseOf 400 "\x7b\"errors\":[\x7b\"code\":\"A\"\x7d,\x7b\"code\":1\x7d]\x7d")
      = (some { Response := .original,
                Errors := some [{ Code := gostr "A", Message := [] },
                  { Code := [], Message := [] },
                  { Code := gostr "\x7b\"errors\":[\x7b\"code\":\"A\"\x7d,\x7b\"code\":1\x7d]\x7d",
                    Message := [] }] },
         responseOf 400 "\x7b\"errors\":[\x7b\"code\":\"A\"\x7d,\x7b\"code\":1\x7d]\x7d") ∧
    CheckResponseForErrors (responseOf 400 "string response")
      = (some { Response := .original,
                Errors := some [{ Code := gostr "string response", Message := [] }] },
         responseOf 400 "string response") := by
  constructor
  · refine ((CheckResponseForErrors_undecodable
      (responseOf 400 "\x7b\"errors\":[\x7b\"code\":\"A\"\x7d,\x7b\"code\":1\x7d]\x7d")
      (by decide) rfl (by decide) ?_).1 .unmarshalTypeError (by decide)).trans (by decide)
    intro ms hp m hm
    have hdoc : parseDocument
        (responseOf 400 "\x7b\"errors\":[\x7b\"code\":\"A\"\x7d,\x7b\"code\":1\x7d]\x7d").Body.data
        = some (.obj [("errors".toList,
            .arr [.obj [("code".toList, .str "A".toList)],
                  .obj [("code".toList, .num "1".toList)]])]) := rfl
    rw [hdoc] at hp
    simp only [Option.some.injEq, JSON.obj.injEq] at hp
    subst hp
    simp only [List.mem_singleton] at hm
    subst hm
    decide
  · have hdoc : parseDocument (responseOf 400 "string response").Body.data = none := rfl
    exact ((CheckResponseForErrors_undecodable (responseOf 400 "string response")
      (by decide) rfl (by decide)
      (fun ms hp => absurd (hdoc.symm.trans hp) (by simp))).2
      (fun ms hp => absurd (hdoc.symm.trans hp) (by simp))
      (fun hp => absurd (hdoc.symm.trans hp) (by simp))).2

/-- C4. For a response outside 200..299 whose body has zero bytes, `CheckResponseForErrors`
returns an `ErrorResponse` for that response whose `Errors` is nil, and leaves the response as
it was. -/
theorem CheckResponseForErrors_empty_body (r : Response) (hs : ¬ is2xx r)
    (hempty : r.Body.data = []) :
    CheckResponseForErrors r = (some { Response := .original, Errors := none }, r) := by
  unfold CheckResponseForErrors
  rw [if_neg hs]
  dsimp only
  rw [if_neg]
  rw [hempty]
  simp

/-- Witness of C4 on the empty body of the test `TestCheckResponse`. -/
theorem CheckResponseForErrors_empty_body_witness :
    CheckResponseForErrors (responseOf 400 "")
      = (some { Response := .original, Errors := none }, responseOf 400 "") :=
  CheckResponseForErrors_empty_body (responseOf 400 "") (by decide) rfl

/-- C5, the code at the failing inputs. At status 400 the body `{"Response":null}` yields an
`ErrorResponse` whose `Response` is nil, and the body `{"Response":{"StatusCode":200}}` leaves
the response itself with status code 200: the decoder writes through the untagged field
`Response`. -/
theorem CheckResponseForErrors_Response_key :
    CheckResponseForErrors (responseOf 400 "\x7b\"Response\":null\x7d")
      = (some { Response := .nil, Errors := none },
         responseOf 400 "\x7b\"Response\":null\x7d") ∧
    CheckResponseForErrors (responseOf 400 "\x7b\"Response\":\x7b\"StatusCode\":200\x7d\x7d")
      = (some { Response := .original, Errors := none },
         { responseOf 400 "\x7b\"Response\":\x7b\"StatusCode\":200\x7d\x7d" with
           StatusCode := 200 }) := by
  constructor <;> decide

/-! ## `Do` -/

/-- C6. When the transport delivers a response whose status is outside 200..299, `Do` returns a
nil response and the `ErrorResponse` that `CheckResponseForErrors` builds for it, and the
variable `v` points to holds what it held before, whatever the body contains. -/
theorem Do_error_status (c : Client) (fc : FloatCodec) (t : GoType) (ctx : Context)
    (req : Request) (v : Option (t.Val fc)) (r : Response)
    (hsend : c.doRequest ctx req = .ok r) (hs : ¬ is2xx r) :
    ∃ e, (CheckResponseForErrors r).1 = some e ∧
      (c.Do fc t ctx req v).response = none ∧
      (c.Do fc t ctx req v).err = some (.errorResponse e) ∧
      (c.Do fc t ctx req v).target = v := by
  obtain ⟨e, he⟩ := CheckResponseForErrors_some r hs
  refine ⟨e, he, ?_⟩
  unfold Client.Do
  rw [hsend]
  dsimp only
  rcases hc : CheckResponseForErrors r with ⟨o, r'⟩
  rw [hc] at he
  dsimp only at he
  subst he
  exact ⟨rfl, rfl, rfl⟩

/-- Witness of C6: status 500 with a body that is valid JSON for the target's type. -/
theorem Do_error_status_witness :
    ∃ e, (CheckResponseForErrors (responseOf 500 "\x7b\"Test\":\"test\"\x7d")).1 = some e ∧
      ((clientAnswering (responseOf 500 "\x7b\"Test\":\"test\"\x7d")).Do noFloat testType
        ⟨0⟩ Request.zero (some (gostr "before", ()))).response = none ∧
      ((clientAnswering (responseOf 500 "\x7b\"Test\":\"test\"\x7d")).Do noFloat testType
        ⟨0⟩ Request.zero (some (gostr "before", ()))).err = some (.errorResponse e) ∧
      ((clientAnswering (responseOf 500 "\x7b\"Test\":\"test\"\x7d")).Do noFloat testType
        ⟨0⟩ Request.zero (some (gostr "before", ()))).target = some (gostr "before", ()) :=
  Do_error_status (clientAnswering (responseOf 500 "\x7b\"Test\":\"test\"\x7d")) noFloat testType
    ⟨0⟩ Request.zero (some (gostr "before", ())) _ rfl (by decide)

/-- C8. When the transport returns an error `e` for the request, `Do` returns a nil response
and that very error; no response is classified and the variable `v` points to holds what it
held before. -/
theorem Do_transport_error (c : Client) (fc : FloatCodec) (t : GoType) (ctx : Context)
    (req : Request) (v : Option (t.Val fc)) (e : ExternalError)
    (hsend : c.doRequest ctx req = .error e) :
    (c.Do fc t ctx req v).response = none ∧
    (c.Do fc t ctx req v).err = some (.external e) ∧
    (c.Do fc t ctx req v).target = v ∧
    (c.Do fc t ctx req v).received = none := by
  unfold Client.Do
  rw [hsend]
  exact ⟨rfl, rfl, rfl, rfl⟩

/-- Witness of C8: a transport that fails with a cancellation error. -/
theorem Do_transport_error_witness :
    ((clientFailing ⟨"context canceled"⟩).Do noFloat testType ⟨0⟩ Request.zero
        (some (gostr "before", ()))).response = none ∧
    ((clientFailing ⟨"context canceled"⟩).Do noFloat testType ⟨0⟩ Request.zero
        (some (gostr "before", ()))).err = some (.external ⟨"context canceled"⟩) ∧
    ((clientFailing ⟨"context canceled"⟩).Do noFloat testType ⟨0⟩ Request.zero
        (some (gostr "before", ()))).target = some (gostr "before", ()) ∧
    ((clientFailing ⟨"context canceled"⟩).Do noFloat testType ⟨0⟩ Request.zero
        (some (gostr "before", ()))).received = none :=
  Do_transport_error (clientFailing ⟨"context canceled"⟩) noFloat testType ⟨0⟩ Request.zero
    (some (gostr "before", ())) ⟨"context canceled"⟩ rfl

/-! ## Decoding a JSON value that matches the target -/

theorem indexWhere_eq_of_nodup (names : List (List Char)) (hnd : names.Nodup) (i : Nat)
    (h : i < names.length) : indexWhere (· == names[i]) names = some i := by
  induction names generalizing i with
  | nil => simp at h
  | cons n rest ih =>
    rw [List.nodup_cons] at hnd
    cases i with
    | zero => simp [indexWhere]
    | succ i =>
      have h' : i < rest.length := by simpa using h
      have hne : n ≠ rest[i] := fun he => hnd.1 (he ▸ List.getElem_mem h')
      simp [indexWhere, hne, ih hnd.2 i h']

theorem findField_names (names : List (List Char)) (hnd : names.Nodup) (i : Nat)
    (h : i < names.length) : findField names names[i] = some i := by
  unfold findField
  rw [indexWhere_eq_of_nodup names hnd i h]

theorem decodeMembers_eq_decodeSeq {σ : Type} (find : List Char → Option Nat)
    (decAt : Nat → JSON → σ → σ × Option JSONError) (ms : List (List Char × JSON)) :
    ∀ (k : Nat) (cur : σ), (∀ i (h : i < ms.length), find (ms[i]).1 = some (k + i)) →
      decodeMembers find decAt ms cur = decodeSeq decAt k (ms.map Prod.snd) cur := by
  induction ms with
  | nil => intro k cur _; rfl
  | cons m ms ih =>
    intro k cur h
    have h0 : find m.1 = some k := by simpa using h 0 (by simp)
    have ht : ∀ i (hi : i < ms.length), find (ms[i]).1 = some (k + 1 + i) := by
      intro i hi
      have := h (i + 1) (by simpa using hi)
      simpa [Nat.add_assoc, Nat.add_comm 1 i] using this
    simp only [decodeMembers, h0, List.map_cons, decodeSeq, ih (k + 1) _ ht]

theorem decodeSeq_succ (fc : FloatCodec) (n : List Char) (t : GoType) (rest : GoFields)
    (js : List JSON) :
    ∀ (k : Nat) (cur : (GoFields.cons n t rest).Val fc),
      decodeSeq (decodeField fc (.cons n t rest)) (k + 1) js cur
        = ((cur.1, (decodeSeq (decodeField fc rest) k js cur.2).1),
            (decodeSeq (decodeField fc rest) k js cur.2).2) := by
  induction js with
  | nil => intro k cur; rfl
  | cons j js ih =>
    intro k cur
    simp only [decodeSeq, decodeField, ih]

theorem decodeElems_of_forall₂ {α : Type} (dec : JSON → α → α × Option JSONError) (zero : α)
    (R : JSON → α → Prop) (hdec : ∀ j v cur, R j v → dec j cur = (v, none))
    (xs : List JSON) (vs : List α) (h : List.Forall₂ R xs vs) :
    ∀ cur, decodeElems dec zero xs cur = (vs, none) := by
  induction h with
  | nil => intro cur; rfl
  | cons hx _ ih =>
    intro cur
    simp only [decodeElems, hdec _ _ _ hx, ih, firstError]

mutual
theorem decodeValue_of_denotes (fc : FloatCodec) : (t : GoType) → t.WellFormed →
    ∀ (j : JSON) (v cur : t.Val fc), t.Denotes fc j v → decodeValue fc t j cur = (v, none)
  | .string, _, j, v, cur, h => by
    obtain ⟨s, rfl, rfl⟩ := h
    rfl
  | .int, _, j, v, cur, h => by
    obtain ⟨lit, rfl, hp⟩ := h
    simp only [decodeValue, hp]
  | .bool, _, j, v, cur, h => by
    have h' : j = .bool v := h
    subst h'
    rfl
  | .float64, _, j, v, cur, h => by
    obtain ⟨lit, rfl, hp⟩ := h
    simp only [decodeValue, hp]
  | .slice t, wf, j, v, cur, h => by
    rcases h with ⟨rfl, rfl⟩ | ⟨xs, vs, rfl, rfl, hall⟩
    · rfl
    · have := decodeElems_of_forall₂ (decodeValue fc t) (t.zero fc) (t.Denotes fc)
        (fun j v cur hj => decodeValue_of_denotes fc t wf j v cur hj) xs vs hall
      simp only [decodeValue, this]
  | .ptr t, wf, j, v, cur, h => by
    rcases h with ⟨rfl, rfl⟩ | ⟨w, hn, rfl, hw⟩
    · rfl
    · have := decodeValue_of_denotes fc t wf j w (cur.getD (t.zero fc)) hw
      cases j <;> first | exact absurd rfl hn | simp only [decodeValue, this]
  | .struct fs, wf, j, v, cur, h => by
    obtain ⟨ms, rfl, hk, hv⟩ := h
    have hfind : ∀ i (hi : i < ms.length), findField fs.names (ms[i]).1 = some (0 + i) := by
      intro i hi
      have hi' : i < fs.names.length := by rw [← hk]; simpa using hi
      have : (ms[i]).1 = fs.names[i] := by
        simp only [← hk, List.getElem_map]
      rw [this, Nat.zero_add]
      exact findField_names fs.names wf.1 i hi'
    simp only [decodeValue]
    rw [decodeMembers_eq_decodeSeq _ _ ms 0 cur hfind]
    exact decodeSeq_of_denotes fc fs wf.2 _ v cur hv
theorem decodeSeq_of_denotes (fc : FloatCodec) : (fs : GoFields) → fs.WellFormed →
    ∀ (js : List JSON) (v cur : fs.Val fc), fs.Denotes fc js v →
      decodeSeq (decodeField fc fs) 0 js cur = (v, none)
  | .nil, _, js, v, cur, h => by
    have h' : js = [] := h
    subst h'
    rfl
  | .cons n t rest, wf, js, v, cur, h => by
    obtain ⟨j, js', rfl, hj, hrest⟩ := h
    have h1 := decodeValue_of_denotes fc t wf.1 j v.1 cur.1 hj
    have h2 := decodeSeq_of_denotes fc rest wf.2 js' v.2 cur.2 hrest
    simp only [decodeSeq, decodeField, h1, decodeSeq_succ, h2, firstError]
end

/-- C7. When the transport delivers a response with status in 200..299 whose body starts with
a JSON value that matches the structure of the target's type, `Do` called with a non-nil
target returns that response and no error, and the target then holds, field for field, the
values the JSON value gives. -/
theorem Do_decodes_matching_body (c : Client) (fc : FloatCodec) (t : GoType) (ctx : Context)
    (req : Request) (cur v : t.Val fc) (r : Response) (j : JSON)
    (hwf : t.WellFormed) (hsend : c.doRequest ctx req = .ok r) (hs : is2xx r)
    (hbody : readValue r.Body = .ok j) (hmatch : t.Denotes fc j v) :
    (c.Do fc t ctx req (some cur)).err = none ∧
    (c.Do fc t ctx req (some cur)).target = some v ∧
    (c.Do fc t ctx req (some cur)).response = some r := by
  have hc : CheckResponseForErrors r = (none, r) := by
    unfold CheckResponseForErrors
    rw [if_pos hs]
  have hd : decoderDecode fc t r.Body cur = (v, none) := by
    unfold decoderDecode
    rw [hbody]
    simp only [decodeValue_of_denotes fc t hwf j v cur hmatch, Option.map_none']
  unfold Client.Do
  rw [hsend]
  simp only [hc, hd]
  exact ⟨trivial, trivial, trivial⟩

/-- Witness of C7: the response of the test `TestDo`, body `{"Test":"test"}`, decoded into a
`test` struct that held something else. -/
theorem Do_decodes_matching_body_witness :
    ((clientAnswering (responseOf 200 "\x7b\"Test\":\"test\"\x7d")).Do noFloat testType ⟨0⟩
        Request.zero (some (gostr "before", ()))).err = none ∧
    ((clientAnswering (responseOf 200 "\x7b\"Test\":\"test\"\x7d")).Do noFloat testType ⟨0⟩
        Request.zero (some (gostr "before", ()))).target = some (gostr "test", ()) ∧
    ((clientAnswering (responseOf 200 "\x7b\"Test\":\"test\"\x7d")).Do noFloat testType ⟨0⟩
        Request.zero (some (gostr "before", ()))).response
      = some (responseOf 200 "\x7b\"Test\":\"test\"\x7d") :=
  Do_decodes_matching_body (clientAnswering (responseOf 200 "\x7b\"Test\":\"test\"\x7d")) noFloat
    testType ⟨0⟩ Request.zero (gostr "before", ()) (gostr "test", ())
    (responseOf 200 "\x7b\"Test\":\"test\"\x7d") (.obj [("Test".toList, .str "test".toList)])
    ⟨by decide, trivial, trivial⟩ rfl (by decide) rfl
    ⟨[("Test".toList, .str "test".toList)], rfl, rfl,
      ⟨.str "test".toList, [], rfl, ⟨"test".toList, rfl, rfl⟩, rfl⟩⟩

/-! ## Reading back what the encoder writes -/

theorem ofChars_append (a b : List Char) : ofChars (a ++ b) = ofChars a ++ ofChars b := by
  simp [ofChars]

theorem ofChars_cons (a : Char) (b : List Char) : ofChars (a :: b) = .rune a :: ofChars b := rfl

theorem hexVal_hexDigit (k : Nat) (h : k < 16) : hexVal (hexDigit k) = some k := by
  interval_cases k <;> decide

theorem getu4_low (a b : Nat) (ha : a < 16) (hb : b < 16) :
    getu4 '0' '0' (hexDigit a) (hexDigit b) = some (a * 16 + b) := by
  simp [getu4, hexVal_hexDigit a ha, hexVal_hexDigit b hb, show hexVal '0' = some 0 by decide]

theorem escapedRune_of_lt (n : Nat) (after : GoString) (h : n < 0xd800) :
    escapedRune n after = (Char.ofNat n, 0) := by
  have : isSurrogate n = false := by
    simp [isSurrogate]; omega
  simp [escapedRune, this]

theorem unquoteFrom_skip (pre T : GoString) :
    unquoteFrom pre.length (pre ++ T) = unquoteFrom 0 T := by
  induction pre with
  | nil => rfl
  | cons x pre ih => simpa [unquoteFrom] using ih

theorem unquoteFrom_emit (x : GoRune) (rest : GoString) (c : Char) (skip : Nat)
    (h : stringStep x rest = .emit c skip) :
    unquoteFrom 0 (x :: rest) = (unquoteFrom skip rest).map fun p => c :: p := by
  rw [unquoteFrom, h]

theorem unquoteFrom_hex (h1 h2 h3 h4 : Char) (n : Nat) (c : Char) (T : GoString)
    (hg : getu4 h1 h2 h3 h4 = some n) (hn : n < 0xd800 ∨ 0xe000 ≤ n) (hc : Char.ofNat n = c) :
    unquoteFrom 0 (.rune '\\' :: .rune 'u' :: .rune h1 :: .rune h2 :: .rune h3 :: .rune h4 :: T)
      = (unquoteFrom 0 T).map fun p => c :: p := by
  have hs : isSurrogate n = false := by
    simp [isSurrogate]; omega
  have he : escapedRune n T = (c, 0) := by
    simp [escapedRune, hs, hc]
  have hstep : stringStep (.rune '\\')
      (.rune 'u' :: .rune h1 :: .rune h2 :: .rune h3 :: .rune h4 :: T) = .emit c 5 := by
    simp [stringStep, readHex4, hg, he]
  rw [unquoteFrom_emit _ _ _ _ hstep]
  exact congrArg _ (unquoteFrom_skip [.rune 'u', .rune h1, .rune h2, .rune h3, .rune h4] T)

theorem unquoteFrom_simple (e ch : Char) (T : GoString) (hne : e ≠ 'u')
    (hs : simpleEscape e = some ch) :
    unquoteFrom 0 (.rune '\\' :: .rune e :: T) = (unquoteFrom 0 T).map fun p => ch :: p := by
  have hstep : stringStep (.rune '\\') (.rune e :: T) = .emit ch 1 := by
    simp [stringStep, hne, hs]
  rw [unquoteFrom_emit _ _ _ _ hstep]
  exact congrArg _ (unquoteFrom_skip [.rune e] T)

theorem unquoteFrom_u00 (c : Char) (T : GoString) (h : c.toNat < 256) :
    unquoteFrom 0 (.rune '\\' :: .rune 'u' :: .rune '0' :: .rune '0'
        :: .rune (hexDigit (c.toNat / 16)) :: .rune (hexDigit (c.toNat % 16)) :: T)
      = (unquoteFrom 0 T).map fun p => c :: p := by
  have h1 : c.toNat / 16 < 16 := by omega
  have h2 : c.toNat % 16 < 16 := by omega
  have hg := getu4_low _ _ h1 h2
  have hn : c.toNat / 16 * 16 + c.toNat % 16 = c.toNat := Nat.div_add_mod' _ _
  rw [hn] at hg
  exact unquoteFrom_hex _ _ _ _ _ c T hg (by omega) (Char.ofNat_toNat c)

theorem unquoteFrom_escapeRune (x : GoRune) (T : GoString) :
    unquoteFrom 0 (ofChars (escapeRune x) ++ T)
      = (unquoteFrom 0 T).map fun p => (unquoted [x]) ++ p := by
  cases x with
  | bad b =>
    exact unquoteFrom_hex 'f' 'f' 'f' 'd' 0xfffd replacementChar T (by decide) (by decide) rfl
  | rune c =>
    simp only [unquoted, List.singleton_append]
    simp only [escapeRune]
    split_ifs with h1 h2 h3 h4 h5 h6 h7
    · rcases h1 with rfl | rfl
      · exact unquoteFrom_simple '"' '"' T (by decide) (by decide)
      · exact unquoteFrom_simple '\\' '\\' T (by decide) (by decide)
    · subst h2; exact unquoteFrom_simple 'n' '\n' T (by decide) (by decide)
    · subst h3; exact unquoteFrom_simple 'r' '\r' T (by decide) (by decide)
    · subst h4; exact unquoteFrom_simple 't' '\t' T (by decide) (by decide)
    · have hlt : c.toNat < 256 := by
        rcases h5 with h | rfl | rfl | rfl
        · omega
        · decide
        · decide
        · decide
      exact unquoteFrom_u00 c T hlt
    · subst h6
      exact unquoteFrom_hex '2' '0' '2' '8' 0x2028 _ T (by decide) (by decide) rfl
    · subst h7
      exact unquoteFrom_hex '2' '0' '2' '9' 0x2029 _ T (by decide) (by decide) rfl
    · have hq : c ≠ '"' := fun h => h1 (Or.inl h)
      have hb : c ≠ '\\' := fun h => h1 (Or.inr h)
      have hc : ¬ c.toNat < 0x20 := fun h => h5 (Or.inl h)
      have hstep : stringStep (.rune c) T = .emit c 0 := by
        simp [stringStep, hq, hb, hc]
      exact unquoteFrom_emit _ _ _ _ hstep

theorem unquoteFrom_escapeString (s : GoString) (rest : GoString) :
    unquoteFrom 0 (ofChars (escapeString s ++ ['"']) ++ rest) = .ok (unquoted s) rest := by
  induction s with
  | nil =>
    simp only [escapeString, ofChars, List.nil_append, List.map_cons, List.map_nil,
      List.cons_append, unquoted]
    rw [unquoteFrom]
    simp [stringStep]
  | cons x s ih =>
    have : ofChars (escapeString (x :: s) ++ ['"']) ++ rest
        = ofChars (escapeRune x) ++ (ofChars (escapeString s ++ ['"']) ++ rest) := by
      simp [escapeString, ofChars]
    rw [this, unquoteFrom_escapeRune, ih]
    cases x <;> rfl

theorem unquoted_ofChars (s : List Char) : unquoted (ofChars s) = s := by
  induction s with
  | nil => rfl
  | cons c s ih => simp only [ofChars, List.map_cons, unquoted] at ih ⊢; rw [ih]

/-! ### Numbers -/

theorem digitChar_isDigit (k : Nat) (h : k < 10) : (Char.ofNat ('0'.toNat + k)).isDigit = true := by
  interval_cases k <;> decide

theorem digitChar_val (k : Nat) (h : k < 10) :
    (Char.ofNat ('0'.toNat + k)).toNat - '0'.toNat = k := by
  interval_cases k <;> decide

theorem digitChar_eq_zero (k : Nat) (h : k < 10) (h0 : Char.ofNat ('0'.toNat + k) = '0') :
    k = 0 := by
  interval_cases k <;> first | rfl | exact absurd h0 (by decide)

theorem digitsValue_append (ds : List Char) (d : Char) :
    digitsValue (ds ++ [d]) = digitsValue ds * 10 + (d.toNat - '0'.toNat) := by
  simp [digitsValue, List.foldl_append]

/-- The digits `natDigits` writes: not empty, all decimal digits, with the number as their
value, and starting with `0` only for the number zero. -/
theorem natDigits_spec (fuel : Nat) : ∀ (n : Nat) (acc : List Char), n < fuel →
    ∃ ds, natDigits fuel n acc = ds ++ acc ∧ ds ≠ [] ∧ (∀ d ∈ ds, d.isDigit = true) ∧
      digitsValue ds = n ∧ (ds.head? = some '0' → ds = ['0']) := by
  induction fuel with
  | zero => intro n acc h; omega
  | succ fuel ih =>
    intro n acc h
    by_cases hn : n < 10
    · refine ⟨[Char.ofNat ('0'.toNat + n)], ?_, by simp, ?_, ?_, ?_⟩
      · simp [natDigits, hn]
      · intro d hd
        rw [List.mem_singleton] at hd
        rw [hd]
        exact digitChar_isDigit n hn
      · simp only [digitsValue, List.foldl_cons, List.foldl_nil, Nat.zero_mul, Nat.zero_add]
        exact digitChar_val n hn
      · intro h0
        simp only [List.head?_cons, Option.some.injEq] at h0
        rw [h0]
    · have hlt : n / 10 < fuel := by omega
      obtain ⟨ds, hds, hne, hall, hval, hhead⟩ :=
        ih (n / 10) (Char.ofNat ('0'.toNat + n % 10) :: acc) hlt
      have hmod : n % 10 < 10 := Nat.mod_lt _ (by decide)
      refine ⟨ds ++ [Char.ofNat ('0'.toNat + n % 10)], ?_, by simp, ?_, ?_, ?_⟩
      · rw [natDigits, if_neg hn, hds, List.append_assoc, List.singleton_append]
      · intro d hd
        rcases List.mem_append.mp hd with hd | hd
        · exact hall d hd
        · rw [List.mem_singleton] at hd
          rw [hd]
          exact digitChar_isDigit _ hmod
      · rw [digitsValue_append, hval, digitChar_val _ hmod]
        omega
      · intro h0
        cases ds with
        | nil => exact absurd rfl hne
        | cons d ds =>
          have hd := hhead (by simpa using h0)
          rw [hd] at hval
          have : n / 10 = 0 := by
            rw [← hval]; decide
          omega

theorem takeDigits_digits (ds : List Char) (rest : GoString) (hall : ∀ d ∈ ds, d.isDigit = true)
    (hrest : ∀ c tail, rest = .rune c :: tail → c.isDigit = false) :
    takeDigits (ofChars ds ++ rest) = (ds, rest) := by
  induction ds with
  | nil =>
    simp only [ofChars, List.map_nil, List.nil_append]
    cases rest with
    | nil => rfl
    | cons x tail =>
      cases x with
      | bad b => rfl
      | rune c =>
        have := hrest c tail rfl
        simp [takeDigits, this]
  | cons d ds ih =>
    have hd := hall d (List.mem_cons_self _ _)
    have ih' := ih (fun x hx => hall x (List.mem_cons_of_mem _ hx))
    simp only [ofChars, List.map_cons, List.cons_append] at ih' ⊢
    simp [takeDigits, hd, ih']

theorem Delimited.not_digit {rest : GoString} (h : Delimited rest) :
    ∀ c tail, rest = .rune c :: tail → c.isDigit = false := by
  obtain ⟨c, tail, rfl, hc⟩ := h
  intro c' tail' he
  injection he with h1 h2
  injection h1 with h1
  subst h1
  rcases hc with rfl | rfl | rfl | rfl <;> decide

theorem lexFraction_delimited {rest : GoString} (h : Delimited rest) :
    lexFraction rest = .ok [] rest := by
  obtain ⟨c, tail, rfl, hc⟩ := h
  have : c ≠ '.' := by rcases hc with rfl | rfl | rfl | rfl <;> decide
  simp [lexFraction, this]

theorem lexExponent_delimited {rest : GoString} (h : Delimited rest) :
    lexExponent rest = .ok [] rest := by
  obtain ⟨c, tail, rfl, hc⟩ := h
  have h1 : c ≠ 'e' := by rcases hc with rfl | rfl | rfl | rfl <;> decide
  have h2 : c ≠ 'E' := by rcases hc with rfl | rfl | rfl | rfl <;> decide
  simp [lexExponent, h1, h2]

/-- An unsigned numeral written by `natDigits` is read as the integer part of a number. -/
theorem lexIntPart_digits (ds : List Char) (rest : GoString) (hne : ds ≠ [])
    (hall : ∀ d ∈ ds, d.isDigit = true) (hhead : ds.head? = some '0' → ds = ['0'])
    (hrest : Delimited rest) :
    lexIntPart (ofChars ds ++ rest) = .ok ds rest := by
  cases ds with
  | nil => exact absurd rfl hne
  | cons d ds =>
    have hd := hall d (List.mem_cons_self _ _)
    simp only [ofChars, List.map_cons, List.cons_append]
    by_cases h0 : d = '0'
    · have := hhead (by simp [h0])
      simp only [List.cons.injEq] at this
      obtain ⟨_, rfl⟩ := this
      simp [lexIntPart, h0]
    · have ht := takeDigits_digits ds rest (fun x hx => hall x (List.mem_cons_of_mem _ hx))
        hrest.not_digit
      simp only [ofChars] at ht
      simp [lexIntPart, h0, hd, ht]

theorem lexNumber_formatInt (n : Int) (rest : GoString) (hrest : Delimited rest) :
    lexNumber (ofChars (formatInt n) ++ rest) = .ok (formatInt n) rest := by
  obtain ⟨ds, hds, hne, hall, _, hhead⟩ := natDigits_spec (n.natAbs + 1) n.natAbs [] (by omega)
  rw [List.append_nil] at hds
  have hip := lexIntPart_digits ds rest hne hall hhead hrest
  unfold formatInt
  rw [hds]
  by_cases hneg : n < 0
  · simp only [hneg, if_true, ofChars_cons, List.cons_append]
    simp [lexNumber, hip, lexFraction_delimited hrest, lexExponent_delimited hrest, Scan.map]
  · simp only [hneg, if_false]
    cases ds with
    | nil => exact absurd rfl hne
    | cons d ds =>
      have hd : d ≠ '-' := by
        intro h
        have := hall d (List.mem_cons_self _ _)
        rw [h] at this
        exact absurd this (by decide)
      simp only [ofChars_cons, List.cons_append] at hip ⊢
      simp [lexNumber, hd, hip, lexFraction_delimited hrest, lexExponent_delimited hrest,
        Scan.map]

theorem parseInt64_formatInt (n : Int) (h : - 2 ^ 63 ≤ n ∧ n < 2 ^ 63) :
    parseInt64 (formatInt n) = some n := by
  obtain ⟨ds, hds, hne, hall, hval, _⟩ := natDigits_spec (n.natAbs + 1) n.natAbs [] (by omega)
  rw [List.append_nil] at hds
  have hall' : ds.all Char.isDigit = true := by
    rw [List.all_eq_true]; exact hall
  unfold formatInt
  rw [hds]
  by_cases hneg : n < 0
  · have hn : -(n.natAbs : Int) = n := by omega
    simp only [hneg, if_true, parseInt64, List.head?_cons, List.tail_cons, hval]
    rw [if_pos ⟨hne, hall'⟩, hn, if_pos h]
  · have hn : (n.natAbs : Int) = n := by omega
    cases ds with
    | nil => exact absurd rfl hne
    | cons d ds =>
      have hd : d ≠ '-' := by
        intro h
        have := hall d (List.mem_cons_self _ _)
        rw [h] at this
        exact absurd this (by decide)
      have hd' : ¬ (some d = some '-') := fun h => hd (Option.some.inj h)
      simp only [hneg, if_false, parseInt64, List.head?_cons, hd', hval]
      rw [if_pos ⟨hne, hall'⟩, hn, if_pos h]

/-! ### Values -/

theorem ValueStart.not_space {c : Char} (h : ValueStart c) : isSpace c = false := by
  rcases h with rfl | rfl | h | rfl | rfl | rfl | rfl | rfl
  all_goals first | decide | skip
  simp only [isSpace, Bool.or_eq_false_iff, decide_eq_false_iff_not]
  refine ⟨⟨⟨?_, ?_⟩, ?_⟩, ?_⟩ <;> (intro he; rw [he] at h; exact absurd h (by decide))

theorem ValueStart.ne_close {c : Char} (h : ValueStart c) : c ≠ ']' ∧ c ≠ '}' := by
  rcases h with rfl | rfl | h | rfl | rfl | rfl | rfl | rfl
  all_goals first | decide | skip
  constructor <;> (intro he; rw [he] at h; exact absurd h (by decide))

theorem skipWS_cons_of_not_space (c : Char) (rest : GoString) (h : isSpace c = false) :
    skipWS (.rune c :: rest) = .rune c :: rest := by
  simp [skipWS, h]

theorem Delimited.skipWS {rest : GoString} (h : Delimited rest) (hn : ∀ tail, rest ≠ .rune '\n' :: tail) :
    skipWS rest = rest := by
  obtain ⟨c, tail, rfl, hc⟩ := h
  apply skipWS_cons_of_not_space
  rcases hc with rfl | rfl | rfl | rfl
  · decide
  · decide
  · decide
  · exact absurd rfl (hn tail)

theorem formatInt_head (n : Int) : ∃ c tl, formatInt n = c :: tl ∧ (c = '-' ∨ c.isDigit = true) := by
  obtain ⟨ds, hds, hne, hall, _, _⟩ := natDigits_spec (n.natAbs + 1) n.natAbs [] (by omega)
  rw [List.append_nil] at hds
  unfold formatInt
  rw [hds]
  by_cases hneg : n < 0
  · exact ⟨'-', ds, by simp [hneg], Or.inl rfl⟩
  · cases ds with
    | nil => exact absurd rfl hne
    | cons d ds => exact ⟨d, ds, by simp [hneg], Or.inr (hall d (List.mem_cons_self _ _))⟩

theorem encodeElems_head {α : Type} (enc : α → Option (List Char))
    (henc : ∀ x txt, enc x = some txt → ∃ c tl, txt = c :: tl ∧ ValueStart c) :
    ∀ (xs : List α) (body : List Char), xs ≠ [] → encodeElems enc xs = some body →
      ∃ c tl, body = c :: tl ∧ ValueStart c := by
  intro xs body hne h
  match xs, hne with
  | [x], _ => exact henc x body h
  | x :: y :: rest, _ =>
    simp only [encodeElems] at h
    rcases hx : enc x with _ | a
    · simp [hx] at h
    · rcases hy : encodeElems enc (y :: rest) with _ | b
      · simp [hx, hy] at h
      · simp only [hx, hy, Option.some.injEq] at h
        obtain ⟨c, tl, rfl, hc⟩ := henc x a hx
        exact ⟨c, tl ++ ',' :: b, by rw [← h]; rfl, hc⟩

theorem encodeValue_head (fc : FloatCodec) (hfc : fc.Lawful) : (t : GoType) → ∀ (v : t.Val fc)
    (txt : List Char), encodeValue fc t v = some txt → ∃ c tl, txt = c :: tl ∧ ValueStart c
  | .string, v, txt, h => by
    simp only [encodeValue, Option.some.injEq] at h
    exact ⟨'"', _, h.symm, Or.inl rfl⟩
  | .int, v, txt, h => by
    simp only [encodeValue, Option.some.injEq] at h
    obtain ⟨c, tl, hc, hs⟩ := formatInt_head v
    refine ⟨c, tl, by rw [← h, hc], ?_⟩
    rcases hs with rfl | hs
    · exact Or.inr (Or.inl rfl)
    · exact Or.inr (Or.inr (Or.inl hs))
  | .bool, v, txt, h => by
    simp only [encodeValue, Option.some.injEq] at h
    cases v
    · exact ⟨'f', _, h.symm, by simp [ValueStart]⟩
    · exact ⟨'t', _, h.symm, by simp [ValueStart]⟩
  | .float64, v, txt, h => by
    simp only [encodeValue] at h
    obtain ⟨c, tl, hc, hs⟩ := hfc.head_format v txt h
    refine ⟨c, tl, hc, ?_⟩
    rcases hs with rfl | hs
    · exact Or.inr (Or.inl rfl)
    · exact Or.inr (Or.inr (Or.inl hs))
  | .slice t, v, txt, h => by
    cases v with
    | none =>
      simp only [encodeValue, Option.some.injEq] at h
      exact ⟨'n', _, h.symm, by simp [ValueStart]⟩
    | some xs =>
      simp only [encodeValue, Option.map_eq_some'] at h
      obtain ⟨body, _, rfl⟩ := h
      exact ⟨'[', _, rfl, by simp [ValueStart]⟩
  | .ptr t, v, txt, h => by
    cases v with
    | none =>
      simp only [encodeValue, Option.some.injEq] at h
      exact ⟨'n', _, h.symm, by simp [ValueStart]⟩
    | some w =>
      simp only [encodeValue] at h
      exact encodeValue_head fc hfc t w txt h
  | .struct fs, v, txt, h => by
    simp only [encodeValue, Option.map_eq_some'] at h
    obtain ⟨body, _, rfl⟩ := h
    exact ⟨'{', _, rfl, by simp [ValueStart]⟩

theorem parseValue_string (fuel depth : Nat) (s : GoString) :
    parseValue (fuel + 1) depth (.rune '"' :: s) = (unquoteFrom 0 s).map fun str => .str str := by
  rw [parseValue, skipWS_cons_of_not_space _ _ (by decide)]
  simp

theorem parseValue_number (fuel depth : Nat) (c : Char) (s : GoString)
    (h : c = '-' ∨ c.isDigit = true) :
    parseValue (fuel + 1) depth (.rune c :: s)
      = (lexNumber (.rune c :: s)).map fun lit => .num lit := by
  have hs : isSpace c = false := ValueStart.not_space (by
    rcases h with h | h
    · exact Or.inr (Or.inl h)
    · exact Or.inr (Or.inr (Or.inl h)))
  have h1 : c ≠ '{' := by
    rcases h with rfl | h
    · decide
    · intro he; rw [he] at h; exact absurd h (by decide)
  have h2 : c ≠ '[' := by
    rcases h with rfl | h
    · decide
    · intro he; rw [he] at h; exact absurd h (by decide)
  have h3 : c ≠ '"' := by
    rcases h with rfl | h
    · decide
    · intro he; rw [he] at h; exact absurd h (by decide)
  rw [parseValue, skipWS_cons_of_not_space _ _ hs]
  simp [h1, h2, h3, h]

theorem parseValue_literal (fuel depth : Nat) (rest : GoString) :
    parseValue (fuel + 1) depth (ofChars ['t', 'r', 'u', 'e'] ++ rest) = .ok (.bool true) rest ∧
    parseValue (fuel + 1) depth (ofChars ['f', 'a', 'l', 's', 'e'] ++ rest)
      = .ok (.bool false) rest ∧
    parseValue (fuel + 1) depth (ofChars ['n', 'u', 'l', 'l'] ++ rest) = .ok .null rest := by
  refine ⟨?_, ?_, ?_⟩ <;>
  · simp only [ofChars, List.map_cons, List.map_nil, List.cons_append, List.nil_append]
    rw [parseValue, skipWS_cons_of_not_space _ _ (by decide)]
    simp [expectChars, Scan.map]

theorem parseValue_array (fuel depth : Nat) (c1 : Char) (s : GoString)
    (hd : depth + 1 ≤ maxNestingDepth) (h1 : isSpace c1 = false) (h2 : c1 ≠ ']') :
    parseValue (fuel + 1) depth (.rune '[' :: .rune c1 :: s)
      = (parseElems fuel (depth + 1) (.rune c1 :: s)).map fun xs => .arr xs := by
  rw [parseValue, skipWS_cons_of_not_space _ _ (by decide)]
  simp [skipWS_cons_of_not_space _ _ h1, h2, Nat.not_lt.mpr hd]

theorem parseValue_array_empty (fuel depth : Nat) (s : GoString)
    (hd : depth + 1 ≤ maxNestingDepth) :
    parseValue (fuel + 1) depth (.rune '[' :: .rune ']' :: s) = .ok (.arr []) s := by
  rw [parseValue, skipWS_cons_of_not_space _ _ (by decide)]
  simp [skipWS_cons_of_not_space _ _ (show isSpace ']' = false by decide), Nat.not_lt.mpr hd]

theorem parseValue_object (fuel depth : Nat) (c1 : Char) (s : GoString)
    (hd : depth + 1 ≤ maxNestingDepth) (h1 : isSpace c1 = false) (h2 : c1 ≠ '}') :
    parseValue (fuel + 1) depth (.rune '{' :: .rune c1 :: s)
      = (parseMembers fuel (depth + 1) (.rune c1 :: s)).map fun ms => .obj ms := by
  rw [parseValue, skipWS_cons_of_not_space _ _ (by decide)]
  simp [skipWS_cons_of_not_space _ _ h1, h2, Nat.not_lt.mpr hd]

theorem parseValue_object_empty (fuel depth : Nat) (s : GoString)
    (hd : depth + 1 ≤ maxNestingDepth) :
    parseValue (fuel + 1) depth (.rune '{' :: .rune '}' :: s) = .ok (.obj []) s := by
  rw [parseValue, skipWS_cons_of_not_space _ _ (by decide)]
  simp [skipWS_cons_of_not_space _ _ (show isSpace '}' = false by decide), Nat.not_lt.mpr hd]

theorem parseElems_last (fuel depth : Nat) (s rest : GoString) (v : JSON)
    (h : parseValue fuel depth s = .ok v (.rune ']' :: rest)) :
    parseElems (fuel + 1) depth s = .ok [v] rest := by
  rw [parseElems, h]
  simp [skipWS_cons_of_not_space _ _ (show isSpace ']' = false by decide)]

theorem parseElems_more (fuel depth : Nat) (s rest : GoString) (v : JSON)
    (h : parseValue fuel depth s = .ok v (.rune ',' :: rest)) :
    parseElems (fuel + 1) depth s = (parseElems fuel depth rest).map fun xs => v :: xs := by
  rw [parseElems, h]
  simp [skipWS_cons_of_not_space _ _ (show isSpace ',' = false by decide)]

theorem parseMembers_step (fuel depth : Nat) (n : List Char) (s rest : GoString) (v : JSON)
    (c : Char) (h : parseValue fuel depth s = .ok v (.rune c :: rest)) (hc : c = ',' ∨ c = '}') :
    parseMembers (fuel + 1) depth
        (ofChars (quoteString (ofChars n)) ++ .rune ':' :: s)
      = if c = ',' then (parseMembers fuel depth rest).map fun ms => (n, v) :: ms
        else .ok [(n, v)] rest := by
  have hq : ofChars (quoteString (ofChars n)) ++ .rune ':' :: s
      = .rune '"' :: (ofChars (escapeString (ofChars n) ++ ['"']) ++ .rune ':' :: s) := by
    simp [quoteString, ofChars]
  have hsc : isSpace c = false := by rcases hc with rfl | rfl <;> decide
  rw [hq, parseMembers, skipWS_cons_of_not_space _ _ (by decide)]
  simp only [if_true, unquoteFrom_escapeString, unquoted_ofChars,
    skipWS_cons_of_not_space _ _ (show isSpace ':' = false by decide), h,
    skipWS_cons_of_not_space _ _ hsc]
  rcases hc with rfl | rfl
  · simp
  · simp

theorem parseElems_encodeElems {α : Type} (enc : α → Option (List Char)) (js : α → JSON)
    (depth : Nat)
    (ih : ∀ (x : α) (txt : List Char) (fuel : Nat) (rest : GoString), enc x = some txt →
      txt.length < fuel → Delimited rest →
      parseValue fuel depth (ofChars txt ++ rest) = .ok (js x) rest) :
    ∀ (xs : List α) (body : List Char) (fuel : Nat) (rest : GoString), xs ≠ [] →
      encodeElems enc xs = some body → body.length + 1 < fuel →
      parseElems fuel depth (ofChars body ++ .rune ']' :: rest) = .ok (xs.map js) rest
  | [], _, _, _, hne, _, _ => absurd rfl hne
  | [x], body, fuel, rest, _, h, hf => by
    obtain ⟨f, rfl⟩ : ∃ f, fuel = f + 1 := ⟨fuel - 1, by omega⟩
    exact parseElems_last f depth _ rest (js x)
      (ih x body f _ h (by omega) ⟨']', rest, rfl, Or.inr (Or.inl rfl)⟩)
  | x :: y :: more, body, fuel, rest, _, h, hf => by
    obtain ⟨f, rfl⟩ : ∃ f, fuel = f + 1 := ⟨fuel - 1, by omega⟩
    simp only [encodeElems] at h
    rcases hx : enc x with _ | a
    · simp [hx] at h
    · rcases hy : encodeElems enc (y :: more) with _ | b
      · simp [hx, hy] at h
      · simp only [hx, hy, Option.some.injEq] at h
        subst h
        have hlen : (a ++ ',' :: b).length = a.length + b.length + 1 := by
          simp; omega
        have hv := ih x a f (.rune ',' :: (ofChars b ++ .rune ']' :: rest)) hx (by omega)
          ⟨',', _, rfl, Or.inl rfl⟩
        have hrec := parseElems_encodeElems enc js depth ih (y :: more) b f rest
          (by simp) hy (by omega)
        have heq : ofChars (a ++ ',' :: b) ++ .rune ']' :: rest
            = ofChars a ++ .rune ',' :: (ofChars b ++ .rune ']' :: rest) := by
          simp [ofChars]
        rw [heq, parseElems_more f depth _ _ _ hv, hrec]
        rfl

mutual
/-- The text the encoder writes for a value is read by the parser as the JSON value of that
value, leaving what follows the text. -/
theorem parseValue_encodeValue (fc : FloatCodec) (hfc : fc.Lawful) : (t : GoType) →
    ∀ (v : t.Val fc) (txt : List Char) (depth fuel : Nat) (rest : GoString),
      encodeValue fc t v = some txt → depth + t.depth ≤ maxNestingDepth → txt.length < fuel →
      Delimited rest → parseValue fuel depth (ofChars txt ++ rest) = .ok (jsonOf fc t v) rest
  | .string, v, txt, depth, fuel, rest, h, _, hf, _ => by
    obtain ⟨f, rfl⟩ : ∃ f, fuel = f + 1 := ⟨fuel - 1, by omega⟩
    simp only [encodeValue, Option.some.injEq] at h
    subst h
    have : ofChars (quoteString v) ++ rest
        = .rune '"' :: (ofChars (escapeString v ++ ['"']) ++ rest) := by
      simp [quoteString, ofChars]
    rw [this, parseValue_string, unquoteFrom_escapeString]
    rfl
  | .int, v, txt, depth, fuel, rest, h, _, hf, hr => by
    obtain ⟨f, rfl⟩ : ∃ f, fuel = f + 1 := ⟨fuel - 1, by omega⟩
    simp only [encodeValue, Option.some.injEq] at h
    subst h
    obtain ⟨c, tl, hc, hs⟩ := formatInt_head v
    have hl := lexNumber_formatInt v rest hr
    rw [hc, ofChars_cons, List.cons_append] at hl ⊢
    rw [parseValue_number f depth c _ hs, hl]
    simp only [Scan.map, jsonOf, hc]
  | .bool, v, txt, depth, fuel, rest, h, _, hf, _ => by
    obtain ⟨f, rfl⟩ : ∃ f, fuel = f + 1 := ⟨fuel - 1, by omega⟩
    simp only [encodeValue, Option.some.injEq] at h
    subst h
    cases v
    · exact (parseValue_literal f depth rest).2.1
    · exact (parseValue_literal f depth rest).1
  | .float64, v, txt, depth, fuel, rest, h, _, hf, hr => by
    obtain ⟨f, rfl⟩ : ∃ f, fuel = f + 1 := ⟨fuel - 1, by omega⟩
    simp only [encodeValue] at h
    obtain ⟨c, tl, hc, hs⟩ := hfc.head_format v txt h
    have hl := hfc.lex_format v txt rest h hr
    rw [hc, ofChars_cons, List.cons_append] at hl ⊢
    rw [parseValue_number f depth c _ hs, hl]
    simp only [Scan.map, jsonOf, h, Option.getD_some, hc]
  | .slice t, v, txt, depth, fuel, rest, h, hd, hf, _ => by
    obtain ⟨f, rfl⟩ : ∃ f, fuel = f + 1 := ⟨fuel - 1, by omega⟩
    cases v with
    | none =>
      simp only [encodeValue, Option.some.injEq] at h
      subst h
      exact (parseValue_literal f depth rest).2.2
    | some xs =>
      simp only [encodeValue, Option.map_eq_some'] at h
      obtain ⟨body, hb, rfl⟩ := h
      simp only [GoType.depth] at hd
      have heq : ofChars ('[' :: (body ++ [']'])) ++ rest
          = .rune '[' :: (ofChars body ++ .rune ']' :: rest) := by
        simp [ofChars]
      rw [heq]
      cases xs with
      | nil =>
        simp only [encodeElems, Option.some.injEq] at hb
        subst hb
        simp only [ofChars, List.map_nil, List.nil_append]
        rw [parseValue_array_empty f depth rest (by omega)]
        rfl
      | cons x xs =>
        obtain ⟨c, tl, hc, hs⟩ := encodeElems_head (encodeValue fc t)
          (fun x txt hx => encodeValue_head fc hfc t x txt hx) (x :: xs) body (by simp) hb
        have hlen : (('[' : Char) :: (body ++ [']'])).length = body.length + 2 := by simp
        have hrec := parseElems_encodeElems (encodeValue fc t) (jsonOf fc t) (depth + 1)
          (fun x txt fuel rest hx hfl hrl =>
            parseValue_encodeValue fc hfc t x txt (depth + 1) fuel rest hx (by omega) hfl hrl)
          (x :: xs) body f rest (by simp) hb (by omega)
        rw [hc, ofChars_cons, List.cons_append] at hrec ⊢
        rw [parseValue_array f depth c _ (by omega) hs.not_space hs.ne_close.1, hrec]
        rfl
  | .ptr t, v, txt, depth, fuel, rest, h, hd, hf, hr => by
    cases v with
    | none =>
      obtain ⟨f, rfl⟩ : ∃ f, fuel = f + 1 := ⟨fuel - 1, by omega⟩
      simp only [encodeValue, Option.some.injEq] at h
      subst h
      exact (parseValue_literal f depth rest).2.2
    | some w =>
      simp only [encodeValue] at h
      simp only [GoType.depth] at hd
      have := parseValue_encodeValue fc hfc t w txt depth fuel rest h hd hf hr
      rw [this]
      rfl
  | .struct fs, v, txt, depth, fuel, rest, h, hd, hf, _ => by
    obtain ⟨f, rfl⟩ : ∃ f, fuel = f + 1 := ⟨fuel - 1, by omega⟩
    simp only [encodeValue, Option.map_eq_some'] at h
    obtain ⟨body, hb, rfl⟩ := h
    simp only [GoType.depth] at hd
    have heq : ofChars ('{' :: (body ++ ['}'])) ++ rest
        = .rune '{' :: (ofChars body ++ .rune '}' :: rest) := by
      simp [ofChars]
    have hlen : (('{' : Char) :: (body ++ ['}'])).length = body.length + 2 := by simp
    rw [heq]
    cases fs with
    | nil =>
      simp only [encodeFields, Option.some.injEq] at hb
      subst hb
      simp only [ofChars, List.map_nil, List.nil_append]
      rw [parseValue_object_empty f depth rest (by omega)]
      rfl
    | cons n t more =>
      have hrec := parseMembers_encodeFields fc hfc (.cons n t more) v body (depth + 1) f rest
        (by simp) hb (by omega) (by omega)
      obtain ⟨tl, hc⟩ : ∃ tl, body = '"' :: tl := by
        cases more with
        | nil =>
          simp only [encodeFields, Option.map_eq_some'] at hb
          obtain ⟨a, _, rfl⟩ := hb
          exact ⟨_, rfl⟩
        | cons n2 t2 more2 =>
          simp only [encodeFields] at hb
          rcases hx : encodeValue fc t v.1 with _ | a
          · simp [hx] at hb
          · rcases hy : encodeFields fc (.cons n2 t2 more2) v.2 with _ | b
            · simp [hx, hy] at hb
            · simp only [hx, hy, Option.some.injEq] at hb
              exact ⟨_, hb.symm⟩
      rw [hc, ofChars_cons, List.cons_append] at hrec ⊢
      rw [parseValue_object f depth '"' _ (by omega) (by decide) (by decide), hrec]
      rfl
/-- The members the encoder writes for the fields of a struct are read by the parser as the
members of the JSON object of the struct. -/
theorem parseMembers_encodeFields (fc : FloatCodec) (hfc : fc.Lawful) : (fs : GoFields) →
    ∀ (v : fs.Val fc) (body : List Char) (depth fuel : Nat) (rest : GoString),
      fs ≠ .nil → encodeFields fc fs v = some body → depth + fs.depth ≤ maxNestingDepth →
      body.length + 1 < fuel →
      parseMembers fuel depth (ofChars body ++ .rune '}' :: rest) = .ok (membersOf fc fs v) rest
  | .nil, _, _, _, _, _, hne, _, _, _ => absurd rfl hne
  | .cons n t .nil, v, body, depth, fuel, rest, _, h, hd, hf => by
    obtain ⟨f, rfl⟩ : ∃ f, fuel = f + 1 := ⟨fuel - 1, by omega⟩
    simp only [encodeFields, Option.map_eq_some'] at h
    obtain ⟨a, ha, rfl⟩ := h
    simp only [GoFields.depth] at hd
    have hlen : (quoteString (ofChars n) ++ ':' :: a).length
        = (quoteString (ofChars n)).length + a.length + 1 := by
      simp; omega
    have hv := parseValue_encodeValue fc hfc t v.1 a depth f (.rune '}' :: rest) ha (by omega)
      (by omega) ⟨'}', rest, rfl, Or.inr (Or.inr (Or.inl rfl))⟩
    have heq : ofChars (quoteString (ofChars n) ++ ':' :: a) ++ .rune '}' :: rest
        = ofChars (quoteString (ofChars n)) ++ .rune ':' :: (ofChars a ++ .rune '}' :: rest) := by
      simp [ofChars]
    rw [heq, parseMembers_step f depth n _ rest _ '}' hv (Or.inr rfl)]
    simp [membersOf]
  | .cons n t (.cons n2 t2 more), v, body, depth, fuel, rest, _, h, hd, hf => by
    obtain ⟨f, rfl⟩ : ∃ f, fuel = f + 1 := ⟨fuel - 1, by omega⟩
    simp only [encodeFields] at h
    rcases hx : encodeValue fc t v.1 with _ | a
    · simp [hx] at h
    · rcases hy : encodeFields fc (.cons n2 t2 more) v.2 with _ | b
      · simp [hx, hy] at h
      · simp only [hx, hy, Option.some.injEq] at h
        subst h
        simp only [GoFields.depth] at hd
        have hlen : (quoteString (ofChars n) ++ ':' :: (a ++ ',' :: b)).length
            = (quoteString (ofChars n)).length + a.length + b.length + 2 := by
          simp; omega
        have hv := parseValue_encodeValue fc hfc t v.1 a depth f
          (.rune ',' :: (ofChars b ++ .rune '}' :: rest)) hx (by omega) (by omega)
          ⟨',', _, rfl, Or.inl rfl⟩
        have hrec := parseMembers_encodeFields fc hfc (.cons n2 t2 more) v.2 b depth f rest
          (by simp) hy (by simp only [GoFields.depth]; omega) (by omega)
        have heq : ofChars (quoteString (ofChars n) ++ ':' :: (a ++ ',' :: b))
              ++ .rune '}' :: rest
            = ofChars (quoteString (ofChars n)) ++ .rune ':'
              :: (ofChars a ++ .rune ',' :: (ofChars b ++ .rune '}' :: rest)) := by
          simp [ofChars]
        rw [heq, parseMembers_step f depth n _ _ _ ',' hv (Or.inl rfl)]
        simp [hrec, membersOf, Scan.map]
end

/-! ### The round trip -/

theorem ofChars_unquoted (s : GoString) (h : validUTF8 s = true) : ofChars (unquoted s) = s := by
  induction s with
  | nil => rfl
  | cons x s ih =>
    cases x with
    | bad b => simp [validUTF8] at h
    | rune c =>
      simp only [validUTF8] at h
      simp only [unquoted, ofChars_cons, ih h]

theorem jsonOf_ne_null (fc : FloatCodec) (t : GoType) (h : t.nullable = false) (v : t.Val fc) :
    jsonOf fc t v ≠ .null := by
  cases t <;> simp [GoType.nullable, jsonOf] at h ⊢

theorem forall₂_map_of_forall {α : Type} (R : JSON → α → Prop) (js : α → JSON) (xs : List α)
    (h : ∀ x ∈ xs, R (js x) x) : List.Forall₂ R (xs.map js) xs := by
  induction xs with
  | nil => exact List.Forall₂.nil
  | cons x xs ih =>
    exact List.Forall₂.cons (h x (List.mem_cons_self _ _))
      (ih (fun y hy => h y (List.mem_cons_of_mem _ hy)))

theorem membersOf_names (fc : FloatCodec) : (fs : GoFields) → ∀ (v : fs.Val fc),
    (membersOf fc fs v).map Prod.fst = fs.names
  | .nil, _ => rfl
  | .cons n t rest, v => by
    simp only [membersOf, List.map_cons, GoFields.names, membersOf_names fc rest v.2]

mutual
/-- The JSON value written for a faithfully represented Go value matches the type and says that
value. -/
theorem denotes_jsonOf (fc : FloatCodec) (hfc : fc.Lawful) : (t : GoType) →
    ∀ (v : t.Val fc), t.Faithful fc v → t.Denotes fc (jsonOf fc t v) v
  | .string, v, h => ⟨unquoted v, rfl, (ofChars_unquoted v h).symm⟩
  | .int, v, h => ⟨formatInt v, rfl, parseInt64_formatInt v h⟩
  | .bool, _, _ => rfl
  | .float64, v, h => by
    obtain ⟨lit, hl⟩ := Option.isSome_iff_exists.mp h
    exact ⟨lit, by simp only [jsonOf, hl, Option.getD_some], hfc.parse_format v lit hl⟩
  | .slice t, v, h => by
    cases v with
    | none => exact Or.inl ⟨rfl, rfl⟩
    | some xs =>
      exact Or.inr ⟨xs.map (jsonOf fc t), xs, rfl, rfl,
        forall₂_map_of_forall _ _ xs (fun x hx => denotes_jsonOf fc hfc t x (h xs rfl x hx))⟩
  | .ptr t, v, h => by
    cases v with
    | none => exact Or.inl ⟨rfl, rfl⟩
    | some w =>
      exact Or.inr ⟨w, jsonOf_ne_null fc t (h w rfl).1 w, rfl,
        denotes_jsonOf fc hfc t w (h w rfl).2⟩
  | .struct fs, v, h =>
    ⟨membersOf fc fs v, rfl, membersOf_names fc fs v, denotes_membersOf fc hfc fs v h⟩
/-- The members written for the fields of a struct match the fields one by one. -/
theorem denotes_membersOf (fc : FloatCodec) (hfc : fc.Lawful) : (fs : GoFields) →
    ∀ (v : fs.Val fc), fs.Faithful fc v → fs.Denotes fc ((membersOf fc fs v).map Prod.snd) v
  | .nil, _, _ => rfl
  | .cons _ t rest, v, h =>
    ⟨jsonOf fc t v.1, (membersOf fc rest v.2).map Prod.snd, rfl,
      denotes_jsonOf fc hfc t v.1 h.1, denotes_membersOf fc hfc rest v.2 h.2⟩
end

theorem encodeElems_isSome {α : Type} (enc : α → Option (List Char)) :
    ∀ (xs : List α), (∀ x ∈ xs, ∃ txt, enc x = some txt) → ∃ body, encodeElems enc xs = some body
  | [], _ => ⟨[], rfl⟩
  | [x], h => h x (List.mem_cons_self _ _)
  | x :: y :: rest, h => by
    obtain ⟨a, ha⟩ := h x (List.mem_cons_self _ _)
    obtain ⟨b, hb⟩ := encodeElems_isSome enc (y :: rest)
      (fun z hz => h z (List.mem_cons_of_mem _ hz))
    exact ⟨a ++ ',' :: b, by simp only [encodeElems, ha, hb]⟩

mutual
/-- The encoder accepts every faithfully represented value. -/
theorem encodeValue_isSome (fc : FloatCodec) : (t : GoType) → ∀ (v : t.Val fc),
    t.Faithful fc v → ∃ txt, encodeValue fc t v = some txt
  | .string, v, _ => ⟨_, rfl⟩
  | .int, v, _ => ⟨_, rfl⟩
  | .bool, v, _ => ⟨_, rfl⟩
  | .float64, v, h => Option.isSome_iff_exists.mp h
  | .slice t, v, h => by
    cases v with
    | none => exact ⟨_, rfl⟩
    | some xs =>
      obtain ⟨body, hb⟩ := encodeElems_isSome (encodeValue fc t) xs
        (fun x hx => encodeValue_isSome fc t x (h xs rfl x hx))
      exact ⟨'[' :: (body ++ [']']), by simp only [encodeValue, hb, Option.map_some']⟩
  | .ptr t, v, h => by
    cases v with
    | none => exact ⟨_, rfl⟩
    | some w => exact encodeValue_isSome fc t w (h w rfl).2
  | .struct fs, v, h => by
    obtain ⟨body, hb⟩ := encodeFields_isSome fc fs v h
    exact ⟨'{' :: (body ++ ['}']), by simp only [encodeValue, hb, Option.map_some']⟩
/-- The encoder accepts the fields of a struct whose values are faithfully represented. -/
theorem encodeFields_isSome (fc : FloatCodec) : (fs : GoFields) → ∀ (v : fs.Val fc),
    fs.Faithful fc v → ∃ body, encodeFields fc fs v = some body
  | .nil, _, _ => ⟨_, rfl⟩
  | .cons n t .nil, v, h => by
    obtain ⟨a, ha⟩ := encodeValue_isSome fc t v.1 h.1
    exact ⟨quoteString (ofChars n) ++ ':' :: a, by simp only [encodeFields, ha, Option.map_some']⟩
  | .cons n t (.cons n2 t2 more), v, h => by
    obtain ⟨a, ha⟩ := encodeValue_isSome fc t v.1 h.1
    obtain ⟨b, hb⟩ := encodeFields_isSome fc (.cons n2 t2 more) v.2 h.2
    exact ⟨quoteString (ofChars n) ++ ':' :: (a ++ ',' :: b),
      by simp only [encodeFields, ha, hb]⟩
end

/-- What `Encode` writes for a value is read by `Decoder.Decode` as the JSON value of that
value. -/
theorem readValue_encoderEncode (fc : FloatCodec) (hfc : fc.Lawful) (t : GoType)
    (v : t.Val fc) (payload : GoString) (hd : t.depth ≤ maxNestingDepth)
    (h : encoderEncode fc t v = some payload) :
    readValue { data := payload, readErr := none } = .ok (jsonOf fc t v) := by
  simp only [encoderEncode, Option.map_eq_some'] at h
  obtain ⟨txt, ht, rfl⟩ := h
  obtain ⟨c, tl, hc, hs⟩ := encodeValue_head fc hfc t v txt ht
  have hp := parseValue_encodeValue fc hfc t v txt 0 ((ofChars (txt ++ ['\n'])).length + 1)
    [.rune '\n'] ht (by omega) (by simp [ofChars]; omega) ⟨'\n', [], rfl, Or.inr (Or.inr (Or.inr rfl))⟩
  have heq : ofChars (txt ++ ['\n']) = ofChars txt ++ [.rune '\n'] := by simp [ofChars]
  have hsk : skipWS (ofChars (txt ++ ['\n'])) = .rune c :: (ofChars (tl ++ ['\n'])) := by
    rw [hc]
    exact skipWS_cons_of_not_space _ _ hs.not_space
  unfold readValue
  simp only [hsk]
  rw [← heq] at hp
  rw [hp]
  cases jsonOf fc t v <;> rfl

/-- Decoding, with `Decoder.Decode`, what `Encode` writes for a faithfully represented value of
a type gives back the value, whatever the target held. -/
theorem decode_encode (fc : FloatCodec) (hfc : fc.Lawful) (t : GoType) (v cur : t.Val fc)
    (hwf : t.WellFormed) (hd : t.depth ≤ maxNestingDepth) (hv : t.Faithful fc v) :
    ∃ payload, encoderEncode fc t v = some payload ∧
      decoderDecode fc t { data := payload, readErr := none } cur = (v, none) := by
  obtain ⟨txt, ht⟩ := encodeValue_isSome fc t v hv
  refine ⟨ofChars (txt ++ ['\n']), by simp only [encoderEncode, ht, Option.map_some'], ?_⟩
  unfold decoderDecode
  rw [readValue_encoderEncode fc hfc t v _ hd (by simp only [encoderEncode, ht, Option.map_some'])]
  simp only [decodeValue_of_denotes fc t hwf _ v cur (denotes_jsonOf fc hfc t v hv),
    Option.map_none']

/-! ## Request payloads -/

theorem wholeFloats_lawful : wholeFloats.Lawful where
  parse_format := by
    intro f lit h
    simp only [wholeFloats] at h ⊢
    split_ifs at h with hr
    injection h with h
    subst h
    exact parseInt64_formatInt f hr
  head_format := by
    intro f lit h
    simp only [wholeFloats] at h
    split_ifs at h with hr
    injection h with h
    subst h
    exact formatInt_head f
  lex_format := by
    intro f lit rest h hr
    simp only [wholeFloats] at h
    split_ifs at h with hr2
    injection h with h
    subst h
    exact lexNumber_formatInt f rest hr

theorem requestTypes_wellFormed (t : GoType) (ht : t ∈ requestTypes) :
    t.WellFormed ∧ t.depth ≤ maxNestingDepth := by
  simp only [requestTypes, List.mem_cons, List.mem_singleton, List.not_mem_nil, or_false] at ht
  rcases ht with rfl | rfl | rfl | rfl | rfl | rfl | rfl | rfl | rfl
  all_goals
    refine ⟨?_, by decide⟩
    simp only [LoginRequest, PollRequest, RefreshTokensRequest, SignupRequest, ListItemsRequest,
      GetItemRequest, FavoriteItemRequest, ActiveOrdersRequest, InactiveOrdersRequest, Origin,
      Paging, GoType.WellFormed, GoFields.WellFormed, GoFields.names, and_true, true_and]
    decide

theorem httpNewRequest_body (method url : GoString) (b1 b2 : Option GoString) (r : Request)
    (h : httpNewRequest method url b1 = .ok r) :
    httpNewRequest method url b2 = .ok { r with Body := b2 } := by
  unfold httpNewRequest at h ⊢
  by_cases hv : validMethod (if method = [] then gostr "GET" else method) = true
  · rw [if_neg (not_not.mpr hv)] at h ⊢
    rcases hu : Parse url with _ | u
    · rw [hu] at h; exact absurd h (by simp)
    · rw [hu] at h
      simp only [Except.ok.injEq] at h ⊢
      rw [← h]
  · rw [if_pos hv] at h
    exact absurd h (by simp)

/-- With a method other than GET, HEAD and OPTIONS, a request built with a body that the
encoder accepts is the request built without a body, carrying what the encoder wrote. -/
theorem NewRequest_with_body (c : Client) (fc : FloatCodec) (method url : GoString)
    (b : AnyValue fc) (payload : GoString) (req0 : Request) (hm : ¬ bodyless method)
    (henc : encoderEncode fc b.type b.value = some payload)
    (h0 : c.NewRequest fc method url none = .ok req0) :
    c.NewRequest fc method url (some b) = .ok { req0 with Body := some payload } := by
  unfold Client.NewRequest at h0 ⊢
  rcases hp : c.BaseURL.Parse url with _ | u
  · rw [hp] at h0; exact absurd h0 (by simp)
  · rw [hp] at h0
    simp only at h0 ⊢
    unfold Client.buildRequest at h0 ⊢
    rw [if_neg hm] at h0 ⊢
    simp only [henc] at h0 ⊢
    rcases hh : httpNewRequest method u.String (some []) with e | r
    · rw [hh] at h0; exact absurd h0 (by simp)
    · rw [hh] at h0
      rw [httpNewRequest_body method u.String (some []) (some payload) r hh]
      simp only [Except.ok.injEq] at h0 ⊢
      rw [← h0]

/-- C10, amended. For every request struct of the package and every value of it that is
represented faithfully (strings in valid UTF-8, coordinates of an `Origin` that `strconv`
writes and reads back), a request built by `NewRequest` with a method other than GET, HEAD and
OPTIONS and a pointer to the value as body is the request built without body carrying a
payload, and decoding the payload into a zero struct of the same type gives back the value
field for field. -/
theorem NewRequest_payload_round_trip (c : Client) (fc : FloatCodec) (hfc : fc.Lawful)
    (method url : GoString) (t : GoType) (ht : t ∈ requestTypes) (v : t.Val fc)
    (hv : t.Faithful fc v) (hm : ¬ bodyless method) (req0 : Request)
    (h0 : c.NewRequest fc method url none = .ok req0) :
    ∃ payload,
      c.NewRequest fc method url (some { type := .ptr t, value := some v })
        = .ok { req0 with Body := some payload } ∧
      decoderDecode fc t { data := payload, readErr := none } (t.zero fc) = (v, none) := by
  obtain ⟨hwf, hd⟩ := requestTypes_wellFormed t ht
  obtain ⟨payload, henc, hdec⟩ := decode_encode fc hfc t v (t.zero fc) hwf hd hv
  have henc' : encoderEncode fc (.ptr t) (some v) = some payload := by
    simpa only [encoderEncode, encodeValue] using henc
  exact ⟨payload, NewRequest_with_body c fc method url _ payload req0 hm henc' h0, hdec⟩


/-- Witness of the amended C10: a `ListItemsRequest` with an `Origin`, on a default client. -/
theorem NewRequest_payload_round_trip_witness :
    ∃ payload,
      (NewClient noTransport).NewRequest wholeFloats (gostr "POST") (gostr "item/v7/")
          (some { type := .ptr ListItemsRequest, value := some sampleListItemsRequest })
        = .ok { listRequestWithoutBody with Body := some payload } ∧
      decoderDecode wholeFloats ListItemsRequest { data := payload, readErr := none }
          (ListItemsRequest.zero wholeFloats) = (sampleListItemsRequest, none) :=
  NewRequest_payload_round_trip (NewClient noTransport) wholeFloats wholeFloats_lawful
    (gostr "POST") (gostr "item/v7/") ListItemsRequest (by simp [requestTypes])
    sampleListItemsRequest
    (by
      simp only [ListItemsRequest, Origin, GoType.Faithful, GoFields.Faithful,
        sampleListItemsRequest, GoType.nullable]
      decide)
    (by decide) listRequestWithoutBody rfl

/-- C10, counterexample. A `LoginRequest` whose `Email` is not valid UTF-8 does not come back
from its payload: the encoder writes the stray byte as the escape for U+FFFD, and decoding the
payload into a zero `LoginRequest` gives an `Email` holding U+FFFD. -/
theorem NewRequest_payload_invalid_utf8 :
    ((NewClient noTransport).NewRequest noFloat (gostr "POST") (gostr "auth/v3/authByEmail")
        (some { type := .ptr LoginRequest, value := some loginRequestBadEmail })).toOption.bind
        Request.Body
      = some (gostr "\x7b\"device_type\":\"IOS\",\"email\":\"\\ufffd\"\x7d\n") ∧
    decoderDecode noFloat LoginRequest
        { data := gostr "\x7b\"device_type\":\"IOS\",\"email\":\"\\ufffd\"\x7d\n",
          readErr := none } (LoginRequest.zero noFloat)
      = ((gostr "IOS", [.rune replacementChar], ()), none) ∧
    ((gostr "IOS", [GoRune.rune replacementChar], ()) : GoString × GoString × Unit)
      ≠ loginRequestBadEmail := by
  refine ⟨by decide, rfl, by decide⟩

/-! ## URLs of requests -/

theorem Char.toNat_lt_of_isAlphanum (c : Char) (h : c.isAlphanum = true) : c.toNat < 128 := by
  simp only [Char.isAlphanum, Char.isAlpha, Char.isUpper, Char.isLower, Char.isDigit,
    Bool.or_eq_true, Bool.and_eq_true, decide_eq_true_eq] at h
  have : c.toNat = c.val.toNat := rfl
  rw [this]
  rcases h with (h | h) | h
  · have := h.2; exact Nat.lt_of_le_of_lt (UInt32.le_def.mp this) (by decide)
  · have := h.2; exact Nat.lt_of_le_of_lt (UInt32.le_def.mp this) (by decide)
  · have := h.2; exact Nat.lt_of_le_of_lt (UInt32.le_def.mp this) (by decide)

theorem isUnreserved_range (c : Char) (h : isUnreserved c = true) :
    45 ≤ c.toNat ∧ c.toNat ≤ 126 := by
  simp only [isUnreserved, Bool.or_eq_true, decide_eq_true_eq] at h
  rcases h with (((h | rfl) | rfl) | rfl) | rfl
  · simp only [Char.isAlphanum, Char.isAlpha, Char.isUpper, Char.isLower, Char.isDigit,
      Bool.or_eq_true, Bool.and_eq_true, decide_eq_true_eq] at h
    have : c.toNat = c.val.toNat := rfl
    rw [this]
    rcases h with (h | h) | h
    · have h1 := UInt32.le_def.mp h.1; have h2 := UInt32.le_def.mp h.2
      exact ⟨Nat.le_trans (by decide) h1, Nat.le_trans h2 (by decide)⟩
    · have h1 := UInt32.le_def.mp h.1; have h2 := UInt32.le_def.mp h.2
      exact ⟨Nat.le_trans (by decide) h1, Nat.le_trans h2 (by decide)⟩
    · have h1 := UInt32.le_def.mp h.1; have h2 := UInt32.le_def.mp h.2
      exact ⟨Nat.le_trans (by decide) h1, Nat.le_trans h2 (by decide)⟩
  · decide
  · decide
  · decide
  · decide

/-- An item of a plain path as a character in the printable ASCII range that `escape` leaves
alone in a path. -/
theorem isPlainItem_spec (x : GoRune) (h : isPlainItem x = true) :
    ∃ c, x = .rune c ∧ 45 ≤ c.toNat ∧ c.toNat ≤ 126 ∧ shouldEscapeChar c .path = false := by
  cases x with
  | bad b => simp [isPlainItem] at h
  | rune c =>
    simp only [isPlainItem, Bool.or_eq_true, decide_eq_true_eq] at h
    rcases h with h | rfl
    · refine ⟨c, rfl, (isUnreserved_range c h).1, (isUnreserved_range c h).2, ?_⟩
      simp only [isUnreserved, Bool.or_eq_true, decide_eq_true_eq] at h
      rcases h with (((h | rfl) | rfl) | rfl) | rfl
      · simp [shouldEscapeChar, h]
      · decide
      · decide
      · decide
      · decide
    · exact ⟨'/', rfl, by decide, by decide, by decide⟩

theorem isPlainItem_ne (x : GoRune) (h : isPlainItem x = true) (c : Char)
    (hc : isPlainItem (.rune c) = false) : x ≠ .rune c := by
  intro he
  rw [he, hc] at h
  exact Bool.noConfusion h

theorem plain_not_mem (p : GoString) (hp : p.all isPlainItem = true) (c : Char)
    (hc : isPlainItem (.rune c) = false) : GoRune.rune c ∉ p := by
  intro hm
  exact isPlainItem_ne _ (List.all_eq_true.mp hp _ hm) c hc rfl

theorem cut_of_not_mem (sep : Char) (s : GoString) (h : GoRune.rune sep ∉ s) :
    cut sep s = (s, none) := by
  induction s with
  | nil => rfl
  | cons x s ih =>
    have hx : x ≠ .rune sep := fun he => h (he ▸ List.mem_cons_self _ _)
    have := ih (fun hm => h (List.mem_cons_of_mem _ hm))
    simp [cut, hx, this]

theorem cut_append (sep : Char) (a b : GoString) (h : GoRune.rune sep ∉ a) :
    cut sep (a ++ .rune sep :: b) = (a, some b) := by
  induction a with
  | nil => simp [cut]
  | cons x a ih =>
    have hx : x ≠ .rune sep := fun he => h (he ▸ List.mem_cons_self _ _)
    have := ih (fun hm => h (List.mem_cons_of_mem _ hm))
    simp [cut, hx, this]

theorem cut_fst_subset (sep : Char) (s : GoString) : ∀ x ∈ (cut sep s).1, x ∈ s := by
  induction s with
  | nil => intro x hx; simp [cut] at hx
  | cons y s ih =>
    intro x hx
    by_cases hy : y = .rune sep
    · simp [cut, hy] at hx
    · simp only [cut, hy, if_false, List.mem_cons] at hx
      rcases hx with rfl | hx
      · exact List.mem_cons_self _ _
      · exact List.mem_cons_of_mem _ (ih x hx)

theorem getSchemeLoop_no_colon (s : GoString) (h : GoRune.rune ':' ∉ s) :
    ∀ seen, getSchemeLoop seen s = .noScheme := by
  induction s with
  | nil => intro seen; rfl
  | cons x s ih =>
    intro seen
    have ih' := ih (fun hm => h (List.mem_cons_of_mem _ hm))
    cases x with
    | bad b => rfl
    | rune c =>
      have hc : c ≠ ':' := fun he => h (he ▸ List.mem_cons_self _ _)
      simp only [getSchemeLoop, ih', hc, if_false]
      split_ifs <;> rfl

/-- `escape` and `unescape` leave a string of plain path items as it is. -/
theorem escape_plain (p : GoString) (hp : p.all isPlainItem = true) : escape p .path = p := by
  induction p with
  | nil => rfl
  | cons x p ih =>
    simp only [List.all_cons, Bool.and_eq_true] at hp
    obtain ⟨c, rfl, _, h2, h3⟩ := isPlainItem_spec x hp.1
    have hlt : c.toNat < 0x80 := by omega
    have := ih hp.2
    simp only [escape] at this ⊢
    simp [List.flatMap_cons, escapeItem, hlt, h3, this]

theorem unescapeValid_plain (p : GoString) (hp : p.all isPlainItem = true) :
    unescapeValid .path 0 p = true := by
  induction p with
  | nil => rfl
  | cons x p ih =>
    simp only [List.all_cons, Bool.and_eq_true] at hp
    obtain ⟨c, rfl, h1, _, _⟩ := isPlainItem_spec x hp.1
    have hc : c ≠ '%' := by
      intro he; rw [he] at h1; exact absurd h1 (by decide)
    simp [unescapeValid, hc, ih hp.2]

theorem unescape_plain (p : GoString) (hp : p.all isPlainItem = true) :
    unescape p .path = some p := by
  have h1 : GoRune.rune '%' ∉ p := plain_not_mem p hp '%' (by decide)
  have h2 : p.any (· = .rune '%') = false := by
    rw [List.any_eq_false]
    intro x hx
    simp only [decide_eq_true_eq]
    exact fun he => h1 (he ▸ hx)
  simp [unescape, unescapeValid_plain p hp, h2]

theorem setPath_plain (u : URL) (p : GoString) (hp : p.all isPlainItem = true) :
    u.setPath p = some { u with Path := p, RawPath := [] } := by
  simp [URL.setPath, unescape_plain p hp, escape_plain p hp]

theorem containsCTLByte_plain (p : GoString) (hp : p.all isPlainItem = true) :
    containsCTLByte p = false := by
  unfold containsCTLByte
  rw [List.any_eq_false]
  intro x hx
  obtain ⟨c, rfl, h1, h2, _⟩ := isPlainItem_spec x (List.all_eq_true.mp hp x hx)
  simp only [Bool.or_eq_true, decide_eq_true_eq, not_or]
  omega

/-- `url.Parse` reads a plain relative path as a URL that has only that path. -/
theorem Parse_plainRelative (rel : GoString) (h : plainRelative rel = true) :
    Parse rel = some { URL.zero with Path := rel } := by
  simp only [plainRelative, plainPath, Bool.and_eq_true, bne_iff_ne, ne_eq] at h
  obtain ⟨⟨⟨hp, _⟩, _⟩, hhead⟩ := h
  have hhash : cut '#' rel = (rel, none) := cut_of_not_mem _ _ (plain_not_mem rel hp '#' (by decide))
  have hq : cut '?' rel = (rel, none) := cut_of_not_mem _ _ (plain_not_mem rel hp '?' (by decide))
  have hstar : rel ≠ gostr "*" := by
    intro he
    exact plain_not_mem rel hp '*' (by decide) (he ▸ List.mem_cons_self _ _)
  have hscheme := getSchemeLoop_no_colon rel (plain_not_mem rel hp ':' (by decide)) []
  have hlast : rel.getLast? ≠ some (.rune '?') := by
    intro he
    exact plain_not_mem rel hp '?' (by decide) (List.mem_of_getLast?_eq_some he)
  have hpre : hasPrefix "/" rel = false := by
    cases rel with
    | nil => rfl
    | cons x rel =>
      have : x ≠ .rune '/' := fun he => hhead (by rw [he]; rfl)
      simp [hasPrefix, gostr, ofChars, List.isPrefixOf_cons₂, Ne.symm this]
  have hpre2 : hasPrefix "//" rel = false := by
    cases rel with
    | nil => rfl
    | cons x rel =>
      have : x ≠ .rune '/' := fun he => hhead (by rw [he]; rfl)
      simp [hasPrefix, gostr, ofChars, List.isPrefixOf_cons₂, Ne.symm this]
  have hcolon : (cut '/' rel).1.any (· = .rune ':') = false := by
    rw [List.any_eq_false]
    intro x hx
    simp only [decide_eq_true_eq]
    intro he
    exact plain_not_mem rel hp ':' (by decide) (he ▸ cut_fst_subset '/' rel x hx)
  have hcolon' : GoRune.rune ':' ∉ (cut '/' rel).1 :=
    fun hm => plain_not_mem rel hp ':' (by decide) (cut_fst_subset '/' rel _ hm)
  have hparse : parseNoFragment rel = some { URL.zero with Path := rel } := by
    unfold parseNoFragment
    simp only [containsCTLByte_plain rel hp, hstar, hscheme, hq, hlast, hpre, hpre2, hcolon]
    simp [URL.zero, setPath_plain _ rel hp, hpre, hpre2, hcolon']
  unfold Parse
  simp only [hhash, hparse]

/-! ### Resolving a plain reference -/

theorem splitSlash_ne_nil (s : GoString) : splitSlash s ≠ [] := by
  cases s with
  | nil => simp [splitSlash]
  | cons x s =>
    simp only [splitSlash]
    split_ifs
    · simp
    · split <;> simp

theorem splitSlash_cons_slash (s : GoString) :
    splitSlash (.rune '/' :: s) = [] :: splitSlash s := by
  simp [splitSlash]

theorem splitSlash_cons_other (x : GoRune) (s seg : GoString) (segs : List GoString)
    (hx : x ≠ .rune '/') (hs : splitSlash s = seg :: segs) :
    splitSlash (x :: s) = (x :: seg) :: segs := by
  simp [splitSlash, hx, hs]

theorem joinSlash_cons_cons (x : GoRune) (seg : GoString) (segs : List GoString) :
    joinSlash ((x :: seg) :: segs) = x :: joinSlash (seg :: segs) := by
  cases segs <;> simp [joinSlash]

theorem joinSlash_splitSlash (s : GoString) : joinSlash (splitSlash s) = s := by
  induction s with
  | nil => rfl
  | cons x s ih =>
    rcases hs : splitSlash s with _ | ⟨seg, segs⟩
    · exact absurd hs (splitSlash_ne_nil s)
    · by_cases hx : x = .rune '/'
      · subst hx
        rw [splitSlash_cons_slash, hs, joinSlash, ← hs, ih]
        rfl
      · rw [splitSlash_cons_other x s seg segs hx hs, joinSlash_cons_cons, ← hs, ih]

theorem joinSlash_eq (e : GoString) (es : List GoString) :
    joinSlash (e :: es) = e ++ es.flatMap (fun x => .rune '/' :: x) := by
  induction es generalizing e with
  | nil => simp [joinSlash]
  | cons e2 es ih => simp [joinSlash, ih e2]

theorem splitSlash_append (a b : GoString) :
    splitSlash (a ++ .rune '/' :: b) = splitSlash a ++ splitSlash b := by
  induction a with
  | nil => simp [splitSlash]
  | cons x a ih =>
    rcases hs : splitSlash a with _ | ⟨seg, segs⟩
    · exact absurd hs (splitSlash_ne_nil a)
    · by_cases hx : x = .rune '/'
      · subst hx
        rw [List.cons_append, splitSlash_cons_slash, splitSlash_cons_slash, ih, List.cons_append]
      · rw [List.cons_append, splitSlash_cons_other x a seg segs hx hs,
          splitSlash_cons_other x _ seg (segs ++ splitSlash b) hx (by rw [ih, hs]; rfl)]
        rfl

theorem resolveStep_plain (st : GoString × Bool) (elem : GoString) (h1 : elem ≠ gostr ".")
    (h2 : elem ≠ gostr "..") :
    resolveStep st elem = ((if st.2 then st.1 else st.1 ++ [.rune '/']) ++ elem, false) := by
  simp [resolveStep, h1, h2]

theorem foldl_resolveStep_plain (es : List GoString) (h1 : gostr "." ∉ es)
    (h2 : gostr ".." ∉ es) : ∀ dst : GoString,
    es.foldl resolveStep (dst, false) = (dst ++ es.flatMap (fun x => .rune '/' :: x), false) := by
  induction es with
  | nil => intro dst; simp
  | cons e es ih =>
    intro dst
    have he1 : e ≠ gostr "." := fun h => h1 (h ▸ List.mem_cons_self _ _)
    have he2 : e ≠ gostr ".." := fun h => h2 (h ▸ List.mem_cons_self _ _)
    rw [List.foldl_cons, resolveStep_plain _ e he1 he2]
    simp only [Bool.false_eq_true, if_false]
    rw [ih (fun h => h1 (List.mem_cons_of_mem _ h)) (fun h => h2 (List.mem_cons_of_mem _ h))]
    simp

theorem cutLast_of_getLast (sep : Char) (s : GoString) (h : s.getLast? = some (.rune sep)) :
    ∃ dir, cutLast sep s = some (dir, []) ∧ s = dir ++ [.rune sep] := by
  obtain ⟨ys, rfl⟩ := List.getLast?_eq_some_iff.1 h
  refine ⟨ys, ?_, rfl⟩
  simp [cutLast, cut]

/-- A path that starts with a slash and has no `.` or `..` element resolves to itself. -/
theorem removeDotSegments_plain (full : GoString) (h0 : full.head? = some (.rune '/'))
    (h1 : gostr "." ∉ splitSlash full) (h2 : gostr ".." ∉ splitSlash full) :
    removeDotSegments full = full := by
  unfold removeDotSegments
  rcases hs : splitSlash full with _ | ⟨e, es⟩
  · exact absurd hs (splitSlash_ne_nil full)
  · rw [hs] at h1 h2
    have he1 : e ≠ gostr "." := fun h => h1 (h ▸ List.mem_cons_self _ _)
    have he2 : e ≠ gostr ".." := fun h => h2 (h ▸ List.mem_cons_self _ _)
    have hfold : (e :: es).foldl resolveStep ([.rune '/'], true)
        = (.rune '/' :: full, false) := by
      rw [List.foldl_cons, resolveStep_plain _ e he1 he2]
      simp only [if_true]
      rw [foldl_resolveStep_plain es (fun h => h1 (List.mem_cons_of_mem _ h))
        (fun h => h2 (List.mem_cons_of_mem _ h))]
      have := joinSlash_eq e es
      rw [← hs, joinSlash_splitSlash] at this
      rw [this]
      simp
    have hl1 : (e :: es).getLast? ≠ some (gostr ".") :=
      fun h => h1 (List.mem_of_getLast?_eq_some h)
    have hl2 : (e :: es).getLast? ≠ some (gostr "..") :=
      fun h => h2 (List.mem_of_getLast?_eq_some h)
    have hne : full ≠ [] := by
      intro h; rw [h] at h0; simp at h0
    have hlen : 1 < (GoRune.rune '/' :: full).length := by
      cases full with
      | nil => exact absurd rfl hne
      | cons x xs => simp
    simp only [hfold, hl1, hl2, or_self, if_false, List.drop_succ_cons, List.drop_zero, h0,
      hlen, and_self, if_true]

theorem mem_splitSlash_left (a b : GoString) (x : GoString) (h : x ∈ splitSlash (a ++ b))
    (ha : a.getLast? = some (.rune '/')) : x ∈ splitSlash a ∨ x ∈ splitSlash b := by
  obtain ⟨ys, rfl⟩ := List.getLast?_eq_some_iff.1 ha
  rw [List.append_assoc, List.singleton_append, splitSlash_append] at h
  rcases List.mem_append.mp h with h | h
  · left
    rw [show ys ++ [GoRune.rune '/'] = ys ++ GoRune.rune '/' :: [] from rfl, splitSlash_append]
    exact List.mem_append_left _ h
  · exact Or.inr h

/-- Resolving a plain relative path against a plain path that starts and ends with a slash
appends it. -/
theorem resolvePath_plain (base rel : GoString) (hb : plainPath base = true)
    (hb0 : base.head? = some (.rune '/')) (hb1 : base.getLast? = some (.rune '/'))
    (hr : plainRelative rel = true) : resolvePath base rel = base ++ rel := by
  simp only [plainRelative, plainPath, Bool.and_eq_true, bne_iff_ne, ne_eq,
    Bool.not_eq_true', List.contains_eq_any_beq, List.any_eq_false, beq_iff_eq] at hb hr
  obtain ⟨⟨_, hbd1⟩, hbd2⟩ := hb
  obtain ⟨⟨⟨_, hrd1⟩, hrd2⟩, hrh⟩ := hr
  have hb_d1 : gostr "." ∉ splitSlash base := fun h => hbd1 _ h rfl
  have hb_d2 : gostr ".." ∉ splitSlash base := fun h => hbd2 _ h rfl
  have hr_d1 : gostr "." ∉ splitSlash rel := fun h => hrd1 _ h rfl
  have hr_d2 : gostr ".." ∉ splitSlash rel := fun h => hrd2 _ h rfl
  have hbne : base ≠ [] := by
    intro h; rw [h] at hb0; simp at hb0
  obtain ⟨dir, hcut, hdir⟩ := cutLast_of_getLast '/' base hb1
  have hfull : joinReference base rel = base ++ rel := by
    unfold joinReference
    by_cases hrel : rel = []
    · simp [hrel]
    · simp only [hrel, if_false, hrh, not_false_eq_true, ne_eq, if_true, hcut]
      rw [← hdir]
  have h0 : (base ++ rel).head? = some (.rune '/') := by
    cases base with
    | nil => exact absurd rfl hbne
    | cons x xs => simpa using hb0
  have h1 : gostr "." ∉ splitSlash (base ++ rel) := by
    intro h
    rcases mem_splitSlash_left base rel _ h hb1 with h | h
    · exact hb_d1 h
    · exact hr_d1 h
  have h2 : gostr ".." ∉ splitSlash (base ++ rel) := by
    intro h
    rcases mem_splitSlash_left base rel _ h hb1 with h | h
    · exact hb_d2 h
    · exact hr_d2 h
  have hne : base ++ rel ≠ [] := by simp [hbne]
  unfold resolvePath
  rw [hfull, if_neg hne]
  exact removeDotSegments_plain (base ++ rel) h0 h1 h2

/-! ### Plain schemes and hosts -/

theorem all_not_mem (P : GoRune → Bool) (s : GoString) (hs : s.all P = true) (c : Char)
    (hc : P (.rune c) = false) : GoRune.rune c ∉ s := by
  intro hm
  have := List.all_eq_true.mp hs _ hm
  rw [hc] at this
  exact Bool.noConfusion this

theorem cut_spec (sep : Char) (s : GoString) :
    (∀ a, cut sep s = (a, none) → a = s ∧ GoRune.rune sep ∉ s) ∧
    (∀ a b, cut sep s = (a, some b) → s = a ++ .rune sep :: b ∧ GoRune.rune sep ∉ a) := by
  induction s with
  | nil =>
    constructor
    · intro a h
      simp only [cut, Prod.mk.injEq] at h
      exact ⟨h.1.symm, by simp⟩
    · intro a b h
      simp [cut] at h
  | cons x s ih =>
    by_cases hx : x = .rune sep
    · subst hx
      constructor
      · intro a h
        simp [cut] at h
      · intro a b h
        simp only [cut, if_true, Prod.mk.injEq, Option.some.injEq] at h
        obtain ⟨rfl, rfl⟩ := h
        exact ⟨rfl, by simp⟩
    · constructor
      · intro a h
        simp only [cut, hx, if_false, Prod.mk.injEq] at h
        obtain ⟨h1, h2⟩ := h
        obtain ⟨e, hn⟩ := ih.1 (cut sep s).1 (Prod.ext rfl h2)
        subst h1
        refine ⟨by rw [e], ?_⟩
        intro hm
        rcases List.mem_cons.mp hm with hm | hm
        · exact hx hm.symm
        · exact hn hm
      · intro a b h
        simp only [cut, hx, if_false, Prod.mk.injEq] at h
        obtain ⟨h1, h2⟩ := h
        obtain ⟨e, hn⟩ := ih.2 (cut sep s).1 b (Prod.ext rfl h2)
        subst h1
        refine ⟨by rw [List.cons_append, ← e], ?_⟩
        intro hm
        rcases List.mem_cons.mp hm with hm | hm
        · exact hx hm.symm
        · exact hn hm

theorem cutLast_of_not_mem (sep : Char) (s : GoString) (h : GoRune.rune sep ∉ s) :
    cutLast sep s = none := by
  have : GoRune.rune sep ∉ s.reverse := fun hm => h (List.mem_reverse.mp hm)
  simp [cutLast, cut_of_not_mem sep _ this]

theorem cutLast_append (sep : Char) (a b : GoString) (h : GoRune.rune sep ∉ b) :
    cutLast sep (a ++ .rune sep :: b) = some (a, b) := by
  have hr : GoRune.rune sep ∉ b.reverse := fun hm => h (List.mem_reverse.mp hm)
  have : (a ++ .rune sep :: b).reverse = b.reverse ++ .rune sep :: a.reverse := by simp
  simp [cutLast, this, cut_append sep _ _ hr]

/-- A plain host is a host name, alone or followed by a colon and a decimal port. -/
theorem plainHost_cases (h : GoString) (hp : plainHost h = true) :
    (h ≠ [] ∧ h.all isHostItem = true ∧ GoRune.rune ':' ∉ h) ∨
    (∃ name port, h = name ++ .rune ':' :: port ∧ name ≠ [] ∧ name.all isHostItem = true ∧
      port ≠ [] ∧ port.all isDigitItem = true) := by
  unfold plainHost at hp
  rcases hc : cut ':' h with ⟨name, _ | port⟩
  · rw [hc] at hp
    simp only [Bool.and_eq_true, Bool.not_eq_true', List.isEmpty_eq_false] at hp
    obtain ⟨rfl, hn⟩ := (cut_spec ':' h).1 name hc
    exact Or.inl ⟨by simpa using hp.1, hp.2, hn⟩
  · rw [hc] at hp
    simp only [Bool.and_eq_true, Bool.not_eq_true'] at hp
    obtain ⟨he, _⟩ := (cut_spec ':' h).2 name port hc
    exact Or.inr ⟨name, port, he, by simpa using hp.1.1.1, hp.1.1.2, by simpa using hp.1.2, hp.2⟩

theorem isHostItem_benign (x : GoRune) (h : isHostItem x = true) : isBenign x = true := by
  cases x with
  | bad b => simp [isHostItem] at h
  | rune c =>
    simp only [isHostItem, Bool.or_eq_true, decide_eq_true_eq] at h
    simp only [isBenign, Bool.or_eq_true, decide_eq_true_eq]
    tauto

theorem isDigitItem_benign (x : GoRune) (h : isDigitItem x = true) : isBenign x = true := by
  cases x with
  | bad b => simp [isDigitItem] at h
  | rune c =>
    simp only [isDigitItem] at h
    simp [isBenign, Char.isAlphanum, h]

theorem isSchemeItem_benign (x : GoRune) (h : isSchemeItem x = true) : isBenign x = true := by
  cases x with
  | bad b => simp [isSchemeItem] at h
  | rune c =>
    simp only [isSchemeItem, Bool.or_eq_true, decide_eq_true_eq] at h
    simp only [isBenign, Bool.or_eq_true, decide_eq_true_eq, Char.isAlphanum, Char.isAlpha]
    tauto

theorem isPlainItem_benign (x : GoRune) (h : isPlainItem x = true) : isBenign x = true := by
  cases x with
  | bad b => simp [isPlainItem] at h
  | rune c =>
    simp only [isPlainItem, isUnreserved, Bool.or_eq_true, decide_eq_true_eq] at h
    simp only [isBenign, Bool.or_eq_true, decide_eq_true_eq]
    tauto

theorem all_benign_of (P : GoRune → Bool) (hP : ∀ x, P x = true → isBenign x = true)
    (s : GoString) (hs : s.all P = true) : s.all isBenign = true := by
  rw [List.all_eq_true] at hs ⊢
  exact fun x hx => hP x (hs x hx)

theorem plainHost_benign (h : GoString) (hp : plainHost h = true) : h.all isBenign = true := by
  rcases plainHost_cases h hp with ⟨_, ha, _⟩ | ⟨name, port, rfl, _, hn, _, hpt⟩
  · exact all_benign_of _ isHostItem_benign h ha
  · rw [List.all_append, List.all_cons, all_benign_of _ isHostItem_benign name hn,
      all_benign_of _ isDigitItem_benign port hpt]
    rfl

theorem isBenign_spec (x : GoRune) (h : isBenign x = true) :
    ∃ c, x = .rune c ∧ 43 ≤ c.toNat ∧ c.toNat ≤ 126 := by
  cases x with
  | bad b => simp [isBenign] at h
  | rune c =>
    refine ⟨c, rfl, ?_⟩
    simp only [isBenign, Bool.or_eq_true, decide_eq_true_eq] at h
    rcases h with ((((((h | rfl) | rfl) | rfl) | rfl) | rfl) | rfl) | rfl
    · have := isUnreserved_range c (by simp [isUnreserved, h])
      omega
    all_goals decide

theorem containsCTLByte_benign (s : GoString) (hs : s.all isBenign = true) :
    containsCTLByte s = false := by
  unfold containsCTLByte
  rw [List.any_eq_false]
  intro x hx
  obtain ⟨c, rfl, h1, h2⟩ := isBenign_spec x (List.all_eq_true.mp hs x hx)
  simp only [Bool.or_eq_true, decide_eq_true_eq, not_or]
  omega

/-- What `escape` and `unescape` do in a host to a character of a plain host. -/
theorem hostChar_spec (c : Char) (h : c.isAlphanum = true ∨ c = '.' ∨ c = '-' ∨ c = ':') :
    c.toNat < 0x80 ∧ shouldEscapeChar c .host = false ∧ c ≠ '%' := by
  rcases h with h | rfl | rfl | rfl
  · refine ⟨Char.toNat_lt_of_isAlphanum c h, by simp [shouldEscapeChar, h], ?_⟩
    intro he; rw [he] at h; exact absurd h (by decide)
  · decide
  · decide
  · decide

theorem isHostItem_hostChar (x : GoRune) (h : isHostItem x = true ∨ isDigitItem x = true
    ∨ x = .rune ':') :
    ∃ c, x = .rune c ∧ (c.isAlphanum = true ∨ c = '.' ∨ c = '-' ∨ c = ':') := by
  rcases h with h | h | rfl
  · cases x with
    | bad b => simp [isHostItem] at h
    | rune c =>
      simp only [isHostItem, Bool.or_eq_true, decide_eq_true_eq] at h
      exact ⟨c, rfl, by tauto⟩
  · cases x with
    | bad b => simp [isDigitItem] at h
    | rune c =>
      simp only [isDigitItem] at h
      exact ⟨c, rfl, Or.inl (by simp [Char.isAlphanum, h])⟩
  · exact ⟨':', rfl, Or.inr (Or.inr (Or.inr rfl))⟩

theorem escape_host (h : GoString)
    (hh : ∀ x ∈ h, ∃ c, x = .rune c ∧ (c.isAlphanum = true ∨ c = '.' ∨ c = '-' ∨ c = ':')) :
    escape h .host = h ∧ unescape h .host = some h := by
  have key : escape h .host = h ∧ unescapeValid .host 0 h = true ∧ GoRune.rune '%' ∉ h := by
    induction h with
    | nil => exact ⟨rfl, rfl, by simp⟩
    | cons x h ih =>
      obtain ⟨c, rfl, hc⟩ := hh x (List.mem_cons_self _ _)
      obtain ⟨h1, h2, h3⟩ := hostChar_spec c hc
      obtain ⟨i1, i2, i3⟩ := ih (fun y hy => hh y (List.mem_cons_of_mem _ hy))
      refine ⟨?_, ?_, ?_⟩
      · simp only [escape] at i1 ⊢
        simp [List.flatMap_cons, escapeItem, h1, h2, i1]
      · simp [unescapeValid, h3, h2, i2]
      · intro hm
        rcases List.mem_cons.mp hm with hm | hm
        · injection hm with hm; exact h3 hm.symm
        · exact i3 hm
  refine ⟨key.1, ?_⟩
  have h2 : h.any (· = .rune '%') = false := by
    rw [List.any_eq_false]
    intro x hx
    simp only [decide_eq_true_eq]
    exact fun he => key.2.2 (he ▸ hx)
  simp [unescape, key.2.1, h2]

theorem plainHost_items (h : GoString) (hp : plainHost h = true) :
    ∀ x ∈ h, ∃ c, x = .rune c ∧ (c.isAlphanum = true ∨ c = '.' ∨ c = '-' ∨ c = ':') := by
  rcases plainHost_cases h hp with ⟨_, ha, _⟩ | ⟨name, port, rfl, _, hn, _, hpt⟩
  · intro x hx
    exact isHostItem_hostChar x (Or.inl (List.all_eq_true.mp ha x hx))
  · intro x hx
    rcases List.mem_append.mp hx with hx | hx
    · exact isHostItem_hostChar x (Or.inl (List.all_eq_true.mp hn x hx))
    · rcases List.mem_cons.mp hx with rfl | hx
      · exact isHostItem_hostChar _ (Or.inr (Or.inr rfl))
      · exact isHostItem_hostChar x (Or.inr (Or.inl (List.all_eq_true.mp hpt x hx)))

theorem validOptionalPort_digits (port : GoString) (hp : port.all isDigitItem = true) :
    validOptionalPort (.rune ':' :: port) = true := by
  simp only [validOptionalPort, decide_True, Bool.true_and]
  rw [List.all_eq_true] at hp ⊢
  intro x hx
  have := hp x hx
  cases x with
  | bad b => simp [isDigitItem] at this
  | rune c => simpa [isDigitItem] using this

/-- `parseHost` and `removeEmptyPort` keep a plain host as it is. -/
theorem parseHost_plain (h : GoString) (hp : plainHost h = true) :
    parseHost h = some h ∧ removeEmptyPort h = h ∧ h ≠ [] := by
  have hitems := plainHost_items h hp
  have hun := (escape_host h hitems).2
  have hb := plainHost_benign h hp
  have hne : h ≠ [] := by
    rcases plainHost_cases h hp with ⟨hne, _, _⟩ | ⟨name, port, rfl, _, _, _, _⟩
    · exact hne
    · simp
  have hbr : hasPrefix "[" h = false := by
    cases h with
    | nil => rfl
    | cons x h =>
      have : x ≠ .rune '[' := by
        intro he
        have := List.all_eq_true.mp hb x (List.mem_cons_self _ _)
        rw [he] at this
        exact absurd this (by decide)
      simp [hasPrefix, gostr, ofChars, List.isPrefixOf_cons₂, Ne.symm this]
  rcases plainHost_cases h hp with ⟨_, _, hn⟩ | ⟨name, port, rfl, _, _, hpne, hpt⟩
  · have hc := cutLast_of_not_mem ':' h hn
    refine ⟨?_, ?_, hne⟩
    · simp [parseHost, hbr, hc, hun]
    · simp [removeEmptyPort, hc]
  · have hnp : GoRune.rune ':' ∉ port := all_not_mem isDigitItem port hpt ':' (by decide)
    have hc := cutLast_append ':' name port hnp
    refine ⟨?_, ?_, hne⟩
    · simp [parseHost, hbr, hc, hun, validOptionalPort_digits port hpt]
    · simp [removeEmptyPort, hc, hpne]

theorem getSchemeLoop_found (s rest : GoString) (hs : s.all isSchemeItem = true) :
    ∀ seen, seen ≠ [] → getSchemeLoop seen (s ++ .rune ':' :: rest) = .found (seen ++ s) rest := by
  induction s with
  | nil =>
    intro seen hseen
    simp [getSchemeLoop, hseen]
  | cons x s ih =>
    intro seen hseen
    simp only [List.all_cons, Bool.and_eq_true] at hs
    cases x with
    | bad b => simp [isSchemeItem] at hs
    | rune c =>
      have hc := hs.1
      simp only [isSchemeItem, Bool.or_eq_true, decide_eq_true_eq] at hc
      have hrec := ih hs.2 (seen ++ [.rune c]) (by simp)
      rw [List.append_assoc, List.singleton_append] at hrec
      rw [List.cons_append, getSchemeLoop]
      by_cases ha : c.isAlpha = true
      · simp only [ha, if_true, hrec]
      · have hd : c.isDigit = true ∨ c = '+' ∨ c = '-' ∨ c = '.' := by
          rcases hc with (((h | h) | h) | h) | h
          · exact absurd (by simp [Char.isAlpha, h]) ha
          · exact Or.inl h
          · exact Or.inr (Or.inl h)
          · exact Or.inr (Or.inr (Or.inl h))
          · exact Or.inr (Or.inr (Or.inr h))
        simp only [ha, Bool.false_eq_true, if_false, hd, if_true, hseen, hrec]

theorem Char.toLower_of_not_upper (c : Char) (h : c.isUpper = false) : c.toLower = c := by
  simp only [Char.isUpper, Bool.and_eq_false_iff, decide_eq_false_iff_not] at h
  unfold Char.toLower
  have : ¬ (c.toNat ≥ 65 ∧ c.toNat ≤ 90) := by
    intro hh
    rcases h with h | h
    · exact h (UInt32.le_def.mpr hh.1)
    · exact h (UInt32.le_def.mpr hh.2)
  simp only [this, if_false]

theorem lowerItem_schemeItem (x : GoRune) (h : isSchemeItem x = true) : lowerItem x = x := by
  cases x with
  | bad b => rfl
  | rune c =>
    simp only [isSchemeItem, Bool.or_eq_true, decide_eq_true_eq] at h
    have hu : c.isUpper = false := by
      have hrange : ¬ (65 ≤ c.val ∧ c.val ≤ 90) := by
        rcases h with (((h | h) | rfl) | rfl) | rfl
        · simp only [Char.isLower, Bool.and_eq_true, decide_eq_true_eq] at h
          intro hh
          have h1 := UInt32.le_def.mp h.1
          have h2 := UInt32.le_def.mp hh.2
          have : (97 : UInt32).toNat ≤ (90 : UInt32).toNat := Nat.le_trans h1 h2
          exact absurd this (by decide)
        · simp only [Char.isDigit, Bool.and_eq_true, decide_eq_true_eq] at h
          intro hh
          have h1 := UInt32.le_def.mp h.2
          have h2 := UInt32.le_def.mp hh.1
          have : (65 : UInt32).toNat ≤ (57 : UInt32).toNat := Nat.le_trans h2 h1
          exact absurd this (by decide)
        · decide
        · decide
        · decide
      simp only [Char.isUpper, Bool.and_eq_false_iff, decide_eq_false_iff_not]
      by_cases h1 : c.val ≥ 65
      · exact Or.inr (fun h2 => hrange ⟨h1, h2⟩)
      · exact Or.inl h1
    simp only [lowerItem, Char.toLower_of_not_upper c hu]

/-- `getScheme` finds a plain scheme, which is already in lower case. -/
theorem plainScheme_spec (s rest : GoString) (hs : plainScheme s = true) :
    getSchemeLoop [] (s ++ .rune ':' :: rest) = .found s rest ∧ s.map lowerItem = s ∧ s ≠ [] ∧
      s.all isBenign = true := by
  cases s with
  | nil => simp [plainScheme] at hs
  | cons x s =>
    cases x with
    | bad b => simp [plainScheme] at hs
    | rune c =>
      simp only [plainScheme, Bool.and_eq_true] at hs
      have ha : c.isAlpha = true := by simp [Char.isAlpha, hs.1]
      have hc : isSchemeItem (.rune c) = true := by simp [isSchemeItem, hs.1]
      have hall : (GoRune.rune c :: s).all isSchemeItem = true := by
        simp only [List.all_cons, hc, hs.2, Bool.and_self]
      refine ⟨?_, ?_, by simp, all_benign_of _ isSchemeItem_benign _ hall⟩
      · rw [List.cons_append, getSchemeLoop]
        simp only [ha, if_true, List.nil_append]
        exact getSchemeLoop_found s rest hs.2 [.rune c] (by simp)
      · rw [List.all_eq_true] at hall
        exact (List.map_congr_left (fun x hx => lowerItem_schemeItem x (hall x hx))).trans
          (List.map_id _)

/-! ### Plain URLs are written and read back unchanged -/

theorem EscapedPath_plain (s h p : GoString) (hp : p.all isPlainItem = true) :
    (plainURL s h p).EscapedPath = p := by
  have hstar : p ≠ gostr "*" := by
    intro he
    exact plain_not_mem p hp '*' (by decide) (he ▸ List.mem_cons_self _ _)
  simp [URL.EscapedPath, plainURL, hstar, escape_plain p hp]

theorem String_plainURL (s h p : GoString) (hs : plainScheme s = true)
    (hh : plainHost h = true) (hp : p.all isPlainItem = true)
    (hp0 : p.head? = some (.rune '/')) :
    (plainURL s h p).String = s ++ .rune ':' :: .rune '/' :: .rune '/' :: (h ++ p) := by
  have hsne : s ≠ [] := (plainScheme_spec s [] hs).2.2.1
  have hhne : h ≠ [] := (parseHost_plain h hh).2.2
  have hesc := (escape_host h (plainHost_items h hh)).1
  have hpath := EscapedPath_plain s h p hp
  unfold URL.String
  simp only [hpath]
  simp [plainURL, hsne, hhne, hesc, hp0, gostr, ofChars]

theorem plainBase_eq (u : URL) (hb : plainBase u = true) :
    u = plainURL u.Scheme u.Host u.Path ∧ plainScheme u.Scheme = true ∧
      plainHost u.Host = true ∧ plainPath u.Path = true ∧
      u.Path.head? = some (.rune '/') ∧ u.Path.getLast? = some (.rune '/') := by
  simp only [plainBase, Bool.and_eq_true, beq_iff_eq, List.isEmpty_iff, Option.isNone_iff_eq_none,
    Bool.not_eq_true'] at hb
  obtain ⟨⟨⟨⟨⟨⟨⟨⟨⟨⟨⟨⟨h1, h2⟩, h3⟩, h4⟩, h5⟩, h6⟩, h7⟩, h8⟩, h9⟩, h10⟩, h11⟩, h12⟩, h13⟩ := hb
  refine ⟨?_, h1, h2, h3, h4, h5⟩
  cases u
  simp only [plainURL, URL.mk.injEq] at *
  simp [h6, h7, h8, h9, h10, h11, h12, h13]

/-- `url.Parse` reads `scheme://host/path` written for a plain URL as that URL. -/
theorem Parse_plainURL (s h p : GoString) (hs : plainScheme s = true)
    (hh : plainHost h = true) (hp : p.all isPlainItem = true)
    (hp0 : p.head? = some (.rune '/')) :
    Parse (s ++ .rune ':' :: .rune '/' :: .rune '/' :: (h ++ p)) = some (plainURL s h p) := by
  obtain ⟨hscheme, hlower, hsne, hsb⟩ :=
    plainScheme_spec s (.rune '/' :: .rune '/' :: (h ++ p)) hs
  obtain ⟨hhost, _, hhne⟩ := parseHost_plain h hh
  have hhb := plainHost_benign h hh
  have hpb := all_benign_of _ isPlainItem_benign p hp
  obtain ⟨p', rfl⟩ : ∃ p', p = .rune '/' :: p' := by
    cases p with
    | nil => simp at hp0
    | cons x p' =>
      simp only [List.head?_cons, Option.some.injEq] at hp0
      exact ⟨p', by rw [hp0]⟩
  have hrestb : (GoRune.rune '/' :: .rune '/' :: (h ++ .rune '/' :: p')).all isBenign = true := by
    simp only [List.all_cons, List.all_append, hhb, Bool.and_true, Bool.true_and] at hpb ⊢
    simpa [isBenign] using hpb
  have hwhole : (s ++ .rune ':' :: .rune '/' :: .rune '/' :: (h ++ .rune '/' :: p')).all isBenign
      = true := by
    rw [List.all_append, hsb, List.all_cons, hrestb]
    rfl
  have hctl := containsCTLByte_benign _ hwhole
  have hstar : s ++ .rune ':' :: .rune '/' :: .rune '/' :: (h ++ .rune '/' :: p') ≠ gostr "*" := by
    intro he
    have := all_not_mem isBenign _ hwhole '*' (by decide)
    rw [he] at this
    exact this (List.mem_cons_self _ _)
  have hhash := cut_of_not_mem '#' _ (all_not_mem isBenign _ hwhole '#' (by decide))
  have hq := cut_of_not_mem '?' _ (all_not_mem isBenign _ hrestb '?' (by decide))
  have hlast : (GoRune.rune '/' :: .rune '/' :: (h ++ .rune '/' :: p')).getLast?
      ≠ some (.rune '?') :=
    fun he => all_not_mem isBenign _ hrestb '?' (by decide) (List.mem_of_getLast?_eq_some he)
  have hslash : GoRune.rune '/' ∉ h :=
    all_not_mem (fun x => isHostItem x || isDigitItem x || x == .rune ':') h (by
      rw [List.all_eq_true]
      intro x hx
      obtain ⟨c, rfl, hc⟩ := plainHost_items h hh x hx
      rcases hc with hc | rfl | rfl | rfl
      · simp [isHostItem, hc]
      · decide
      · decide
      · decide) '/' (by decide)
  have hat : GoRune.rune '@' ∉ h := all_not_mem isBenign h hhb '@' (by decide)
  have hcut : cut '/' (h ++ .rune '/' :: p') = (h, some p') := cut_append '/' h p' hslash
  have hauth : parseAuthority h = some (none, h) := by
    simp [parseAuthority, cutLast_of_not_mem '@' h hat, hhost]
  have hparse : parseNoFragment (s ++ .rune ':' :: .rune '/' :: .rune '/' :: (h ++ .rune '/' :: p'))
      = some (plainURL s h (.rune '/' :: p')) := by
    unfold parseNoFragment
    simp only [hctl, hstar, hscheme, hlower, hq, hlast]
    simp [hasPrefix, gostr, ofChars, List.isPrefixOf_cons₂, hsne, hcut, hauth,
      setPath_plain _ _ hp, plainURL, URL.zero]
  unfold Parse
  simp only [hhash, hparse]

/-- Resolving a plain relative path against a plain base URL appends it to the path. -/
theorem URL_Parse_plain (u : URL) (rel : GoString) (hb : plainBase u = true)
    (hr : plainRelative rel = true) :
    u.Parse rel = some (plainURL u.Scheme u.Host (u.Path ++ rel)) := by
  obtain ⟨hu, hs, hh, hp, hp0, hp1⟩ := plainBase_eq u hb
  have hrel := Parse_plainRelative rel hr
  have hres := resolvePath_plain u.Path rel hp hp0 hp1 hr
  have hpa : u.Path.all isPlainItem = true := by
    simp only [plainPath, Bool.and_eq_true] at hp
    exact hp.1.1
  have hra : rel.all isPlainItem = true := by
    simp only [plainRelative, plainPath, Bool.and_eq_true] at hr
    exact hr.1.1.1
  have hall : (u.Path ++ rel).all isPlainItem = true := by
    rw [List.all_append, hpa, hra]; rfl
  have he1 : u.EscapedPath = u.Path := by
    rw [hu]; exact EscapedPath_plain _ _ _ hpa
  have he2 : ({ URL.zero with Path := rel } : URL).EscapedPath = rel :=
    EscapedPath_plain [] [] rel hra
  have hsne : u.Scheme ≠ [] := (plainScheme_spec u.Scheme [] hs).2.2.1
  unfold URL.Parse
  rw [hrel]
  simp only [Option.map_some', Option.some.injEq]
  unfold URL.ResolveReference
  simp only [he1, he2, hres]
  rw [hu]
  simp [URL.zero, plainURL, setPath_plain _ _ hall]

/-! ### The URL of a request -/

theorem httpNewRequest_url (method url : GoString) (body : Option GoString) (r : Request)
    (u : URL) (hparse : Parse url = some u) (hport : removeEmptyPort u.Host = u.Host)
    (h : httpNewRequest method url body = .ok r) : r.URL = some u := by
  unfold httpNewRequest at h
  rw [hparse] at h
  split_ifs at h
  all_goals
    simp only [Except.ok.injEq] at h
    rw [← h]
    simp only [hport]

theorem buildRequest_url (fc : FloatCodec) (method : GoString) (u : URL)
    (body : Option (AnyValue fc)) (r : Request) (hparse : Parse u.String = some u)
    (hport : removeEmptyPort u.Host = u.Host)
    (h : Client.buildRequest fc method u body = .ok r) : r.URL = some u := by
  unfold Client.buildRequest at h
  split_ifs at h
  · exact httpNewRequest_url _ _ _ r u hparse hport h
  · split at h
    · exact absurd h (by simp)
    · next buf _ =>
      rcases hh : httpNewRequest method u.String (some buf) with e | r2
      · rw [hh] at h; exact absurd h (by simp)
      · rw [hh] at h
        simp only [Except.ok.injEq] at h
        rw [← h]
        exact httpNewRequest_url _ _ _ r2 u hparse hport hh

/-- C9, amended. For a client whose BaseURL is a plain base URL, `scheme://host/p1/.../pn/`
with plain path segments (none of them `.` or `..`), a final slash and no user information,
query or fragment, and for every plain relative path, every request that `NewRequest` builds
has as URL string the BaseURL string followed by the relative path; and `NewRequest` does build
a request when the method is a token (or empty) and there is no body. -/
theorem NewRequest_url_plain (c : Client) (fc : FloatCodec) (method rel : GoString)
    (body : Option (AnyValue fc)) (hb : plainBase c.BaseURL = true)
    (hr : plainRelative rel = true) :
    (∀ req, c.NewRequest fc method rel body = .ok req →
      req.URL.map URL.String = some (c.BaseURL.String ++ rel)) ∧
    (validMethod (if method = [] then gostr "GET" else method) = true →
      ∃ req, c.NewRequest fc method rel none = .ok req) := by
  obtain ⟨hu, hs, hh, hp, hp0, hp1⟩ := plainBase_eq c.BaseURL hb
  have hpa : c.BaseURL.Path.all isPlainItem = true := by
    simp only [plainPath, Bool.and_eq_true] at hp
    exact hp.1.1
  have hra : rel.all isPlainItem = true := by
    simp only [plainRelative, plainPath, Bool.and_eq_true] at hr
    exact hr.1.1.1
  have hall : (c.BaseURL.Path ++ rel).all isPlainItem = true := by
    rw [List.all_append, hpa, hra]; rfl
  have hhead : (c.BaseURL.Path ++ rel).head? = some (.rune '/') := by
    cases hq : c.BaseURL.Path with
    | nil => rw [hq] at hp0; simp at hp0
    | cons x xs => rw [hq] at hp0; simpa using hp0
  have hres := URL_Parse_plain c.BaseURL rel hb hr
  have hstr := String_plainURL c.BaseURL.Scheme c.BaseURL.Host (c.BaseURL.Path ++ rel) hs hh hall
    hhead
  have hbase := String_plainURL c.BaseURL.Scheme c.BaseURL.Host c.BaseURL.Path hs hh hpa hp0
  rw [← hu] at hbase
  have hparse := Parse_plainURL c.BaseURL.Scheme c.BaseURL.Host (c.BaseURL.Path ++ rel) hs hh
    hall hhead
  rw [← hstr] at hparse
  have hport : removeEmptyPort (plainURL c.BaseURL.Scheme c.BaseURL.Host
      (c.BaseURL.Path ++ rel)).Host
      = (plainURL c.BaseURL.Scheme c.BaseURL.Host (c.BaseURL.Path ++ rel)).Host :=
    (parseHost_plain c.BaseURL.Host hh).2.1
  have hcat : (plainURL c.BaseURL.Scheme c.BaseURL.Host (c.BaseURL.Path ++ rel)).String
      = c.BaseURL.String ++ rel := by
    rw [hstr, hbase]
    simp
  constructor
  · intro req h
    unfold Client.NewRequest at h
    rw [hres] at h
    simp only at h
    rcases hbuild : Client.buildRequest fc method
        (plainURL c.BaseURL.Scheme c.BaseURL.Host (c.BaseURL.Path ++ rel)) body with e | r
    · rw [hbuild] at h; exact absurd h (by simp)
    · rw [hbuild] at h
      simp only [Except.ok.injEq] at h
      rw [← h]
      simp only [buildRequest_url fc method _ body r hparse hport hbuild, Option.map_some', hcat]
  · intro hv
    unfold Client.NewRequest
    rw [hres]
    simp only
    unfold Client.buildRequest
    split_ifs
    · simp [httpNewRequest, hv, hparse]
    · simp [httpNewRequest, hv, hparse]

/-- Witness of the amended C9: the default client and the path `no/prefix` of the test
`TestNewRequest_valid`. -/
theorem NewRequest_url_plain_witness :
    (∀ req, (NewClient noTransport).NewRequest noFloat (gostr "POST") (gostr "no/prefix") none
        = .ok req →
      req.URL.map URL.String = some ((NewClient noTransport).BaseURL.String ++ gostr "no/prefix")) ∧
    (validMethod (if gostr "POST" = [] then gostr "GET" else gostr "POST") = true →
      ∃ req, (NewClient noTransport).NewRequest noFloat (gostr "POST") (gostr "no/prefix") none
        = .ok req) :=
  NewRequest_url_plain (NewClient noTransport) noFloat (gostr "POST") (gostr "no/prefix") none
    (by decide) (by decide)

/-- C9, counterexample. The base URL `https://apptoogoodtogo.com/api/./` ends with a slash and
`no/prefix` is a plain relative path, yet the URL of the request is
`https://apptoogoodtogo.com/api/no/prefix`, which is not the base URL string followed by the
path: resolution removes the `.` segment of the base. -/
theorem NewRequest_url_dot_base :
    dotBaseURL.String = gostr "https://apptoogoodtogo.com/api/./" ∧
    Parse (gostr "https://apptoogoodtogo.com/api/./") = some dotBaseURL ∧
    plainRelative (gostr "no/prefix") = true ∧
    (({ NewClient noTransport with BaseURL := dotBaseURL }.NewRequest noFloat (gostr "POST")
        (gostr "no/prefix") none).toOption.bind Request.URL).map URL.String
      = some (gostr "https://apptoogoodtogo.com/api/no/prefix") ∧
    gostr "https://apptoogoodtogo.com/api/no/prefix" ≠ dotBaseURL.String ++ gostr "no/prefix" := by
  refine ⟨by decide, by decide, by decide, by decide, by decide⟩

/-! ## Headers of a request -/

theorem Header.lookup_store_same (h : Header) (key : GoString) (vs : List GoString) :
    Header.lookup (Header.store h key vs) key = vs := by
  induction h with
  | nil => simp [Header.store, Header.lookup]
  | cons kv rest ih =>
    obtain ⟨k, old⟩ := kv
    by_cases hk : k = key
    · simp [Header.store, Header.lookup, hk]
    · simp [Header.store, Header.lookup, hk, ih]

theorem Header.lookup_store_ne (h : Header) (key key' : GoString) (vs : List GoString)
    (hne : key' ≠ key) :
    Header.lookup (Header.store h key vs) key' = Header.lookup h key' := by
  induction h with
  | nil => simp [Header.store, Header.lookup, Ne.symm hne]
  | cons kv rest ih =>
    obtain ⟨k, old⟩ := kv
    by_cases hk : k = key
    · subst hk
      simp [Header.store, Header.lookup, Ne.symm hne]
    · by_cases hk' : k = key'
      · subst hk'
        simp [Header.store, Header.lookup, hk]
      · simp [Header.store, Header.lookup, hk, hk', ih]

theorem Header.lookup_Set (h : Header) (key value key' : GoString) :
    Header.lookup (Header.Set h key value) key'
      = if key' = CanonicalMIMEHeaderKey key then [value] else Header.lookup h key' := by
  unfold Header.Set
  split_ifs with hk
  · rw [hk, Header.lookup_store_same]
  · rw [Header.lookup_store_ne _ _ _ _ hk]

theorem Header.lookup_Add (h : Header) (key value key' : GoString) :
    Header.lookup (Header.Add h key value) key'
      = if key' = CanonicalMIMEHeaderKey key then Header.lookup h key' ++ [value]
        else Header.lookup h key' := by
  unfold Header.Add
  split_ifs with hk
  · rw [hk, Header.lookup_store_same]
  · rw [Header.lookup_store_ne _ _ _ _ hk]

/-- The values under a name after the loop that copies the extra headers: the values that
were there, followed by the values of the extra headers with that canonical name, in the order
of the loop. -/
theorem Header.lookup_foldl_Add (extras : List (GoString × GoString)) (h : Header)
    (key : GoString) :
    Header.lookup (extras.foldl (fun h kv => Header.Add h kv.1 kv.2) h) key
      = Header.lookup h key
        ++ (extras.filter (fun kv => decide (CanonicalMIMEHeaderKey kv.1 = key))).map Prod.snd := by
  induction extras generalizing h with
  | nil => simp
  | cons kv rest ih =>
    rw [List.foldl_cons, ih, Header.lookup_Add]
    by_cases hk : CanonicalMIMEHeaderKey kv.1 = key
    · simp [hk, List.filter_cons]
    · simp [hk, List.filter_cons, Ne.symm hk]

/-- The header of a built request, from the header of the request of the first half of
`NewRequest`. -/
theorem NewRequest_ok (c : Client) (fc : FloatCodec) (method url : GoString)
    (body : Option (AnyValue fc)) (req : Request)
    (h : c.NewRequest fc method url body = .ok req) :
    ∃ u req0, c.BaseURL.Parse url = some u ∧ Client.buildRequest fc method u body = .ok req0 ∧
      req = { req0 with
        Header := ((c.headers.foldl (fun h kv => Header.Add h kv.1 kv.2) req0.Header).Set
          (gostr "Accept") mediaType).Set (gostr "User-Agent") c.UserAgent } := by
  unfold Client.NewRequest at h
  rcases hp : c.BaseURL.Parse url with _ | u
  · rw [hp] at h; exact absurd h (by simp)
  · rw [hp] at h
    simp only at h
    rcases hb : Client.buildRequest fc method u body with e | req0
    · rw [hb] at h; exact absurd h (by simp)
    · rw [hb] at h
      simp only [Except.ok.injEq] at h
      exact ⟨u, req0, rfl, hb, h.symm⟩

/-- The request of `http.NewRequest`: no header, and the body it was given. -/
theorem httpNewRequest_ok (method url : GoString) (body : Option GoString) (r : Request)
    (h : httpNewRequest method url body = .ok r) :
    r.Header = [] ∧ r.Body = body ∧
      validMethod (if method = [] then gostr "GET" else method) = true ∧ Parse url ≠ none := by
  unfold httpNewRequest at h
  by_cases hv : validMethod (if method = [] then gostr "GET" else method) = true
  · rw [if_neg (not_not.mpr hv)] at h
    rcases hp : Parse url with _ | u
    · rw [hp] at h; exact absurd h (by simp)
    · rw [hp] at h
      simp only [Except.ok.injEq] at h
      rw [← h]
      exact ⟨rfl, rfl, hv, by simp⟩
  · rw [if_pos hv] at h; exact absurd h (by simp)

/-- The request of the first half of `NewRequest`: for GET, HEAD and OPTIONS no header and no
body; for another method the header `Content-Type` alone and the encoded body (empty without
a body). -/
theorem buildRequest_ok (fc : FloatCodec) (method : GoString) (u : URL)
    (body : Option (AnyValue fc)) (req0 : Request)
    (h : Client.buildRequest fc method u body = .ok req0) :
    (bodyless method → req0.Header = [] ∧ req0.Body = none) ∧
    (¬ bodyless method → req0.Header = [(gostr "Content-Type", [mediaType])] ∧
      ∃ buf, req0.Body = some buf ∧ (body = none → buf = []) ∧
        ∀ b, body = some b → encoderEncode fc b.type b.value = some buf) := by
  unfold Client.buildRequest at h
  by_cases hm : bodyless method
  · rw [if_pos hm] at h
    obtain ⟨hh, hb, _, _⟩ := httpNewRequest_ok _ _ _ _ h
    exact ⟨fun _ => ⟨hh, hb⟩, fun hn => absurd hm hn⟩
  · rw [if_neg hm] at h
    refine ⟨fun hn => absurd hn hm, fun _ => ?_⟩
    rcases body with _ | b
    · simp only at h
      rcases hh : httpNewRequest method u.String (some []) with e | r
      · rw [hh] at h; exact absurd h (by simp)
      · rw [hh] at h
        simp only [Except.ok.injEq] at h
        obtain ⟨hhd, hb, _, _⟩ := httpNewRequest_ok _ _ _ _ hh
        rw [← h]
        refine ⟨?_, [], hb, fun _ => rfl, fun b hb => absurd hb (by simp)⟩
        simp only [hhd]
        rfl
    · simp only at h
      rcases henc : encoderEncode fc b.type b.value with _ | buf
      · rw [henc] at h; exact absurd h (by simp)
      · rw [henc] at h
        simp only at h
        rcases hh : httpNewRequest method u.String (some buf) with e | r
        · rw [hh] at h; exact absurd h (by simp)
        · rw [hh] at h
          simp only [Except.ok.injEq] at h
          obtain ⟨hhd, hb, _, _⟩ := httpNewRequest_ok _ _ _ _ hh
          rw [← h]
          refine ⟨?_, buf, hb, fun hb => absurd hb (by simp), fun b' hb => ?_⟩
          · simp only [hhd]
            rfl
          · simp only [Option.some.injEq] at hb
            rw [← hb]
            exact henc

/-- C11. A request built by `NewRequest` for the method GET, HEAD or OPTIONS carries no body,
whatever the body argument is; a request built for any other method with a non-nil body
carries as payload exactly what the JSON encoder writes for that body. -/
theorem NewRequest_body (c : Client) (fc : FloatCodec) (method url : GoString)
    (body : Option (AnyValue fc)) (req : Request)
    (h : c.NewRequest fc method url body = .ok req) :
    (bodyless method → req.Body = none) ∧
    (¬ bodyless method → ∀ b, body = some b →
      ∃ payload, encoderEncode fc b.type b.value = some payload ∧ req.Body = some payload) := by
  obtain ⟨u, req0, _, hb, hreq⟩ := NewRequest_ok c fc method url body req h
  obtain ⟨h1, h2⟩ := buildRequest_ok fc method u body req0 hb
  rw [hreq]
  constructor
  · intro hm
    exact (h1 hm).2
  · intro hm b hbody
    obtain ⟨_, buf, hbuf, _, henc⟩ := h2 hm
    exact ⟨buf, henc b hbody, hbuf⟩

/-- Witness of C11: the request of the test `TestNewRequest_valid`. -/
theorem NewRequest_body_witness :
    ∃ req, (NewClient noTransport).NewRequest noFloat (gostr "POST") (gostr "no/prefix")
        (some sampleLoginBody) = .ok req ∧
      req.Body = some (gostr "\x7b\"device_type\":\"IOS\",\"email\":\"some@email.com\"\x7d\n") ∧
      ((bodyless (gostr "POST") → req.Body = none) ∧
        (¬ bodyless (gostr "POST") → ∀ b, some sampleLoginBody = some b →
          ∃ payload, encoderEncode noFloat b.type b.value = some payload ∧
            req.Body = some payload)) :=
  ⟨_, rfl, by decide,
    NewRequest_body (NewClient noTransport) noFloat (gostr "POST") (gostr "no/prefix")
      (some sampleLoginBody) _ rfl⟩

/-- The values under a canonical name in the header of a built request, for a name other than
`Accept` and `User-Agent`: what the first half of `NewRequest` stored, followed by the values
of the extra headers with that canonical name. -/
theorem NewRequest_lookup (c : Client) (fc : FloatCodec) (method url : GoString)
    (body : Option (AnyValue fc)) (req : Request) (key : GoString)
    (h : c.NewRequest fc method url body = .ok req)
    (ha : key ≠ gostr "Accept") (hu : key ≠ gostr "User-Agent") :
    Header.lookup req.Header key
      = (if key = gostr "Content-Type" ∧ ¬ bodyless method then [mediaType] else [])
        ++ (c.headers.filter (fun kv => decide (CanonicalMIMEHeaderKey kv.1 = key))).map
          Prod.snd := by
  obtain ⟨u, req0, _, hb, hreq⟩ := NewRequest_ok c fc method url body req h
  obtain ⟨h1, h2⟩ := buildRequest_ok fc method u body req0 hb
  have hca : CanonicalMIMEHeaderKey (gostr "Accept") = gostr "Accept" := by decide
  have hcu : CanonicalMIMEHeaderKey (gostr "User-Agent") = gostr "User-Agent" := by decide
  rw [hreq]
  simp only [Header.lookup_Set, hca, hcu, if_neg ha, if_neg hu, Header.lookup_foldl_Add]
  congr 1
  by_cases hm : bodyless method
  · rw [(h1 hm).1, if_neg (fun hh => hh.2 hm)]
    rfl
  · rw [(h2 hm).1]
    by_cases hk : key = gostr "Content-Type"
    · rw [if_pos ⟨hk, hm⟩, hk]
      rfl
    · rw [if_neg (fun hh => hk hh.1)]
      simp [Header.lookup, Ne.symm hk]

/-- C12, amended. A request built by `NewRequest` for a method other than GET, HEAD and
OPTIONS has `Content-Type` equal to `application/json`, whether or not a body is supplied;
and when no extra header named `Content-Type` is configured, the values of `Content-Type` are
`application/json` alone for such a method and none for GET, HEAD and OPTIONS. -/
theorem NewRequest_content_type (c : Client) (fc : FloatCodec) (method url : GoString)
    (body : Option (AnyValue fc)) (req : Request)
    (h : c.NewRequest fc method url body = .ok req) :
    (¬ bodyless method → req.Header.Get (gostr "Content-Type") = mediaType) ∧
    ((∀ kv ∈ c.headers, CanonicalMIMEHeaderKey kv.1 ≠ gostr "Content-Type") →
      Header.lookup req.Header (gostr "Content-Type")
        = if bodyless method then [] else [mediaType]) := by
  have hl := NewRequest_lookup c fc method url body req (gostr "Content-Type") h
    (by decide) (by decide)
  have hcc : CanonicalMIMEHeaderKey (gostr "Content-Type") = gostr "Content-Type" := by decide
  constructor
  · intro hm
    unfold Header.Get
    rw [hcc, hl, if_pos ⟨rfl, hm⟩]
    rfl
  · intro hex
    rw [hl]
    have hf : c.headers.filter
        (fun kv => decide (CanonicalMIMEHeaderKey kv.1 = gostr "Content-Type")) = [] := by
      rw [List.filter_eq_nil_iff]
      intro kv hkv
      simpa using hex kv hkv
    rw [hf]
    by_cases hm : bodyless method
    · rw [if_pos hm, if_neg (fun hh => hh.2 hm)]; rfl
    · rw [if_neg hm, if_pos ⟨rfl, hm⟩]; rfl

/-- Witness of the amended C12: a POST request of the default client without a body. -/
theorem NewRequest_content_type_witness :
    ∃ req, (NewClient noTransport).NewRequest noFloat (gostr "POST") (gostr "item/v7/") none
        = .ok req ∧
      ((¬ bodyless (gostr "POST") → req.Header.Get (gostr "Content-Type") = mediaType) ∧
        ((∀ kv ∈ (NewClient noTransport).headers,
            CanonicalMIMEHeaderKey kv.1 ≠ gostr "Content-Type") →
          Header.lookup req.Header (gostr "Content-Type")
            = if bodyless (gostr "POST") then [] else [mediaType])) :=
  ⟨_, rfl, NewRequest_content_type (NewClient noTransport) noFloat (gostr "POST")
    (gostr "item/v7/") none _ rfl⟩

/-- C12, counterexample. The default client builds for `POST item/v7/` with a nil body a
request that carries `Content-Type: application/json`, although no body is supplied. -/
theorem NewRequest_content_type_without_body :
    (NewClient noTransport).NewRequest noFloat (gostr "POST") (gostr "item/v7/") none
      = .ok listRequestWithoutBody ∧
    listRequestWithoutBody.Header.Get (gostr "Content-Type") = gostr "application/json" ∧
    listRequestWithoutBody.Body = some [] := by
  refine ⟨rfl, by decide, by decide⟩

/-- C13. Every request built by `NewRequest`, for any method, path, body and extra headers,
has exactly one value for `Accept`, which is `application/json`, and exactly one value for
`User-Agent`, which is the `UserAgent` of the client; `Header.Get` returns these values. -/
theorem NewRequest_accept_user_agent (c : Client) (fc : FloatCodec) (method url : GoString)
    (body : Option (AnyValue fc)) (req : Request)
    (h : c.NewRequest fc method url body = .ok req) :
    Header.lookup req.Header (gostr "Accept") = [gostr "application/json"] ∧
    Header.lookup req.Header (gostr "User-Agent") = [c.UserAgent] ∧
    req.Header.Get (gostr "Accept") = gostr "application/json" ∧
    req.Header.Get (gostr "User-Agent") = c.UserAgent := by
  obtain ⟨u, req0, _, hb, hreq⟩ := NewRequest_ok c fc method url body req h
  have hca : CanonicalMIMEHeaderKey (gostr "Accept") = gostr "Accept" := by decide
  have hcu : CanonicalMIMEHeaderKey (gostr "User-Agent") = gostr "User-Agent" := by decide
  have hne : gostr "Accept" ≠ gostr "User-Agent" := by decide
  have h1 : Header.lookup req.Header (gostr "Accept") = [gostr "application/json"] := by
    rw [hreq]
    simp only [Header.lookup_Set, hca, hcu, if_neg hne, if_true]
    rfl
  have h2 : Header.lookup req.Header (gostr "User-Agent") = [c.UserAgent] := by
    rw [hreq]
    simp only [Header.lookup_Set, hcu, if_true]
  refine ⟨h1, h2, ?_, ?_⟩
  · unfold Header.Get
    rw [hca, h1]
    rfl
  · unfold Header.Get
    rw [hcu, h2]
    rfl

/-- Witness of C13: a client with a user agent set by `SetUserAgent` and extra headers named
`Accept` and `user-agent`. -/
theorem NewRequest_accept_user_agent_witness :
    ∃ req, customClient.NewRequest noFloat (gostr "GET") (gostr "/") none = .ok req ∧
      customClient.UserAgent = gostr "added user agent" ∧
      (Header.lookup req.Header (gostr "Accept") = [gostr "application/json"] ∧
        Header.lookup req.Header (gostr "User-Agent") = [customClient.UserAgent] ∧
        req.Header.Get (gostr "Accept") = gostr "application/json" ∧
        req.Header.Get (gostr "User-Agent") = customClient.UserAgent) :=
  ⟨_, rfl, rfl, NewRequest_accept_user_agent customClient noFloat (gostr "GET") (gostr "/") none
    _ rfl⟩

/-! ### The map of extra headers -/

theorem mem_mapStore_self (m : List (GoString × GoString)) (k v : GoString) :
    (k, v) ∈ mapStore m k v := by
  induction m with
  | nil => simp [mapStore]
  | cons kv rest ih =>
    obtain ⟨k', v'⟩ := kv
    by_cases hk : k' = k
    · simp [mapStore, hk]
    · simp [mapStore, hk, ih]

theorem mem_mapStore_of_ne (m : List (GoString × GoString)) (k v : GoString)
    (kv : GoString × GoString) (h : kv ∈ m) (hne : kv.1 ≠ k) : kv ∈ mapStore m k v := by
  induction m with
  | nil => simp at h
  | cons kv' rest ih =>
    obtain ⟨k', v'⟩ := kv'
    rcases List.mem_cons.mp h with h | h
    · subst h
      simp [mapStore, hne]
    · by_cases hk : k' = k
      · simp [mapStore, hk, h]
      · simp [mapStore, hk, ih h]

theorem mapStore_keys (m : List (GoString × GoString)) (k v : GoString) :
    (mapStore m k v).map Prod.fst = if k ∈ m.map Prod.fst then m.map Prod.fst
      else m.map Prod.fst ++ [k] := by
  induction m with
  | nil => simp [mapStore]
  | cons kv rest ih =>
    obtain ⟨k', v'⟩ := kv
    by_cases hk : k' = k
    · simp [mapStore, hk]
    · have hk' : ¬ k = k' := fun h => hk h.symm
      simp only [mapStore, if_neg hk, List.map_cons, ih, List.mem_cons, hk', false_or]
      split_ifs <;> simp

theorem mapStore_nodup (m : List (GoString × GoString)) (k v : GoString)
    (h : (m.map Prod.fst).Nodup) : ((mapStore m k v).map Prod.fst).Nodup := by
  rw [mapStore_keys]
  split_ifs with hk
  · exact h
  · rw [List.nodup_append]
    refine ⟨h, List.nodup_singleton k, ?_⟩
    intro a ha hb
    rw [List.mem_singleton] at hb
    exact hk (hb ▸ ha)

theorem foldl_mapStore_nodup (hs m : List (GoString × GoString))
    (h : (m.map Prod.fst).Nodup) :
    ((hs.foldl (fun m kv => mapStore m kv.1 kv.2) m).map Prod.fst).Nodup := by
  induction hs generalizing m with
  | nil => exact h
  | cons kv rest ih => exact ih _ (mapStore_nodup m kv.1 kv.2 h)

theorem mem_foldl_mapStore_of_not_mem (hs m : List (GoString × GoString))
    (kv : GoString × GoString) (h : kv ∈ m) (hk : kv.1 ∉ hs.map Prod.fst) :
    kv ∈ hs.foldl (fun m kv => mapStore m kv.1 kv.2) m := by
  induction hs generalizing m with
  | nil => exact h
  | cons kv' rest ih =>
    simp only [List.map_cons, List.mem_cons, not_or] at hk
    exact ih _ (mem_mapStore_of_ne m kv'.1 kv'.2 kv h hk.1) hk.2

/-- An entry of a map stored into another map is an entry of the result. -/
theorem mem_foldl_mapStore (hs m : List (GoString × GoString)) (kv : GoString × GoString)
    (hnd : (hs.map Prod.fst).Nodup) (h : kv ∈ hs) :
    kv ∈ hs.foldl (fun m kv => mapStore m kv.1 kv.2) m := by
  induction hs generalizing m with
  | nil => simp at h
  | cons kv' rest ih =>
    simp only [List.map_cons, List.nodup_cons] at hnd
    rcases List.mem_cons.mp h with h | h
    · subst h
      exact mem_foldl_mapStore_of_not_mem rest _ kv (mem_mapStore_self m kv.1 kv.2) hnd.1
    · exact ih _ hnd.2 h

/-- In a map, an entry is determined by its name. -/
theorem eq_of_mem_of_nodup (m : List (GoString × GoString)) (kv kv' : GoString × GoString)
    (hnd : (m.map Prod.fst).Nodup) (h : kv ∈ m) (h' : kv' ∈ m) (hk : kv.1 = kv'.1) :
    kv = kv' := by
  induction m with
  | nil => simp at h
  | cons e rest ih =>
    simp only [List.map_cons, List.nodup_cons] at hnd
    rcases List.mem_cons.mp h with h | h <;> rcases List.mem_cons.mp h' with h' | h'
    · rw [h, h']
    · exact absurd (List.mem_map_of_mem Prod.fst h') (by rw [← hk, h]; exact hnd.1)
    · exact absurd (List.mem_map_of_mem Prod.fst h) (by rw [hk, h']; exact hnd.1)
    · exact ih hnd.2 h h'

theorem headD_of_forall (l : List GoString) (v : GoString) (hall : ∀ x ∈ l, x = v)
    (hmem : v ∈ l) : l.headD [] = v := by
  cases l with
  | nil => simp at hmem
  | cons x xs => simpa using hall x (by simp)

/-- The value `Header.Get` returns for an extra header whose canonical name is not `Accept`,
`User-Agent` or `Content-Type` and is the canonical name of no other extra header. -/
theorem NewRequest_Get_extra (c : Client) (fc : FloatCodec) (method url : GoString)
    (body : Option (AnyValue fc)) (req : Request) (k v : GoString)
    (h : c.NewRequest fc method url body = .ok req) (hkv : (k, v) ∈ c.headers)
    (huniq : ∀ kv ∈ c.headers, CanonicalMIMEHeaderKey kv.1 = CanonicalMIMEHeaderKey k →
      kv = (k, v))
    (ha : CanonicalMIMEHeaderKey k ≠ gostr "Accept")
    (hu : CanonicalMIMEHeaderKey k ≠ gostr "User-Agent")
    (hc : CanonicalMIMEHeaderKey k ≠ gostr "Content-Type") :
    req.Header.Get k = v := by
  unfold Header.Get
  rw [NewRequest_lookup c fc method url body req _ h ha hu, if_neg (fun hh => hc hh.1),
    List.nil_append]
  have hall : ∀ x ∈ (c.headers.filter
      (fun kv => decide (CanonicalMIMEHeaderKey kv.1 = CanonicalMIMEHeaderKey k))).map Prod.snd,
      x = v := by
    intro x hx
    obtain ⟨kv, hmem, rfl⟩ := List.mem_map.mp hx
    rw [List.mem_filter] at hmem
    rw [huniq kv hmem.1 (by simpa using hmem.2)]
  have hmem : v ∈ (c.headers.filter
      (fun kv => decide (CanonicalMIMEHeaderKey kv.1 = CanonicalMIMEHeaderKey k))).map
      Prod.snd :=
    List.mem_map.mpr ⟨(k, v), List.mem_filter.mpr ⟨hkv, by simp⟩, rfl⟩
  exact headD_of_forall _ v hall hmem

/-- C14, amended. For every header name `k` with value `v` configured through
`SetRequestHeaders` whose canonical form is not `Accept`, `User-Agent` or `Content-Type` and
is not the canonical form of another configured name, every request built by `NewRequest`
(any method, path, body) carries header `k` with value `v`: `request.Header.Get(k) = v`. -/
theorem NewRequest_configured_header (c0 : Client) (hs : List (GoString × GoString))
    (k v : GoString) (fc : FloatCodec) (method url : GoString) (body : Option (AnyValue fc))
    (req : Request)
    (hmap0 : (c0.headers.map Prod.fst).Nodup) (hmap : (hs.map Prod.fst).Nodup)
    (hkv : (k, v) ∈ hs)
    (ha : CanonicalMIMEHeaderKey k ≠ gostr "Accept")
    (hu : CanonicalMIMEHeaderKey k ≠ gostr "User-Agent")
    (hc : CanonicalMIMEHeaderKey k ≠ gostr "Content-Type")
    (huniq : ∀ kv ∈ (SetRequestHeaders hs c0).1.headers,
      CanonicalMIMEHeaderKey kv.1 = CanonicalMIMEHeaderKey k → kv.1 = k)
    (h : (SetRequestHeaders hs c0).1.NewRequest fc method url body = .ok req) :
    req.Header.Get k = v := by
  have hmem : (k, v) ∈ (SetRequestHeaders hs c0).1.headers :=
    mem_foldl_mapStore hs c0.headers (k, v) hmap hkv
  have hnd : ((SetRequestHeaders hs c0).1.headers.map Prod.fst).Nodup :=
    foldl_mapStore_nodup hs c0.headers hmap0
  refine NewRequest_Get_extra _ fc method url body req k v h hmem ?_ ha hu hc
  intro kv hkv' hcan
  exact eq_of_mem_of_nodup _ kv (k, v) hnd hkv' hmem (huniq kv hkv' hcan)

/-- Witness of the amended C14: the header `Accept-Encoding: chunked` of the test
`TestNew_CustomRequestHeaders`. -/
theorem NewRequest_configured_header_witness :
    ∃ req, (SetRequestHeaders [(gostr "Accept-Encoding", gostr "chunked")]
        (NewClient noTransport)).1.NewRequest noFloat (gostr "GET") (gostr "/") none = .ok req ∧
      req.Header.Get (gostr "Accept-Encoding") = gostr "chunked" :=
  ⟨_, rfl, NewRequest_configured_header (NewClient noTransport)
    [(gostr "Accept-Encoding", gostr "chunked")] (gostr "Accept-Encoding") (gostr "chunked")
    noFloat (gostr "GET") (gostr "/") none _ (by decide) (by decide) (by decide) (by decide)
    (by decide) (by decide) (by decide) rfl⟩

/-- C14, counterexample. A client configured with the extra header `Accept: text/html`
builds for `GET /` a request whose `Accept` is `application/json`, not `text/html`. -/
theorem NewRequest_configured_accept :
    ((New noTransport [SetRequestHeaders [(gostr "Accept", gostr "text/html")]]).toOption.bind
        (fun c => (c.NewRequest noFloat (gostr "GET") (gostr "/") none).toOption)).map
      (fun req => req.Header.Get (gostr "Accept")) = some (gostr "application/json") ∧
    gostr "application/json" ≠ gostr "text/html" := by
  refine ⟨by decide, by decide⟩

/-! ### When `NewRequest` fails -/

theorem httpNewRequest_isOk (method url : GoString) (body : Option GoString) :
    (∃ r, httpNewRequest method url body = .ok r) ↔
      validMethod (if method = [] then gostr "GET" else method) = true ∧ Parse url ≠ none := by
  constructor
  · rintro ⟨r, h⟩
    exact (httpNewRequest_ok method url body r h).2.2
  · rintro ⟨hv, hp⟩
    unfold httpNewRequest
    rw [if_neg (not_not.mpr hv)]
    rcases hpu : Parse url with _ | u
    · exact absurd hpu hp
    · exact ⟨_, rfl⟩

theorem buildRequest_isOk (fc : FloatCodec) (method : GoString) (u : URL)
    (body : Option (AnyValue fc)) :
    (∃ r, Client.buildRequest fc method u body = .ok r) ↔
      validMethod (if method = [] then gostr "GET" else method) = true ∧
        Parse u.String ≠ none ∧
        (bodyless method ∨ ∀ b, body = some b → encoderEncode fc b.type b.value ≠ none) := by
  unfold Client.buildRequest
  by_cases hm : bodyless method
  · rw [if_pos hm, httpNewRequest_isOk]
    constructor
    · rintro ⟨h1, h2⟩
      exact ⟨h1, h2, Or.inl hm⟩
    · rintro ⟨h1, h2, _⟩
      exact ⟨h1, h2⟩
  · rw [if_neg hm]
    rcases body with _ | b
    · simp only
      constructor
      · rintro ⟨r, h⟩
        rcases hh : httpNewRequest method u.String (some []) with e | r0
        · rw [hh] at h; exact absurd h (by simp)
        · obtain ⟨h1, h2⟩ := (httpNewRequest_isOk _ _ _).mp ⟨r0, hh⟩
          exact ⟨h1, h2, Or.inr (fun b hb => absurd hb (by simp))⟩
      · rintro ⟨h1, h2, _⟩
        obtain ⟨r0, hh⟩ := (httpNewRequest_isOk method u.String (some [])).mpr ⟨h1, h2⟩
        rw [hh]
        exact ⟨_, rfl⟩
    · simp only
      rcases henc : encoderEncode fc b.type b.value with _ | buf
      · simp only
        constructor
        · rintro ⟨r, h⟩
          exact absurd h (by simp)
        · rintro ⟨_, _, h3⟩
          rcases h3 with h3 | h3
          · exact absurd h3 hm
          · exact absurd henc (h3 b rfl)
      · simp only
        constructor
        · rintro ⟨r, h⟩
          rcases hh : httpNewRequest method u.String (some buf) with e | r0
          · rw [hh] at h; exact absurd h (by simp)
          · obtain ⟨h1, h2⟩ := (httpNewRequest_isOk _ _ _).mp ⟨r0, hh⟩
            refine ⟨h1, h2, Or.inr (fun b' hb => ?_)⟩
            simp only [Option.some.injEq] at hb
            rw [← hb, henc]
            simp
        · rintro ⟨h1, h2, _⟩
          obtain ⟨r0, hh⟩ := (httpNewRequest_isOk method u.String (some buf)).mpr ⟨h1, h2⟩
          rw [hh]
          exact ⟨_, rfl⟩

/-- C15, amended. `NewRequest` returns a request and no error exactly when resolving the
relative path against the base URL succeeds, the method is empty or an HTTP token, the
resolved URL, written out, parses again, and the body can be encoded as JSON (or there is no
body, or the method is GET, HEAD or OPTIONS, for which the body is not encoded); in every
other case it returns an error. -/
theorem NewRequest_succeeds_iff (c : Client) (fc : FloatCodec) (method url : GoString)
    (body : Option (AnyValue fc)) :
    ((∃ req, c.NewRequest fc method url body = .ok req) ↔
      ∃ u, c.BaseURL.Parse url = some u ∧
        validMethod (if method = [] then gostr "GET" else method) = true ∧
        Parse u.String ≠ none ∧
        (bodyless method ∨ ∀ b, body = some b → encoderEncode fc b.type b.value ≠ none)) ∧
    ((∃ e, c.NewRequest fc method url body = .error e) ↔
      ¬ ∃ req, c.NewRequest fc method url body = .ok req) := by
  constructor
  · constructor
    · rintro ⟨req, h⟩
      obtain ⟨u, req0, hp, hb, _⟩ := NewRequest_ok c fc method url body req h
      exact ⟨u, hp, (buildRequest_isOk fc method u body).mp ⟨req0, hb⟩⟩
    · rintro ⟨u, hp, hrest⟩
      obtain ⟨req0, hb⟩ := (buildRequest_isOk fc method u body).mpr hrest
      unfold Client.NewRequest
      rw [hp]
      simp only
      rw [hb]
      exact ⟨_, rfl⟩
  · rcases h : c.NewRequest fc method url body with e | req
    · simp
    · simp

/-- C15, counterexample. On the default client the relative path `x` resolves, yet
`NewRequest` with the method `P OST`, which is no HTTP token, returns an error. -/
theorem NewRequest_invalid_method :
    (NewClient noTransport).BaseURL.Parse (gostr "x")
      = some (plainURL (gostr "https") (gostr "apptoogoodtogo.com") (gostr "/api/x")) ∧
    (NewClient noTransport).NewRequest noFloat (gostr "P OST") (gostr "x") none
      = .error (.http (gostr "P OST")) := by
  refine ⟨by decide, rfl⟩

/-- C16. `SetAuthContext(a, r, u)` leaves the client with `AccessToken = a`,
`RefreshToken = r` and `UserID = u`, whatever the strings and the previous values are, and
with every other field (HTTP client, `BaseURL`, `UserAgent`, extra headers) as it was. -/
theorem SetAuthContext_fields (c : Client) (a r u : GoString) :
    (c.SetAuthContext a r u).AccessToken = a ∧
    (c.SetAuthContext a r u).RefreshToken = r ∧
    (c.SetAuthContext a r u).UserID = u ∧
    (c.SetAuthContext a r u).BaseURL = c.BaseURL ∧
    (c.SetAuthContext a r u).UserAgent = c.UserAgent ∧
    (c.SetAuthContext a r u).headers = c.headers ∧
    (c.SetAuthContext a r u).client = c.client :=
  ⟨rfl, rfl, rfl, rfl, rfl, rfl, rfl⟩

/-! ## The services and the auth context -/

/-- The two ways `Poll` ends: with an error and the client as it was, or without an error,
with the response decoded and its tokens and user id stored in the client. -/
theorem Poll_outcome (c : Client) (fc : FloatCodec) (ctx : Context)
    (pollRequest : Option (PollRequest.Val fc)) :
    ((AuthServiceOp.Poll c fc ctx pollRequest).err ≠ none ∧
      (AuthServiceOp.Poll c fc ctx pollRequest).client = c) ∨
    ((AuthServiceOp.Poll c fc ctx pollRequest).err = none ∧
      ∃ v, (AuthServiceOp.Poll c fc ctx pollRequest).value = some v ∧
        (AuthServiceOp.Poll c fc ctx pollRequest).client
          = c.SetAuthContext (PollResponse.AccessToken v) (PollResponse.RefreshToken v)
              (PollResponse.UserID v)) := by
  unfold AuthServiceOp.Poll
  split
  · exact Or.inl ⟨by simp [CallResult.failure], rfl⟩
  · split
    · exact Or.inl ⟨by simp [CallResult.failure], rfl⟩
    · simp only
      split
      · exact Or.inl ⟨by simp [CallResult.failure], rfl⟩
      · exact Or.inr ⟨rfl, _, rfl, rfl⟩

/-- The two ways `Signup` ends: with an error and the client as it was, or without an error,
with the response decoded and its tokens and user id stored in the client. -/
theorem Signup_outcome (c : Client) (fc : FloatCodec) (ctx : Context)
    (signupRequest : Option (SignupRequest.Val fc)) :
    ((AuthServiceOp.Signup c fc ctx signupRequest).err ≠ none ∧
      (AuthServiceOp.Signup c fc ctx signupRequest).client = c) ∨
    ((AuthServiceOp.Signup c fc ctx signupRequest).err = none ∧
      ∃ v, (AuthServiceOp.Signup c fc ctx signupRequest).value = some v ∧
        (AuthServiceOp.Signup c fc ctx signupRequest).client
          = c.SetAuthContext (SignupResponse.AccessToken v) (SignupResponse.RefreshToken v)
              (SignupResponse.UserID v)) := by
  unfold AuthServiceOp.Signup
  split
  · exact Or.inl ⟨by simp [CallResult.failure], rfl⟩
  · split
    · exact Or.inl ⟨by simp [CallResult.failure], rfl⟩
    · simp only
      split
      · exact Or.inl ⟨by simp [CallResult.failure], rfl⟩
      · exact Or.inr ⟨rfl, _, rfl, rfl⟩

/-- The two ways `Refresh` ends: with an error and the client as it was, or without an error,
with the response decoded and its tokens stored in the client next to the user id the client
held. -/
theorem Refresh_outcome (c : Client) (fc : FloatCodec) (ctx : Context)
    (refreshRequest : Option (RefreshTokensRequest.Val fc)) :
    ((AuthServiceOp.Refresh c fc ctx refreshRequest).err ≠ none ∧
      (AuthServiceOp.Refresh c fc ctx refreshRequest).client = c) ∨
    ((AuthServiceOp.Refresh c fc ctx refreshRequest).err = none ∧
      ∃ v, (AuthServiceOp.Refresh c fc ctx refreshRequest).value = some v ∧
        (AuthServiceOp.Refresh c fc ctx refreshRequest).client
          = c.SetAuthContext (RefreshTokensResponse.AccessToken v)
              (RefreshTokensResponse.RefreshToken v) c.UserID) := by
  unfold AuthServiceOp.Refresh
  split
  · exact Or.inl ⟨by simp [CallResult.failure], rfl⟩
  · split
    · exact Or.inl ⟨by simp [CallResult.failure], rfl⟩
    · simp only
      split
      · exact Or.inl ⟨by simp [CallResult.failure], rfl⟩
      · exact Or.inr ⟨rfl, _, rfl, rfl⟩

/-- C17. After a successful `Poll` the auth context of the client is the `access_token`,
`refresh_token` and `startup_data.user.user_id` of the response returned, and after a
successful `Signup` it is those of the `login_response` of the response returned, whatever
the auth context was before the call. -/
theorem Poll_Signup_set_auth_context (c : Client) (fc : FloatCodec) (ctx : Context)
    (pollRequest : Option (PollRequest.Val fc)) (signupRequest : Option (SignupRequest.Val fc)) :
    ((AuthServiceOp.Poll c fc ctx pollRequest).err = none →
      ∃ v, (AuthServiceOp.Poll c fc ctx pollRequest).value = some v ∧
        (AuthServiceOp.Poll c fc ctx pollRequest).client.authContext
          = (PollResponse.AccessToken v, PollResponse.RefreshToken v, PollResponse.UserID v)) ∧
    ((AuthServiceOp.Signup c fc ctx signupRequest).err = none →
      ∃ v, (AuthServiceOp.Signup c fc ctx signupRequest).value = some v ∧
        (AuthServiceOp.Signup c fc ctx signupRequest).client.authContext
          = (SignupResponse.AccessToken v, SignupResponse.RefreshToken v,
              SignupResponse.UserID v)) := by
  constructor
  · intro h
    rcases Poll_outcome c fc ctx pollRequest with ⟨he, _⟩ | ⟨_, v, hv, hc⟩
    · exact absurd h he
    · exact ⟨v, hv, by rw [hc]; rfl⟩
  · intro h
    rcases Signup_outcome c fc ctx signupRequest with ⟨he, _⟩ | ⟨_, v, hv, hc⟩
    · exact absurd h he
    · exact ⟨v, hv, by rw [hc]; rfl⟩

set_option maxRecDepth 100000 in
/-- Witness of C17: the answers of the test `TestAuthService_Poll`, to a client that holds
another auth context. -/
theorem Poll_Signup_set_auth_context_witness :
    ((∃ v, (AuthServiceOp.Poll (authedClient pollAnswer) noFloat { id := 0 }
          (some samplePollRequest)).value = some v ∧
        (AuthServiceOp.Poll (authedClient pollAnswer) noFloat { id := 0 }
          (some samplePollRequest)).client.authContext
          = (PollResponse.AccessToken v, PollResponse.RefreshToken v, PollResponse.UserID v)) ∧
      (AuthServiceOp.Poll (authedClient pollAnswer) noFloat { id := 0 }
          (some samplePollRequest)).client.authContext
        = (gostr "access_token", gostr "refresh_token", gostr "1")) ∧
    ((∃ v, (AuthServiceOp.Signup (authedClient signupAnswer) noFloat { id := 0 }
          (some sampleSignupRequest)).value = some v ∧
        (AuthServiceOp.Signup (authedClient signupAnswer) noFloat { id := 0 }
          (some sampleSignupRequest)).client.authContext
          = (SignupResponse.AccessToken v, SignupResponse.RefreshToken v,
              SignupResponse.UserID v)) ∧
      (AuthServiceOp.Signup (authedClient signupAnswer) noFloat { id := 0 }
          (some sampleSignupRequest)).client.authContext
        = (gostr "access_token", gostr "refresh_token", gostr "1")) :=
  ⟨⟨(Poll_Signup_set_auth_context (authedClient pollAnswer) noFloat { id := 0 }
      (some samplePollRequest) none).1 rfl, rfl⟩,
    ⟨(Poll_Signup_set_auth_context (authedClient signupAnswer) noFloat { id := 0 }
      none (some sampleSignupRequest)).2 rfl, rfl⟩⟩

/-- C18. After a successful `Refresh` the `UserID` of the client is the one it held before
the call, and `AccessToken` and `RefreshToken` are the `access_token` and `refresh_token` of
the response returned. -/
theorem Refresh_keeps_user_id (c : Client) (fc : FloatCodec) (ctx : Context)
    (refreshRequest : Option (RefreshTokensRequest.Val fc))
    (h : (AuthServiceOp.Refresh c fc ctx refreshRequest).err = none) :
    ∃ v, (AuthServiceOp.Refresh c fc ctx refreshRequest).value = some v ∧
      (AuthServiceOp.Refresh c fc ctx refreshRequest).client.UserID = c.UserID ∧
      (AuthServiceOp.Refresh c fc ctx refreshRequest).client.AccessToken
        = RefreshTokensResponse.AccessToken v ∧
      (AuthServiceOp.Refresh c fc ctx refreshRequest).client.RefreshToken
        = RefreshTokensResponse.RefreshToken v := by
  rcases Refresh_outcome c fc ctx refreshRequest with ⟨he, _⟩ | ⟨_, v, hv, hc⟩
  · exact absurd h he
  · exact ⟨v, hv, by rw [hc]; rfl, by rw [hc]; rfl, by rw [hc]; rfl⟩

set_option maxRecDepth 100000 in
/-- Witness of C18: the answer of the test `TestAuthService_Refresh`, to a client that holds
the user id `42`, with a nil request. -/
theorem Refresh_keeps_user_id_witness :
    (∃ v, (AuthServiceOp.Refresh (authedClient refreshAnswer) noFloat { id := 0 } none).value
        = some v ∧
      (AuthServiceOp.Refresh (authedClient refreshAnswer) noFloat { id := 0 } none).client.UserID
        = (authedClient refreshAnswer).UserID ∧
      (AuthServiceOp.Refresh (authedClient refreshAnswer) noFloat { id := 0 }
          none).client.AccessToken = RefreshTokensResponse.AccessToken v ∧
      (AuthServiceOp.Refresh (authedClient refreshAnswer) noFloat { id := 0 }
          none).client.RefreshToken = RefreshTokensResponse.RefreshToken v) ∧
    (AuthServiceOp.Refresh (authedClient refreshAnswer) noFloat { id := 0 }
        none).client.authContext = (gostr "access_token", gostr "refresh_token", gostr "42") :=
  ⟨Refresh_keeps_user_id (authedClient refreshAnswer) noFloat { id := 0 } none rfl, rfl⟩

/-- C19. When `Poll`, `Refresh` or `Signup` returns an error, for whatever reason (an
argument error, an error from building the request, an error of the transport, a response
outside 2xx, a body that fails to decode), the `AccessToken`, `RefreshToken` and `UserID` of
the client are what they were before the call. -/
theorem auth_error_keeps_auth_context (c : Client) (fc : FloatCodec) (ctx : Context)
    (pollRequest : Option (PollRequest.Val fc))
    (refreshRequest : Option (RefreshTokensRequest.Val fc))
    (signupRequest : Option (SignupRequest.Val fc)) :
    ((AuthServiceOp.Poll c fc ctx pollRequest).err ≠ none →
      (AuthServiceOp.Poll c fc ctx pollRequest).client.authContext = c.authContext) ∧
    ((AuthServiceOp.Refresh c fc ctx refreshRequest).err ≠ none →
      (AuthServiceOp.Refresh c fc ctx refreshRequest).client.authContext = c.authContext) ∧
    ((AuthServiceOp.Signup c fc ctx signupRequest).err ≠ none →
      (AuthServiceOp.Signup c fc ctx signupRequest).client.authContext = c.authContext) := by
  refine ⟨fun h => ?_, fun h => ?_, fun h => ?_⟩
  · rcases Poll_outcome c fc ctx pollRequest with ⟨_, hc⟩ | ⟨he, _⟩
    · rw [hc]
    · exact absurd he h
  · rcases Refresh_outcome c fc ctx refreshRequest with ⟨_, hc⟩ | ⟨he, _⟩
    · rw [hc]
    · exact absurd he h
  · rcases Signup_outcome c fc ctx signupRequest with ⟨_, hc⟩ | ⟨he, _⟩
    · rw [hc]
    · exact absurd he h

set_option maxRecDepth 100000 in
/-- Witness of C19: a poll answered with `202 Accepted` and an empty body fails with
`io.EOF`, a signup with a nil request fails with an argument error, and the auth context
stays. -/
theorem auth_error_keeps_auth_context_witness :
    (AuthServiceOp.Poll (authedClient pendingAnswer) noFloat { id := 0 }
        (some samplePollRequest)).err = some (.json .eof) ∧
    (AuthServiceOp.Poll (authedClient pendingAnswer) noFloat { id := 0 }
        (some samplePollRequest)).client.authContext = (authedClient pendingAnswer).authContext ∧
    (AuthServiceOp.Signup (authedClient pendingAnswer) noFloat { id := 0 }
        none).client.authContext = (authedClient pendingAnswer).authContext :=
  ⟨rfl,
    (auth_error_keeps_auth_context (authedClient pendingAnswer) noFloat { id := 0 }
      (some samplePollRequest) none none).1
      (ne_of_eq_of_ne (rfl : _ = some (GoError.json JSONError.eof)) (by simp)),
    (auth_error_keeps_auth_context (authedClient pendingAnswer) noFloat { id := 0 }
      (some samplePollRequest) none none).2.2
      (ne_of_eq_of_ne (rfl : _ = some (GoError.argument
        (NewArgumentError (gostr "signupRequest") (gostr "must not be nil")))) (by simp))⟩

/-! ### Calls that do not touch the client -/

theorem Login_client (c : Client) (fc : FloatCodec) (ctx : Context)
    (loginRequest : Option (LoginRequest.Val fc)) :
    (AuthServiceOp.Login c fc ctx loginRequest).client = c := by
  unfold AuthServiceOp.Login
  split
  · rfl
  · split
    · rfl
    · simp only
      split <;> rfl

theorem List_client (c : Client) (fc : FloatCodec) (rt : ResponseType) (ctx : Context)
    (listItemsRequest : Option (ListItemsRequest.Val fc)) :
    (ItemsServiceOp.List c fc rt ctx listItemsRequest).client = c := by
  unfold ItemsServiceOp.List
  split
  · rfl
  · split
    · rfl
    · simp only
      split
      · rfl
      · split <;> rfl

theorem Get_client (c : Client) (fc : FloatCodec) (rt : ResponseType) (ctx : Context)
    (getItemRequest : Option (GetItemRequest.Val fc)) (itemID : GoString) :
    (ItemsServiceOp.Get c fc rt ctx getItemRequest itemID).client = c := by
  unfold ItemsServiceOp.Get
  split
  · rfl
  · split
    · rfl
    · split
      · rfl
      · simp only
        split
        · rfl
        · split <;> rfl

theorem Favorite_client (c : Client) (fc : FloatCodec) (ctx : Context)
    (favoriteItemRequest : Option (FavoriteItemRequest.Val fc)) (itemID : GoString) :
    (ItemsServiceOp.Favorite c fc ctx favoriteItemRequest itemID).client = c := by
  unfold ItemsServiceOp.Favorite
  split
  · rfl
  · split
    · rfl
    · split
      · rfl
      · simp only
        split <;> rfl

theorem Active_client (c : Client) (fc : FloatCodec) (rt : ResponseType) (ctx : Context)
    (activeOrdersRequest : Option (ActiveOrdersRequest.Val fc)) :
    (OrdersServiceOp.Active c fc rt ctx activeOrdersRequest).client = c := by
  unfold OrdersServiceOp.Active
  split
  · rfl
  · split
    · rfl
    · simp only
      split <;> rfl

theorem Inactive_client (c : Client) (fc : FloatCodec) (rt : ResponseType) (ctx : Context)
    (inactiveOrdersRequest : Option (InactiveOrdersRequest.Val fc)) :
    (OrdersServiceOp.Inactive c fc rt ctx inactiveOrdersRequest).client = c := by
  unfold OrdersServiceOp.Inactive
  split
  · rfl
  · split
    · rfl
    · simp only
      split
      · rfl
      · split <;> rfl

/-- C20. `Login`, `List`, `Get`, `Favorite`, `Active` and `Inactive` leave the `AccessToken`,
`RefreshToken` and `UserID` of the client as they were, for every request, every answer of
the transport and every way the response decodes, whether the call returns an error or
not. -/
theorem calls_keep_auth_context (c : Client) (fc : FloatCodec) (ctx : Context)
    (listItemsResponse getItemResponse ordersResponse : ResponseType)
    (loginRequest : Option (LoginRequest.Val fc))
    (listItemsRequest : Option (ListItemsRequest.Val fc))
    (getItemRequest : Option (GetItemRequest.Val fc))
    (favoriteItemRequest : Option (FavoriteItemRequest.Val fc))
    (activeOrdersRequest : Option (ActiveOrdersRequest.Val fc))
    (inactiveOrdersRequest : Option (InactiveOrdersRequest.Val fc)) (itemID : GoString) :
    (AuthServiceOp.Login c fc ctx loginRequest).client.authContext = c.authContext ∧
    (ItemsServiceOp.List c fc listItemsResponse ctx listItemsRequest).client.authContext
      = c.authContext ∧
    (ItemsServiceOp.Get c fc getItemResponse ctx getItemRequest itemID).client.authContext
      = c.authContext ∧
    (ItemsServiceOp.Favorite c fc ctx favoriteItemRequest itemID).client.authContext
      = c.authContext ∧
    (OrdersServiceOp.Active c fc ordersResponse ctx activeOrdersRequest).client.authContext
      = c.authContext ∧
    (OrdersServiceOp.Inactive c fc ordersResponse ctx inactiveOrdersRequest).client.authContext
      = c.authContext := by
  rw [Login_client, List_client, Get_client, Favorite_client, Active_client, Inactive_client]
  exact ⟨rfl, rfl, rfl, rfl, rfl, rfl⟩

/-- `Client.Do` is `Client.DoWith` for the decoder of the type of `*v`. -/
theorem Do_eq_DoWith (c : Client) (fc : FloatCodec) (t : GoType) (ctx : Context) (req : Request)
    (v : Option (t.Val fc)) :
    c.Do fc t ctx req v = c.DoWith (decoderDecode fc t) ctx req v := by
  unfold Client.Do Client.DoWith
  rcases c.doRequest ctx req with e | response
  · rfl
  · simp only
    rcases CheckResponseForErrors response with ⟨_ | e, r⟩
    · simp only
      rcases v with _ | cur
      · rfl
      · simp only
    · rfl

/-! ## The requests the services send -/

/-- A request `Login` hands to the transport is the one `NewRequest` builds for the request
struct. -/
theorem Login_sent (c : Client) (fc : FloatCodec) (ctx : Context)
    (loginRequest : Option (LoginRequest.Val fc)) :
    ∀ req ∈ (AuthServiceOp.Login c fc ctx loginRequest).sent,
      ∃ r, loginRequest = some r ∧
        c.NewRequest fc MethodPost (authBasePath ++ gostr "/authByEmail")
          (some { type := .ptr LoginRequest, value := some r }) = .ok req := by
  intro req h
  unfold AuthServiceOp.Login at h
  split at h
  · simp [CallResult.failure] at h
  · next r =>
    split at h
    · simp [CallResult.failure] at h
    · next req0 hreq =>
      simp only at h
      split at h <;> simp [CallResult.failure] at h <;> subst h <;> exact ⟨r, rfl, hreq⟩

/-- A request `Poll` hands to the transport is the one `NewRequest` builds for the request
struct. -/
theorem Poll_sent (c : Client) (fc : FloatCodec) (ctx : Context)
    (pollRequest : Option (PollRequest.Val fc)) :
    ∀ req ∈ (AuthServiceOp.Poll c fc ctx pollRequest).sent,
      ∃ r, pollRequest = some r ∧
        c.NewRequest fc MethodPost (authBasePath ++ gostr "/authByRequestPollingId")
          (some { type := .ptr PollRequest, value := some r }) = .ok req := by
  intro req h
  unfold AuthServiceOp.Poll at h
  split at h
  · simp [CallResult.failure] at h
  · next r =>
    split at h
    · simp [CallResult.failure] at h
    · next req0 hreq =>
      simp only at h
      split at h <;> simp [CallResult.failure] at h <;> subst h <;> exact ⟨r, rfl, hreq⟩

/-- A request `Signup` hands to the transport is the one `NewRequest` builds for the request
struct. -/
theorem Signup_sent (c : Client) (fc : FloatCodec) (ctx : Context)
    (signupRequest : Option (SignupRequest.Val fc)) :
    ∀ req ∈ (AuthServiceOp.Signup c fc ctx signupRequest).sent,
      ∃ r, signupRequest = some r ∧
        c.NewRequest fc MethodPost (authBasePath ++ gostr "/signUpByEmail")
          (some { type := .ptr SignupRequest, value := some r }) = .ok req := by
  intro req h
  unfold AuthServiceOp.Signup at h
  split at h
  · simp [CallResult.failure] at h
  · next r =>
    split at h
    · simp [CallResult.failure] at h
    · next req0 hreq =>
      simp only at h
      split at h <;> simp [CallResult.failure] at h <;> subst h <;> exact ⟨r, rfl, hreq⟩

/-- A request `Refresh` hands to the transport is the one `NewRequest` builds for the request
struct, or for a struct holding the refresh token of the client when the request is nil. -/
theorem Refresh_sent (c : Client) (fc : FloatCodec) (ctx : Context)
    (refreshRequest : Option (RefreshTokensRequest.Val fc)) :
    ∀ req ∈ (AuthServiceOp.Refresh c fc ctx refreshRequest).sent,
      ¬ (refreshRequest.isNone = true ∧ c.RefreshToken = []) ∧
        c.NewRequest fc MethodPost (authBasePath ++ gostr "/token/refresh")
          (some { type := .ptr RefreshTokensRequest,
                  value := some (refreshRequest.getD (c.RefreshToken, ())) }) = .ok req := by
  intro req h
  unfold AuthServiceOp.Refresh at h
  split at h
  · simp [CallResult.failure] at h
  · next hn =>
    split at h
    · simp [CallResult.failure] at h
    · next req0 hreq =>
      simp only at h
      split at h <;> simp [CallResult.failure] at h <;> subst h <;> exact ⟨hn, hreq⟩

/-- A request `List` hands to the transport is the one `NewRequest` builds for the request
struct, with the user id of the client in it when it held none, and with the bearer token. -/
theorem List_sent (c : Client) (fc : FloatCodec) (rt : ResponseType) (ctx : Context)
    (listItemsRequest : Option (ListItemsRequest.Val fc)) :
    ∀ req ∈ (ItemsServiceOp.List c fc rt ctx listItemsRequest).sent,
      ∃ r0 req0, listItemsRequest = some r0 ∧
        ¬ (ListItemsRequest.UserID r0 = [] ∧ c.UserID = []) ∧
        c.NewRequest fc MethodPost (itemsBasePath ++ gostr "/")
          (some { type := .ptr ListItemsRequest,
                  value := some (if ListItemsRequest.UserID r0 = [] then
                    ListItemsRequest.setUserID r0 c.UserID else r0) }) = .ok req0 ∧
        req = c.authorize req0 := by
  intro req h
  unfold ItemsServiceOp.List at h
  split at h
  · simp [CallResult.failure] at h
  · next r0 =>
    split at h
    · simp [CallResult.failure] at h
    · next hn =>
      simp only at h
      split at h
      · simp [CallResult.failure] at h
      · next req0 hreq =>
        split at h <;> simp [CallResult.failure] at h <;> subst h <;>
          exact ⟨r0, req0, rfl, hn, hreq, rfl⟩

/-- A request `Get` hands to the transport is the one `NewRequest` builds for the request
struct, with the user id of the client in it when it held none, and with the bearer token. -/
theorem Get_sent (c : Client) (fc : FloatCodec) (rt : ResponseType) (ctx : Context)
    (getItemRequest : Option (GetItemRequest.Val fc)) (itemID : GoString) :
    ∀ req ∈ (ItemsServiceOp.Get c fc rt ctx getItemRequest itemID).sent,
      ∃ r0 req0, getItemRequest = some r0 ∧ itemID ≠ [] ∧
        ¬ (GetItemRequest.UserID r0 = [] ∧ c.UserID = []) ∧
        c.NewRequest fc MethodPost (itemsBasePath ++ gostr "/" ++ itemID)
          (some { type := .ptr GetItemRequest,
                  value := some (if GetItemRequest.UserID r0 = [] then
                    GetItemRequest.setUserID r0 c.UserID else r0) }) = .ok req0 ∧
        req = c.authorize req0 := by
  intro req h
  unfold ItemsServiceOp.Get at h
  split at h
  · simp [CallResult.failure] at h
  · next hid =>
    split at h
    · simp [CallResult.failure] at h
    · next r0 =>
      split at h
      · simp [CallResult.failure] at h
      · next hn =>
        simp only at h
        split at h
        · simp [CallResult.failure] at h
        · next req0 hreq =>
          split at h <;> simp [CallResult.failure] at h <;> subst h <;>
            exact ⟨r0, req0, rfl, hid, hn, hreq, rfl⟩

/-- A request `Favorite` hands to the transport is the one `NewRequest` builds for the request
struct, with the bearer token. -/
theorem Favorite_sent (c : Client) (fc : FloatCodec) (ctx : Context)
    (favoriteItemRequest : Option (FavoriteItemRequest.Val fc)) (itemID : GoString) :
    ∀ req ∈ (ItemsServiceOp.Favorite c fc ctx favoriteItemRequest itemID).sent,
      ∃ r req0, favoriteItemRequest = some r ∧ itemID ≠ [] ∧
        c.NewRequest fc MethodPost (itemsBasePath ++ gostr "/" ++ itemID ++ gostr "/setFavorite")
          (some { type := .ptr FavoriteItemRequest, value := some r }) = .ok req0 ∧
        req = c.authorize req0 := by
  intro req h
  unfold ItemsServiceOp.Favorite at h
  split at h
  · simp [CallResult.failure] at h
  · next hid =>
    split at h
    · simp [CallResult.failure] at h
    · next r =>
      split at h
      · simp [CallResult.failure] at h
      · next req0 hreq =>
        simp only at h
        split at h <;> simp [CallResult.failure] at h <;> subst h <;>
          exact ⟨r, req0, rfl, hid, hreq, rfl⟩

/-- A request `Active` hands to the transport is the one `NewRequest` builds for the request
struct, or for a struct holding the user id of the client when the request is nil, with the
bearer token. -/
theorem Active_sent (c : Client) (fc : FloatCodec) (rt : ResponseType) (ctx : Context)
    (activeOrdersRequest : Option (ActiveOrdersRequest.Val fc)) :
    ∀ req ∈ (OrdersServiceOp.Active c fc rt ctx activeOrdersRequest).sent,
      ∃ req0, ¬ (activeOrdersRequest.isNone = true ∧ c.UserID = []) ∧
        c.NewRequest fc MethodPost (ordersBasePath ++ gostr "/active")
          (some { type := .ptr ActiveOrdersRequest,
                  value := some (activeOrdersRequest.getD (c.UserID, ())) }) = .ok req0 ∧
        req = c.authorize req0 := by
  intro req h
  unfold OrdersServiceOp.Active at h
  split at h
  · simp [CallResult.failure] at h
  · next hn =>
    split at h
    · simp [CallResult.failure] at h
    · next req0 hreq =>
      simp only at h
      split at h <;> simp [CallResult.failure] at h <;> subst h <;> exact ⟨req0, hn, hreq, rfl⟩

/-- A request `Inactive` hands to the transport is the one `NewRequest` builds for the request
struct, with the user id of the client in it when it held none, and with the bearer token. -/
theorem Inactive_sent (c : Client) (fc : FloatCodec) (rt : ResponseType) (ctx : Context)
    (inactiveOrdersRequest : Option (InactiveOrdersRequest.Val fc)) :
    ∀ req ∈ (OrdersServiceOp.Inactive c fc rt ctx inactiveOrdersRequest).sent,
      ∃ r0 req0, inactiveOrdersRequest = some r0 ∧
        ¬ (InactiveOrdersRequest.UserID r0 = [] ∧ c.UserID = []) ∧
        c.NewRequest fc MethodPost (ordersBasePath ++ gostr "/inactive")
          (some { type := .ptr InactiveOrdersRequest,
                  value := some (if InactiveOrdersRequest.UserID r0 = [] then
                    InactiveOrdersRequest.setUserID r0 c.UserID else r0) }) = .ok req0 ∧
        req = c.authorize req0 := by
  intro req h
  unfold OrdersServiceOp.Inactive at h
  split at h
  · simp [CallResult.failure] at h
  · next r0 =>
    split at h
    · simp [CallResult.failure] at h
    · next hn =>
      simp only at h
      split at h
      · simp [CallResult.failure] at h
      · next req0 hreq =>
        split at h <;> simp [CallResult.failure] at h <;> subst h <;>
          exact ⟨r0, req0, rfl, hn, hreq, rfl⟩

/-! ## The auth context across calls -/

theorem staysSet_refl (c : Client) : staysSet c c := ⟨id, id, id⟩

/-- C21, amended. `Login`, `List`, `Get`, `Favorite`, `Active` and `Inactive` leave every
field of the auth context that was non-empty non-empty, and so do `Poll`, `Signup` and
`Refresh` when they return an error; a successful `Poll`, `Signup` or `Refresh` stores the
fields of the response it decoded, so the fields stay non-empty provided the `access_token`,
`refresh_token` and, for `Poll` and `Signup`, the `user_id` of that response are non-empty. -/
theorem auth_context_stays_set (c : Client) (fc : FloatCodec) (ctx : Context)
    (listItemsResponse getItemResponse ordersResponse : ResponseType)
    (loginRequest : Option (LoginRequest.Val fc))
    (pollRequest : Option (PollRequest.Val fc))
    (refreshRequest : Option (RefreshTokensRequest.Val fc))
    (signupRequest : Option (SignupRequest.Val fc))
    (listItemsRequest : Option (ListItemsRequest.Val fc))
    (getItemRequest : Option (GetItemRequest.Val fc))
    (favoriteItemRequest : Option (FavoriteItemRequest.Val fc))
    (activeOrdersRequest : Option (ActiveOrdersRequest.Val fc))
    (inactiveOrdersRequest : Option (InactiveOrdersRequest.Val fc)) (itemID : GoString) :
    staysSet c (AuthServiceOp.Login c fc ctx loginRequest).client ∧
    staysSet c (ItemsServiceOp.List c fc listItemsResponse ctx listItemsRequest).client ∧
    staysSet c (ItemsServiceOp.Get c fc getItemResponse ctx getItemRequest itemID).client ∧
    staysSet c (ItemsServiceOp.Favorite c fc ctx favoriteItemRequest itemID).client ∧
    staysSet c (OrdersServiceOp.Active c fc ordersResponse ctx activeOrdersRequest).client ∧
    staysSet c (OrdersServiceOp.Inactive c fc ordersResponse ctx inactiveOrdersRequest).client ∧
    ((∀ v, (AuthServiceOp.Poll c fc ctx pollRequest).value = some v →
        PollResponse.AccessToken v ≠ [] ∧ PollResponse.RefreshToken v ≠ [] ∧
          PollResponse.UserID v ≠ []) →
      staysSet c (AuthServiceOp.Poll c fc ctx pollRequest).client) ∧
    ((∀ v, (AuthServiceOp.Signup c fc ctx signupRequest).value = some v →
        SignupResponse.AccessToken v ≠ [] ∧ SignupResponse.RefreshToken v ≠ [] ∧
          SignupResponse.UserID v ≠ []) →
      staysSet c (AuthServiceOp.Signup c fc ctx signupRequest).client) ∧
    ((∀ v, (AuthServiceOp.Refresh c fc ctx refreshRequest).value = some v →
        RefreshTokensResponse.AccessToken v ≠ [] ∧ RefreshTokensResponse.RefreshToken v ≠ []) →
      staysSet c (AuthServiceOp.Refresh c fc ctx refreshRequest).client) := by
  rw [Login_client, List_client, Get_client, Favorite_client, Active_client, Inactive_client]
  refine ⟨staysSet_refl c, staysSet_refl c, staysSet_refl c, staysSet_refl c, staysSet_refl c,
    staysSet_refl c, fun h => ?_, fun h => ?_, fun h => ?_⟩
  · rcases Poll_outcome c fc ctx pollRequest with ⟨_, hc⟩ | ⟨_, v, hv, hc⟩
    · rw [hc]; exact staysSet_refl c
    · rw [hc]
      exact ⟨fun _ => (h v hv).1, fun _ => (h v hv).2.1, fun _ => (h v hv).2.2⟩
  · rcases Signup_outcome c fc ctx signupRequest with ⟨_, hc⟩ | ⟨_, v, hv, hc⟩
    · rw [hc]; exact staysSet_refl c
    · rw [hc]
      exact ⟨fun _ => (h v hv).1, fun _ => (h v hv).2.1, fun _ => (h v hv).2.2⟩
  · rcases Refresh_outcome c fc ctx refreshRequest with ⟨_, hc⟩ | ⟨_, v, hv, hc⟩
    · rw [hc]; exact staysSet_refl c
    · rw [hc]
      exact ⟨fun _ => (h v hv).1, fun _ => (h v hv).2, id⟩

set_option maxRecDepth 100000 in
/-- Witness of the amended C21: the poll of the test `TestAuthService_Poll`, whose answer
holds non-empty tokens and a non-empty user id. -/
theorem auth_context_stays_set_witness :
    staysSet (authedClient pollAnswer)
      (AuthServiceOp.Poll (authedClient pollAnswer) noFloat { id := 0 }
        (some samplePollRequest)).client :=
  (auth_context_stays_set (authedClient pollAnswer) noFloat { id := 0 } ignoredResponse
    ignoredResponse ignoredResponse none (some samplePollRequest) none none none none none none
    none []).2.2.2.2.2.2.1
    (fun v hv => by
      have h0 : (AuthServiceOp.Poll (authedClient pollAnswer) noFloat { id := 0 }
          (some samplePollRequest)).value
          = some (gostr "access_token", gostr "refresh_token", (172800 : Int),
              ((gostr "1", ()), ()), ()) := rfl
      have hv' := Option.some.inj (h0.symm.trans hv)
      subst hv'
      exact ⟨by decide, by decide, by decide⟩)

set_option maxRecDepth 100000 in
/-- C21, counterexample. A client that holds a non-empty access token, refresh token and user
id polls and is answered `200 OK` with the body `{}`: the poll returns no error and leaves all
three fields empty. -/
theorem Poll_clears_auth_context :
    (authedClient emptyObjectAnswer).authContext
      = (gostr "old_access", gostr "old_refresh", gostr "42") ∧
    (AuthServiceOp.Poll (authedClient emptyObjectAnswer) noFloat { id := 0 }
      (some samplePollRequest)).err = none ∧
    (AuthServiceOp.Poll (authedClient emptyObjectAnswer) noFloat { id := 0 }
      (some samplePollRequest)).client.authContext = ([], [], []) ∧
    ¬ staysSet (authedClient emptyObjectAnswer)
      (AuthServiceOp.Poll (authedClient emptyObjectAnswer) noFloat { id := 0 }
        (some samplePollRequest)).client :=
  ⟨rfl, rfl, rfl, fun h => h.1 (by decide) rfl⟩

/-! ## Argument errors -/

/-- The message of an `ArgumentError` contains every prefix of the name of its argument. -/
theorem ArgumentError.Error_contains (name argument reason : GoString)
    (h : List.IsPrefix name argument) :
    List.IsInfix name (NewArgumentError argument reason).Error := by
  obtain ⟨t, rfl⟩ := h
  refine ⟨[], t ++ gostr " argument is invalid (reason: " ++ reason ++ gostr ")", ?_⟩
  simp [ArgumentError.Error, NewArgumentError]

/-- A return with an `ArgumentError` before any request is built is a rejection naming every
prefix of the name of the argument. -/
theorem failure_rejects {ρ α : Type} (c : Client) (request : Option ρ)
    (name argument reason : GoString) (h : List.IsPrefix name argument) :
    (CallResult.failure c request (.argument (NewArgumentError argument reason)) []
      : CallResult ρ α).rejects name :=
  ⟨_, rfl, ArgumentError.Error_contains name argument reason h, rfl, rfl, rfl⟩

/-- C22. `Login`, `Poll`, `Signup`, `List`, `Get` and `Favorite` (with a non-empty item id)
and `Inactive` called with a nil request, and `Refresh` and `Active` called with a nil
request on a client that holds no refresh token, respectively no user id, return an
`ArgumentError` whose message contains the name of the request parameter, return nil results
and hand no request to the transport. -/
theorem nil_request_rejected (c : Client) (fc : FloatCodec) (ctx : Context)
    (listItemsResponse getItemResponse ordersResponse : ResponseType) (itemID : GoString) :
    (AuthServiceOp.Login c fc ctx none).rejects (gostr "loginRequest") ∧
    (AuthServiceOp.Poll c fc ctx none).rejects (gostr "pollRequest") ∧
    (AuthServiceOp.Signup c fc ctx none).rejects (gostr "signupRequest") ∧
    (ItemsServiceOp.List c fc listItemsResponse ctx none).rejects (gostr "listItemsRequest") ∧
    (itemID ≠ [] →
      (ItemsServiceOp.Get c fc getItemResponse ctx none itemID).rejects
        (gostr "getItemRequest")) ∧
    (itemID ≠ [] →
      (ItemsServiceOp.Favorite c fc ctx none itemID).rejects (gostr "favoriteItemRequest")) ∧
    (OrdersServiceOp.Inactive c fc ordersResponse ctx none).rejects
      (gostr "inactiveOrdersRequest") ∧
    (c.RefreshToken = [] →
      (AuthServiceOp.Refresh c fc ctx none).rejects (gostr "refreshRequest")) ∧
    (c.UserID = [] →
      (OrdersServiceOp.Active c fc ordersResponse ctx none).rejects
        (gostr "activeOrdersRequest")) := by
  refine ⟨?_, ?_, ?_, ?_, fun hid => ?_, fun hid => ?_, ?_, fun ht => ?_, fun hu => ?_⟩
  · exact failure_rejects c none _ _ _ (List.prefix_refl _)
  · exact failure_rejects c none _ _ _ (List.prefix_refl _)
  · exact failure_rejects c none _ _ _ (List.prefix_refl _)
  · exact failure_rejects c none _ _ _ (List.prefix_refl _)
  · unfold ItemsServiceOp.Get
    rw [if_neg hid]
    exact failure_rejects c none _ _ _ (List.prefix_refl _)
  · unfold ItemsServiceOp.Favorite
    rw [if_neg hid]
    exact failure_rejects c none _ _ _ (List.prefix_refl _)
  · exact failure_rejects c none _ _ _ (List.prefix_refl _)
  · unfold AuthServiceOp.Refresh
    rw [if_pos ⟨rfl, ht⟩]
    exact failure_rejects c none _ _ _ (List.prefix_refl _)
  · unfold OrdersServiceOp.Active
    rw [if_pos ⟨rfl, hu⟩]
    exact failure_rejects c none _ _ _ ⟨gostr ".UserID", by decide⟩

/-- Witness of C22: a client without auth context, as the tests of the argument errors use
it, and the item id `1`. -/
theorem nil_request_rejected_witness :
    (ItemsServiceOp.Get (NewClient noTransport) noFloat ignoredResponse { id := 0 } none
      (gostr "1")).rejects (gostr "getItemRequest") ∧
    (ItemsServiceOp.Favorite (NewClient noTransport) noFloat { id := 0 } none
      (gostr "1")).rejects (gostr "favoriteItemRequest") ∧
    (AuthServiceOp.Refresh (NewClient noTransport) noFloat { id := 0 } none).rejects
      (gostr "refreshRequest") ∧
    (OrdersServiceOp.Active (NewClient noTransport) noFloat ignoredResponse { id := 0 }
      none).rejects (gostr "activeOrdersRequest") :=
  ⟨(nil_request_rejected (NewClient noTransport) noFloat { id := 0 } ignoredResponse
      ignoredResponse ignoredResponse (gostr "1")).2.2.2.2.1 (by decide),
    (nil_request_rejected (NewClient noTransport) noFloat { id := 0 } ignoredResponse
      ignoredResponse ignoredResponse (gostr "1")).2.2.2.2.2.1 (by decide),
    (nil_request_rejected (NewClient noTransport) noFloat { id := 0 } ignoredResponse
      ignoredResponse ignoredResponse (gostr "1")).2.2.2.2.2.2.2.1 rfl,
    (nil_request_rejected (NewClient noTransport) noFloat { id := 0 } ignoredResponse
      ignoredResponse ignoredResponse (gostr "1")).2.2.2.2.2.2.2.2 rfl⟩

/-! ## Requests that leave an identifier empty -/

set_option maxRecDepth 100000 in
/-- C23, at the failing input. On a client without a user id, `Active` called with a request
whose `UserID` is empty returns no `ArgumentError`: it hands to the transport a request whose
body carries an empty `user_id`. `Inactive`, called the same way, returns the `ArgumentError`
naming `inactiveOrdersRequest.UserID` and sends nothing. -/
theorem Active_empty_user_id_not_rejected :
    (clientAnswering emptyObjectAnswer).UserID = [] ∧
    (OrdersServiceOp.Active (clientAnswering emptyObjectAnswer) noFloat ignoredResponse
      { id := 0 } (some emptyActiveOrdersRequest)).err = none ∧
    (OrdersServiceOp.Active (clientAnswering emptyObjectAnswer) noFloat ignoredResponse
      { id := 0 } (some emptyActiveOrdersRequest)).sent.map Request.Body
      = [some (gostr "\x7b\"user_id\":\"\"\x7d\n")] ∧
    (OrdersServiceOp.Inactive (clientAnswering emptyObjectAnswer) noFloat ignoredResponse
      { id := 0 } (some emptyInactiveOrdersRequest)).rejects
      (gostr "inactiveOrdersRequest.UserID") :=
  ⟨rfl, rfl, rfl, failure_rejects _ _ _ _ _ (List.prefix_refl _)⟩

set_option maxRecDepth 100000 in
/-- C24, at the failing input. On a client that holds the user id `42`, `Active` called with a
request whose `UserID` is empty sends a body whose `user_id` is empty, not `42`, and leaves
the request as it is. `Inactive`, called the same way, sends `user_id` `42`, and so does
`Active` called with a nil request. -/
theorem Active_empty_user_id_not_filled :
    (authedClient emptyObjectAnswer).UserID = gostr "42" ∧
    (OrdersServiceOp.Active (authedClient emptyObjectAnswer) noFloat ignoredResponse
      { id := 0 } (some emptyActiveOrdersRequest)).sent.map Request.Body
      = [some (gostr "\x7b\"user_id\":\"\"\x7d\n")] ∧
    (OrdersServiceOp.Active (authedClient emptyObjectAnswer) noFloat ignoredResponse
      { id := 0 } (some emptyActiveOrdersRequest)).request = some emptyActiveOrdersRequest ∧
    (OrdersServiceOp.Active (authedClient emptyObjectAnswer) noFloat ignoredResponse
      { id := 0 } none).sent.map Request.Body
      = [some (gostr "\x7b\"user_id\":\"42\"\x7d\n")] ∧
    (OrdersServiceOp.Inactive (authedClient emptyObjectAnswer) noFloat ignoredResponse
      { id := 0 } (some emptyInactiveOrdersRequest)).sent.map Request.Body
      = [some (gostr "\x7b\"user_id\":\"42\",\"paging\":\x7b\"page\":0,\"size\":0\x7d\x7d\n")] :=
  ⟨rfl, rfl, rfl, rfl, rfl⟩

set_option maxRecDepth 100000 in
/-- C25, at the failing input. On a client that holds the refresh token `old_refresh`,
`Refresh` called with a request whose `RefreshToken` is empty submits an empty
`refresh_token`, not the stored one (a nil request submits the stored one); and on a client
without a refresh token the same call returns no `ArgumentError` and submits the empty
token. -/
theorem Refresh_empty_token_submitted :
    (authedClient refreshAnswer).RefreshToken = gostr "old_refresh" ∧
    (AuthServiceOp.Refresh (authedClient refreshAnswer) noFloat { id := 0 }
      (some emptyRefreshTokensRequest)).sent.map Request.Body
      = [some (gostr "\x7b\"refresh_token\":\"\"\x7d\n")] ∧
    (AuthServiceOp.Refresh (authedClient refreshAnswer) noFloat { id := 0 }
      none).sent.map Request.Body
      = [some (gostr "\x7b\"refresh_token\":\"old_refresh\"\x7d\n")] ∧
    (clientAnswering refreshAnswer).RefreshToken = [] ∧
    (AuthServiceOp.Refresh (clientAnswering refreshAnswer) noFloat { id := 0 }
      (some emptyRefreshTokensRequest)).err = none ∧
    (AuthServiceOp.Refresh (clientAnswering refreshAnswer) noFloat { id := 0 }
      (some emptyRefreshTokensRequest)).sent.map Request.Body
      = [some (gostr "\x7b\"refresh_token\":\"\"\x7d\n")] :=
  ⟨rfl, rfl, rfl, rfl, rfl, rfl⟩

/-! ### References that start with a slash -/

/-- `url.Parse` reads a slash followed by a plain relative path as a URL that has only that
path. -/
theorem Parse_plainRooted (p : GoString) (h : plainRelative p = true) :
    Parse (.rune '/' :: p) = some { URL.zero with Path := .rune '/' :: p } := by
  simp only [plainRelative, plainPath, Bool.and_eq_true, bne_iff_ne, ne_eq] at h
  obtain ⟨⟨⟨hp, _⟩, _⟩, hhead⟩ := h
  have hall : (GoRune.rune '/' :: p).all isPlainItem = true := by
    rw [List.all_cons, hp]; rfl
  have hhash := cut_of_not_mem '#' _ (plain_not_mem _ hall '#' (by decide))
  have hq := cut_of_not_mem '?' _ (plain_not_mem _ hall '?' (by decide))
  have hstar : GoRune.rune '/' :: p ≠ gostr "*" := by
    intro he
    exact plain_not_mem _ hall '*' (by decide) (he ▸ List.mem_cons_self _ _)
  have hscheme := getSchemeLoop_no_colon _ (plain_not_mem _ hall ':' (by decide)) []
  have hlast : (GoRune.rune '/' :: p).getLast? ≠ some (.rune '?') := by
    intro he
    exact plain_not_mem _ hall '?' (by decide) (List.mem_of_getLast?_eq_some he)
  have hpre : hasPrefix "/" (.rune '/' :: p) = true := by
    simp [hasPrefix, gostr, ofChars, List.isPrefixOf_cons₂]
  have hpre2 : hasPrefix "//" (.rune '/' :: p) = false := by
    cases p with
    | nil => rfl
    | cons x p =>
      have : x ≠ .rune '/' := fun he => hhead (by rw [he]; rfl)
      simp [hasPrefix, gostr, ofChars, List.isPrefixOf_cons₂, Ne.symm this]
  have hparse : parseNoFragment (.rune '/' :: p) = some { URL.zero with Path := .rune '/' :: p } := by
    unfold parseNoFragment
    simp only [containsCTLByte_plain _ hall, hstar, hscheme, hq, hlast]
    simp [hpre, hpre2, setPath_plain _ _ hall, URL.zero]
  unfold Parse
  simp only [hhash, hparse]

/-- A reference that is a slash followed by a plain relative path takes the place of the path
of the base. -/
theorem resolvePath_rooted (base p : GoString) (h : plainRelative p = true) :
    resolvePath base (.rune '/' :: p) = .rune '/' :: p := by
  simp only [plainRelative, plainPath, Bool.and_eq_true, bne_iff_ne, ne_eq,
    Bool.not_eq_true', List.contains_eq_any_beq, List.any_eq_false, beq_iff_eq] at h
  obtain ⟨⟨⟨_, hd1⟩, hd2⟩, _⟩ := h
  have hj : joinReference base (.rune '/' :: p) = .rune '/' :: p := by
    simp [joinReference]
  unfold resolvePath
  rw [hj, if_neg (by simp)]
  apply removeDotSegments_plain _ (by rfl)
  · rw [splitSlash_cons_slash]
    intro hm
    rcases List.mem_cons.mp hm with hm | hm
    · exact absurd hm (by decide)
    · exact hd1 _ hm rfl
  · rw [splitSlash_cons_slash]
    intro hm
    rcases List.mem_cons.mp hm with hm | hm
    · exact absurd hm (by decide)
    · exact hd2 _ hm rfl

/-- Resolving a slash followed by a plain relative path against a plain base URL keeps the
scheme and the host of the base and drops its path. -/
theorem URL_Parse_rooted (u : URL) (p : GoString) (hb : plainBase u = true)
    (hr : plainRelative p = true) :
    u.Parse (.rune '/' :: p) = some (plainURL u.Scheme u.Host (.rune '/' :: p)) := by
  obtain ⟨hu, hs, hh, hp, hp0, hp1⟩ := plainBase_eq u hb
  have hrel := Parse_plainRooted p hr
  have hres := resolvePath_rooted u.Path p hr
  have hpa : u.Path.all isPlainItem = true := by
    simp only [plainPath, Bool.and_eq_true] at hp
    exact hp.1.1
  have hra : p.all isPlainItem = true := by
    simp only [plainRelative, plainPath, Bool.and_eq_true] at hr
    exact hr.1.1.1
  have hall : (GoRune.rune '/' :: p).all isPlainItem = true := by
    rw [List.all_cons, hra]; rfl
  have he1 : u.EscapedPath = u.Path := by
    rw [hu]; exact EscapedPath_plain _ _ _ hpa
  have he2 : ({ URL.zero with Path := .rune '/' :: p } : URL).EscapedPath = .rune '/' :: p :=
    EscapedPath_plain [] [] _ hall
  unfold URL.Parse
  rw [hrel]
  simp only [Option.map_some', Option.some.injEq]
  unfold URL.ResolveReference
  simp only [he1, he2, hres]
  rw [hu]
  simp [URL.zero, plainURL, setPath_plain _ _ hall]

/-- The URL of a request built by `NewRequest` when the reference resolves to a URL
`scheme://host/path` with nothing else: that URL, whose string is these parts put together. -/
theorem NewRequest_url_of_resolved (c : Client) (fc : FloatCodec) (method url : GoString)
    (body : Option (AnyValue fc)) (req : Request) (s h p : GoString)
    (hs : plainScheme s = true) (hh : plainHost h = true) (hp : p.all isPlainItem = true)
    (hp0 : p.head? = some (.rune '/')) (hres : c.BaseURL.Parse url = some (plainURL s h p))
    (hreq : c.NewRequest fc method url body = .ok req) :
    req.URL = some (plainURL s h p) ∧
      (plainURL s h p).String = s ++ .rune ':' :: .rune '/' :: .rune '/' :: (h ++ p) := by
  have hstr := String_plainURL s h p hs hh hp hp0
  have hparse := Parse_plainURL s h p hs hh hp hp0
  rw [← hstr] at hparse
  have hport : removeEmptyPort (plainURL s h p).Host = (plainURL s h p).Host :=
    (parseHost_plain h hh).2.1
  obtain ⟨u, req0, hu, hb, hr⟩ := NewRequest_ok c fc method url body req hreq
  rw [hres] at hu
  simp only [Option.some.injEq] at hu
  subst hu
  refine ⟨?_, hstr⟩
  rw [hr]
  exact buildRequest_url fc method _ body req0 hparse hport hb

/-- The method of a request built by `NewRequest` for a non-empty method string. -/
theorem NewRequest_Method (c : Client) (fc : FloatCodec) (method url : GoString)
    (body : Option (AnyValue fc)) (req : Request) (hm : method ≠ [])
    (hreq : c.NewRequest fc method url body = .ok req) : req.Method = method := by
  obtain ⟨u, req0, _, hb, hr⟩ := NewRequest_ok c fc method url body req hreq
  have key : ∀ b r, httpNewRequest method u.String b = .ok r → r.Method = method := by
    intro b r h
    unfold httpNewRequest at h
    simp only [if_neg hm] at h
    split_ifs at h
    rcases hp : Parse u.String with _ | u2
    · rw [hp] at h; exact absurd h (by simp)
    · rw [hp] at h
      simp only [Except.ok.injEq] at h
      rw [← h]
  have hm0 : req0.Method = method := by
    unfold Client.buildRequest at hb
    split_ifs at hb
    · exact key _ _ hb
    · split at hb
      · exact absurd hb (by simp)
      · next buf _ =>
        rcases hh : httpNewRequest method u.String (some buf) with e | r2
        · rw [hh] at hb; exact absurd hb (by simp)
        · rw [hh] at hb
          simp only [Except.ok.injEq] at hb
          rw [← hb]
          exact key _ r2 hh
  rw [hr]
  exact hm0

/-! ### The `Authorization` header -/

theorem authorize_lookup (c : Client) (req0 : Request) :
    Header.lookup (c.authorize req0).Header (gostr "Authorization")
      = [gostr "Bearer " ++ c.AccessToken] := by
  have hc : CanonicalMIMEHeaderKey (gostr "Authorization") = gostr "Authorization" := by decide
  simp only [Client.authorize, Header.lookup_Set, hc, if_true]

theorem NewRequest_lookup_Authorization (c : Client) (fc : FloatCodec) (method url : GoString)
    (body : Option (AnyValue fc)) (req : Request)
    (h : c.NewRequest fc method url body = .ok req) :
    Header.lookup req.Header (gostr "Authorization")
      = (c.headers.filter
          (fun kv => decide (CanonicalMIMEHeaderKey kv.1 = gostr "Authorization"))).map
          Prod.snd := by
  rw [NewRequest_lookup c fc method url body req _ h (by decide) (by decide),
    if_neg (fun hh => absurd hh.1 (by decide)), List.nil_append]

/-! ### Method and path of the requests of the services -/

/-- A plain relative path put after a non-empty plain relative path and a slash is a plain
relative path. -/
theorem plainRelative_append (a b : GoString) (ha : plainRelative a = true) (hne : a ≠ [])
    (hb : plainRelative b = true) : plainRelative (a ++ .rune '/' :: b) = true := by
  simp only [plainRelative, plainPath, Bool.and_eq_true, bne_iff_ne, ne_eq,
    Bool.not_eq_true', List.contains_eq_any_beq, List.any_eq_false, beq_iff_eq] at ha hb ⊢
  obtain ⟨⟨⟨ha1, ha2⟩, ha3⟩, ha4⟩ := ha
  obtain ⟨⟨⟨hb1, hb2⟩, hb3⟩, _⟩ := hb
  refine ⟨⟨⟨?_, ?_⟩, ?_⟩, ?_⟩
  · rw [List.all_append, ha1, List.all_cons, hb1]; rfl
  · intro x hx
    rw [splitSlash_append] at hx
    rcases List.mem_append.mp hx with hx | hx
    · exact ha2 x hx
    · exact hb2 x hx
  · intro x hx
    rw [splitSlash_append] at hx
    rcases List.mem_append.mp hx with hx | hx
    · exact ha3 x hx
    · exact hb3 x hx
  · cases a with
    | nil => exact absurd rfl hne
    | cons x xs => simpa using ha4

/-- A request built by `NewRequest` with the method POST for a plain relative path on a client
with a plain base URL: its method is POST and its URL is the base URL followed by the path. -/
theorem NewRequest_POST_plain (c : Client) (fc : FloatCodec) (path : GoString)
    (body : Option (AnyValue fc)) (req : Request) (hb : plainBase c.BaseURL = true)
    (hr : plainRelative path = true) (hreq : c.NewRequest fc MethodPost path body = .ok req) :
    req.Method = gostr "POST" ∧ req.URL.map URL.String = some (c.BaseURL.String ++ path) := by
  obtain ⟨hu, hs, hh, hp, hp0, hp1⟩ := plainBase_eq c.BaseURL hb
  have hpa : c.BaseURL.Path.all isPlainItem = true := by
    simp only [plainPath, Bool.and_eq_true] at hp
    exact hp.1.1
  have hra : path.all isPlainItem = true := by
    simp only [plainRelative, plainPath, Bool.and_eq_true] at hr
    exact hr.1.1.1
  have hall : (c.BaseURL.Path ++ path).all isPlainItem = true := by
    rw [List.all_append, hpa, hra]; rfl
  have hhead : (c.BaseURL.Path ++ path).head? = some (.rune '/') := by
    cases hq : c.BaseURL.Path with
    | nil => rw [hq] at hp0; simp at hp0
    | cons x xs => rw [hq] at hp0; simpa using hp0
  obtain ⟨hurl, hstr⟩ := NewRequest_url_of_resolved c fc MethodPost path body req _ _ _ hs hh
    hall hhead (URL_Parse_plain c.BaseURL path hb hr) hreq
  have hbase := String_plainURL c.BaseURL.Scheme c.BaseURL.Host c.BaseURL.Path hs hh hpa hp0
  rw [← hu] at hbase
  refine ⟨NewRequest_Method c fc MethodPost path body req (by decide) hreq, ?_⟩
  rw [hurl, Option.map_some', hstr, hbase]
  simp

/-! ### A reference that starts with a slash -/

/-- C28. On a client with a plain base URL `scheme://host/p1/.../pn/`, a request built for a
reference that is a slash followed by a plain relative path has the URL `scheme://host`
followed by the reference: the path of the base is dropped. That URL is not the base URL
followed by the reference, and when the path of the base is not `/` alone it is not the base
URL followed by the reference without its slash either. -/
theorem NewRequest_rooted_reference (c : Client) (fc : FloatCodec) (method p : GoString)
    (body : Option (AnyValue fc)) (req : Request) (hb : plainBase c.BaseURL = true)
    (hr : plainRelative p = true)
    (hreq : c.NewRequest fc method (.rune '/' :: p) body = .ok req) :
    req.URL.map URL.String
      = some (c.BaseURL.Scheme ++ gostr "://" ++ c.BaseURL.Host ++ .rune '/' :: p) ∧
    c.BaseURL.Scheme ++ gostr "://" ++ c.BaseURL.Host ++ .rune '/' :: p
      ≠ c.BaseURL.String ++ .rune '/' :: p ∧
    (c.BaseURL.Path ≠ gostr "/" →
      c.BaseURL.Scheme ++ gostr "://" ++ c.BaseURL.Host ++ .rune '/' :: p
        ≠ c.BaseURL.String ++ p) := by
  obtain ⟨hu, hs, hh, hp, hp0, hp1⟩ := plainBase_eq c.BaseURL hb
  have hpa : c.BaseURL.Path.all isPlainItem = true := by
    simp only [plainPath, Bool.and_eq_true] at hp
    exact hp.1.1
  have hra : p.all isPlainItem = true := by
    simp only [plainRelative, plainPath, Bool.and_eq_true] at hr
    exact hr.1.1.1
  have hall : (GoRune.rune '/' :: p).all isPlainItem = true := by
    rw [List.all_cons, hra]; rfl
  obtain ⟨hurl, hstr⟩ := NewRequest_url_of_resolved c fc method _ body req _ _ _ hs hh
    hall rfl (URL_Parse_rooted c.BaseURL p hb hr) hreq
  have hbase := String_plainURL c.BaseURL.Scheme c.BaseURL.Host c.BaseURL.Path hs hh hpa hp0
  rw [← hu] at hbase
  obtain ⟨x, xs, hpath⟩ : ∃ x xs, c.BaseURL.Path = x :: xs := by
    cases hq : c.BaseURL.Path with
    | nil => rw [hq] at hp0; simp at hp0
    | cons x xs => exact ⟨x, xs, rfl⟩
  refine ⟨?_, ?_, ?_⟩
  · rw [hurl, Option.map_some', hstr]
    simp [gostr, ofChars]
  · intro he
    rw [hbase, hpath] at he
    have := congrArg List.length he
    simp [gostr, ofChars] at this
    omega
  · intro hne he
    rw [hbase, hpath] at he
    have hl := congrArg List.length he
    simp only [gostr, ofChars, List.length_append, List.length_cons, List.length_map,
      List.length_nil, String.toList] at hl
    have hxs : xs = [] := List.length_eq_zero.mp (by omega)
    rw [hpath, hxs] at hp0
    simp only [List.head?_cons, Option.some.injEq] at hp0
    exact hne (by rw [hpath, hxs, hp0]; rfl)

/-- Witness of C28: on the default client the reference `/x` gives the URL
`https://apptoogoodtogo.com/x`, not `https://apptoogoodtogo.com/api//x` and not
`https://apptoogoodtogo.com/api/x`. -/
theorem NewRequest_rooted_reference_witness :
    ∃ req, (NewClient noTransport).NewRequest noFloat (gostr "GET") (gostr "/x") none = .ok req ∧
      req.URL.map URL.String = some (gostr "https://apptoogoodtogo.com/x") ∧
      gostr "https://apptoogoodtogo.com/x" ≠ gostr "https://apptoogoodtogo.com/api//x" ∧
      gostr "https://apptoogoodtogo.com/x" ≠ gostr "https://apptoogoodtogo.com/api/x" :=
  ⟨_, rfl,
    (NewRequest_rooted_reference (NewClient noTransport) noFloat (gostr "GET") (gostr "x") none
      _ (by decide) (by decide) rfl).1.trans (by decide),
    by decide, by decide⟩

/-! ### The order of the extra headers -/

/-- The values of `Accept` and `User-Agent` in a built request. -/
theorem NewRequest_lookup_fixed (c : Client) (fc : FloatCodec) (method url : GoString)
    (body : Option (AnyValue fc)) (req : Request)
    (h : c.NewRequest fc method url body = .ok req) :
    Header.lookup req.Header (gostr "Accept") = [mediaType] ∧
    Header.lookup req.Header (gostr "User-Agent") = [c.UserAgent] := by
  obtain ⟨u, req0, _, hb, hreq⟩ := NewRequest_ok c fc method url body req h
  have hca : CanonicalMIMEHeaderKey (gostr "Accept") = gostr "Accept" := by decide
  have hcu : CanonicalMIMEHeaderKey (gostr "User-Agent") = gostr "User-Agent" := by decide
  have hne : gostr "Accept" ≠ gostr "User-Agent" := by decide
  rw [hreq]
  constructor
  · simp only [Header.lookup_Set, hca, hcu, if_neg hne, if_true]
  · simp only [Header.lookup_Set, hcu, if_true]

/-- Among entries with distinct images, at most one has a given image. -/
theorem filter_length_le_one {α β : Type} [DecidableEq β] (f : α → β) (l : List α)
    (hnd : (l.map f).Nodup) (key : β) :
    (l.filter (fun x => decide (f x = key))).length ≤ 1 := by
  induction l with
  | nil => simp
  | cons x xs ih =>
    simp only [List.map_cons, List.nodup_cons] at hnd
    by_cases hx : f x = key
    · have hnil : xs.filter (fun y => decide (f y = key)) = [] := by
        rw [List.filter_eq_nil_iff]
        intro y hy
        simp only [decide_eq_true_eq]
        intro he
        exact hnd.1 (by rw [hx, ← he]; exact List.mem_map_of_mem f hy)
      simp [List.filter_cons, hx, hnil]
    · simpa [List.filter_cons, hx] using ih hnd.2

/-- Two lists with at most one entry that are permutations of each other are equal. -/
theorem eq_of_perm_of_length_le_one {α : Type} (l1 l2 : List α) (hp : l1.Perm l2)
    (hl : l1.length ≤ 1) : l1 = l2 := by
  match l1, hl with
  | [], _ => exact (List.Perm.nil_eq hp)
  | [a], _ => exact (List.Perm.singleton_eq hp)

/-- C29, amended. Two requests built by `NewRequest` with the same arguments on clients that
differ only in the order in which the configured extra headers are visited carry the same
values under every header name, the values of a name in the visiting order; when no two
configured names have the same canonical form (as two names that differ in letter case only
have), the values under every header name are the same in the same order. -/
theorem NewRequest_header_order (c : Client) (visited : List (GoString × GoString))
    (fc : FloatCodec) (method url : GoString) (body : Option (AnyValue fc))
    (req1 req2 : Request) (hperm : c.headers.Perm visited)
    (h1 : c.NewRequest fc method url body = .ok req1)
    (h2 : { c with headers := visited }.NewRequest fc method url body = .ok req2) :
    (∀ key, (Header.lookup req1.Header key).Perm (Header.lookup req2.Header key)) ∧
    ((c.headers.map (fun kv => CanonicalMIMEHeaderKey kv.1)).Nodup →
      ∀ key, Header.lookup req1.Header key = Header.lookup req2.Header key) := by
  have hfix1 := NewRequest_lookup_fixed c fc method url body req1 h1
  have hfix2 := NewRequest_lookup_fixed _ fc method url body req2 h2
  have hcase : ∀ key, (key = gostr "Accept" ∨ key = gostr "User-Agent") ∨
      (Header.lookup req1.Header key
        = (if key = gostr "Content-Type" ∧ ¬ bodyless method then [mediaType] else [])
          ++ (c.headers.filter (fun kv => decide (CanonicalMIMEHeaderKey kv.1 = key))).map
            Prod.snd ∧
       Header.lookup req2.Header key
        = (if key = gostr "Content-Type" ∧ ¬ bodyless method then [mediaType] else [])
          ++ (visited.filter (fun kv => decide (CanonicalMIMEHeaderKey kv.1 = key))).map
            Prod.snd) := by
    intro key
    by_cases ha : key = gostr "Accept"
    · exact Or.inl (Or.inl ha)
    · by_cases hu : key = gostr "User-Agent"
      · exact Or.inl (Or.inr hu)
      · exact Or.inr ⟨NewRequest_lookup c fc method url body req1 key h1 ha hu,
          NewRequest_lookup _ fc method url body req2 key h2 ha hu⟩
  constructor
  · intro key
    rcases hcase key with (rfl | rfl) | ⟨e1, e2⟩
    · rw [hfix1.1, hfix2.1]
    · rw [hfix1.2, hfix2.2]
    · rw [e1, e2]
      exact List.Perm.append_left _ ((hperm.filter _).map _)
  · intro hnd key
    rcases hcase key with (rfl | rfl) | ⟨e1, e2⟩
    · rw [hfix1.1, hfix2.1]
    · rw [hfix1.2, hfix2.2]
    · rw [e1, e2]
      congr 1
      apply eq_of_perm_of_length_le_one _ _ ((hperm.filter _).map _)
      rw [List.length_map]
      exact filter_length_le_one (fun kv => CanonicalMIMEHeaderKey kv.1) c.headers hnd key

/-- Witness of the amended C29: the extra headers `Accept-Encoding` and `X-A`, visited in
either order. -/
theorem NewRequest_header_order_witness :
    ∃ req1 req2,
      { NewClient noTransport with
          headers := [(gostr "Accept-Encoding", gostr "chunked"), (gostr "X-A", gostr "1")]
        }.NewRequest noFloat (gostr "GET") (gostr "x") none = .ok req1 ∧
      { NewClient noTransport with
          headers := [(gostr "X-A", gostr "1"), (gostr "Accept-Encoding", gostr "chunked")]
        }.NewRequest noFloat (gostr "GET") (gostr "x") none = .ok req2 ∧
      ∀ key, Header.lookup req1.Header key = Header.lookup req2.Header key :=
  ⟨_, _, rfl, rfl,
    (NewRequest_header_order
      { NewClient noTransport with
        headers := [(gostr "Accept-Encoding", gostr "chunked"), (gostr "X-A", gostr "1")] }
      [(gostr "X-A", gostr "1"), (gostr "Accept-Encoding", gostr "chunked")]
      noFloat (gostr "GET") (gostr "x") none _ _ (List.Perm.swap _ _ _) rfl rfl).2 (by decide)⟩

/-- C29, counterexample. Two clients hold the same extra headers `x-a: 1` and `X-A: 2`,
visited in the two orders; the requests they build for `GET x` differ in the value
`Header.Get` returns for `X-A`: `1` for one order and `2` for the other. -/
theorem NewRequest_header_order_case :
    caseClient.headers.Perm caseClientSwapped.headers ∧
    (caseClient.NewRequest noFloat (gostr "GET") (gostr "x") none).toOption.map
      (fun req => (Header.lookup req.Header (gostr "X-A"), req.Header.Get (gostr "X-A")))
      = some ([gostr "1", gostr "2"], gostr "1") ∧
    (caseClientSwapped.NewRequest noFloat (gostr "GET") (gostr "x") none).toOption.map
      (fun req => (Header.lookup req.Header (gostr "X-A"), req.Header.Get (gostr "X-A")))
      = some ([gostr "2", gostr "1"], gostr "2") :=
  ⟨List.Perm.swap _ _ _, rfl, rfl⟩

/-! ## The request struct of the caller -/

/-- The errors of `http.NewRequest`. -/
theorem httpNewRequest_error (method url : GoString) (body : Option GoString) (e : GoError)
    (h : httpNewRequest method url body = .error e) : e = .http method ∨ e = .url url := by
  unfold httpNewRequest at h
  by_cases hv : validMethod (if method = [] then gostr "GET" else method) = true
  · rw [if_neg (not_not.mpr hv)] at h
    rcases hp : Parse url with _ | u
    · rw [hp] at h
      simp only [Except.error.injEq] at h
      exact Or.inr h.symm
    · rw [hp] at h
      exact absurd h (by simp)
  · rw [if_pos hv] at h
    simp only [Except.error.injEq] at h
    exact Or.inl h.symm

/-- The errors of the first half of `NewRequest`. -/
theorem buildRequest_error (fc : FloatCodec) (method : GoString) (u : URL)
    (body : Option (AnyValue fc)) (e : GoError)
    (h : Client.buildRequest fc method u body = .error e) :
    e = .http method ∨ e = .url u.String ∨ e = .unsupportedValue := by
  unfold Client.buildRequest at h
  split_ifs at h
  · rcases httpNewRequest_error _ _ _ _ h with h | h
    · exact Or.inl h
    · exact Or.inr (Or.inl h)
  · split at h
    · simp only [Except.error.injEq] at h
      exact Or.inr (Or.inr h.symm)
    · next buf _ =>
      rcases hh : httpNewRequest method u.String (some buf) with e2 | r2
      · rw [hh] at h
        simp only [Except.error.injEq] at h
        subst h
        rcases httpNewRequest_error _ _ _ _ hh with h | h
        · exact Or.inl h
        · exact Or.inr (Or.inl h)
      · rw [hh] at h
        exact absurd h (by simp)

/-- An error of `NewRequest` is no `*ArgumentError`. -/
theorem NewRequest_error_not_argument (c : Client) (fc : FloatCodec) (method url : GoString)
    (body : Option (AnyValue fc)) (e : GoError) (a : ArgumentError)
    (h : c.NewRequest fc method url body = .error e) : e ≠ .argument a := by
  unfold Client.NewRequest at h
  rcases hp : c.BaseURL.Parse url with _ | u
  · rw [hp] at h
    simp only [Except.error.injEq] at h
    rw [← h]
    simp
  · rw [hp] at h
    simp only at h
    rcases hb : Client.buildRequest fc method u body with e2 | req0
    · rw [hb] at h
      simp only [Except.error.injEq] at h
      subst h
      rcases buildRequest_error fc method u body _ hb with h | h | h <;> rw [h] <;> simp
    · rw [hb] at h
      exact absurd h (by simp)

/-- An error of `Do` is no `*ArgumentError` when the decoder returns none. -/
theorem DoWith_err_not_argument {α : Type} (c : Client)
    (decode : Body → α → α × Option GoError) (ctx : Context) (req : Request) (v : Option α)
    (hd : ∀ body cur e, (decode body cur).2 ≠ some (.argument e)) (a : ArgumentError) :
    (c.DoWith decode ctx req v).err ≠ some (.argument a) := by
  unfold Client.DoWith
  split
  · simp
  · split
    · simp
    · split
      · split
        · next he =>
          simp only [ne_eq, Option.some.injEq]
          intro h
          exact hd _ _ a (by rw [he, h])
        · simp
      · simp

theorem Do_err_not_argument (c : Client) (fc : FloatCodec) (t : GoType) (ctx : Context)
    (req : Request) (v : Option (t.Val fc)) (a : ArgumentError) :
    (c.Do fc t ctx req v).err ≠ some (.argument a) := by
  rw [Do_eq_DoWith]
  apply DoWith_err_not_argument
  intro body cur e
  unfold decoderDecode
  split
  · next e' he =>
    simp only [ne_eq, Option.some.injEq]
    intro h
    subst h
    unfold readValue at he
    split at he
    · split at he <;> simp at he
    · split at he
      · split at he <;> simp at he
      · simp at he
      · split at he <;> simp at he
  · simp only [ne_eq, Option.map_eq_some']
    rintro ⟨j, _, hj⟩
    exact absurd hj (by simp)

theorem ignoredResponse_plain : ignoredResponse.Plain := by
  intro body v e
  simp [ignoredResponse]

theorem Login_request (c : Client) (fc : FloatCodec) (ctx : Context)
    (loginRequest : Option (LoginRequest.Val fc)) :
    (AuthServiceOp.Login c fc ctx loginRequest).request = loginRequest := by
  unfold AuthServiceOp.Login
  split
  · rfl
  · split
    · rfl
    · simp only
      split <;> rfl

theorem Poll_request (c : Client) (fc : FloatCodec) (ctx : Context)
    (pollRequest : Option (PollRequest.Val fc)) :
    (AuthServiceOp.Poll c fc ctx pollRequest).request = pollRequest := by
  unfold AuthServiceOp.Poll
  split
  · rfl
  · split
    · rfl
    · simp only
      split <;> rfl

theorem Signup_request (c : Client) (fc : FloatCodec) (ctx : Context)
    (signupRequest : Option (SignupRequest.Val fc)) :
    (AuthServiceOp.Signup c fc ctx signupRequest).request = signupRequest := by
  unfold AuthServiceOp.Signup
  split
  · rfl
  · split
    · rfl
    · simp only
      split <;> rfl

theorem Refresh_request (c : Client) (fc : FloatCodec) (ctx : Context)
    (refreshRequest : Option (RefreshTokensRequest.Val fc)) :
    (AuthServiceOp.Refresh c fc ctx refreshRequest).request = refreshRequest := by
  unfold AuthServiceOp.Refresh
  split
  · next h =>
    rcases refreshRequest with _ | r
    · rfl
    · exact absurd h.1 (by simp)
  · split
    · rfl
    · simp only
      split <;> rfl

theorem Favorite_request (c : Client) (fc : FloatCodec) (ctx : Context)
    (favoriteItemRequest : Option (FavoriteItemRequest.Val fc)) (itemID : GoString) :
    (ItemsServiceOp.Favorite c fc ctx favoriteItemRequest itemID).request
      = favoriteItemRequest := by
  unfold ItemsServiceOp.Favorite
  split
  · rfl
  · split
    · rfl
    · split
      · rfl
      · simp only
        split <;> rfl

theorem Active_request (c : Client) (fc : FloatCodec) (rt : ResponseType) (ctx : Context)
    (activeOrdersRequest : Option (ActiveOrdersRequest.Val fc)) :
    (OrdersServiceOp.Active c fc rt ctx activeOrdersRequest).request = activeOrdersRequest := by
  unfold OrdersServiceOp.Active
  split
  · next h =>
    rcases activeOrdersRequest with _ | r
    · rfl
    · exact absurd h.1 (by simp)
  · split
    · rfl
    · simp only
      split <;> rfl

/-- The request struct after `List`: the user id of the client is written into it when it
held none and the client holds one. -/
theorem List_request (c : Client) (fc : FloatCodec) (rt : ResponseType) (ctx : Context)
    (listItemsRequest : Option (ListItemsRequest.Val fc)) :
    (ItemsServiceOp.List c fc rt ctx listItemsRequest).request
      = listItemsRequest.map (fun r0 =>
          if ListItemsRequest.UserID r0 = [] ∧ c.UserID ≠ [] then
            ListItemsRequest.setUserID r0 c.UserID
          else r0) := by
  unfold ItemsServiceOp.List
  split
  · rfl
  · next r0 =>
    split
    · next h =>
      simp only [CallResult.failure, Option.map_some', Option.some.injEq]
      rw [if_neg (fun hh => hh.2 h.2)]
    · next h =>
      have hr : (if ListItemsRequest.UserID r0 = [] then ListItemsRequest.setUserID r0 c.UserID
          else r0)
          = (if ListItemsRequest.UserID r0 = [] ∧ c.UserID ≠ [] then
              ListItemsRequest.setUserID r0 c.UserID else r0) := by
        by_cases hu : ListItemsRequest.UserID r0 = []
        · rw [if_pos hu, if_pos ⟨hu, fun hc => h ⟨hu, hc⟩⟩]
        · rw [if_neg hu, if_neg (fun hh => hu hh.1)]
      simp only
      split
      · simp only [CallResult.failure, Option.map_some', Option.some.injEq]
        exact hr
      · split <;> simp only [CallResult.failure, Option.map_some', Option.some.injEq] <;>
          exact hr

/-- The request struct after `Get`: the user id of the client is written into it when the
item id is not empty, the struct held no user id and the client holds one. -/
theorem Get_request (c : Client) (fc : FloatCodec) (rt : ResponseType) (ctx : Context)
    (getItemRequest : Option (GetItemRequest.Val fc)) (itemID : GoString) :
    (ItemsServiceOp.Get c fc rt ctx getItemRequest itemID).request
      = getItemRequest.map (fun r0 =>
          if itemID ≠ [] ∧ GetItemRequest.UserID r0 = [] ∧ c.UserID ≠ [] then
            GetItemRequest.setUserID r0 c.UserID
          else r0) := by
  unfold ItemsServiceOp.Get
  split
  · next hid =>
    rcases getItemRequest with _ | r0
    · rfl
    · simp only [CallResult.failure, Option.map_some', Option.some.injEq]
      rw [if_neg (fun hh => hh.1 hid)]
  · next hid =>
    split
    · rfl
    · next r0 =>
      split
      · next h =>
        simp only [CallResult.failure, Option.map_some', Option.some.injEq]
        rw [if_neg (fun hh => hh.2.2 h.2)]
      · next h =>
        have hr : (if GetItemRequest.UserID r0 = [] then GetItemRequest.setUserID r0 c.UserID
            else r0)
            = (if itemID ≠ [] ∧ GetItemRequest.UserID r0 = [] ∧ c.UserID ≠ [] then
                GetItemRequest.setUserID r0 c.UserID else r0) := by
          by_cases hu : GetItemRequest.UserID r0 = []
          · rw [if_pos hu, if_pos ⟨hid, hu, fun hc => h ⟨hu, hc⟩⟩]
          · rw [if_neg hu, if_neg (fun hh => hu hh.2.1)]
        simp only
        split
        · simp only [CallResult.failure, Option.map_some', Option.some.injEq]
          exact hr
        · split <;> simp only [CallResult.failure, Option.map_some', Option.some.injEq] <;>
            exact hr

/-- The request struct after `Inactive`: the user id of the client is written into it when it
held none and the client holds one. -/
theorem Inactive_request (c : Client) (fc : FloatCodec) (rt : ResponseType) (ctx : Context)
    (inactiveOrdersRequest : Option (InactiveOrdersRequest.Val fc)) :
    (OrdersServiceOp.Inactive c fc rt ctx inactiveOrdersRequest).request
      = inactiveOrdersRequest.map (fun r0 =>
          if InactiveOrdersRequest.UserID r0 = [] ∧ c.UserID ≠ [] then
            InactiveOrdersRequest.setUserID r0 c.UserID
          else r0) := by
  unfold OrdersServiceOp.Inactive
  split
  · rfl
  · next r0 =>
    split
    · next h =>
      simp only [CallResult.failure, Option.map_some', Option.some.injEq]
      rw [if_neg (fun hh => hh.2 h.2)]
    · next h =>
      have hr : (if InactiveOrdersRequest.UserID r0 = [] then
            InactiveOrdersRequest.setUserID r0 c.UserID
          else r0)
          = (if InactiveOrdersRequest.UserID r0 = [] ∧ c.UserID ≠ [] then
              InactiveOrdersRequest.setUserID r0 c.UserID else r0) := by
        by_cases hu : InactiveOrdersRequest.UserID r0 = []
        · rw [if_pos hu, if_pos ⟨hu, fun hc => h ⟨hu, hc⟩⟩]
        · rw [if_neg hu, if_neg (fun hh => hu hh.1)]
      simp only
      split
      · simp only [CallResult.failure, Option.map_some', Option.some.injEq]
        exact hr
      · split <;> simp only [CallResult.failure, Option.map_some', Option.some.injEq] <;>
          exact hr

/-- `List` returns an `*ArgumentError` only before it writes to the request struct. -/
theorem List_argument_request (c : Client) (fc : FloatCodec) (rt : ResponseType)
    (ctx : Context) (listItemsRequest : Option (ListItemsRequest.Val fc)) (hrt : rt.Plain)
    (a : ArgumentError)
    (h : (ItemsServiceOp.List c fc rt ctx listItemsRequest).err = some (.argument a)) :
    (ItemsServiceOp.List c fc rt ctx listItemsRequest).request = listItemsRequest := by
  rw [List_request]
  unfold ItemsServiceOp.List at h
  split at h
  · rfl
  · split at h
    · next hc =>
      rw [Option.map_some', if_neg (fun hh => hh.2 hc.2)]
    · simp only at h
      split at h
      · next e hreq =>
        simp only [CallResult.failure, Option.some.injEq] at h
        exact absurd h (NewRequest_error_not_argument c fc _ _ _ e a hreq)
      · split at h
        · next e he =>
          simp only [CallResult.failure, Option.some.injEq] at h
          rw [h] at he
          exact absurd he (DoWith_err_not_argument c rt.decode ctx _ _ hrt a)
        · exact absurd h (by simp)

/-- `Get` returns an `*ArgumentError` only before it writes to the request struct. -/
theorem Get_argument_request (c : Client) (fc : FloatCodec) (rt : ResponseType)
    (ctx : Context) (getItemRequest : Option (GetItemRequest.Val fc)) (itemID : GoString)
    (hrt : rt.Plain) (a : ArgumentError)
    (h : (ItemsServiceOp.Get c fc rt ctx getItemRequest itemID).err = some (.argument a)) :
    (ItemsServiceOp.Get c fc rt ctx getItemRequest itemID).request = getItemRequest := by
  rw [Get_request]
  unfold ItemsServiceOp.Get at h
  split at h
  · next hid =>
    rcases getItemRequest with _ | r0
    · rfl
    · rw [Option.map_some', if_neg (fun hh => hh.1 hid)]
  · next hid =>
    split at h
    · rfl
    · split at h
      · next hc =>
        rw [Option.map_some', if_neg (fun hh => hh.2.2 hc.2)]
      · simp only at h
        split at h
        · next e hreq =>
          simp only [CallResult.failure, Option.some.injEq] at h
          exact absurd h (NewRequest_error_not_argument c fc _ _ _ e a hreq)
        · split at h
          · next e he =>
            simp only [CallResult.failure, Option.some.injEq] at h
            rw [h] at he
            exact absurd he (DoWith_err_not_argument c rt.decode ctx _ _ hrt a)
          · exact absurd h (by simp)

/-- `Inactive` returns an `*ArgumentError` only before it writes to the request struct. -/
theorem Inactive_argument_request (c : Client) (fc : FloatCodec) (rt : ResponseType)
    (ctx : Context) (inactiveOrdersRequest : Option (InactiveOrdersRequest.Val fc))
    (hrt : rt.Plain) (a : ArgumentError)
    (h : (OrdersServiceOp.Inactive c fc rt ctx inactiveOrdersRequest).err
      = some (.argument a)) :
    (OrdersServiceOp.Inactive c fc rt ctx inactiveOrdersRequest).request
      = inactiveOrdersRequest := by
  rw [Inactive_request]
  unfold OrdersServiceOp.Inactive at h
  split at h
  · rfl
  · split at h
    · next hc =>
      rw [Option.map_some', if_neg (fun hh => hh.2 hc.2)]
    · simp only at h
      split at h
      · next e hreq =>
        simp only [CallResult.failure, Option.some.injEq] at h
        exact absurd h (NewRequest_error_not_argument c fc _ _ _ e a hreq)
      · split at h
        · next e he =>
          simp only [CallResult.failure, Option.some.injEq] at h
          rw [h] at he
          exact absurd he (DoWith_err_not_argument c rt.decode ctx _ _ hrt a)
        · exact absurd h (by simp)

/-- C30, amended. The only write a wrapper makes to the request struct of the caller is to
its `UserID`: `List` and `Inactive` set it to the `UserID` of the client exactly when it was
empty and the client holds a non-empty one, `Get` exactly when, in addition, the item id is
not empty, and the write leaves the other fields as they were; `Login`, `Poll`, `Refresh`,
`Signup`, `Favorite` and `Active` leave the struct as it was; and no wrapper has written to
it when it returns an `ArgumentError` (the decoders of the responses returning none). -/
theorem request_struct_writes (c : Client) (fc : FloatCodec) (ctx : Context)
    (listItemsResponse getItemResponse ordersResponse : ResponseType)
    (loginRequest : Option (LoginRequest.Val fc))
    (pollRequest : Option (PollRequest.Val fc))
    (refreshRequest : Option (RefreshTokensRequest.Val fc))
    (signupRequest : Option (SignupRequest.Val fc))
    (listItemsRequest : Option (ListItemsRequest.Val fc))
    (getItemRequest : Option (GetItemRequest.Val fc))
    (favoriteItemRequest : Option (FavoriteItemRequest.Val fc))
    (activeOrdersRequest : Option (ActiveOrdersRequest.Val fc))
    (inactiveOrdersRequest : Option (InactiveOrdersRequest.Val fc)) (itemID : GoString)
    (hl : listItemsResponse.Plain) (hg : getItemResponse.Plain) (ho : ordersResponse.Plain) :
    ((ItemsServiceOp.List c fc listItemsResponse ctx listItemsRequest).request
        = listItemsRequest.map (fun r0 =>
            if ListItemsRequest.UserID r0 = [] ∧ c.UserID ≠ [] then
              ListItemsRequest.setUserID r0 c.UserID
            else r0) ∧
      (ItemsServiceOp.Get c fc getItemResponse ctx getItemRequest itemID).request
        = getItemRequest.map (fun r0 =>
            if itemID ≠ [] ∧ GetItemRequest.UserID r0 = [] ∧ c.UserID ≠ [] then
              GetItemRequest.setUserID r0 c.UserID
            else r0) ∧
      (OrdersServiceOp.Inactive c fc ordersResponse ctx inactiveOrdersRequest).request
        = inactiveOrdersRequest.map (fun r0 =>
            if InactiveOrdersRequest.UserID r0 = [] ∧ c.UserID ≠ [] then
              InactiveOrdersRequest.setUserID r0 c.UserID
            else r0)) ∧
    ((∀ (v : ListItemsRequest.Val fc) (u : GoString),
        ListItemsRequest.UserID (ListItemsRequest.setUserID v u) = u ∧
        (ListItemsRequest.setUserID v u).1 = v.1 ∧
        (ListItemsRequest.setUserID v u).2.1 = v.2.1 ∧
        (ListItemsRequest.setUserID v u).2.2.2 = v.2.2.2) ∧
      (∀ (v : GetItemRequest.Val fc) (u : GoString),
        GetItemRequest.UserID (GetItemRequest.setUserID v u) = u ∧
        (GetItemRequest.setUserID v u).2 = v.2) ∧
      (∀ (v : InactiveOrdersRequest.Val fc) (u : GoString),
        InactiveOrdersRequest.UserID (InactiveOrdersRequest.setUserID v u) = u ∧
        (InactiveOrdersRequest.setUserID v u).2 = v.2)) ∧
    ((AuthServiceOp.Login c fc ctx loginRequest).request = loginRequest ∧
      (AuthServiceOp.Poll c fc ctx pollRequest).request = pollRequest ∧
      (AuthServiceOp.Refresh c fc ctx refreshRequest).request = refreshRequest ∧
      (AuthServiceOp.Signup c fc ctx signupRequest).request = signupRequest ∧
      (ItemsServiceOp.Favorite c fc ctx favoriteItemRequest itemID).request
        = favoriteItemRequest ∧
      (OrdersServiceOp.Active c fc ordersResponse ctx activeOrdersRequest).request
        = activeOrdersRequest) ∧
    ((∀ a, (ItemsServiceOp.List c fc listItemsResponse ctx listItemsRequest).err
          = some (.argument a) →
        (ItemsServiceOp.List c fc listItemsResponse ctx listItemsRequest).request
          = listItemsRequest) ∧
      (∀ a, (ItemsServiceOp.Get c fc getItemResponse ctx getItemRequest itemID).err
          = some (.argument a) →
        (ItemsServiceOp.Get c fc getItemResponse ctx getItemRequest itemID).request
          = getItemRequest) ∧
      (∀ a, (OrdersServiceOp.Inactive c fc ordersResponse ctx inactiveOrdersRequest).err
          = some (.argument a) →
        (OrdersServiceOp.Inactive c fc ordersResponse ctx inactiveOrdersRequest).request
          = inactiveOrdersRequest)) :=
  ⟨⟨List_request c fc _ ctx _, Get_request c fc _ ctx _ _, Inactive_request c fc _ ctx _⟩,
    ⟨fun _ _ => ⟨rfl, rfl, rfl, rfl⟩, fun _ _ => ⟨rfl, rfl⟩, fun _ _ => ⟨rfl, rfl⟩⟩,
    ⟨Login_request c fc ctx _, Poll_request c fc ctx _, Refresh_request c fc ctx _,
      Signup_request c fc ctx _, Favorite_request c fc ctx _ _, Active_request c fc _ ctx _⟩,
    ⟨fun a h => List_argument_request c fc _ ctx _ hl a h,
      fun a h => Get_argument_request c fc _ ctx _ _ hg a h,
      fun a h => Inactive_argument_request c fc _ ctx _ ho a h⟩⟩

/-- Witness of the amended C30: `Get` for the item `1` with a request without user id, on a
client that holds the user id `42`, leaves the user id `42` in the request. -/
theorem request_struct_writes_witness :
    (ItemsServiceOp.Get (authedClient emptyObjectAnswer) noFloat ignoredResponse { id := 0 }
      (some emptyGetItemRequest) (gostr "1")).request = some (gostr "42", none, ()) :=
  (request_struct_writes (authedClient emptyObjectAnswer) noFloat { id := 0 } ignoredResponse
    ignoredResponse ignoredResponse none none none none none (some emptyGetItemRequest) none
    none none (gostr "1") ignoredResponse_plain ignoredResponse_plain
    ignoredResponse_plain).1.2.1.trans rfl

/-- C30, counterexample. `Get` called with an empty item id, a request whose `UserID` is empty
and a client that holds the user id `42` returns the `ArgumentError` for `itemID` and leaves
the `UserID` of the request empty, although it was empty and the client holds a non-empty
one. -/
theorem Get_empty_item_id_no_write :
    GetItemRequest.UserID emptyGetItemRequest = [] ∧
    (authedClient emptyObjectAnswer).UserID = gostr "42" ∧
    (ItemsServiceOp.Get (authedClient emptyObjectAnswer) noFloat ignoredResponse { id := 0 }
      (some emptyGetItemRequest) []).err
      = some (.argument (NewArgumentError (gostr "itemID") (gostr "must not be nil"))) ∧
    (ItemsServiceOp.Get (authedClient emptyObjectAnswer) noFloat ignoredResponse { id := 0 }
      (some emptyGetItemRequest) []).request = some emptyGetItemRequest :=
  ⟨rfl, rfl, rfl, rfl⟩

/-! ### The wrappers post to their paths -/

theorem NewRequest_postsTo (c : Client) (fc : FloatCodec) (path : GoString)
    (body : Option (AnyValue fc)) (req : Request) (hr : plainRelative path = true)
    (hreq : c.NewRequest fc MethodPost path body = .ok req) : postsTo c fc req path :=
  ⟨NewRequest_Method c fc MethodPost path body req (by decide) hreq, ⟨body, req, hreq, rfl⟩,
    fun hb => (NewRequest_POST_plain c fc path body req hb hr hreq).2⟩

theorem authorize_postsTo (c : Client) (fc : FloatCodec) (path : GoString)
    (body : Option (AnyValue fc)) (req0 : Request) (hr : plainRelative path = true)
    (hreq : c.NewRequest fc MethodPost path body = .ok req0) :
    postsTo c fc (c.authorize req0) path :=
  NewRequest_postsTo c fc path body req0 hr hreq

/-! ### Requests that can be built -/

/-- On a client with a plain base URL, `NewRequest` for POST and a plain relative path returns
a request whenever the body can be encoded. -/
theorem NewRequest_POST_isOk (c : Client) (fc : FloatCodec) (path : GoString)
    (body : Option (AnyValue fc)) (hb : plainBase c.BaseURL = true)
    (hr : plainRelative path = true)
    (henc : ∀ b, body = some b → encoderEncode fc b.type b.value ≠ none) :
    ∃ req, c.NewRequest fc MethodPost path body = .ok req := by
  obtain ⟨hu, hs, hh, hp, hp0, hp1⟩ := plainBase_eq c.BaseURL hb
  have hpa : c.BaseURL.Path.all isPlainItem = true := by
    simp only [plainPath, Bool.and_eq_true] at hp
    exact hp.1.1
  have hra : path.all isPlainItem = true := by
    simp only [plainRelative, plainPath, Bool.and_eq_true] at hr
    exact hr.1.1.1
  have hall : (c.BaseURL.Path ++ path).all isPlainItem = true := by
    rw [List.all_append, hpa, hra]; rfl
  have hhead : (c.BaseURL.Path ++ path).head? = some (.rune '/') := by
    cases hq : c.BaseURL.Path with
    | nil => rw [hq] at hp0; simp at hp0
    | cons x q => rw [hq] at hp0; simpa using hp0
  have hparse := URL_Parse_plain c.BaseURL path hb hr
  have hstr := String_plainURL c.BaseURL.Scheme c.BaseURL.Host (c.BaseURL.Path ++ path)
    hs hh hall hhead
  have hback := Parse_plainURL c.BaseURL.Scheme c.BaseURL.Host (c.BaseURL.Path ++ path)
    hs hh hall hhead
  rw [← hstr] at hback
  obtain ⟨req0, hreq0⟩ := (buildRequest_isOk fc MethodPost
    (plainURL c.BaseURL.Scheme c.BaseURL.Host (c.BaseURL.Path ++ path)) body).mpr
    ⟨by decide, by rw [hback]; simp, Or.inr henc⟩
  unfold Client.NewRequest
  rw [hparse]
  simp only
  rw [hreq0]
  exact ⟨_, rfl⟩

/-- A `LoginRequest` can always be encoded. -/
theorem LoginRequest_encodes (fc : FloatCodec) (r : LoginRequest.Val fc) :
    encoderEncode fc (.ptr LoginRequest) (some r) ≠ none := by
  simp [encoderEncode, encodeValue, encodeFields, LoginRequest]

/-- A `PollRequest` can always be encoded. -/
theorem PollRequest_encodes (fc : FloatCodec) (r : PollRequest.Val fc) :
    encoderEncode fc (.ptr PollRequest) (some r) ≠ none := by
  simp [encoderEncode, encodeValue, encodeFields, PollRequest]

/-- A `RefreshTokensRequest` can always be encoded. -/
theorem RefreshTokensRequest_encodes (fc : FloatCodec) (r : RefreshTokensRequest.Val fc) :
    encoderEncode fc (.ptr RefreshTokensRequest) (some r) ≠ none := by
  simp [encoderEncode, encodeValue, encodeFields, RefreshTokensRequest]

/-- A `SignupRequest` can always be encoded. -/
theorem SignupRequest_encodes (fc : FloatCodec) (r : SignupRequest.Val fc) :
    encoderEncode fc (.ptr SignupRequest) (some r) ≠ none := by
  simp [encoderEncode, encodeValue, encodeFields, SignupRequest]

/-- A `FavoriteItemRequest` can always be encoded. -/
theorem FavoriteItemRequest_encodes (fc : FloatCodec) (r : FavoriteItemRequest.Val fc) :
    encoderEncode fc (.ptr FavoriteItemRequest) (some r) ≠ none := by
  simp [encoderEncode, encodeValue, encodeFields, FavoriteItemRequest]

/-- An `ActiveOrdersRequest` can always be encoded. -/
theorem ActiveOrdersRequest_encodes (fc : FloatCodec) (r : ActiveOrdersRequest.Val fc) :
    encoderEncode fc (.ptr ActiveOrdersRequest) (some r) ≠ none := by
  simp [encoderEncode, encodeValue, encodeFields, ActiveOrdersRequest]

/-- An `InactiveOrdersRequest` can always be encoded. -/
theorem InactiveOrdersRequest_encodes (fc : FloatCodec) (r : InactiveOrdersRequest.Val fc) :
    encoderEncode fc (.ptr InactiveOrdersRequest) (some r) ≠ none := by
  simp [encoderEncode, encodeValue, encodeFields, InactiveOrdersRequest, Paging]

/-- A `GetItemRequest` that can be encoded can be encoded with another `UserID`. -/
theorem GetItemRequest_encodes (fc : FloatCodec) (r : GetItemRequest.Val fc) (u : GoString)
    (h : encoderEncode fc (.ptr GetItemRequest) (some r) ≠ none) :
    encoderEncode fc (.ptr GetItemRequest) (some (GetItemRequest.setUserID r u)) ≠ none := by
  simp only [encoderEncode, encodeValue, encodeFields, GetItemRequest, Origin,
    GetItemRequest.setUserID] at h ⊢
  rcases r with ⟨a, o, x⟩
  rcases o with _ | ⟨la, lo, y⟩
  · simp
  · simp only at h ⊢
    rcases h1 : fc.format la with _ | t1 <;> rcases h2 : fc.format lo with _ | t2 <;>
      simp [h1, h2] at h ⊢

/-- The fields of a struct are encoded when the first one and the others are. -/
theorem encodeFields_cons_ne_none (fc : FloatCodec) (n : List Char) (t : GoType)
    (n2 : List Char) (t2 : GoType) (rest : GoFields)
    (v : (GoFields.cons n t (.cons n2 t2 rest)).Val fc) :
    encodeFields fc (.cons n t (.cons n2 t2 rest)) v ≠ none ↔
      encodeValue fc t v.1 ≠ none ∧ encodeFields fc (.cons n2 t2 rest) v.2 ≠ none := by
  rw [encodeFields]
  rcases encodeValue fc t v.1 with _ | a <;>
    rcases encodeFields fc (.cons n2 t2 rest) v.2 with _ | b <;> simp

/-- A `ListItemsRequest` that can be encoded can be encoded with another `UserID`. -/
theorem ListItemsRequest_encodes (fc : FloatCodec) (r : ListItemsRequest.Val fc) (u : GoString)
    (h : encoderEncode fc (.ptr ListItemsRequest) (some r) ≠ none) :
    encoderEncode fc (.ptr ListItemsRequest) (some (ListItemsRequest.setUserID r u)) ≠ none := by
  simp only [encoderEncode, ne_eq, Option.map_eq_none', ListItemsRequest] at h ⊢
  rw [encodeValue, encodeValue] at h ⊢
  simp only [Option.map_eq_none'] at h ⊢
  rw [← ne_eq, encodeFields_cons_ne_none, encodeFields_cons_ne_none,
    encodeFields_cons_ne_none] at h ⊢
  obtain ⟨h1, h2, _, h4⟩ := h
  exact ⟨h1, h2, by simp [encodeValue], h4⟩

/-! ### Requests that are sent -/

/-- Once `NewRequest` has built its request, `Login` hands it to the transport through `Do` and
returns the error of `Do`. -/
theorem Login_sends (c : Client) (fc : FloatCodec) (ctx : Context) (r : LoginRequest.Val fc)
    (req : Request)
    (h : c.NewRequest fc MethodPost (authBasePath ++ gostr "/authByEmail")
      (some { type := .ptr LoginRequest, value := some r }) = .ok req) :
    (AuthServiceOp.Login c fc ctx (some r)).sent = [req] ∧
      (AuthServiceOp.Login c fc ctx (some r)).err
        = (c.Do fc LoginResponse ctx req (some (LoginResponse.zero fc))).err := by
  unfold AuthServiceOp.Login
  simp only [h]
  split
  · next e he => exact ⟨rfl, by rw [he]; rfl⟩
  · next he => exact ⟨rfl, by rw [he]⟩

/-- Once `NewRequest` has built its request, `Poll` hands it to the transport through `Do` and
returns the error of `Do`. -/
theorem Poll_sends (c : Client) (fc : FloatCodec) (ctx : Context) (r : PollRequest.Val fc)
    (req : Request)
    (h : c.NewRequest fc MethodPost (authBasePath ++ gostr "/authByRequestPollingId")
      (some { type := .ptr PollRequest, value := some r }) = .ok req) :
    (AuthServiceOp.Poll c fc ctx (some r)).sent = [req] ∧
      (AuthServiceOp.Poll c fc ctx (some r)).err
        = (c.Do fc PollResponse ctx req (some (PollResponse.zero fc))).err := by
  unfold AuthServiceOp.Poll
  simp only [h]
  split
  · next e he => exact ⟨rfl, by rw [he]; rfl⟩
  · next he => exact ⟨rfl, by rw [he]⟩

/-- Once `NewRequest` has built its request, `Signup` hands it to the transport through `Do`
and returns the error of `Do`. -/
theorem Signup_sends (c : Client) (fc : FloatCodec) (ctx : Context) (r : SignupRequest.Val fc)
    (req : Request)
    (h : c.NewRequest fc MethodPost (authBasePath ++ gostr "/signUpByEmail")
      (some { type := .ptr SignupRequest, value := some r }) = .ok req) :
    (AuthServiceOp.Signup c fc ctx (some r)).sent = [req] ∧
      (AuthServiceOp.Signup c fc ctx (some r)).err
        = (c.Do fc SignupResponse ctx req (some (SignupResponse.zero fc))).err := by
  unfold AuthServiceOp.Signup
  simp only [h]
  split
  · next e he => exact ⟨rfl, by rw [he]; rfl⟩
  · next he => exact ⟨rfl, by rw [he]⟩

/-- Once `NewRequest` has built its request, `Refresh` hands it to the transport through `Do`
and returns the error of `Do`. -/
theorem Refresh_sends (c : Client) (fc : FloatCodec) (ctx : Context)
    (refreshRequest : Option (RefreshTokensRequest.Val fc)) (req : Request)
    (hv : ¬ (refreshRequest.isNone = true ∧ c.RefreshToken = []))
    (h : c.NewRequest fc MethodPost (authBasePath ++ gostr "/token/refresh")
      (some { type := .ptr RefreshTokensRequest,
              value := some (refreshRequest.getD (c.RefreshToken, ())) }) = .ok req) :
    (AuthServiceOp.Refresh c fc ctx refreshRequest).sent = [req] ∧
      (AuthServiceOp.Refresh c fc ctx refreshRequest).err
        = (c.Do fc RefreshTokensResponse ctx req
            (some (RefreshTokensResponse.zero fc))).err := by
  unfold AuthServiceOp.Refresh
  rw [if_neg hv]
  simp only [h]
  split
  · next e he => exact ⟨rfl, by rw [he]; rfl⟩
  · next he => exact ⟨rfl, by rw [he]⟩

/-- Once `NewRequest` has built its request, `List` hands it, with the bearer token, to the
transport through `Do` and returns the error of `Do`. -/
theorem List_sends (c : Client) (fc : FloatCodec) (rt : ResponseType) (ctx : Context)
    (r0 : ListItemsRequest.Val fc) (req0 : Request)
    (hv : ¬ (ListItemsRequest.UserID r0 = [] ∧ c.UserID = []))
    (h : c.NewRequest fc MethodPost (itemsBasePath ++ gostr "/")
      (some { type := .ptr ListItemsRequest,
              value := some (if ListItemsRequest.UserID r0 = [] then
                ListItemsRequest.setUserID r0 c.UserID else r0) }) = .ok req0) :
    (ItemsServiceOp.List c fc rt ctx (some r0)).sent = [c.authorize req0] ∧
      (ItemsServiceOp.List c fc rt ctx (some r0)).err
        = (c.DoWith rt.decode ctx (c.authorize req0) (some rt.zero)).err := by
  unfold ItemsServiceOp.List
  simp only [if_neg hv, h]
  split
  · next e he => exact ⟨rfl, by rw [he]; rfl⟩
  · next he => exact ⟨rfl, by rw [he]⟩

/-- Once `NewRequest` has built its request, `Get` hands it, with the bearer token, to the
transport through `Do` and returns the error of `Do`. -/
theorem Get_sends (c : Client) (fc : FloatCodec) (rt : ResponseType) (ctx : Context)
    (r0 : GetItemRequest.Val fc) (itemID : GoString) (req0 : Request) (hid : itemID ≠ [])
    (hv : ¬ (GetItemRequest.UserID r0 = [] ∧ c.UserID = []))
    (h : c.NewRequest fc MethodPost (itemsBasePath ++ gostr "/" ++ itemID)
      (some { type := .ptr GetItemRequest,
              value := some (if GetItemRequest.UserID r0 = [] then
                GetItemRequest.setUserID r0 c.UserID else r0) }) = .ok req0) :
    (ItemsServiceOp.Get c fc rt ctx (some r0) itemID).sent = [c.authorize req0] ∧
      (ItemsServiceOp.Get c fc rt ctx (some r0) itemID).err
        = (c.DoWith rt.decode ctx (c.authorize req0) (some rt.zero)).err := by
  unfold ItemsServiceOp.Get
  simp only [if_neg hid, if_neg hv, h]
  split
  · next e he => exact ⟨rfl, by rw [he]; rfl⟩
  · next he => exact ⟨rfl, by rw [he]⟩

/-- Once `NewRequest` has built its request, `Favorite` hands it, with the bearer token, to the
transport through `Do` and returns the error of `Do`. -/
theorem Favorite_sends (c : Client) (fc : FloatCodec) (ctx : Context)
    (r : FavoriteItemRequest.Val fc) (itemID : GoString) (req0 : Request) (hid : itemID ≠ [])
    (h : c.NewRequest fc MethodPost (itemsBasePath ++ gostr "/" ++ itemID ++ gostr "/setFavorite")
      (some { type := .ptr FavoriteItemRequest, value := some r }) = .ok req0) :
    (ItemsServiceOp.Favorite c fc ctx (some r) itemID).sent = [c.authorize req0] ∧
      (ItemsServiceOp.Favorite c fc ctx (some r) itemID).err
        = (c.DoWith (fun _ (u : Unit) => (u, none)) ctx (c.authorize req0) none).err := by
  unfold ItemsServiceOp.Favorite
  simp only [if_neg hid, h]
  split
  · next e he => exact ⟨rfl, by rw [he]; rfl⟩
  · next he => exact ⟨rfl, by rw [he]⟩

/-- Once `NewRequest` has built its request, `Active` hands it, with the bearer token, to the
transport through `Do` and returns the error of `Do`. -/
theorem Active_sends (c : Client) (fc : FloatCodec) (rt : ResponseType) (ctx : Context)
    (activeOrdersRequest : Option (ActiveOrdersRequest.Val fc)) (req0 : Request)
    (hv : ¬ (activeOrdersRequest.isNone = true ∧ c.UserID = []))
    (h : c.NewRequest fc MethodPost (ordersBasePath ++ gostr "/active")
      (some { type := .ptr ActiveOrdersRequest,
              value := some (activeOrdersRequest.getD (c.UserID, ())) }) = .ok req0) :
    (OrdersServiceOp.Active c fc rt ctx activeOrdersRequest).sent = [c.authorize req0] ∧
      (OrdersServiceOp.Active c fc rt ctx activeOrdersRequest).err
        = (c.DoWith rt.decode ctx (c.authorize req0) (some rt.zero)).err := by
  unfold OrdersServiceOp.Active
  rw [if_neg hv]
  simp only [h]
  split
  · next e he => exact ⟨rfl, by rw [he]; rfl⟩
  · next he => exact ⟨rfl, by rw [he]⟩

/-- Once `NewRequest` has built its request, `Inactive` hands it, with the bearer token, to the
transport through `Do` and returns the error of `Do`. -/
theorem Inactive_sends (c : Client) (fc : FloatCodec) (rt : ResponseType) (ctx : Context)
    (r0 : InactiveOrdersRequest.Val fc) (req0 : Request)
    (hv : ¬ (InactiveOrdersRequest.UserID r0 = [] ∧ c.UserID = []))
    (h : c.NewRequest fc MethodPost (ordersBasePath ++ gostr "/inactive")
      (some { type := .ptr InactiveOrdersRequest,
              value := some (if InactiveOrdersRequest.UserID r0 = [] then
                InactiveOrdersRequest.setUserID r0 c.UserID else r0) }) = .ok req0) :
    (OrdersServiceOp.Inactive c fc rt ctx (some r0)).sent = [c.authorize req0] ∧
      (OrdersServiceOp.Inactive c fc rt ctx (some r0)).err
        = (c.DoWith rt.decode ctx (c.authorize req0) (some rt.zero)).err := by
  unfold OrdersServiceOp.Inactive
  simp only [if_neg hv, h]
  split
  · next e he => exact ⟨rfl, by rw [he]; rfl⟩
  · next he => exact ⟨rfl, by rw [he]⟩

/-- A body that can be encoded, as `NewRequest` needs it. -/
theorem body_encodes (fc : FloatCodec) (t : GoType) (v : t.Val fc)
    (h : encoderEncode fc t v ≠ none) (b : AnyValue fc)
    (hb : some (AnyValue.mk t v) = some b) : encoderEncode fc b.type b.value ≠ none := by
  simp only [Option.some.injEq] at hb
  subst hb
  exact h

/-- A `ListItemsRequest` that can be encoded can be encoded once `List` has filled in the user
id. -/
theorem ListItemsRequest_filled_encodes (c : Client) (fc : FloatCodec)
    (r : ListItemsRequest.Val fc)
    (h : encoderEncode fc (.ptr ListItemsRequest) (some r) ≠ none) :
    encoderEncode fc (.ptr ListItemsRequest)
      (some (if ListItemsRequest.UserID r = [] then ListItemsRequest.setUserID r c.UserID
        else r)) ≠ none := by
  split_ifs
  · exact ListItemsRequest_encodes fc r _ h
  · exact h

/-- A `GetItemRequest` that can be encoded can be encoded once `Get` has filled in the user
id. -/
theorem GetItemRequest_filled_encodes (c : Client) (fc : FloatCodec)
    (r : GetItemRequest.Val fc)
    (h : encoderEncode fc (.ptr GetItemRequest) (some r) ≠ none) :
    encoderEncode fc (.ptr GetItemRequest)
      (some (if GetItemRequest.UserID r = [] then GetItemRequest.setUserID r c.UserID
        else r)) ≠ none := by
  split_ifs
  · exact GetItemRequest_encodes fc r _ h
  · exact h

/-! ### The `Authorization` header of the requests that are sent -/

/-- C26. Every request `List`, `Get`, `Favorite`, `Active` and `Inactive` hand to the
transport has exactly one value for `Authorization`, which is `Bearer ` followed by the
`AccessToken` of the client (empty or not), whatever extra headers are configured; the
requests of `Login`, `Poll`, `Refresh` and `Signup` have for `Authorization` only the values
of the configured extra headers of that name. And on a client with a plain base URL each of
the nine wrappers does hand exactly one such request to the transport whenever its arguments
pass its own checks and the request struct can be encoded; for the five wrappers that
authorize, the error returned is the error `Do` returns for that request, so that an empty
access token is sent as `Bearer ` and is no error of the wrapper. -/
theorem Authorization_header (c : Client) (fc : FloatCodec) (ctx : Context)
    (listItemsResponse getItemResponse ordersResponse : ResponseType)
    (loginRequest : Option (LoginRequest.Val fc))
    (pollRequest : Option (PollRequest.Val fc))
    (refreshRequest : Option (RefreshTokensRequest.Val fc))
    (signupRequest : Option (SignupRequest.Val fc))
    (listItemsRequest : Option (ListItemsRequest.Val fc))
    (getItemRequest : Option (GetItemRequest.Val fc))
    (favoriteItemRequest : Option (FavoriteItemRequest.Val fc))
    (activeOrdersRequest : Option (ActiveOrdersRequest.Val fc))
    (inactiveOrdersRequest : Option (InactiveOrdersRequest.Val fc)) (itemID : GoString) :
    ((∀ req ∈ (ItemsServiceOp.List c fc listItemsResponse ctx listItemsRequest).sent,
      Header.lookup req.Header (gostr "Authorization") = [gostr "Bearer " ++ c.AccessToken]) ∧
    (∀ req ∈ (ItemsServiceOp.Get c fc getItemResponse ctx getItemRequest itemID).sent,
      Header.lookup req.Header (gostr "Authorization") = [gostr "Bearer " ++ c.AccessToken]) ∧
    (∀ req ∈ (ItemsServiceOp.Favorite c fc ctx favoriteItemRequest itemID).sent,
      Header.lookup req.Header (gostr "Authorization") = [gostr "Bearer " ++ c.AccessToken]) ∧
    (∀ req ∈ (OrdersServiceOp.Active c fc ordersResponse ctx activeOrdersRequest).sent,
      Header.lookup req.Header (gostr "Authorization") = [gostr "Bearer " ++ c.AccessToken]) ∧
    (∀ req ∈ (OrdersServiceOp.Inactive c fc ordersResponse ctx inactiveOrdersRequest).sent,
      Header.lookup req.Header (gostr "Authorization") = [gostr "Bearer " ++ c.AccessToken]) ∧
    (∀ req, req ∈ (AuthServiceOp.Login c fc ctx loginRequest).sent ∨
        req ∈ (AuthServiceOp.Poll c fc ctx pollRequest).sent ∨
        req ∈ (AuthServiceOp.Refresh c fc ctx refreshRequest).sent ∨
        req ∈ (AuthServiceOp.Signup c fc ctx signupRequest).sent →
      Header.lookup req.Header (gostr "Authorization")
        = (c.headers.filter
            (fun kv => decide (CanonicalMIMEHeaderKey kv.1 = gostr "Authorization"))).map
            Prod.snd)) ∧
    (plainBase c.BaseURL = true →
      (∀ r, ¬ (ListItemsRequest.UserID r = [] ∧ c.UserID = []) →
        encoderEncode fc (.ptr ListItemsRequest) (some r) ≠ none →
        ∃ req, (ItemsServiceOp.List c fc listItemsResponse ctx (some r)).sent = [req] ∧
          Header.lookup req.Header (gostr "Authorization")
            = [gostr "Bearer " ++ c.AccessToken] ∧
          (c.AccessToken = [] →
            Header.lookup req.Header (gostr "Authorization") = [gostr "Bearer "]) ∧
          (ItemsServiceOp.List c fc listItemsResponse ctx (some r)).err
            = (c.DoWith listItemsResponse.decode ctx req (some listItemsResponse.zero)).err) ∧
      (∀ r, plainRelative itemID = true → itemID ≠ [] →
        ¬ (GetItemRequest.UserID r = [] ∧ c.UserID = []) →
        encoderEncode fc (.ptr GetItemRequest) (some r) ≠ none →
        ∃ req, (ItemsServiceOp.Get c fc getItemResponse ctx (some r) itemID).sent = [req] ∧
          Header.lookup req.Header (gostr "Authorization")
            = [gostr "Bearer " ++ c.AccessToken] ∧
          (c.AccessToken = [] →
            Header.lookup req.Header (gostr "Authorization") = [gostr "Bearer "]) ∧
          (ItemsServiceOp.Get c fc getItemResponse ctx (some r) itemID).err
            = (c.DoWith getItemResponse.decode ctx req (some getItemResponse.zero)).err) ∧
      (∀ r, plainRelative itemID = true → itemID ≠ [] →
        ∃ req, (ItemsServiceOp.Favorite c fc ctx (some r) itemID).sent = [req] ∧
          Header.lookup req.Header (gostr "Authorization")
            = [gostr "Bearer " ++ c.AccessToken] ∧
          (c.AccessToken = [] →
            Header.lookup req.Header (gostr "Authorization") = [gostr "Bearer "]) ∧
          (ItemsServiceOp.Favorite c fc ctx (some r) itemID).err
            = (c.DoWith (fun _ (u : Unit) => (u, none)) ctx req none).err) ∧
      (∀ r, ¬ (r.isNone = true ∧ c.UserID = []) →
        ∃ req, (OrdersServiceOp.Active c fc ordersResponse ctx r).sent = [req] ∧
          Header.lookup req.Header (gostr "Authorization")
            = [gostr "Bearer " ++ c.AccessToken] ∧
          (c.AccessToken = [] →
            Header.lookup req.Header (gostr "Authorization") = [gostr "Bearer "]) ∧
          (OrdersServiceOp.Active c fc ordersResponse ctx r).err
            = (c.DoWith ordersResponse.decode ctx req (some ordersResponse.zero)).err) ∧
      (∀ r, ¬ (InactiveOrdersRequest.UserID r = [] ∧ c.UserID = []) →
        ∃ req, (OrdersServiceOp.Inactive c fc ordersResponse ctx (some r)).sent = [req] ∧
          Header.lookup req.Header (gostr "Authorization")
            = [gostr "Bearer " ++ c.AccessToken] ∧
          (c.AccessToken = [] →
            Header.lookup req.Header (gostr "Authorization") = [gostr "Bearer "]) ∧
          (OrdersServiceOp.Inactive c fc ordersResponse ctx (some r)).err
            = (c.DoWith ordersResponse.decode ctx req (some ordersResponse.zero)).err) ∧
      (∀ r, ∃ req, (AuthServiceOp.Login c fc ctx (some r)).sent = [req] ∧
        Header.lookup req.Header (gostr "Authorization")
          = (c.headers.filter
              (fun kv => decide (CanonicalMIMEHeaderKey kv.1 = gostr "Authorization"))).map
              Prod.snd) ∧
      (∀ r, ∃ req, (AuthServiceOp.Poll c fc ctx (some r)).sent = [req] ∧
        Header.lookup req.Header (gostr "Authorization")
          = (c.headers.filter
              (fun kv => decide (CanonicalMIMEHeaderKey kv.1 = gostr "Authorization"))).map
              Prod.snd) ∧
      (∀ r, ¬ (r.isNone = true ∧ c.RefreshToken = []) →
        ∃ req, (AuthServiceOp.Refresh c fc ctx r).sent = [req] ∧
          Header.lookup req.Header (gostr "Authorization")
            = (c.headers.filter
                (fun kv => decide (CanonicalMIMEHeaderKey kv.1 = gostr "Authorization"))).map
                Prod.snd) ∧
      (∀ r, ∃ req, (AuthServiceOp.Signup c fc ctx (some r)).sent = [req] ∧
        Header.lookup req.Header (gostr "Authorization")
          = (c.headers.filter
              (fun kv => decide (CanonicalMIMEHeaderKey kv.1 = gostr "Authorization"))).map
              Prod.snd)) := by
  have hempty : ∀ req0, c.AccessToken = [] →
      Header.lookup (c.authorize req0).Header (gostr "Authorization") = [gostr "Bearer "] := by
    intro req0 h
    rw [authorize_lookup, h, List.append_nil]
  refine ⟨⟨fun req h => ?_, fun req h => ?_, fun req h => ?_, fun req h => ?_, fun req h => ?_,
    fun req h => ?_⟩, fun hb => ⟨fun r hv henc => ?_, fun r hid hne hv henc => ?_,
      fun r hid hne => ?_, fun r hv => ?_, fun r hv => ?_, fun r => ?_, fun r => ?_,
      fun r hv => ?_, fun r => ?_⟩⟩
  · obtain ⟨_, req0, _, _, _, rfl⟩ := List_sent c fc _ ctx _ req h
    exact authorize_lookup c req0
  · obtain ⟨_, req0, _, _, _, _, rfl⟩ := Get_sent c fc _ ctx _ _ req h
    exact authorize_lookup c req0
  · obtain ⟨_, req0, _, _, _, rfl⟩ := Favorite_sent c fc ctx _ _ req h
    exact authorize_lookup c req0
  · obtain ⟨req0, _, _, rfl⟩ := Active_sent c fc _ ctx _ req h
    exact authorize_lookup c req0
  · obtain ⟨_, req0, _, _, _, rfl⟩ := Inactive_sent c fc _ ctx _ req h
    exact authorize_lookup c req0
  · rcases h with h | h | h | h
    · obtain ⟨_, _, hreq⟩ := Login_sent c fc ctx _ req h
      exact NewRequest_lookup_Authorization c fc _ _ _ req hreq
    · obtain ⟨_, _, hreq⟩ := Poll_sent c fc ctx _ req h
      exact NewRequest_lookup_Authorization c fc _ _ _ req hreq
    · obtain ⟨_, hreq⟩ := Refresh_sent c fc ctx _ req h
      exact NewRequest_lookup_Authorization c fc _ _ _ req hreq
    · obtain ⟨_, _, hreq⟩ := Signup_sent c fc ctx _ req h
      exact NewRequest_lookup_Authorization c fc _ _ _ req hreq
  · obtain ⟨req0, hreq⟩ := NewRequest_POST_isOk c fc (itemsBasePath ++ gostr "/")
      (some { type := .ptr ListItemsRequest,
              value := some (if ListItemsRequest.UserID r = [] then
                ListItemsRequest.setUserID r c.UserID else r) }) hb (by decide)
      (body_encodes fc _ _ (ListItemsRequest_filled_encodes c fc r henc))
    obtain ⟨h1, h2⟩ := List_sends c fc listItemsResponse ctx r req0 hv hreq
    exact ⟨c.authorize req0, h1, authorize_lookup c req0, hempty req0, h2⟩
  · have hget : plainRelative (gostr "item/v7/" ++ itemID) = true :=
      plainRelative_append (gostr "item/v7") itemID (by decide) (by decide) hid
    obtain ⟨req0, hreq⟩ := NewRequest_POST_isOk c fc (itemsBasePath ++ gostr "/" ++ itemID)
      (some { type := .ptr GetItemRequest,
              value := some (if GetItemRequest.UserID r = [] then
                GetItemRequest.setUserID r c.UserID else r) }) hb hget
      (body_encodes fc _ _ (GetItemRequest_filled_encodes c fc r henc))
    obtain ⟨h1, h2⟩ := Get_sends c fc getItemResponse ctx r itemID req0 hne hv hreq
    exact ⟨c.authorize req0, h1, authorize_lookup c req0, hempty req0, h2⟩
  · have hget : plainRelative (gostr "item/v7/" ++ itemID) = true :=
      plainRelative_append (gostr "item/v7") itemID (by decide) (by decide) hid
    have hfav : plainRelative (gostr "item/v7/" ++ itemID ++ gostr "/setFavorite") = true := by
      have := plainRelative_append (gostr "item/v7/" ++ itemID) (gostr "setFavorite") hget
        (by simp [gostr, ofChars]) (by decide)
      exact this
    obtain ⟨req0, hreq⟩ := NewRequest_POST_isOk c fc
      (itemsBasePath ++ gostr "/" ++ itemID ++ gostr "/setFavorite")
      (some { type := .ptr FavoriteItemRequest, value := some r }) hb hfav
      (body_encodes fc _ _ (FavoriteItemRequest_encodes fc r))
    obtain ⟨h1, h2⟩ := Favorite_sends c fc ctx r itemID req0 hne hreq
    exact ⟨c.authorize req0, h1, authorize_lookup c req0, hempty req0, h2⟩
  · obtain ⟨req0, hreq⟩ := NewRequest_POST_isOk c fc (ordersBasePath ++ gostr "/active")
      (some { type := .ptr ActiveOrdersRequest,
              value := some (r.getD (c.UserID, ())) }) hb (by decide)
      (body_encodes fc _ _ (ActiveOrdersRequest_encodes fc _))
    obtain ⟨h1, h2⟩ := Active_sends c fc ordersResponse ctx r req0 hv hreq
    exact ⟨c.authorize req0, h1, authorize_lookup c req0, hempty req0, h2⟩
  · obtain ⟨req0, hreq⟩ := NewRequest_POST_isOk c fc (ordersBasePath ++ gostr "/inactive")
      (some { type := .ptr InactiveOrdersRequest,
              value := some (if InactiveOrdersRequest.UserID r = [] then
                InactiveOrdersRequest.setUserID r c.UserID else r) }) hb (by decide)
      (body_encodes fc _ _ (InactiveOrdersRequest_encodes fc _))
    obtain ⟨h1, h2⟩ := Inactive_sends c fc ordersResponse ctx r req0 hv hreq
    exact ⟨c.authorize req0, h1, authorize_lookup c req0, hempty req0, h2⟩
  · obtain ⟨req, hreq⟩ := NewRequest_POST_isOk c fc (authBasePath ++ gostr "/authByEmail")
      (some { type := .ptr LoginRequest, value := some r }) hb (by decide)
      (body_encodes fc _ _ (LoginRequest_encodes fc r))
    exact ⟨req, (Login_sends c fc ctx r req hreq).1,
      NewRequest_lookup_Authorization c fc _ _ _ req hreq⟩
  · obtain ⟨req, hreq⟩ := NewRequest_POST_isOk c fc
      (authBasePath ++ gostr "/authByRequestPollingId")
      (some { type := .ptr PollRequest, value := some r }) hb (by decide)
      (body_encodes fc _ _ (PollRequest_encodes fc r))
    exact ⟨req, (Poll_sends c fc ctx r req hreq).1,
      NewRequest_lookup_Authorization c fc _ _ _ req hreq⟩
  · obtain ⟨req, hreq⟩ := NewRequest_POST_isOk c fc (authBasePath ++ gostr "/token/refresh")
      (some { type := .ptr RefreshTokensRequest,
              value := some (r.getD (c.RefreshToken, ())) }) hb (by decide)
      (body_encodes fc _ _ (RefreshTokensRequest_encodes fc _))
    exact ⟨req, (Refresh_sends c fc ctx r req hv hreq).1,
      NewRequest_lookup_Authorization c fc _ _ _ req hreq⟩
  · obtain ⟨req, hreq⟩ := NewRequest_POST_isOk c fc (authBasePath ++ gostr "/signUpByEmail")
      (some { type := .ptr SignupRequest, value := some r }) hb (by decide)
      (body_encodes fc _ _ (SignupRequest_encodes fc r))
    exact ⟨req, (Signup_sends c fc ctx r req hreq).1,
      NewRequest_lookup_Authorization c fc _ _ _ req hreq⟩

set_option maxRecDepth 100000 in
/-- Witness of C26. A client that holds the access token `old_access` and is configured with
an extra header `authorization` marks an item as favorite: one request is sent, with
`Authorization: Bearer old_access` alone, and no error is returned. A client with an empty
access token calls `List`, `Get`, `Favorite`, `Active` and `Inactive`: each sends one request,
with `Authorization: Bearer ` alone, and returns no error. The configured client calls
`Login`, `Poll`, `Refresh` and `Signup`: each sends one request, whose only `Authorization`
value is the configured one. -/
theorem Authorization_header_witness :
    (∃ req, (ItemsServiceOp.Favorite (authedClientWithAuthorization emptyObjectAnswer) noFloat
        { id := 0 } (some (true, ())) (gostr "1")).sent = [req] ∧
      Header.lookup req.Header (gostr "Authorization") = [gostr "Bearer old_access"] ∧
      (ItemsServiceOp.Favorite (authedClientWithAuthorization emptyObjectAnswer) noFloat
        { id := 0 } (some (true, ())) (gostr "1")).err = none) ∧
    (∃ req, (ItemsServiceOp.List (clientAnswering emptyObjectAnswer) wholeFloats
        ignoredResponse { id := 0 } (some sampleListItemsRequest)).sent = [req] ∧
      Header.lookup req.Header (gostr "Authorization") = [gostr "Bearer "] ∧
      (ItemsServiceOp.List (clientAnswering emptyObjectAnswer) wholeFloats
        ignoredResponse { id := 0 } (some sampleListItemsRequest)).err = none) ∧
    (∃ req, (ItemsServiceOp.Get (clientAnswering emptyObjectAnswer) noFloat ignoredResponse
        { id := 0 } (some (gostr "7", none, ())) (gostr "1")).sent = [req] ∧
      Header.lookup req.Header (gostr "Authorization") = [gostr "Bearer "] ∧
      (ItemsServiceOp.Get (clientAnswering emptyObjectAnswer) noFloat ignoredResponse
        { id := 0 } (some (gostr "7", none, ())) (gostr "1")).err = none) ∧
    (∃ req, (ItemsServiceOp.Favorite (clientAnswering emptyObjectAnswer) noFloat
        { id := 0 } (some (true, ())) (gostr "1")).sent = [req] ∧
      Header.lookup req.Header (gostr "Authorization") = [gostr "Bearer "] ∧
      (ItemsServiceOp.Favorite (clientAnswering emptyObjectAnswer) noFloat
        { id := 0 } (some (true, ())) (gostr "1")).err = none) ∧
    (∃ req, (OrdersServiceOp.Active (clientAnswering emptyObjectAnswer) noFloat ignoredResponse
        { id := 0 } (some (gostr "7", ()))).sent = [req] ∧
      Header.lookup req.Header (gostr "Authorization") = [gostr "Bearer "] ∧
      (OrdersServiceOp.Active (clientAnswering emptyObjectAnswer) noFloat ignoredResponse
        { id := 0 } (some (gostr "7", ()))).err = none) ∧
    (∃ req, (OrdersServiceOp.Inactive (clientAnswering emptyObjectAnswer) noFloat
        ignoredResponse { id := 0 } (some (gostr "7", ((0 : Int), (0 : Int), ()), ()))).sent
          = [req] ∧
      Header.lookup req.Header (gostr "Authorization") = [gostr "Bearer "] ∧
      (OrdersServiceOp.Inactive (clientAnswering emptyObjectAnswer) noFloat
        ignoredResponse { id := 0 } (some (gostr "7", ((0 : Int), (0 : Int), ()), ()))).err
          = none) ∧
    (∃ req, (AuthServiceOp.Login (authedClientWithAuthorization emptyObjectAnswer) noFloat
        { id := 0 } (some sampleLoginRequest)).sent = [req] ∧
      Header.lookup req.Header (gostr "Authorization") = [gostr "Basic dXNlcg=="]) ∧
    (∃ req, (AuthServiceOp.Poll (authedClientWithAuthorization emptyObjectAnswer) noFloat
        { id := 0 } (some samplePollRequest)).sent = [req] ∧
      Header.lookup req.Header (gostr "Authorization") = [gostr "Basic dXNlcg=="]) ∧
    (∃ req, (AuthServiceOp.Refresh (authedClientWithAuthorization emptyObjectAnswer) noFloat
        { id := 0 } none).sent = [req] ∧
      Header.lookup req.Header (gostr "Authorization") = [gostr "Basic dXNlcg=="]) ∧
    (∃ req, (AuthServiceOp.Signup (authedClientWithAuthorization emptyObjectAnswer) noFloat
        { id := 0 } (some sampleSignupRequest)).sent = [req] ∧
      Header.lookup req.Header (gostr "Authorization") = [gostr "Basic dXNlcg=="]) := by
  have hba : plainBase (authedClientWithAuthorization emptyObjectAnswer).BaseURL = true := by
    decide
  have hbe : plainBase (clientAnswering emptyObjectAnswer).BaseURL = true := by decide
  have HA := (Authorization_header (authedClientWithAuthorization emptyObjectAnswer) noFloat
    { id := 0 } ignoredResponse ignoredResponse ignoredResponse none none none none none none
    none none none (gostr "1")).2 hba
  have HE := (Authorization_header (clientAnswering emptyObjectAnswer) noFloat
    { id := 0 } ignoredResponse ignoredResponse ignoredResponse none none none none none none
    none none none (gostr "1")).2 hbe
  have HL := (Authorization_header (clientAnswering emptyObjectAnswer) wholeFloats
    { id := 0 } ignoredResponse ignoredResponse ignoredResponse none none none none none none
    none none none (gostr "1")).2 hbe
  refine ⟨?_, ?_, ?_, ?_, ?_, ?_, ?_, ?_, ?_, ?_⟩
  · obtain ⟨req, hs, hl, _, _⟩ := HA.2.2.1 (true, ()) (by decide) (by decide)
    exact ⟨req, hs, hl, rfl⟩
  · obtain ⟨req, hs, _, hl, _⟩ := HL.1 sampleListItemsRequest
      (fun h => absurd h.1 (by decide)) (by decide)
    exact ⟨req, hs, hl rfl, rfl⟩
  · obtain ⟨req, hs, _, hl, _⟩ := HE.2.1 (gostr "7", none, ()) (by decide) (by decide)
      (fun h => absurd h.1 (by decide)) (by decide)
    exact ⟨req, hs, hl rfl, rfl⟩
  · obtain ⟨req, hs, _, hl, _⟩ := HE.2.2.1 (true, ()) (by decide) (by decide)
    exact ⟨req, hs, hl rfl, rfl⟩
  · obtain ⟨req, hs, _, hl, _⟩ := HE.2.2.2.1 (some (gostr "7", ()))
      (fun h => absurd h.1 (by decide))
    exact ⟨req, hs, hl rfl, rfl⟩
  · obtain ⟨req, hs, _, hl, _⟩ := HE.2.2.2.2.1 (gostr "7", ((0 : Int), (0 : Int), ()), ())
      (fun h => absurd h.1 (by decide))
    exact ⟨req, hs, hl rfl, rfl⟩
  · obtain ⟨req, hs, hl⟩ := HA.2.2.2.2.2.1 sampleLoginRequest
    exact ⟨req, hs, hl⟩
  · obtain ⟨req, hs, hl⟩ := HA.2.2.2.2.2.2.1 samplePollRequest
    exact ⟨req, hs, hl⟩
  · obtain ⟨req, hs, hl⟩ := HA.2.2.2.2.2.2.2.1 none (fun h => absurd h.2 (by decide))
    exact ⟨req, hs, hl⟩
  · obtain ⟨req, hs, hl⟩ := HA.2.2.2.2.2.2.2.2 sampleSignupRequest
    exact ⟨req, hs, hl⟩

/-! ### Method and path of the requests that are sent -/

/-- C27. Every request a wrapper hands to the transport is a POST request to the relative
path of the wrapper: `auth/v3/authByEmail` for `Login`, `auth/v3/authByRequestPollingId` for
`Poll`, `auth/v3/token/refresh` for `Refresh`, `auth/v3/signUpByEmail` for `Signup`,
`item/v7/` for `List`, `item/v7/` and the item id for `Get`, the same followed by
`/setFavorite` for `Favorite`, `order/v6/active` for `Active` and `order/v6/inactive` for
`Inactive`, for every plain item id. And on a client with a plain base URL each wrapper does
build such a request and hands exactly that one to the transport, whenever its arguments pass
its own checks (a request struct that is not nil, a non-empty item id, a user id or refresh
token in the request or in the client) and the request struct can be encoded. -/
theorem wrappers_POST_to_path (c : Client) (fc : FloatCodec) (ctx : Context)
    (listItemsResponse getItemResponse ordersResponse : ResponseType)
    (loginRequest : Option (LoginRequest.Val fc))
    (pollRequest : Option (PollRequest.Val fc))
    (refreshRequest : Option (RefreshTokensRequest.Val fc))
    (signupRequest : Option (SignupRequest.Val fc))
    (listItemsRequest : Option (ListItemsRequest.Val fc))
    (getItemRequest : Option (GetItemRequest.Val fc))
    (favoriteItemRequest : Option (FavoriteItemRequest.Val fc))
    (activeOrdersRequest : Option (ActiveOrdersRequest.Val fc))
    (inactiveOrdersRequest : Option (InactiveOrdersRequest.Val fc)) (itemID : GoString)
    (hid : plainRelative itemID = true) :
    ((∀ req ∈ (AuthServiceOp.Login c fc ctx loginRequest).sent,
      postsTo c fc req (gostr "auth/v3/authByEmail")) ∧
    (∀ req ∈ (AuthServiceOp.Poll c fc ctx pollRequest).sent,
      postsTo c fc req (gostr "auth/v3/authByRequestPollingId")) ∧
    (∀ req ∈ (AuthServiceOp.Refresh c fc ctx refreshRequest).sent,
      postsTo c fc req (gostr "auth/v3/token/refresh")) ∧
    (∀ req ∈ (AuthServiceOp.Signup c fc ctx signupRequest).sent,
      postsTo c fc req (gostr "auth/v3/signUpByEmail")) ∧
    (∀ req ∈ (ItemsServiceOp.List c fc listItemsResponse ctx listItemsRequest).sent,
      postsTo c fc req (gostr "item/v7/")) ∧
    (∀ req ∈ (ItemsServiceOp.Get c fc getItemResponse ctx getItemRequest itemID).sent,
      postsTo c fc req (gostr "item/v7/" ++ itemID)) ∧
    (∀ req ∈ (ItemsServiceOp.Favorite c fc ctx favoriteItemRequest itemID).sent,
      postsTo c fc req (gostr "item/v7/" ++ itemID ++ gostr "/setFavorite")) ∧
    (∀ req ∈ (OrdersServiceOp.Active c fc ordersResponse ctx activeOrdersRequest).sent,
      postsTo c fc req (gostr "order/v6/active")) ∧
    (∀ req ∈ (OrdersServiceOp.Inactive c fc ordersResponse ctx inactiveOrdersRequest).sent,
      postsTo c fc req (gostr "order/v6/inactive"))) ∧
    (plainBase c.BaseURL = true →
      (∀ r, ∃ req, (AuthServiceOp.Login c fc ctx (some r)).sent = [req] ∧
        postsTo c fc req (gostr "auth/v3/authByEmail")) ∧
      (∀ r, ∃ req, (AuthServiceOp.Poll c fc ctx (some r)).sent = [req] ∧
        postsTo c fc req (gostr "auth/v3/authByRequestPollingId")) ∧
      (∀ r, ¬ (r.isNone = true ∧ c.RefreshToken = []) →
        ∃ req, (AuthServiceOp.Refresh c fc ctx r).sent = [req] ∧
          postsTo c fc req (gostr "auth/v3/token/refresh")) ∧
      (∀ r, ∃ req, (AuthServiceOp.Signup c fc ctx (some r)).sent = [req] ∧
        postsTo c fc req (gostr "auth/v3/signUpByEmail")) ∧
      (∀ r, ¬ (ListItemsRequest.UserID r = [] ∧ c.UserID = []) →
        encoderEncode fc (.ptr ListItemsRequest) (some r) ≠ none →
        ∃ req, (ItemsServiceOp.List c fc listItemsResponse ctx (some r)).sent = [req] ∧
          postsTo c fc req (gostr "item/v7/")) ∧
      (∀ r, itemID ≠ [] → ¬ (GetItemRequest.UserID r = [] ∧ c.UserID = []) →
        encoderEncode fc (.ptr GetItemRequest) (some r) ≠ none →
        ∃ req, (ItemsServiceOp.Get c fc getItemResponse ctx (some r) itemID).sent = [req] ∧
          postsTo c fc req (gostr "item/v7/" ++ itemID)) ∧
      (∀ r, itemID ≠ [] →
        ∃ req, (ItemsServiceOp.Favorite c fc ctx (some r) itemID).sent = [req] ∧
          postsTo c fc req (gostr "item/v7/" ++ itemID ++ gostr "/setFavorite")) ∧
      (∀ r, ¬ (r.isNone = true ∧ c.UserID = []) →
        ∃ req, (OrdersServiceOp.Active c fc ordersResponse ctx r).sent = [req] ∧
          postsTo c fc req (gostr "order/v6/active")) ∧
      (∀ r, ¬ (InactiveOrdersRequest.UserID r = [] ∧ c.UserID = []) →
        ∃ req, (OrdersServiceOp.Inactive c fc ordersResponse ctx (some r)).sent = [req] ∧
          postsTo c fc req (gostr "order/v6/inactive"))) := by
  have hget : plainRelative (gostr "item/v7/" ++ itemID) = true :=
    plainRelative_append (gostr "item/v7") itemID (by decide) (by decide) hid
  have hfav : plainRelative (gostr "item/v7/" ++ itemID ++ gostr "/setFavorite") = true := by
    have := plainRelative_append (gostr "item/v7/" ++ itemID) (gostr "setFavorite") hget
      (by simp [gostr, ofChars]) (by decide)
    exact this
  refine ⟨⟨fun req h => ?_, fun req h => ?_, fun req h => ?_, fun req h => ?_, fun req h => ?_,
    fun req h => ?_, fun req h => ?_, fun req h => ?_, fun req h => ?_⟩, fun hb =>
    ⟨fun r => ?_, fun r => ?_, fun r hv => ?_, fun r => ?_, fun r hv henc => ?_,
      fun r hne hv henc => ?_, fun r hne => ?_, fun r hv => ?_, fun r hv => ?_⟩⟩
  · obtain ⟨_, _, hreq⟩ := Login_sent c fc ctx _ req h
    exact NewRequest_postsTo c fc _ _ req (by decide) hreq
  · obtain ⟨_, _, hreq⟩ := Poll_sent c fc ctx _ req h
    exact NewRequest_postsTo c fc _ _ req (by decide) hreq
  · obtain ⟨_, hreq⟩ := Refresh_sent c fc ctx _ req h
    exact NewRequest_postsTo c fc _ _ req (by decide) hreq
  · obtain ⟨_, _, hreq⟩ := Signup_sent c fc ctx _ req h
    exact NewRequest_postsTo c fc _ _ req (by decide) hreq
  · obtain ⟨_, req0, _, _, hreq, rfl⟩ := List_sent c fc _ ctx _ req h
    exact authorize_postsTo c fc _ _ req0 (by decide) hreq
  · obtain ⟨_, req0, _, _, _, hreq, rfl⟩ := Get_sent c fc _ ctx _ _ req h
    exact authorize_postsTo c fc _ _ req0 hget hreq
  · obtain ⟨_, req0, _, _, hreq, rfl⟩ := Favorite_sent c fc ctx _ _ req h
    exact authorize_postsTo c fc _ _ req0 hfav hreq
  · obtain ⟨req0, _, hreq, rfl⟩ := Active_sent c fc _ ctx _ req h
    exact authorize_postsTo c fc _ _ req0 (by decide) hreq
  · obtain ⟨_, req0, _, _, hreq, rfl⟩ := Inactive_sent c fc _ ctx _ req h
    exact authorize_postsTo c fc _ _ req0 (by decide) hreq
  · obtain ⟨req, hreq⟩ := NewRequest_POST_isOk c fc (authBasePath ++ gostr "/authByEmail")
      (some { type := .ptr LoginRequest, value := some r }) hb (by decide)
      (body_encodes fc _ _ (LoginRequest_encodes fc r))
    exact ⟨req, (Login_sends c fc ctx r req hreq).1,
      NewRequest_postsTo c fc _ _ req (by decide) hreq⟩
  · obtain ⟨req, hreq⟩ := NewRequest_POST_isOk c fc
      (authBasePath ++ gostr "/authByRequestPollingId")
      (some { type := .ptr PollRequest, value := some r }) hb (by decide)
      (body_encodes fc _ _ (PollRequest_encodes fc r))
    exact ⟨req, (Poll_sends c fc ctx r req hreq).1,
      NewRequest_postsTo c fc _ _ req (by decide) hreq⟩
  · obtain ⟨req, hreq⟩ := NewRequest_POST_isOk c fc (authBasePath ++ gostr "/token/refresh")
      (some { type := .ptr RefreshTokensRequest,
              value := some (r.getD (c.RefreshToken, ())) }) hb (by decide)
      (body_encodes fc _ _ (RefreshTokensRequest_encodes fc _))
    exact ⟨req, (Refresh_sends c fc ctx r req hv hreq).1,
      NewRequest_postsTo c fc _ _ req (by decide) hreq⟩
  · obtain ⟨req, hreq⟩ := NewRequest_POST_isOk c fc (authBasePath ++ gostr "/signUpByEmail")
      (some { type := .ptr SignupRequest, value := some r }) hb (by decide)
      (body_encodes fc _ _ (SignupRequest_encodes fc r))
    exact ⟨req, (Signup_sends c fc ctx r req hreq).1,
      NewRequest_postsTo c fc _ _ req (by decide) hreq⟩
  · obtain ⟨req0, hreq⟩ := NewRequest_POST_isOk c fc (itemsBasePath ++ gostr "/")
      (some { type := .ptr ListItemsRequest,
              value := some (if ListItemsRequest.UserID r = [] then
                ListItemsRequest.setUserID r c.UserID else r) }) hb (by decide)
      (body_encodes fc _ _ (ListItemsRequest_filled_encodes c fc r henc))
    exact ⟨c.authorize req0, (List_sends c fc listItemsResponse ctx r req0 hv hreq).1,
      authorize_postsTo c fc _ _ req0 (by decide) hreq⟩
  · obtain ⟨req0, hreq⟩ := NewRequest_POST_isOk c fc (itemsBasePath ++ gostr "/" ++ itemID)
      (some { type := .ptr GetItemRequest,
              value := some (if GetItemRequest.UserID r = [] then
                GetItemRequest.setUserID r c.UserID else r) }) hb hget
      (body_encodes fc _ _ (GetItemRequest_filled_encodes c fc r henc))
    exact ⟨c.authorize req0, (Get_sends c fc getItemResponse ctx r itemID req0 hne hv hreq).1,
      authorize_postsTo c fc _ _ req0 hget hreq⟩
  · obtain ⟨req0, hreq⟩ := NewRequest_POST_isOk c fc
      (itemsBasePath ++ gostr "/" ++ itemID ++ gostr "/setFavorite")
      (some { type := .ptr FavoriteItemRequest, value := some r }) hb hfav
      (body_encodes fc _ _ (FavoriteItemRequest_encodes fc r))
    exact ⟨c.authorize req0, (Favorite_sends c fc ctx r itemID req0 hne hreq).1,
      authorize_postsTo c fc _ _ req0 hfav hreq⟩
  · obtain ⟨req0, hreq⟩ := NewRequest_POST_isOk c fc (ordersBasePath ++ gostr "/active")
      (some { type := .ptr ActiveOrdersRequest,
              value := some (r.getD (c.UserID, ())) }) hb (by decide)
      (body_encodes fc _ _ (ActiveOrdersRequest_encodes fc _))
    exact ⟨c.authorize req0, (Active_sends c fc ordersResponse ctx r req0 hv hreq).1,
      authorize_postsTo c fc _ _ req0 (by decide) hreq⟩
  · obtain ⟨req0, hreq⟩ := NewRequest_POST_isOk c fc (ordersBasePath ++ gostr "/inactive")
      (some { type := .ptr InactiveOrdersRequest,
              value := some (if InactiveOrdersRequest.UserID r = [] then
                InactiveOrdersRequest.setUserID r c.UserID else r) }) hb (by decide)
      (body_encodes fc _ _ (InactiveOrdersRequest_encodes fc _))
    exact ⟨c.authorize req0, (Inactive_sends c fc ordersResponse ctx r req0 hv hreq).1,
      authorize_postsTo c fc _ _ req0 (by decide) hreq⟩

set_option maxRecDepth 100000 in
/-- Witness of C27: on a client with the default base URL and an auth context, each of the
nine wrappers hands exactly one request to the transport, a POST to its path under
`https://apptoogoodtogo.com/api/`. -/
theorem wrappers_POST_to_path_witness :
    (∃ req, (AuthServiceOp.Login (authedClient emptyObjectAnswer) noFloat { id := 0 }
        (some sampleLoginRequest)).sent = [req] ∧ req.Method = gostr "POST" ∧
      req.URL.map URL.String
        = some (gostr "https://apptoogoodtogo.com/api/auth/v3/authByEmail")) ∧
    (∃ req, (AuthServiceOp.Poll (authedClient emptyObjectAnswer) noFloat { id := 0 }
        (some samplePollRequest)).sent = [req] ∧ req.Method = gostr "POST" ∧
      req.URL.map URL.String
        = some (gostr "https://apptoogoodtogo.com/api/auth/v3/authByRequestPollingId")) ∧
    (∃ req, (AuthServiceOp.Refresh (authedClient emptyObjectAnswer) noFloat { id := 0 }
        none).sent = [req] ∧ req.Method = gostr "POST" ∧
      req.URL.map URL.String
        = some (gostr "https://apptoogoodtogo.com/api/auth/v3/token/refresh")) ∧
    (∃ req, (AuthServiceOp.Signup (authedClient emptyObjectAnswer) noFloat { id := 0 }
        (some sampleSignupRequest)).sent = [req] ∧ req.Method = gostr "POST" ∧
      req.URL.map URL.String
        = some (gostr "https://apptoogoodtogo.com/api/auth/v3/signUpByEmail")) ∧
    (∃ req, (ItemsServiceOp.List (authedClient emptyObjectAnswer) wholeFloats ignoredResponse
        { id := 0 } (some sampleListItemsRequest)).sent = [req] ∧ req.Method = gostr "POST" ∧
      req.URL.map URL.String = some (gostr "https://apptoogoodtogo.com/api/item/v7/")) ∧
    (∃ req, (ItemsServiceOp.Get (authedClient emptyObjectAnswer) noFloat ignoredResponse
        { id := 0 } (some emptyGetItemRequest) (gostr "123")).sent = [req] ∧
      req.Method = gostr "POST" ∧
      req.URL.map URL.String = some (gostr "https://apptoogoodtogo.com/api/item/v7/123")) ∧
    (∃ req, (ItemsServiceOp.Favorite (authedClient emptyObjectAnswer) noFloat { id := 0 }
        (some (true, ())) (gostr "123")).sent = [req] ∧ req.Method = gostr "POST" ∧
      req.URL.map URL.String
        = some (gostr "https://apptoogoodtogo.com/api/item/v7/123/setFavorite")) ∧
    (∃ req, (OrdersServiceOp.Active (authedClient emptyObjectAnswer) noFloat ignoredResponse
        { id := 0 } none).sent = [req] ∧ req.Method = gostr "POST" ∧
      req.URL.map URL.String = some (gostr "https://apptoogoodtogo.com/api/order/v6/active")) ∧
    (∃ req, (OrdersServiceOp.Inactive (authedClient emptyObjectAnswer) noFloat ignoredResponse
        { id := 0 } (some emptyInactiveOrdersRequest)).sent = [req] ∧
      req.Method = gostr "POST" ∧
      req.URL.map URL.String
        = some (gostr "https://apptoogoodtogo.com/api/order/v6/inactive")) := by
  have hb : plainBase (authedClient emptyObjectAnswer).BaseURL = true := by decide
  have H := (wrappers_POST_to_path (authedClient emptyObjectAnswer) noFloat { id := 0 }
    ignoredResponse ignoredResponse ignoredResponse none none none none none none none none
    none (gostr "123") (by decide)).2 hb
  have HL := (wrappers_POST_to_path (authedClient emptyObjectAnswer) wholeFloats { id := 0 }
    ignoredResponse ignoredResponse ignoredResponse none none none none none none none none
    none (gostr "123") (by decide)).2 hb
  refine ⟨?_, ?_, ?_, ?_, ?_, ?_, ?_, ?_, ?_⟩
  · obtain ⟨req, hs, hp⟩ := H.1 sampleLoginRequest
    exact ⟨req, hs, hp.1, (hp.2.2 hb).trans (by decide)⟩
  · obtain ⟨req, hs, hp⟩ := H.2.1 samplePollRequest
    exact ⟨req, hs, hp.1, (hp.2.2 hb).trans (by decide)⟩
  · obtain ⟨req, hs, hp⟩ := H.2.2.1 none (fun h => absurd h.2 (by decide))
    exact ⟨req, hs, hp.1, (hp.2.2 hb).trans (by decide)⟩
  · obtain ⟨req, hs, hp⟩ := H.2.2.2.1 sampleSignupRequest
    exact ⟨req, hs, hp.1, (hp.2.2 hb).trans (by decide)⟩
  · obtain ⟨req, hs, hp⟩ := HL.2.2.2.2.1 sampleListItemsRequest
      (fun h => absurd h.2 (by decide)) (by decide)
    exact ⟨req, hs, hp.1, (hp.2.2 hb).trans (by decide)⟩
  · obtain ⟨req, hs, hp⟩ := H.2.2.2.2.2.1 emptyGetItemRequest (by decide)
      (fun h => absurd h.2 (by decide)) (by decide)
    exact ⟨req, hs, hp.1, (hp.2.2 hb).trans (by decide)⟩
  · obtain ⟨req, hs, hp⟩ := H.2.2.2.2.2.2.1 (true, ()) (by decide)
    exact ⟨req, hs, hp.1, (hp.2.2 hb).trans (by decide)⟩
  · obtain ⟨req, hs, hp⟩ := H.2.2.2.2.2.2.2.1 none (fun h => absurd h.2 (by decide))
    exact ⟨req, hs, hp.1, (hp.2.2 hb).trans (by decide)⟩
  · obtain ⟨req, hs, hp⟩ := H.2.2.2.2.2.2.2.2 emptyInactiveOrdersRequest
      (fun h => absurd h.2 (by decide))
    exact ⟨req, hs, hp.1, (hp.2.2 hb).trans (by decide)⟩

end Tgtg
